import Mathlib

/-!
# fatcache: slab-and-index engine

A shallow embedding of `fc_itemx.c` (item index with HotRing bucket chains)
and `fc_slab.c` (slab allocator, drain and evict), followed by theorems about
the embedded functions.

Conventions of the embedding.

* A pointer to a `struct itemx` that is linked in a chain is represented by the
  chain itself: a bucket's `stqh_first` is the list of the entries reachable
  through `tqe.stqe_next`, in order.  The unused `stqh_last` field is dropped.
* A pointer to a `struct slabinfo` is its index in `stable`; a `TAILQ` of
  slabinfos is the list of these indexes, head first, and `TAILQ_REMOVE`
  removes the index from the list of the queue named in the call.
* A 20-byte digest is a natural number; `memcmp(..) == 0` is equality.
* Machine integers are natural numbers; wrap-around is written `% 2^w` where
  the C code stores into a narrower or unsigned field, and `wrap_dec w` for the
  decrement of an unsigned `w`-bit field.
* `ASSERT` is compiled out (the default build); a function returns an error
  exactly where the C code would dereference `NULL`, index `stable` or `ctable`
  out of bounds, or divide by zero (and where a loop of the model runs out of
  fuel).
* The slab memory and the device are total maps from a slab's address (memory)
  or byte offset (device) to a slab image; an image maps each byte offset in
  `data[]` to the header fields of the item stored there, and each byte offset
  from the base of the slab to the byte stored there (`bytes`).  The engine
  copies the bytes with the image and reads them in `slab_read_item`; its own
  stores into item headers are kept in the typed fields.
* A `pread` or `pwrite` call transfers all the bytes, a part of them, or none
  (return value -1); the state holds what the next calls will do.
* The slab table comes from `fc_alloc`, and `slab_init_stable` clears the link
  fields `pre` and `next` of its last entry only; what the other entries hold
  in these fields at the start is a parameter of the start state (`links`).
-/

namespace Fatcache

/-! ## Item index (`fc_itemx.h`, `fc_itemx.c`) -/

/-- Index entry `struct itemx` without its link field. -/
structure itemx where
  md : Nat
  sid : Nat
  offset : Nat
  expiry : Nat
  cas : Nat
deriving DecidableEq, Repr

/-- Bucket head `struct itemx_tqh`: the chain and the HotRing query counter. -/
structure itemx_tqh where
  stqh_first : List itemx
  nhr_queries : Nat
deriving DecidableEq, Repr

/-- Threshold `HR_QUERY_THRESHOLD`. -/
def HR_QUERY_THRESHOLD : Nat := 5

/-- Function `hotring_insert`: link `new` directly after the head, or as the
head of an empty bucket (`new->tqe.stqe_next` is `NULL` on entry, as set by
`itemx_putx`). -/
def hotring_insert (bucket : itemx_tqh) (new : itemx) : itemx_tqh :=
  match bucket.stqh_first with
  | head :: next => { bucket with stqh_first := head :: new :: next }
  | [] => { bucket with stqh_first := [new] }

/-- Function `_hotring_get`, called on a node `now` whose successors are `chain`
(`now->tqe.stqe_next`).  Returns the matched node and the successors of `now`
after the call (the match is unlinked when `rm` is set). -/
def _hotring_get (chain : List itemx) (query_md : Nat) (rm : Bool) :
    Option itemx × List itemx :=
  match chain with
  | [] => (none, [])
  | next :: after =>
    if next.md = query_md then
      if rm = true then (some next, after) else (some next, next :: after)
    else
      let r := _hotring_get after query_md rm
      (r.1, next :: r.2)

/-- Function `hotring_get`: lookup in a bucket, with promotion of the matched
non-head entry on every `HR_QUERY_THRESHOLD`-th non-head hit. -/
def hotring_get (bucket : itemx_tqh) (query_md : Nat) : Option itemx × itemx_tqh :=
  match bucket.stqh_first with
  | [] => (none, bucket)
  | head :: rest =>
    let flag : Bool := decide (bucket.nhr_queries = HR_QUERY_THRESHOLD - 1)
    if head.md = query_md then (some head, bucket)
    else
      let r := _hotring_get rest query_md flag
      match r.1 with
      | none => (none, { bucket with stqh_first := head :: r.2 })
      | some result =>
        if flag = true then
          (some result, { stqh_first := result :: head :: r.2, nhr_queries := 0 })
        else
          (some result,
            { stqh_first := head :: r.2, nhr_queries := (bucket.nhr_queries + 1) % 256 })

/-- Queue macro `STAILQ_REMOVE(head, elm, type, field)` of `fc_queue.h`: unlink
`elm`, found by walking from the head.  The walk stops at the first node equal
to `elm`; callers pass the node `hotring_get` returned, which is the first node
of the chain carrying its digest. -/
def STAILQ_REMOVE (chain : List itemx) (elm : itemx) : List itemx :=
  chain.erase elm

/-! ## Slab tables (`fc_slab.h`) -/

/-- Ways in which the C code leaves defined behaviour, or the model its fuel. -/
inductive Fault where
  | null_deref
  | out_of_bounds
  | div_by_zero
  | no_fuel
deriving DecidableEq, Repr

/-- Header fields of `struct item` that the slab engine reads or writes (the
key and value bytes stay with the caller). -/
structure item where
  magic : Nat
  offset : Nat
  sid : Nat
  cid : Nat
  hash : Nat
  md : Nat
deriving DecidableEq, Repr

/-- Slab image `struct slab`: the header, for each byte offset into `data[]`
the item stored there, and for each byte offset from the base of the slab the
byte stored there. -/
structure slab where
  magic : Nat
  sid : Nat
  cid : Nat
  data : Nat → item
  bytes : Nat → Nat

/-- Per-slab metadata `struct slabinfo`.  `hole_head` is the chain of
`hole_index` values; `pre` and `next` are the LRU links. -/
structure slabinfo where
  sid : Nat
  addr : Nat
  nalloc : Nat
  cid : Nat
  mem : Bool
  hole_head : List Nat
  pre : Option Nat
  next : Option Nat
deriving DecidableEq, Repr

/-- List head `lru_head`. -/
structure lru_head where
  head : Option Nat
  tail : Option Nat
deriving DecidableEq, Repr

/-- Class descriptor `struct slabclass` (with the `hot_slabinfo` slot that
`fc_slab.c` uses). -/
structure slabclass where
  nitem : Nat
  size : Nat
  slack : Nat
  partial_msinfoq : List Nat
  nmslab : Nat
  ndslab : Nat
  nevict : Nat
  nused_item : Nat
  hot_slabinfo : Option Nat
deriving DecidableEq, Repr

def SLAB_MAGIC : Nat := 0xdeadbeef

/-- Constant `SLAB_HDR_SIZE = offsetof(struct slab, data)`: `magic` (4 bytes),
`sid` (4), `cid` (1) and `unused[3]`. -/
def SLAB_HDR_SIZE : Nat := 12

def SLABCLASS_MIN_ID : Nat := 0

def SLABCLASS_MAX_ID : Nat := 254

def SLABCLASS_INVALID_ID : Nat := 255

/-- What one `pread` or `pwrite` call does with the `size` bytes it is asked to
transfer: all of them (the call returns `size`), only the first `n` of them
(the call returns `n`, and `img` is what the destination holds afterwards), or
none (the call returns -1). -/
inductive transfer where
  | full
  | short (n : Nat) (img : slab)
  | fail

/-- The value that a transfer of `size` bytes returns. -/
def io_ret (size : Nat) : transfer → Int
  | .full => (size : Int)
  | .short n _ => (n : Int)
  | .fail => -1

/-- The destination of a transfer: `src` is the image to copy, `dst` the image
that the destination held before the call. -/
def io_dst (r : transfer) (src dst : slab) : slab :=
  match r with
  | .full => src
  | .short _ img => img
  | .fail => dst

/-- The test `n < size` after `pread` and `pwrite`.  `n` is an `int` and holds
the value the call returned (a slab is at most `SLAB_MAX_SIZE`, 512 MB, long),
`size` is a `size_t`: the comparison converts `n` to `size_t`, which turns -1
into `SIZE_MAX`. -/
def io_short (n : Int) (size : Nat) : Bool :=
  decide ((n % 2 ^ 64).toNat < size % 2 ^ 64)

/-- The file-level variables of `fc_itemx.c` and `fc_slab.c`, the settings they
read, the slab memory and the device. -/
structure State where
  /- settings -/
  hash_power : Nat
  slab_size : Nat
  /- fc_itemx.c -/
  nitx : Nat
  nitx_table : Nat
  itx_table : Nat → itemx_tqh
  nalloc_itemx : Nat
  nfree_itemxq : Nat
  free_itemxq : List itemx
  /- fc_slab.c -/
  nfree_msinfoq : Nat
  free_msinfoq : List Nat
  nfull_msinfoq : Nat
  full_msinfoq : List Nat
  nfree_dsinfoq : Nat
  free_dsinfoq : List Nat
  nfull_dsinfoq : Nat
  full_dsinfoq : List Nat
  lruh : lru_head
  lruh_disk : lru_head
  nctable : Nat
  ctable : List slabclass
  nstable : Nat
  stable : List slabinfo
  /-- Memory slab area: the slab at `mstart + addr * slab_size`, by `addr`. -/
  mstart : Nat → slab
  dstart : Nat
  dend : Nat
  /-- Device contents: the slab image that starts at a byte offset. -/
  disk : Nat → slab
  /-- The eviction buffer `evictbuf`, of one slab. -/
  evictbuf : slab
  /-- What a `pread` call does. -/
  pread_r : transfer
  /-- What a `pwrite` call does. -/
  pwrite_r : transfer
  nmslab : Nat
  ndslab : Nat
  nevict : Nat
  nflush : Nat

/-- Store `v` at key `i` of a total map. -/
def upd {α : Type} (f : Nat → α) (i : Nat) (v : α) : Nat → α :=
  fun j => if j = i then v else f j

/-- Read `tbl[i]`, faulting outside the table. -/
def tget {α : Type} (tbl : List α) (i : Nat) : Except Fault α :=
  match tbl[i]? with
  | some x => .ok x
  | none => .error .out_of_bounds

/-- Dereference a possibly-`NULL` pointer. -/
def deref {α : Type} (p : Option α) : Except Fault α :=
  match p with
  | some x => .ok x
  | none => .error .null_deref

/-- The value of `x - 1` stored in an unsigned field of `w` bits (`x--`): it
wraps from 0 to `2 ^ w - 1`. -/
def wrap_dec (w x : Nat) : Nat :=
  if x = 0 then 2 ^ w - 1 else x - 1

/-! ## Functions of `fc_slab.c` used by the index -/

/-- Function `sid_to_sinfo`: `&stable[sid]`, dereferenced. -/
def sid_to_sinfo (s : State) (sid : Nat) : Except Fault slabinfo :=
  tget s.stable sid

/-- Function `cid_to_size`: `ctable[cid].size`. -/
def cid_to_size (s : State) (cid : Nat) : Except Fault Nat := do
  let c ← tget s.ctable cid
  pure c.size

/-- Function `slab_incr_chunks_by_sid`: `ctable[stable[sid].cid].nused_item += n`
on a `uint64_t` counter (`n` is an `int`). -/
def slab_incr_chunks_by_sid (s : State) (sid : Nat) (n : Int) : Except Fault State := do
  let sinfo ← tget s.stable sid
  let c ← tget s.ctable sinfo.cid
  let c1 := { c with nused_item := (((c.nused_item : Int) + n) % 2 ^ 64).toNat }
  pure { s with ctable := s.ctable.set sinfo.cid c1 }

/-! ## Functions of `fc_itemx.c` -/

/-- Function `itemx_empty`. -/
def itemx_empty (s : State) : Bool :=
  s.free_itemxq.isEmpty

/-- Function `itemx_get`: take the first free entry and clear `sid`, `offset`
and `cas` (`md` and `expiry` keep their old contents). -/
def itemx_get (s : State) : Except Fault (itemx × State) := do
  let itx ← deref s.free_itemxq.head?
  let s1 := { s with nfree_itemxq := wrap_dec 64 s.nfree_itemxq,
                     free_itemxq := s.free_itemxq.tail }
  pure ({ itx with sid := 0, offset := 0, cas := 0 }, s1)

/-- Function `itemx_put`: push an entry on the free queue. -/
def itemx_put (s : State) (itx : itemx) : State :=
  { s with nfree_itemxq := (s.nfree_itemxq + 1) % 2 ^ 64,
           free_itemxq := itx :: s.free_itemxq }

/-- Function `itemx_bucket`: the bucket index `hash & HASHMASK(hash_power)`. -/
def itemx_bucket (s : State) (hash : Nat) : Nat :=
  hash % 2 ^ s.hash_power

/-- Function `itemx_getx` (with `USE_HOTRING`). -/
def itemx_getx (s : State) (hash md : Nat) : Option itemx × State :=
  let bucket := itemx_bucket s hash
  let r := hotring_get (s.itx_table bucket) md
  (r.1, { s with itx_table := upd s.itx_table bucket r.2 })

/-- Function `itemx_putx` (with `USE_HOTRING`). -/
def itemx_putx (s : State) (hash md sid offset expiry cas : Nat) : Except Fault State := do
  let (itx, s1) ← itemx_get s
  let itx := { itx with sid := sid, offset := offset, expiry := expiry, cas := cas, md := md }
  let bucket := itemx_bucket s1 hash
  let s2 := { s1 with nitx := (s1.nitx + 1) % 2 ^ 64,
                      itx_table := upd s1.itx_table bucket
                        (hotring_insert (s1.itx_table bucket) itx) }
  slab_incr_chunks_by_sid s2 itx.sid 1

/-- The hole bookkeeping of `itemx_removex` for an entry of a memory slab:
push `(uint16_t)(offset / size)` on the slab's hole list and decrement
`nalloc` (a `uint32_t`). -/
def itemx_removex_hole (s : State) (itx : itemx) (sinfo : slabinfo) : Except Fault State := do
  let size ← cid_to_size s sinfo.cid
  if size = 0 then .error .div_by_zero else
  let index_it := (itx.offset / size) % 2 ^ 16
  let sinfo1 := { sinfo with hole_head := index_it :: sinfo.hole_head,
                             nalloc := wrap_dec 32 sinfo.nalloc }
  pure { s with stable := s.stable.set itx.sid sinfo1 }

/-- Function `itemx_removex`. -/
def itemx_removex (s : State) (hash md : Nat) : Except Fault (Bool × State) := do
  let (r, s1) := itemx_getx s hash md
  match r with
  | none => pure (false, s1)
  | some itx =>
    let bucket := itemx_bucket s1 hash
    let s2 := { s1 with nitx := wrap_dec 64 s1.nitx }
    let sinfo ← sid_to_sinfo s2 itx.sid
    let s3 ← if sinfo.mem = true then itemx_removex_hole s2 itx sinfo else pure s2
    let b := s3.itx_table bucket
    let s4 := { s3 with itx_table := upd s3.itx_table bucket
                          { b with stqh_first := STAILQ_REMOVE b.stqh_first itx } }
    let s5 ← slab_incr_chunks_by_sid s4 itx.sid (-1)
    pure (true, itemx_put s5 itx)

/-- Function `itemx_expired`.  `sha1_hash` (of `fc_sha1.c`) and the clock value
`time_now` (of `fc_time.c`) come from outside these sources and are
parameters. -/
def itemx_expired (sha1_hash : Nat → Nat) (time_now : Nat) (s : State) (itx : itemx) :
    Except Fault (Bool × State) :=
  if itx.expiry ≠ 0 ∧ itx.expiry < time_now then do
    let hash := sha1_hash itx.md
    let (_, s1) ← itemx_removex s hash itx.md
    pure (true, s1)
  else pure (false, s)

/-! ## Functions of `fc_slab.c` -/

/-- The `while (imax >= imin)` loop of `slab_cid` on the `uint8_t` variables
`cid`, `imin`, `imax`; returns their values when the loop is left. -/
def slab_cid_loop (ctable : List slabclass) (size : Nat) :
    Nat → Nat → Nat → Nat → Except Fault (Nat × Nat × Nat)
  | 0, _, _, _ => .error .no_fuel
  | fuel + 1, cid, imin, imax =>
    if imax ≥ imin then
      let cid := (imin + imax) / 2
      match tget ctable cid with
      | .error e => .error e
      | .ok c =>
        if size > c.size then
          slab_cid_loop ctable size fuel cid ((cid + 1) % 2 ^ 8) imax
        else if cid > SLABCLASS_MIN_ID then
          match tget ctable (cid - 1) with
          | .error e => .error e
          | .ok p =>
            if size ≤ p.size then
              slab_cid_loop ctable size fuel cid imin (cid - 1)
            else .ok (cid, imin, imax)
        else .ok (cid, imin, imax)
    else .ok (cid, imin, imax)

/-- Function `slab_cid`.  The interval `[imin, imax]` shrinks in every round
that does not wrap `imin`, so 257 rounds are enough for every run that does not
wrap; `cid` is uninitialised before the first round, which always runs. -/
def slab_cid (s : State) (size : Nat) : Except Fault Nat := do
  let (cid, imin, imax) ← slab_cid_loop s.ctable size 257 0 SLABCLASS_MIN_ID s.nctable
  if imin > imax then pure SLABCLASS_INVALID_ID else pure cid

/-- Function `slab_full`. -/
def slab_full (s : State) (sinfo : slabinfo) : Except Fault Bool := do
  let c ← tget s.ctable sinfo.cid
  pure (decide (c.nitem = sinfo.nalloc))

/-- Function `slab_to_daddr`: byte offset of a disk slab on the device. -/
def slab_to_daddr (s : State) (sinfo : slabinfo) : Nat :=
  s.dstart + sinfo.addr * s.slab_size

/-- Function `slab_to_item`: the item pointer, as a byte offset into `data[]`. -/
def slab_to_item (idx size : Nat) : Nat :=
  idx * size

/-- The logging walk at the end of `lru_remove_head`
(`while (tmp) tmp = tmp->next`); it ends within `fuel` steps unless the links
form a cycle. -/
def lru_walk (stable : List slabinfo) : Nat → Option Nat → Except Fault Unit
  | _, none => .ok ()
  | 0, some _ => .error .no_fuel
  | fuel + 1, some tmp => do
    let t ← tget stable tmp
    lru_walk stable fuel t.next

/-- Function `lru_remove_head`. -/
def lru_remove_head (stable : List slabinfo) (lruh : lru_head) :
    Except Fault (List slabinfo × lru_head) := do
  let head ← deref lruh.head
  let h ← tget stable head
  let r ← (match h.next with
    | some new_head => do
      let stable1 := stable.set head { h with next := none }
      let n ← tget stable1 new_head
      pure (stable1.set new_head { n with pre := none },
            ({ lruh with head := some new_head } : lru_head))
    | none => pure (stable, ({ head := none, tail := none } : lru_head)))
  lru_walk r.1 (r.1.length + 1) r.2.head
  pure r

/-- Function `lru_set`; the stores are applied in program order. -/
def lru_set (stable : List slabinfo) (lru : lru_head) (item : Nat) :
    Except Fault (List slabinfo × lru_head) := do
  let it ← tget stable item
  if lru.head = none ∧ lru.tail = none then
    pure (stable.set item { it with pre := none, next := none },
          { head := some item, tail := some item })
  else
    let old_pre := it.pre
    let old_next := it.next
    let old_tail := lru.tail
    if old_pre.isSome ∧ old_next.isNone then pure (stable, lru) else
    let stable1 := stable.set item { it with pre := old_tail, next := none }
    let lru1 : lru_head := { lru with tail := some item }
    let t ← deref old_tail
    let ot ← tget stable1 t
    let stable2 := stable1.set t { ot with next := some item }
    match old_pre, old_next with
    | none, some n => do
      let nx ← tget stable2 n
      pure (stable2.set n { nx with pre := none }, { lru1 with head := some n })
    | some p, some n => do
      let pv ← tget stable2 p
      let stable3 := stable2.set p { pv with next := some n }
      let nx ← tget stable3 n
      pure (stable3.set n { nx with pre := some p }, lru1)
    | _, none => pure (stable2, lru1)

/-- Return codes `rstatus_t` that the slab engine produces. -/
inductive rstatus_t where
  | FC_OK
  | FC_ERROR
deriving DecidableEq, Repr

/-- The item loop of `slab_evict` over `idx ∈ [idx, idx + n)`: look the slot's
digest up and remove the index entry when one is found.  `nitem` and `size` are
constant fields of the class and are read once. -/
def slab_evict_items (slab : slab) (size : Nat) : Nat → Nat → State → Except Fault State
  | 0, _, s => .ok s
  | n + 1, idx, s => do
    let it := slab.data (slab_to_item idx size)
    let (r, s1) := itemx_getx s it.hash it.md
    let s2 ← (match r with
      | some _ => do
        let (_, t) ← itemx_removex s1 it.hash it.md
        pure t
      | none => pure s1)
    slab_evict_items slab size n (idx + 1) s2

/-- Function `slab_evict` (with `USE_LRU`). -/
def slab_evict (s : State) : Except Fault (rstatus_t × State) := do
  let (sid, s1) ← (match s.lruh_disk.head with
    | some h => do
      let (st, l) ← lru_remove_head s.stable s.lruh_disk
      pure (h, { s with stable := st, lruh_disk := l })
    | none => do
      let h ← deref s.full_dsinfoq.head?
      pure (h, s))
  let sinfo ← tget s1.stable sid
  let s2 := { s1 with nfull_dsinfoq := wrap_dec 32 s1.nfull_dsinfoq,
                      full_dsinfoq := s1.full_dsinfoq.erase sid }
  let size := s2.slab_size
  let off := slab_to_daddr s2 sinfo
  let n := io_ret size s2.pread_r
  let s2 := { s2 with evictbuf := io_dst s2.pread_r (s2.disk off) s2.evictbuf }
  if io_short n size = true then pure (rstatus_t.FC_ERROR, s2) else
  let slab := s2.evictbuf
  let c ← tget s2.ctable slab.cid
  let s3 ← slab_evict_items slab c.size c.nitem 0 s2
  let c1 ← tget s3.ctable slab.cid
  pure (rstatus_t.FC_OK,
    { s3 with nfree_dsinfoq := (s3.nfree_dsinfoq + 1) % 2 ^ 32,
              free_dsinfoq := s3.free_dsinfoq ++ [sid],
              nevict := (s3.nevict + 1) % 2 ^ 64,
              ctable := s3.ctable.set slab.cid
                { c1 with nevict := (c1.nevict + 1) % 2 ^ 64,
                          ndslab := wrap_dec 32 c1.ndslab } })

/-- Function `slab_swap_addr` on the table entries `msid` and `dsid`. -/
def slab_swap_addr (stable : List slabinfo) (msid dsid : Nat) : Except Fault (List slabinfo) := do
  let msinfo ← tget stable msid
  let m_addr := msinfo.addr
  let dsinfo ← tget stable dsid
  let stable1 := stable.set msid { msinfo with addr := dsinfo.addr, mem := false }
  let dsinfo1 ← tget stable1 dsid
  pure (stable1.set dsid { dsinfo1 with addr := m_addr, mem := true })

/-- Function `_slab_drain` (with `USE_LRU`). -/
def _slab_drain (s : State) : Except Fault (rstatus_t × State) := do
  let (msid, s1) ← (match s.lruh.head with
    | some h => do
      let (st, l) ← lru_remove_head s.stable s.lruh
      pure (h, { s with stable := st, lruh := l })
    | none => do
      let h ← deref s.full_msinfoq.head?
      pure (h, s))
  let msinfo ← tget s1.stable msid
  let s2 := { s1 with nfull_msinfoq := wrap_dec 32 s1.nfull_msinfoq,
                      full_msinfoq := s1.full_msinfoq.erase msid }
  let dsid ← deref s2.free_dsinfoq.head?
  let dsinfo ← tget s2.stable dsid
  let s3 := { s2 with nfree_dsinfoq := wrap_dec 32 s2.nfree_dsinfoq,
                      free_dsinfoq := s2.free_dsinfoq.erase dsid }
  let slab := s3.mstart msinfo.addr
  let size := s3.slab_size
  let off := slab_to_daddr s3 dsinfo
  let n := io_ret size s3.pwrite_r
  let s4 := { s3 with disk := upd s3.disk off (io_dst s3.pwrite_r slab (s3.disk off)) }
  if io_short n size = true then pure (rstatus_t.FC_ERROR, s4) else
  let c ← tget s4.ctable msinfo.cid
  let c1 := { c with nmslab := wrap_dec 32 c.nmslab }
  let c2 := { c1 with ndslab := (c1.ndslab + 1) % 2 ^ 32 }
  let stable1 ← slab_swap_addr s4.stable msid dsid
  pure (rstatus_t.FC_OK,
    { s4 with ctable := s4.ctable.set msinfo.cid c2,
              stable := stable1,
              nfree_msinfoq := (s4.nfree_msinfoq + 1) % 2 ^ 32,
              free_msinfoq := s4.free_msinfoq ++ [dsid],
              nfull_dsinfoq := (s4.nfull_dsinfoq + 1) % 2 ^ 32,
              full_dsinfoq := s4.full_dsinfoq ++ [msid],
              nflush := (s4.nflush + 1) % 2 ^ 64 })

/-- Function `slab_drain`. -/
def slab_drain (s : State) : Except Fault (rstatus_t × State) := do
  if s.free_dsinfoq.isEmpty = false then _slab_drain s else
  let (status, s1) ← slab_evict s
  if status ≠ rstatus_t.FC_OK then pure (status, s1) else
  _slab_drain s1

/-- A `struct item *` into the memory slab area: the slab's `addr` and the byte
offset of the item in the slab's `data[]`. -/
structure item_ptr where
  addr : Nat
  off : Nat
deriving DecidableEq, Repr

/-- The item a pointer refers to. -/
def item_at (s : State) (p : item_ptr) : item :=
  (s.mstart p.addr).data p.off

/-- The `slab_full(sinfo)` part of `_slab_get_item` that moves a slab that has
just filled to the full queue. -/
def _slab_get_item_full (s : State) (cid sid : Nat) (update : Bool) : Except Fault State := do
  let c ← tget s.ctable cid
  let c1 := if update = true then { c with hot_slabinfo := none }
            else { c with partial_msinfoq := c.partial_msinfoq.erase sid }
  pure { s with ctable := s.ctable.set cid c1,
                nfull_msinfoq := (s.nfull_msinfoq + 1) % 2 ^ 32,
                full_msinfoq := s.full_msinfoq ++ [sid] }

/-- The `USE_LRU` part of `_slab_get_item`. -/
def _slab_get_item_lru (s : State) (sid : Nat) : Except Fault State := do
  let sinfo ← tget s.stable sid
  if sinfo.mem = true then
    let (st, l) ← lru_set s.stable s.lruh sid
    pure { s with stable := st, lruh := l }
  else
    let (st, l) ← lru_set s.stable s.lruh_disk sid
    pure { s with stable := st, lruh_disk := l }

/-- The slot selection of `_slab_get_item` in the slab `sinfo` (entry `sid` of
the table) of class `c`: the head hole is popped, or else the slot at index
`nalloc` is taken; `it->offset` and `it->sid` are stored in the slab memory and
`nalloc` is incremented. -/
def _slab_get_item_take (s : State) (c : slabclass) (sid : Nat) (sinfo : slabinfo) :
    item_ptr × State :=
  let slab := s.mstart sinfo.addr
  let r : Nat × slabinfo :=
    match sinfo.hole_head with
    | hole_index :: next => (hole_index * c.size, { sinfo with hole_head := next })
    | [] => (slab_to_item sinfo.nalloc c.size, sinfo)
  let it := slab.data r.1
  let it1 := { it with offset := (SLAB_HDR_SIZE + r.1) % 2 ^ 32, sid := slab.sid }
  let sinfo2 := { r.2 with nalloc := (r.2.nalloc + 1) % 2 ^ 32 }
  ({ addr := sinfo.addr, off := r.1 },
   { s with mstart := upd s.mstart sinfo.addr { slab with data := upd slab.data r.1 it1 },
            stable := s.stable.set sid sinfo2 })

/-- The two `slab_full(sinfo)` blocks at the end of `_slab_get_item`: a slab
that has just filled moves to the full queue and is appended to the LRU list. -/
def _slab_get_item_filled (s : State) (cid sid : Nat) (update : Bool) : Except Fault State := do
  let sinfo ← tget s.stable sid
  let full ← slab_full s sinfo
  let s2 ← if full = true then _slab_get_item_full s cid sid update else pure s
  let sinfo2 ← tget s2.stable sid
  let full2 ← slab_full s2 sinfo2
  if full2 = true then _slab_get_item_lru s2 sid else pure s2

/-- The working slab of `_slab_get_item`: the hot slab (`update`) or the first
partial slab of the class. -/
def _slab_get_item_sinfo (c : slabclass) (update : Bool) : Except Fault Nat :=
  if update = true then deref c.hot_slabinfo else deref c.partial_msinfoq.head?

/-- Function `_slab_get_item`: take a slot from the class's hot slab
(`update`) or from its first partial slab; a hole is used before the end area. -/
def _slab_get_item (s : State) (cid : Nat) (update : Bool) :
    Except Fault (item_ptr × State) := do
  let c ← tget s.ctable cid
  let sid ← _slab_get_item_sinfo c update
  let sinfo ← tget s.stable sid
  let r := _slab_get_item_take s c sid sinfo
  let s3 ← _slab_get_item_filled r.2 cid sid update
  pure (r.1, s3)

/-- The step of `slab_get_item` that takes the first free memory slab for class
`cid`: as the hot slab when `update`, else at the head of the partial queue;
the slab header in memory is initialised. -/
def slab_get_item_free (s : State) (cid : Nat) (update : Bool) : Except Fault State := do
  let sid ← deref s.free_msinfoq.head?
  let c ← tget s.ctable cid
  let sinfo ← tget s.stable sid
  let c1 := { c with nmslab := (c.nmslab + 1) % 2 ^ 32 }
  let c2 := if update = true then { c1 with hot_slabinfo := some sid }
            else { c1 with partial_msinfoq := sid :: c1.partial_msinfoq }
  let sinfo1 := { sinfo with nalloc := 0, cid := cid }
  let slab := s.mstart sinfo.addr
  pure { s with nfree_msinfoq := wrap_dec 32 s.nfree_msinfoq,
                free_msinfoq := s.free_msinfoq.erase sid,
                ctable := s.ctable.set cid c2,
                stable := s.stable.set sid sinfo1,
                mstart := upd s.mstart sinfo.addr
                  { slab with magic := SLAB_MAGIC, cid := cid, sid := sinfo.sid } }

/-- Function `slab_get_item`; `fuel` bounds the retries after a drain.  The
result is `none` for a `NULL` return. -/
def slab_get_item : Nat → State → Nat → Bool → Except Fault (Option item_ptr × State)
  | 0, _, _, _ => .error .no_fuel
  | fuel + 1, s, cid, update => do
    let (status, s1) ← if itemx_empty s = true then slab_evict s
                       else pure (rstatus_t.FC_OK, s)
    if status ≠ rstatus_t.FC_OK then pure (none, s1) else
    let c ← tget s1.ctable cid
    if update = true then
      match c.hot_slabinfo with
      | none =>
        if s1.free_msinfoq.isEmpty = false then
          let s2 ← slab_get_item_free s1 cid update
          let (it, s3) ← _slab_get_item s2 cid update
          pure (some it, s3)
        else
          let (status, s2) ← slab_drain s1
          if status ≠ rstatus_t.FC_OK then pure (none, s2) else
          slab_get_item fuel s2 cid update
      | some _ =>
        let (it, s2) ← _slab_get_item s1 cid update
        pure (some it, s2)
    else if c.partial_msinfoq.isEmpty = false then
      let (it, s2) ← _slab_get_item s1 cid update
      pure (some it, s2)
    else if s1.free_msinfoq.isEmpty = false then
      let s2 ← slab_get_item_free s1 cid update
      let (it, s3) ← _slab_get_item s2 cid update
      pure (some it, s3)
    else
      let (status, s2) ← slab_drain s1
      if status ≠ rstatus_t.FC_OK then pure (none, s2) else
      slab_get_item fuel s2 cid update

/-! ## Initialisation -/

/-- The fields of `struct settings` that the two modules read, and the size
that `fc_device_size` reports for the device. -/
structure settings where
  hash_power : Nat
  max_index_memory : Nat
  max_slab_memory : Nat
  slab_size : Nat
  profile : List Nat
  profile_last_id : Nat
  server_n : Nat
  server_id : Nat
  device_size : Nat

/-- Size `sizeof(struct itemx)` of the packed entry: an 8-byte link, the
digest, three 32-bit fields and the 64-bit `cas`. -/
def sizeof_itemx : Nat := 48

/-- Function `slab_data_size`. -/
def slab_data_size (st : settings) : Nat :=
  st.slab_size - SLAB_HDR_SIZE

/-- Function `slab_init_ctable`: one class per profile entry. -/
def slab_init_ctable (st : settings) : List slabclass :=
  (List.range (st.profile_last_id + 1)).map fun cid =>
    let size := st.profile.getD cid 0
    let nitem := slab_data_size st / size
    { nitem := nitem, size := size, slack := slab_data_size st - nitem * size,
      partial_msinfoq := [], nmslab := 0, ndslab := 0, nevict := 0, nused_item := 0,
      hot_slabinfo := none }

/-- The link field of entry `i` after `slab_init_stable`: the two stores
`sinfo->next = NULL` and `sinfo->pre = NULL` follow the loops and reach the
last entry only; every other entry keeps what the allocated memory held. -/
def init_link (nmslab ndslab i : Nat) (garbage : Option Nat) : Option Nat :=
  if i + 1 = nmslab + ndslab then none else garbage

/-- Function `slab_init_stable`: `nmslab` memory slabinfos followed by `ndslab`
disk slabinfos.  The table comes from `fc_alloc`, which does not clear it:
`links i` is what the memory of entry `i` holds in the fields `pre` and `next`
(`none` for `NULL`, an index for a pointer to that entry of the table). -/
def slab_init_stable (nmslab ndslab : Nat) (links : Nat → Option Nat × Option Nat) :
    List slabinfo :=
  (List.range nmslab).map (fun i =>
    { sid := i, addr := i, nalloc := 0, cid := SLABCLASS_INVALID_ID, mem := true,
      hole_head := [], pre := init_link nmslab ndslab i (links i).1,
      next := init_link nmslab ndslab i (links i).2 })
  ++ (List.range ndslab).map (fun j =>
    { sid := nmslab + j, addr := j, nalloc := 0, cid := SLABCLASS_INVALID_ID, mem := false,
      hole_head := [], pre := init_link nmslab ndslab (nmslab + j) (links (nmslab + j)).1,
      next := init_link nmslab ndslab (nmslab + j) (links (nmslab + j)).2 })

/-- Allocated memory that holds `NULL` in every link field. -/
def links_null : Nat → Option Nat × Option Nat :=
  fun _ => (none, none)

/-- A zero-filled slab, as `mmap` returns it. -/
def slab_zero : slab :=
  { magic := 0, sid := 0, cid := 0,
    data := fun _ => { magic := 0, offset := 0, sid := 0, cid := 0, hash := 0, md := 0 },
    bytes := fun _ => 0 }

/-- A slab-sized buffer after `memset(buf, 0xff, slab_size)`. -/
def slab_ff : slab :=
  { magic := 2 ^ 32 - 1, sid := 2 ^ 32 - 1, cid := 255,
    data := fun _ => { magic := 2 ^ 32 - 1, offset := 2 ^ 32 - 1, sid := 2 ^ 32 - 1, cid := 255,
                       hash := 2 ^ 32 - 1, md := 2 ^ 160 - 1 },
    bytes := fun _ => 255 }

/-- Functions `itemx_init` and `slab_init` on a device that holds `disk` and
completes every transfer: the state after a successful start.  `links` is the
content of the link fields in the memory allocated for the slab table. -/
def init (st : settings) (disk : Nat → slab) (links : Nat → Option Nat × Option Nat) :
    State :=
  let n := st.max_index_memory / sizeof_itemx
  let ctable := slab_init_ctable st
  let nctable := st.profile_last_id + 1
  let nmslab := max nctable (st.max_slab_memory / st.slab_size)
  let ndchunk := st.device_size / st.slab_size
  let ndslab := ndchunk / st.server_n
  { hash_power := st.hash_power,
    slab_size := st.slab_size,
    nitx := 0,
    nitx_table := 2 ^ st.hash_power,
    itx_table := fun _ => { stqh_first := [], nhr_queries := 0 },
    nalloc_itemx := n,
    nfree_itemxq := n,
    free_itemxq := List.replicate n { md := 0, sid := 0, offset := 0, expiry := 0, cas := 0 },
    nfree_msinfoq := nmslab,
    free_msinfoq := List.range nmslab,
    nfull_msinfoq := 0,
    full_msinfoq := [],
    nfree_dsinfoq := ndslab,
    free_dsinfoq := (List.range ndslab).map (fun j => nmslab + j),
    nfull_dsinfoq := 0,
    full_dsinfoq := [],
    lruh := { head := none, tail := none },
    lruh_disk := { head := none, tail := none },
    nctable := nctable,
    ctable := ctable,
    nstable := nmslab + ndslab,
    stable := slab_init_stable nmslab ndslab links,
    mstart := fun _ => slab_zero,
    dstart := (st.server_id * ndslab) * st.slab_size,
    dend := ((st.server_id + 1) * ndslab) * st.slab_size,
    disk := disk,
    evictbuf := slab_ff,
    pread_r := transfer.full,
    pwrite_r := transfer.full,
    nmslab := nmslab,
    ndslab := ndslab,
    nevict := 0,
    nflush := 0 }

/-! ## The caller -/

/-- Modelled from the spec: the write path of the layer above the engine, which
is not part of these sources (§2: the engine "hands slot to caller which writes
the item bytes", then the "caller calls A's `insert(digest → slot)`").  The
caller writes `hash` and `md` into the slot and inserts the index entry with the
`sid` and `offset` that the allocator stored in the item. -/
def caller_set (fuel : Nat) (s : State) (cid : Nat) (update : Bool)
    (hash md expiry cas : Nat) : Except Fault (Option item_ptr × State) := do
  let (r, s1) ← slab_get_item fuel s cid update
  match r with
  | none => pure (none, s1)
  | some p =>
    let slab := s1.mstart p.addr
    let it := { slab.data p.off with cid := cid, hash := hash, md := md }
    let s2 := { s1 with mstart := upd s1.mstart p.addr { slab with data := upd slab.data p.off it } }
    let s3 ← itemx_putx s2 hash md it.sid it.offset expiry cas
    pure (some p, s3)

/-! ## Derived notions used in the statements -/

/-- First entry of a chain that carries digest `d`. -/
def chain_find (chain : List itemx) (d : Nat) : Option itemx :=
  chain.find? (fun e => decide (e.md = d))

/-- The bucket after a series of lookups. -/
def hotring_lookups (bucket : itemx_tqh) (ds : List Nat) : itemx_tqh :=
  ds.foldl (fun b d => (hotring_get b d).2) bucket

/-! ## Concrete configurations and states -/

/-- The state of a successful run, or `dflt` for a faulting one. -/
def state_of {α : Type} (r : Except Fault (α × State)) (dflt : State) : State :=
  match r with
  | .ok (_, s) => s
  | .error _ => dflt

/-- A small configuration: 512-byte slabs, one class of 200-byte items (two per
slab), one memory slab, one disk slab, 16 index entries, 16 buckets. -/
def cfg_small : settings :=
  { hash_power := 4, max_index_memory := 16 * sizeof_itemx, max_slab_memory := 512,
    slab_size := 512, profile := [200], profile_last_id := 0, server_n := 1, server_id := 0,
    device_size := 512 }

/-- The start state of the small configuration. -/
def s_small : State := init cfg_small (fun _ => slab_zero) links_null

/-- The small configuration after one cold allocation of class 0. -/
def s_small_alloc : State := state_of (slab_get_item 3 s_small 0 false) s_small

/-- A configuration with three classes, of item sizes 64, 128 and 256. -/
def cfg_three : settings :=
  { hash_power := 4, max_index_memory := 16 * sizeof_itemx, max_slab_memory := 8192,
    slab_size := 4096, profile := [64, 128, 256], profile_last_id := 2, server_n := 1,
    server_id := 0, device_size := 8192 }

/-- The start state of the three-class configuration. -/
def s_three : State := init cfg_three (fun _ => slab_zero) links_null

/-- The slab index that `_slab_get_item` uses in a slab: the head of the hole
list, or `nalloc` when there is no hole. -/
def next_slot (sinfo : slabinfo) : Nat :=
  match sinfo.hole_head with
  | hole_index :: _ => hole_index
  | [] => sinfo.nalloc

/-- Whether `lru_set` can run on the slab and the list of its tier without a
wild pointer: the list is empty, or its tail and the links of the slab are
`NULL` or point into the slab table. -/
def lru_ready (s : State) (sinfo : slabinfo) : Bool :=
  match (if sinfo.mem = true then s.lruh else s.lruh_disk).tail with
  | none => (if sinfo.mem = true then s.lruh else s.lruh_disk).head.isNone
  | some t => decide (t < s.stable.length) &&
      sinfo.pre.all (fun x => decide (x < s.stable.length)) &&
      sinfo.next.all (fun x => decide (x < s.stable.length))

/-- The item that `_slab_get_item` leaves in the slot at byte offset `off` of
`data[]` of the slab at `addr`: `offset` and `sid` are stored. -/
def slot_written (s : State) (addr off : Nat) : Nat → slab :=
  upd s.mstart addr
    { s.mstart addr with
      data := upd (s.mstart addr).data off
        { (s.mstart addr).data off with
          offset := (SLAB_HDR_SIZE + off) % 2 ^ 32, sid := (s.mstart addr).sid } }

/-- The configuration of scenario S1: 4096-byte slabs, one class of 64-byte
items (63 per slab), two memory slabs, two disk slabs, 64 index entries. -/
def cfg_s1 : settings :=
  { hash_power := 4, max_index_memory := 64 * sizeof_itemx, max_slab_memory := 8192,
    slab_size := 4096, profile := [64], profile_last_id := 0, server_n := 1, server_id := 0,
    device_size := 8192 }

/-- The start state of scenario S1. -/
def s_s1 : State := init cfg_s1 (fun _ => slab_zero) links_null

/-- Store a series of `(hash, digest)` pairs as cold items of class 0. -/
def caller_sets (s : State) : List (Nat × Nat) → State
  | [] => s
  | (h, d) :: r => caller_sets (state_of (caller_set 3 s 0 false h d 0 0) s) r

/-- Scenario S5 after its ten inserts: digest `100 + i` (hash `i`) is the item
at slab index `i` of slab 0. -/
def s_s5_filled : State :=
  caller_sets s_s1 [(0, 100), (1, 101), (2, 102), (3, 103), (4, 104), (5, 105), (6, 106),
    (7, 107), (8, 108), (9, 109)]

/-- Scenario S5 after the item at slab index 4 has been removed. -/
def s_s5_hole : State := state_of (itemx_removex s_s5_filled 4 104) s_s5_filled

/-- The slab table after the hole bookkeeping of a remove of entry `m`, whose
slab `sinfo` is of a class with item size `size`. -/
def stable_after_remove (stable : List slabinfo) (m : itemx) (sinfo : slabinfo) (size : Nat) :
    List slabinfo :=
  if sinfo.mem = true then
    stable.set m.sid
      { sinfo with hole_head := ((m.offset / size) % 2 ^ 16) :: sinfo.hole_head,
                   nalloc := wrap_dec 32 sinfo.nalloc }
  else stable

/-- The state after the removal of the entry `m`, found by a lookup of
`(hash, md)`, whose slab is `sinfo`, of class `c`. -/
def state_after_remove (s : State) (hash md : Nat) (m : itemx) (sinfo : slabinfo)
    (c : slabclass) : State :=
  { s with nitx := wrap_dec 64 s.nitx,
           itx_table := upd s.itx_table (itemx_bucket s hash)
             { stqh_first :=
                 (hotring_get (s.itx_table (itemx_bucket s hash)) md).2.stqh_first.erase m,
               nhr_queries := (hotring_get (s.itx_table (itemx_bucket s hash)) md).2.nhr_queries },
           stable := stable_after_remove s.stable m sinfo c.size,
           ctable := s.ctable.set sinfo.cid
             { c with nused_item := (((c.nused_item : Int) + -1) % 2 ^ 64).toNat },
           nfree_itemxq := (s.nfree_itemxq + 1) % 2 ^ 64,
           free_itemxq := m :: s.free_itemxq }

/-- A configuration with 8 MiB slabs and one class of 64-byte items, 131071 per
slab. -/
def cfg_big : settings :=
  { hash_power := 4, max_index_memory := 16 * sizeof_itemx, max_slab_memory := 8388608,
    slab_size := 8388608, profile := [64], profile_last_id := 0, server_n := 1, server_id := 0,
    device_size := 8388608 }

/-- The big configuration after storing digest 100 (hash 0) in the first slot
of slab 0. -/
def s_big_first : State :=
  state_of (caller_set 3 (init cfg_big (fun _ => slab_zero) links_null) 0 false 0 100 0 0)
    (init cfg_big (fun _ => slab_zero) links_null)

/-- A state of the big configuration in which slab 0 holds 65537 items, at the
slab indexes 0 to 65536, and the index holds the entries of the first (digest
100, offset 12) and of the last (digest 200, hash 1, offset
`12 + 65536 * 64`). -/
def s_big : State :=
  state_of
    ((itemx_putx
        { s_big_first with
          stable := s_big_first.stable.set 0
            { sid := 0, addr := 0, nalloc := 65537, cid := 0, mem := true, hole_head := [],
              pre := none, next := none } }
        1 200 0 (SLAB_HDR_SIZE + 65536 * 64) 0 0).map (fun t => ((), t)))
    s_big_first

/-- The small configuration after storing the digests 101, 102 (which fill slab
0) and 103 (which drains slab 0 to disk and starts slab 1), and then removing
the entry of digest 101, as the caller does before it stores the digest anew. -/
def s_stale_pre : State :=
  state_of (itemx_removex (caller_sets s_small [(1, 101), (2, 102), (3, 103)]) 1 101) s_small

/-- The state after digest 101 has been stored again: its item is in slab 1,
while the disk image of slab 0 still holds the old item of digest 101. -/
def s_stale : State := state_of (caller_set 3 s_stale_pre 0 false 1 101 0 0) s_stale_pre

/-- Item size of class `cid` (0 outside the table). -/
def item_size (s : State) (cid : Nat) : Nat :=
  match s.ctable[cid]? with
  | some c => c.size
  | none => 0

/-- Scenario S6: the small configuration after storing digest 101 (hash 101)
with expiry 11. -/
def s_s6 : State := state_of (caller_set 3 s_small 0 false 101 101 11 0) s_small

/-- The small configuration after storing the digests 101 and 102: slab 0 is
full and is the only memory slab; the device then writes no byte (`pwrite`
returns 0). -/
def s_wfail : State :=
  { caller_sets s_small [(1, 101), (2, 102)] with pwrite_r := transfer.short 0 slab_zero }

/-- The small configuration after storing the digests 101 to 104: slab 0 is on
disk, slab 1 is full in memory, no disk slab is free; the device then reads no
byte (`pread` returns 0). -/
def s_rfail : State :=
  { caller_sets s_small [(1, 101), (2, 102), (3, 103), (4, 104)] with
    pread_r := transfer.short 0 slab_zero }

/-- The small configuration after storing the digests 101 and 102, which fill
slab 0, the only memory slab. -/
def s_fq : State := caller_sets s_small [(1, 101), (2, 102)]

/-- The state after the entry of digest 101 has then been removed. -/
def s_fq_hole : State := state_of (itemx_removex s_fq 1 101) s_fq

/-- A configuration with three index entries: 512-byte slabs, one class of
200-byte items (two per slab), one memory slab, two disk slabs. -/
def cfg_idx : settings :=
  { hash_power := 4, max_index_memory := 3 * sizeof_itemx, max_slab_memory := 512,
    slab_size := 512, profile := [200], profile_last_id := 0, server_n := 1, server_id := 0,
    device_size := 1024 }

/-- The three-entry configuration after storing the digests 101, 102 (slab 0)
and 103 (slab 0 is drained, slab 1 starts), and removing the entries of 101 and
102: the disk slab 0 holds no live item. -/
def s_idx_removed : State :=
  state_of
    (itemx_removex
      (state_of
        (itemx_removex
          (caller_sets (init cfg_idx (fun _ => slab_zero) links_null) [(1, 101), (2, 102), (3, 103)])
          1 101)
        (init cfg_idx (fun _ => slab_zero) links_null))
      2 102)
    (init cfg_idx (fun _ => slab_zero) links_null)

/-- The state after the digests 104 (slab 1 fills) and 105 (slab 1 is drained,
slab 2 starts) have then been stored: all three index entries are in use. -/
def s_idx : State := caller_sets s_idx_removed [(4, 104), (5, 105)]

/-! ## Views of the slab tables used in the invariants -/

/-- The eviction buffer after the `pread` of `slab_evict` for the victim
`sinfo`. -/
def evict_read (s : State) (sinfo : slabinfo) : slab :=
  io_dst s.pread_r (s.disk (slab_to_daddr s sinfo)) s.evictbuf

/-- The device block of the target `dsinfo` after the `pwrite` of `_slab_drain`
for the victim `msinfo`. -/
def drain_write (s : State) (msinfo dsinfo : slabinfo) : slab :=
  io_dst s.pwrite_r (s.mstart msinfo.addr) (s.disk (slab_to_daddr s dsinfo))

/-- The LRU links `(pre, next)` of the table entries. -/
def lru_links (stable : List slabinfo) : List (Option Nat × Option Nat) :=
  stable.map (fun x => (x.pre, x.next))

/-- The tier and address `(mem, addr)` of the table entries. -/
def slab_tiers (stable : List slabinfo) : List (Bool × Nat) :=
  stable.map (fun x => (x.mem, x.addr))

/-- The entries of `l` are linked through `pre` and `next` in this order, the
first of them after `prev`, the last with a `NULL` successor. -/
def lru_chain (links : List (Option Nat × Option Nat)) : Option Nat → List Nat → Prop
  | _, [] => True
  | prev, x :: rest => links[x]? = some (prev, rest.head?) ∧ lru_chain links (some x) rest

/-- Number of places slab `i` has in a class: on its partial queue or as its
hot slab. -/
def class_occ (i : Nat) (c : slabclass) : Nat :=
  c.partial_msinfoq.count i + c.hot_slabinfo.toList.count i

/-- Number of places slab `i` has on the memory side: the free queue, the full
queue, and the classes. -/
def mem_occ (s : State) (i : Nat) : Nat :=
  s.free_msinfoq.count i + s.full_msinfoq.count i + (s.ctable.map (class_occ i)).sum

/-- Number of places slab `i` has on the two disk queues. -/
def disk_occ (s : State) (i : Nat) : Nat :=
  s.free_dsinfoq.count i + s.full_dsinfoq.count i

/-- Number of memory slabs a class holds: its partial queue and its hot slab. -/
def class_len (c : slabclass) : Nat :=
  c.partial_msinfoq.length + c.hot_slabinfo.toList.length

/-- Number of memory slabs on the free queue, the full queue and in the
classes. -/
def mem_len (s : State) : Nat :=
  s.free_msinfoq.length + s.full_msinfoq.length + (s.ctable.map class_len).sum

/-- The tiers and addresses that `slab_init_stable` hands out. -/
def tiers_init (nmslab ndslab : Nat) : List (Bool × Nat) :=
  (List.range nmslab).map (fun i => (true, i)) ++ (List.range ndslab).map (fun j => (false, j))

/-- The queues of the classes: partial queue and hot slab. -/
def class_queues (ctable : List slabclass) : List (List Nat × Option Nat) :=
  ctable.map (fun c => (c.partial_msinfoq, c.hot_slabinfo))

/-- The structural invariant of the slab tables: every slabinfo is in at most
one place; the slabs on the memory side are memory-resident and the slabs on
the disk queues are disk-resident; the LRU list of the memory tier links exactly
the slabs of the memory-full queue, in the order of the queue; every other slab
has `NULL` links; the LRU list of the disk tier is empty; `stable[i].sid = i`;
and the `(mem, addr)` pairs of the table are those handed out by
`slab_init_stable`, up to their order. -/
structure slab_inv (s : State) : Prop where
  once : ∀ i, mem_occ s i + disk_occ s i ≤ 1
  mem_tier : ∀ i, 0 < mem_occ s i → ∃ a, (slab_tiers s.stable)[i]? = some (true, a)
  disk_tier : ∀ i, 0 < disk_occ s i → ∃ a, (slab_tiers s.stable)[i]? = some (false, a)
  chain : lru_chain (lru_links s.stable) none s.full_msinfoq
  head : s.lruh.head = s.full_msinfoq.head?
  tail : s.lruh.tail = s.full_msinfoq.getLast?
  unlinked : ∀ i, i < s.stable.length → i ∉ s.full_msinfoq →
    (lru_links s.stable)[i]? = some (none, none)
  lru_disk : s.lruh_disk = ⟨none, none⟩
  sids : s.stable.map slabinfo.sid = List.range s.stable.length
  tiers : List.Perm (slab_tiers s.stable) (tiers_init s.nmslab s.ndslab)

/-- The counting invariant of the memory side, for a device that completes
every transfer: the two counters are the lengths of their queues, and the free
queue, the full queue and the classes hold `nmslab` slabs together. -/
structure count_inv (s : State) : Prop where
  pread : s.pread_r = transfer.full
  pwrite : s.pwrite_r = transfer.full
  nfree : s.nfree_msinfoq = s.free_msinfoq.length
  nfull : s.nfull_msinfoq = s.full_msinfoq.length
  total : mem_len s = s.nmslab
  bound : s.nmslab < 2 ^ 32

/-- The state `s1` agrees with `s` on the memory queues, their counters, the
class queues, the LRU heads, the links, tiers and ids of the table, and the
device status; on the disk queues no slab has more places than in `s`. -/
structure slab_frame (s s1 : State) : Prop where
  free_m : s1.free_msinfoq = s.free_msinfoq
  nfree_m : s1.nfree_msinfoq = s.nfree_msinfoq
  full_m : s1.full_msinfoq = s.full_msinfoq
  nfull_m : s1.nfull_msinfoq = s.nfull_msinfoq
  lruh : s1.lruh = s.lruh
  lruh_disk : s1.lruh_disk = s.lruh_disk
  classes : class_queues s1.ctable = class_queues s.ctable
  links : lru_links s1.stable = lru_links s.stable
  tiers : slab_tiers s1.stable = slab_tiers s.stable
  sids : s1.stable.map slabinfo.sid = s.stable.map slabinfo.sid
  nmslab : s1.nmslab = s.nmslab
  ndslab : s1.ndslab = s.ndslab
  pread : s1.pread_r = s.pread_r
  pwrite : s1.pwrite_r = s.pwrite_r
  disk : ∀ i, disk_occ s1 i ≤ disk_occ s i

/-- The states reachable from `s0` by calls of the engine's functions that
return and by stores of the caller into the slab memory; with `flaky` the
device may also change what its reads and writes transfer at any time. -/
inductive Reach (flaky : Bool) (s0 : State) : State → Prop
  | start : Reach flaky s0 s0
  | get_item (s s1 : State) (fuel cid : Nat) (update : Bool) (r : Option item_ptr) :
      Reach flaky s0 s → slab_get_item fuel s cid update = .ok (r, s1) → Reach flaky s0 s1
  | getx (s : State) (hash md : Nat) :
      Reach flaky s0 s → Reach flaky s0 (itemx_getx s hash md).2
  | putx (s s1 : State) (hash md sid offset expiry cas : Nat) :
      Reach flaky s0 s → itemx_putx s hash md sid offset expiry cas = .ok s1 → Reach flaky s0 s1
  | removex (s s1 : State) (hash md : Nat) (b : Bool) :
      Reach flaky s0 s → itemx_removex s hash md = .ok (b, s1) → Reach flaky s0 s1
  | drain (s s1 : State) (status : rstatus_t) :
      Reach flaky s0 s → slab_drain s = .ok (status, s1) → Reach flaky s0 s1
  | evict (s s1 : State) (status : rstatus_t) :
      Reach flaky s0 s → slab_evict s = .ok (status, s1) → Reach flaky s0 s1
  | memory (s : State) (m : Nat → slab) :
      Reach flaky s0 s → Reach flaky s0 { s with mstart := m }
  | device (s : State) (r w : transfer) :
      flaky = true → Reach flaky s0 s → Reach flaky s0 { s with pread_r := r, pwrite_r := w }

/-- The state `s1` has every slab in as many places on the memory side as `s`
and in at most as many on the disk queues, and agrees with `s` on the
memory-full queue, the LRU heads, and the links, tiers and ids of the table. -/
structure slab_same (s s1 : State) : Prop where
  mem : ∀ i, mem_occ s1 i = mem_occ s i
  disk : ∀ i, disk_occ s1 i ≤ disk_occ s i
  full_m : s1.full_msinfoq = s.full_msinfoq
  lruh : s1.lruh = s.lruh
  lruh_disk : s1.lruh_disk = s.lruh_disk
  links : lru_links s1.stable = lru_links s.stable
  tiers : slab_tiers s1.stable = slab_tiers s.stable
  sids : s1.stable.map slabinfo.sid = s.stable.map slabinfo.sid
  nmslab : s1.nmslab = s.nmslab
  ndslab : s1.ndslab = s.ndslab

/-- The victim of `_slab_drain`: the head of the LRU list of the memory tier,
or the head of the memory-full queue when that list is empty. -/
def drain_victim (s : State) : Option Nat :=
  match s.lruh.head with
  | some h => some h
  | none => s.full_msinfoq.head?

/-- Function `slab_msinfo_npartial`: `nmslab - nfree_msinfoq - nfull_msinfoq` in
`uint32_t` arithmetic. -/
def slab_msinfo_npartial (s : State) : Nat :=
  ((((s.nmslab : Int) - s.nfree_msinfoq) - s.nfull_msinfoq) % 2 ^ 32).toNat

/-- The small configuration after two cold allocations: slab 0 is full. -/
def s_small_alloc2 : State := state_of (slab_get_item 3 s_small_alloc 0 false) s_small_alloc

/-- The small configuration after three cold allocations: slab 0 has been
drained to disk and the third slot is in slab 1. -/
def s_small_alloc3 : State := state_of (slab_get_item 3 s_small_alloc2 0 false) s_small_alloc2

/-- A series of `n` allocations of class `cid`, with the pointers returned. -/
def slab_get_items (fuel : Nat) (cid : Nat) (update : Bool) :
    Nat → State → Except Fault (List (Option item_ptr) × State)
  | 0, s => .ok ([], s)
  | n + 1, s => do
    let (p, s1) ← slab_get_item fuel s cid update
    let (ps, s2) ← slab_get_items fuel cid update n s1
    pure (p :: ps, s2)

/-- Slab 0 is the partial slab of class `cid` and holds `k` items at the slab
indexes below `k`; slab 1 is the first free memory slab; nothing has been
drained and the index pool is not empty.  The class has the constants of `c`;
`l0` and `l1` are the link fields of the slabs 0 and 1, as the start left
them. -/
structure slab_filling (cid : Nat) (c : slabclass) (rest : List Nat)
    (l0 l1 : Option Nat × Option Nat) (k : Nat) (s : State) : Prop where
  pool : itemx_empty s = false
  cls : ∃ ck, s.ctable[cid]? = some ck ∧ ck.partial_msinfoq = [0] ∧ ck.nitem = c.nitem ∧
    ck.size = c.size
  slab0 : s.stable[0]? = some ⟨0, 0, k, cid, true, [], l0.1, l0.2⟩
  slab1 : s.stable[1]? = some ⟨1, 1, 0, SLABCLASS_INVALID_ID, true, [], l1.1, l1.2⟩
  free : s.free_msinfoq = 1 :: rest
  full : s.full_msinfoq = []
  lruh : s.lruh = ⟨none, none⟩
  nflush : s.nflush = 0
  inrange : c.nitem = 1 → ∀ x, l1.1 = some x ∨ l1.2 = some x → x < s.stable.length

/-- Slab 0 has filled: it holds `nitem` items and is the only slab of the
memory-full queue and of the LRU list; the class has no partial slab; slab 1 is
the first free memory slab, with the link fields `l1`; nothing has been
drained. -/
structure slab_filled (cid : Nat) (c : slabclass) (rest : List Nat)
    (l1 : Option Nat × Option Nat) (s : State) : Prop where
  pool : itemx_empty s = false
  cls : ∃ ck, s.ctable[cid]? = some ck ∧ ck.partial_msinfoq = [] ∧ ck.nitem = c.nitem ∧
    ck.size = c.size
  slab0 : s.stable[0]? = some ⟨0, 0, c.nitem, cid, true, [], none, none⟩
  slab1 : s.stable[1]? = some ⟨1, 1, 0, SLABCLASS_INVALID_ID, true, [], l1.1, l1.2⟩
  free : s.free_msinfoq = 1 :: rest
  full : s.full_msinfoq = [0]
  lruh : s.lruh = ⟨some 0, some 0⟩
  nflush : s.nflush = 0
  inrange : c.nitem = 1 → ∀ x, l1.1 = some x ∨ l1.2 = some x → x < s.stable.length

/-- The state `s1` arises from `s` by index lookups and removals: every bucket
chain of `s1` consists of entries of the chain of `s`, and the disk queues, the
eviction counters and the class counters other than `nused_item` are those of
`s`. -/
structure evict_frame (s s1 : State) : Prop where
  hash_power : s1.hash_power = s.hash_power
  free_d : s1.free_dsinfoq = s.free_dsinfoq
  nfree_d : s1.nfree_dsinfoq = s.nfree_dsinfoq
  full_d : s1.full_dsinfoq = s.full_dsinfoq
  nevict : s1.nevict = s.nevict
  classes : s1.ctable.map (fun c => (c.nevict, c.ndslab))
    = s.ctable.map (fun c => (c.nevict, c.ndslab))
  chains : ∀ b, List.Subperm (s1.itx_table b).stqh_first (s.itx_table b).stqh_first

/-- Scenario S3 with two items per slab: 512-byte slabs, one class of 200-byte
items, two memory slabs, two disk slabs, 16 index entries. -/
def cfg_s3 : settings :=
  { hash_power := 4, max_index_memory := 16 * sizeof_itemx, max_slab_memory := 1024,
    slab_size := 512, profile := [200], profile_last_id := 0, server_n := 1, server_id := 0,
    device_size := 1024 }

/-- Scenario S3 after four slabs have been filled (digests 101 to 108): slabs 0
and 1 are on disk, no disk slab is free, and the next allocation has to evict. -/
def s_s3 : State :=
  caller_sets (init cfg_s3 (fun _ => slab_zero) links_null)
    [(1, 101), (2, 102), (3, 103), (4, 104), (5, 105), (6, 106), (7, 107), (8, 108)]

/-- The byte at byte offset `x` from `mstart`: it is in the image of the
memory slab of address `x / slab_size`. -/
def mem_byte (s : State) (x : Nat) : Nat :=
  (s.mstart (x / s.slab_size)).bytes (x % s.slab_size)

/-- The byte at byte offset `x` of the device: it is in the slab image stored
at the start of the disk slab around `x`; disk slabs start at
`dstart + addr * slab_size`. -/
def dev_byte (s : State) (x : Nat) : Nat :=
  (s.disk (x - (x - s.dstart) % s.slab_size)).bytes ((x - s.dstart) % s.slab_size)

/-- Function `slab_read_item`.  The result is `none` for a `NULL` return, and
otherwise the contents of `readbuf` after the call together with the offset in
`readbuf` of the returned item pointer.  The macros `ROUND_DOWN` and `ROUND_UP`
are defined outside this module and are parameters, and so is the content of
`readbuf` before the call.  A `pread` that returns -1 passes the test
`n < aligned_size` like a complete one and leaves `readbuf` as it was. -/
def slab_read_item (ROUND_DOWN ROUND_UP : Nat → Nat → Nat) (readbuf : Nat → Nat)
    (s : State) (sid addr : Nat) : Except Fault (Option ((Nat → Nat) × Nat)) := do
  let sinfo ← tget s.stable sid
  let c ← tget s.ctable sinfo.cid
  if sinfo.mem = true then
    let off := sinfo.addr * s.slab_size + addr
    pure (some (fun i => if i < c.size then mem_byte s (off + i) else readbuf i, 0))
  else
    let off := slab_to_daddr s sinfo + addr
    let aligned_off := ROUND_DOWN off 512
    let aligned_size := ROUND_UP (c.size + (off - aligned_off)) 512
    let n := io_ret aligned_size s.pread_r
    let buf : Nat → Nat :=
      match s.pread_r with
      | .full => fun i => if i < aligned_size then dev_byte s (aligned_off + i) else readbuf i
      | .short _ img => img.bytes
      | .fail => readbuf
    if io_short n aligned_size = true then pure none else
    pure (some (buf, off - aligned_off))

/-- The `n` bytes of the item that `slab_read_item` returned: the bytes of the
buffer from the item pointer on. -/
def item_bytes (r : (Nat → Nat) × Nat) (n : Nat) : List Nat :=
  (List.range n).map (fun j => r.1 (r.2 + j))

/-- The small configuration with slab 0 full in memory, where the byte at
offset `i` of the memory slab is `i % 251`. -/
def s_bytes : State :=
  { s_fq with mstart := upd s_fq.mstart 0 { s_fq.mstart 0 with bytes := fun i => i % 251 } }

/-- The configuration of scenario S2: as in S1, with 256 index entries. -/
def cfg_s2 : settings :=
  { hash_power := 4, max_index_memory := 256 * sizeof_itemx, max_slab_memory := 8192,
    slab_size := 4096, profile := [64], profile_last_id := 0, server_n := 1, server_id := 0,
    device_size := 8192 }

/-- Scenario S2 after 63 + 63 stores (digest `100 + i` with hash `i`): the
memory slabs 0 and 1 are full, in this order on the memory-full queue and on
the LRU list; the disk slabs 2 and 3 are free. -/
def s_s2_full : State :=
  caller_sets (init cfg_s2 (fun _ => slab_zero) links_null) ((List.range 126).map (fun i => (i, 100 + i)))

/-- Scenario S2 after the 127th allocation, which drains slab 0. -/
def s_s2 : State := state_of (slab_get_item 3 s_s2_full 0 false) s_s2_full

/-- Modelled from the spec: macro `ROUND_DOWN(x, step)` of `fc_util.h`, which is
not part of these sources (§4.8, "round down to 512 B"): the largest multiple
of `step` that is at most `x`. -/
def ROUND_DOWN (x step : Nat) : Nat :=
  x / step * step

/-- Modelled from the spec: macro `ROUND_UP(x, step)` of `fc_util.h`, which is
not part of these sources (§4.8, "round up the span to 512 B"): the smallest
multiple of `step` that is at least `x`. -/
def ROUND_UP (x step : Nat) : Nat :=
  (x + step - 1) / step * step

/-- The state `s1` has the settings and the class constants of `s`: slab size,
device range, size of the index table, and `nitem` and `size` of every class. -/
structure const_frame (s s1 : State) : Prop where
  slab_size : s1.slab_size = s.slab_size
  dstart : s1.dstart = s.dstart
  hash_power : s1.hash_power = s.hash_power
  classes : s1.ctable.map (fun c => (c.nitem, c.size)) = s.ctable.map (fun c => (c.nitem, c.size))

/-- The small configuration after storing the digests 101 and 102 (slab 0
fills), removing the entry of 102 (a hole at slab index 1 of the full slab 0),
and storing 103 and 104: slab 0 has been drained to disk with its hole list
`[1]`, and slab 1 is full in memory. -/
def s_recycle : State :=
  caller_sets (state_of (itemx_removex s_fq 2 102) s_fq) [(3, 103), (4, 104)]

/-- The small configuration after one hot allocation of class 0: slab 0, the
only memory slab, is the hot slab. -/
def s_small_hot : State := state_of (slab_get_item 3 s_small 0 true) s_small

/-- The victim of `slab_evict`: the head of the LRU list of the disk tier, or
the head of the disk-full queue when that list is empty. -/
def evict_victim (s : State) : Option Nat :=
  match s.lruh_disk.head with
  | some h => some h
  | none => s.full_dsinfoq.head?

/-- The walk from `p` along the `next` links of the slab table: the slabs of an
LRU list from `p` on, for at most `fuel` steps; `none` when a link leaves the
table. -/
def lru_list (stable : List slabinfo) : Nat → Option Nat → Option (List Nat)
  | _, none => some []
  | 0, some _ => some []
  | fuel + 1, some p =>
    match stable[p]? with
    | none => none
    | some v => (lru_list stable fuel v.next).map (fun l => p :: l)

/-- The victim of a drain without LRU, "plain first-filled-first-drained": the
head of the memory-full queue. -/
def drain_victim_fifo (s : State) : Option Nat :=
  s.full_msinfoq.head?

/-- The states reachable from `s0` as in `Reach`, together with a bound on the
number of index entries removed on the way: an engine call that removes index
entries returns each of them to the free pool, and no engine call other than
`itemx_putx` takes an entry from the pool, so the removals of a call are the
growth of `free_itemxq`. -/
inductive ReachK (flaky : Bool) (s0 : State) : Nat → State → Prop
  | start : ReachK flaky s0 0 s0
  | get_item (k : Nat) (s s1 : State) (fuel cid : Nat) (update : Bool) (r : Option item_ptr) :
      ReachK flaky s0 k s → slab_get_item fuel s cid update = .ok (r, s1) →
      ReachK flaky s0 (k + (s1.free_itemxq.length - s.free_itemxq.length)) s1
  | getx (k : Nat) (s : State) (hash md : Nat) :
      ReachK flaky s0 k s → ReachK flaky s0 k (itemx_getx s hash md).2
  | putx (k : Nat) (s s1 : State) (hash md sid offset expiry cas : Nat) :
      ReachK flaky s0 k s → itemx_putx s hash md sid offset expiry cas = .ok s1 →
      ReachK flaky s0 k s1
  | removex (k : Nat) (s s1 : State) (hash md : Nat) (b : Bool) :
      ReachK flaky s0 k s → itemx_removex s hash md = .ok (b, s1) →
      ReachK flaky s0 (k + (s1.free_itemxq.length - s.free_itemxq.length)) s1
  | drain (k : Nat) (s s1 : State) (status : rstatus_t) :
      ReachK flaky s0 k s → slab_drain s = .ok (status, s1) →
      ReachK flaky s0 (k + (s1.free_itemxq.length - s.free_itemxq.length)) s1
  | evict (k : Nat) (s s1 : State) (status : rstatus_t) :
      ReachK flaky s0 k s → slab_evict s = .ok (status, s1) →
      ReachK flaky s0 (k + (s1.free_itemxq.length - s.free_itemxq.length)) s1
  | memory (k : Nat) (s : State) (m : Nat → slab) :
      ReachK flaky s0 k s → ReachK flaky s0 k { s with mstart := m }
  | device (k : Nat) (s : State) (r w : transfer) :
      flaky = true → ReachK flaky s0 k s →
      ReachK flaky s0 k { s with pread_r := r, pwrite_r := w }

/-- The hot slab and the item count of the classes. -/
def hot_view (ctable : List slabclass) : List (Option Nat × Nat) :=
  ctable.map (fun c => (c.hot_slabinfo, c.nitem))

/-- The class and the fill count of the table entries. -/
def fill_view (stable : List slabinfo) : List (Nat × Nat) :=
  stable.map (fun x => (x.cid, x.nalloc))

/-- The hot slab of every class is a slab of that class whose `nalloc` is below
the item count of the class, unless `nalloc` has wrapped below zero in one of
at most `k` removals. -/
def hot_inv (k : Nat) (s : State) : Prop :=
  ∀ (cid : Nat) (c : slabclass) (h : Nat), s.ctable[cid]? = some c → c.hot_slabinfo = some h →
    ∃ sinfo, s.stable[h]? = some sinfo ∧ sinfo.cid = cid ∧ sinfo.nalloc < 2 ^ 32 ∧
      (sinfo.nalloc < c.nitem ∨ 2 ^ 32 ≤ sinfo.nalloc + k)

/-- Every class holds at least one item per slab, and its item count fits the
`uint32_t` field `nitem`. -/
def nitem_ok (s : State) : Prop :=
  ∀ c ∈ s.ctable, 1 ≤ c.nitem ∧ c.nitem < 2 ^ 32

/-- The small configuration after storing the digests 101 and 102 under hash 1
(one bucket, 101 at the head) and four lookups of digest 102: the query counter
of bucket 1 stands at `HR_QUERY_THRESHOLD - 1`. -/
def s_miss : State :=
  [102, 102, 102, 102].foldl (fun s d => (itemx_getx s 1 d).2)
    (caller_sets s_small [(1, 101), (1, 102)])

/-- Store a series of `(update, hash, digest)` triples as items of class 0:
hot when `update` is set, cold otherwise. -/
def caller_stores (s : State) : List (Bool × Nat × Nat) → State
  | [] => s
  | (u, h, d) :: r => caller_stores (state_of (caller_set 3 s 0 u h d 0 0) s) r

/-- A configuration with three memory slabs and two disk slabs: 512-byte slabs,
one class of 200-byte items (two per slab), 16 index entries. -/
def cfg_hot : settings :=
  { hash_power := 4, max_index_memory := 16 * sizeof_itemx, max_slab_memory := 1536,
    slab_size := 512, profile := [200], profile_last_id := 0, server_n := 1, server_id := 0,
    device_size := 1024 }

/-- Allocated memory in which the `next` field of slabinfo 1 holds the address
of slabinfo 2 and every other link field holds `NULL`. -/
def links_hot : Nat → Option Nat × Option Nat :=
  fun i => if i = 1 then (none, some 2) else (none, none)

/-- The start state of the three-slab configuration on that memory. -/
def s_hot0 : State := init cfg_hot (fun _ => slab_zero) links_hot

/-- The state after two cold stores (slab 0 fills), one cold store (slab 1 is
the partial slab), one hot store (slab 2 is the hot slab) and one more cold
store, which fills slab 1. -/
def s_hot1 : State :=
  caller_stores s_hot0
    [(false, 1, 101), (false, 2, 102), (false, 3, 103), (true, 4, 104), (false, 5, 105)]

/-- The state after the next cold store, which has to drain a slab. -/
def s_hot2 : State := caller_stores s_hot1 [(false, 6, 106)]

/-- The state after the next hot store. -/
def s_hot3 : State := caller_stores s_hot2 [(true, 7, 107)]

/-- A configuration with two memory slabs and three disk slabs: 512-byte slabs,
one class of 200-byte items (two per slab), 16 index entries. -/
def cfg_addr : settings :=
  { hash_power := 4, max_index_memory := 16 * sizeof_itemx, max_slab_memory := 1024,
    slab_size := 512, profile := [200], profile_last_id := 0, server_n := 1, server_id := 0,
    device_size := 1536 }

/-- Allocated memory in which the `next` field of slabinfo 3 holds the address
of slabinfo 0 and every other link field holds `NULL`. -/
def links_addr : Nat → Option Nat × Option Nat :=
  fun i => if i = 3 then (none, some 0) else (none, none)

/-- The two-slab configuration on that memory after eight cold stores: slabs 0
and 1 have been drained to disk, slabs 2 and 3 are full in memory. -/
def s_addr1 : State :=
  caller_stores (init cfg_addr (fun _ => slab_zero) links_addr)
    [(false, 1, 101), (false, 2, 102), (false, 3, 103), (false, 4, 104), (false, 5, 105),
     (false, 6, 106), (false, 7, 107), (false, 8, 108)]

/-- The state after the ninth store, which has to drain a slab. -/
def s_addr2 : State := caller_stores s_addr1 [(false, 9, 109)]

/-- The state `s_bytes` on a device whose `pwrite` fails with -1. -/
def s_wneg : State := { s_bytes with pwrite_r := transfer.fail }

/-- Scenario S3 with two items per slab after ten stores: the ninth has evicted
disk slab 0 (digests 101 and 102) and drained slab 2 into its place, the tenth
has filled memory slab 0; the disk-full queue holds the slabs 1 and 2, no disk
slab is free, and the device then fails its reads with -1. -/
def s_rneg : State :=
  { caller_sets s_s3 [(9, 109), (10, 110)] with pread_r := transfer.fail }

/-- The read of `ctable[i]` when the memory behind the table is taken into
account: `past` is what the bytes that follow the last class hold, read as a
class, and is what `ctable[nctable]` yields. -/
def ctable_read (ctable : List slabclass) (past : slabclass) (i : Nat) :
    Except Fault slabclass :=
  if i = ctable.length then .ok past else tget ctable i

/-- The loop of `slab_cid`, as `slab_cid_loop`, on a table that is followed in
memory by `past`. -/
def slab_cid_loop_mem (ctable : List slabclass) (past : slabclass) (size : Nat) :
    Nat → Nat → Nat → Nat → Except Fault (Nat × Nat × Nat)
  | 0, _, _, _ => .error .no_fuel
  | fuel + 1, cid, imin, imax =>
    if imax ≥ imin then
      let cid := (imin + imax) / 2
      match ctable_read ctable past cid with
      | .error e => .error e
      | .ok c =>
        if size > c.size then
          slab_cid_loop_mem ctable past size fuel cid ((cid + 1) % 2 ^ 8) imax
        else if cid > SLABCLASS_MIN_ID then
          match ctable_read ctable past (cid - 1) with
          | .error e => .error e
          | .ok p =>
            if size ≤ p.size then
              slab_cid_loop_mem ctable past size fuel cid imin (cid - 1)
            else .ok (cid, imin, imax)
        else .ok (cid, imin, imax)
    else .ok (cid, imin, imax)

/-- Function `slab_cid`, as `slab_cid`, on a table that is followed in memory by
`past`; `fuel` bounds the rounds of the loop. -/
def slab_cid_mem (fuel : Nat) (s : State) (past : slabclass) (size : Nat) : Except Fault Nat := do
  let (cid, imin, imax) ← slab_cid_loop_mem s.ctable past size fuel 0 SLABCLASS_MIN_ID s.nctable
  if imin > imax then pure SLABCLASS_INVALID_ID else pure cid

/-- A configuration with the largest number of classes, 255, of the item sizes
16, 32, ..., 4080, in 4096-byte slabs. -/
def cfg_max : settings :=
  { hash_power := 4, max_index_memory := 16 * sizeof_itemx, max_slab_memory := 4096,
    slab_size := 4096, profile := (List.range 255).map (fun i => 16 * (i + 1)),
    profile_last_id := 254, server_n := 1, server_id := 0, device_size := 4096 }

/-- The start state of the configuration with 255 classes. -/
def s_max : State := init cfg_max (fun _ => slab_zero) links_null

/-- Zeroed memory, read as a class. -/
def class_zero : slabclass :=
  { nitem := 0, size := 0, slack := 0, partial_msinfoq := [], nmslab := 0, ndslab := 0,
    nevict := 0, nused_item := 0, hot_slabinfo := none }

/-- A complete transfer passes the test `n < size`. -/
theorem io_short_full (size : Nat) : io_short (io_ret size transfer.full) size = false := by
  have h : (((size : Int) % 2 ^ 64).toNat) = size % 2 ^ 64 := by
    have : ((size : Int) % 2 ^ 64) = ((size % 2 ^ 64 : Nat) : Int) := by
      push_cast
      rfl
    rw [this]
    exact Int.toNat_natCast _
  simp only [io_short, io_ret, h, decide_eq_false_iff_not, Nat.lt_irrefl, not_false_eq_true]

/-- A transfer that returns -1 passes the test `n < size`: -1 is `SIZE_MAX`
after the conversion. -/
theorem io_short_fail (size : Nat) : io_short (io_ret size transfer.fail) size = false := by
  have h : (((-1 : Int) % 2 ^ 64).toNat) = 2 ^ 64 - 1 := by decide
  have h2 : size % 2 ^ 64 < 2 ^ 64 := Nat.mod_lt _ (by norm_num)
  simp only [io_short, io_ret, h, decide_eq_false_iff_not]
  omega

/-! ## HotRing chains -/

theorem _hotring_get_fst (chain : List itemx) (d : Nat) (rm : Bool) :
    (_hotring_get chain d rm).1 = chain_find chain d := by
  induction chain with
  | nil => simp [_hotring_get, chain_find]
  | cons e rest ih =>
    unfold _hotring_get
    by_cases h : e.md = d
    · cases rm <;> simp [h, chain_find]
    · simp only [h, if_false]
      simpa [chain_find, h] using ih

theorem _hotring_get_snd_keep (chain : List itemx) (d : Nat) :
    (_hotring_get chain d false).2 = chain := by
  induction chain with
  | nil => simp [_hotring_get]
  | cons e rest ih =>
    unfold _hotring_get
    by_cases h : e.md = d
    · simp [h]
    · simp [h, ih]

theorem _hotring_get_snd_none (chain : List itemx) (d : Nat) (rm : Bool)
    (h : chain_find chain d = none) : (_hotring_get chain d rm).2 = chain := by
  induction chain with
  | nil => simp [_hotring_get]
  | cons e rest ih =>
    unfold _hotring_get
    by_cases he : e.md = d
    · simp [chain_find, he] at h
    · have h2 : chain_find rest d = none := by simpa [chain_find, he] using h
      simp [he, ih h2]

theorem _hotring_get_snd_rm (chain : List itemx) (d : Nat) (m : itemx)
    (h : chain_find chain d = some m) : (_hotring_get chain d true).2 = chain.erase m := by
  induction chain with
  | nil => simp [chain_find] at h
  | cons e rest ih =>
    unfold _hotring_get
    by_cases he : e.md = d
    · have : e = m := by simpa [chain_find, he] using h
      subst this
      simp [he]
    · have h2 : chain_find rest d = some m := by simpa [chain_find, he] using h
      have hm : m.md = d := by
        have := List.find?_some h2
        simpa using this
      have hne : e ≠ m := fun hem => he (hem ▸ hm)
      simp [he, ih h2, List.erase_cons_tail, hne]

theorem chain_find_md {chain : List itemx} {d : Nat} {m : itemx}
    (h : chain_find chain d = some m) : m.md = d := by
  have := List.find?_some h
  simpa using this

theorem chain_find_mem {chain : List itemx} {d : Nat} {m : itemx}
    (h : chain_find chain d = some m) : m ∈ chain :=
  List.mem_of_find?_eq_some h

theorem chain_find_none {chain : List itemx} {d : Nat} :
    chain_find chain d = none ↔ ∀ e ∈ chain, e.md ≠ d := by
  simp [chain_find, List.find?_eq_none]

/-- A lookup that matches the head: the head is returned, nothing changes. -/
theorem hotring_get_head (n : Nat) (hd : itemx) (tl : List itemx) (d : Nat) (h : hd.md = d) :
    hotring_get { stqh_first := hd :: tl, nhr_queries := n } d
      = (some hd, { stqh_first := hd :: tl, nhr_queries := n }) := by
  simp [hotring_get, h]

/-- A lookup that matches nothing: `NULL` is returned, nothing changes. -/
theorem hotring_get_miss (b : itemx_tqh) (d : Nat) (h : chain_find b.stqh_first d = none) :
    hotring_get b d = (none, b) := by
  obtain ⟨chain, n⟩ := b
  cases chain with
  | nil => simp [hotring_get]
  | cons hd tl =>
    have hhd : hd.md ≠ d := by
      intro e; simp [chain_find, e] at h
    have htl : chain_find tl d = none := by simpa [chain_find, hhd] using h
    simp [hotring_get, hhd, _hotring_get_fst, htl, _hotring_get_snd_none]

/-- A non-head hit below the threshold: the chain stays, the counter grows. -/
theorem hotring_get_count (n : Nat) (hd : itemx) (tl : List itemx) (d : Nat) (m : itemx)
    (hn : n ≠ HR_QUERY_THRESHOLD - 1) (hhd : hd.md ≠ d) (hm : chain_find tl d = some m) :
    hotring_get { stqh_first := hd :: tl, nhr_queries := n } d
      = (some m, { stqh_first := hd :: tl, nhr_queries := (n + 1) % 256 }) := by
  simp [hotring_get, hhd, _hotring_get_fst, hm, hn, _hotring_get_snd_keep]

/-- A non-head hit at the threshold: the match becomes the head. -/
theorem hotring_get_promote (hd : itemx) (tl : List itemx) (d : Nat) (m : itemx)
    (hhd : hd.md ≠ d) (hm : chain_find tl d = some m) :
    hotring_get { stqh_first := hd :: tl, nhr_queries := HR_QUERY_THRESHOLD - 1 } d
      = (some m, { stqh_first := m :: hd :: tl.erase m, nhr_queries := 0 }) := by
  simp [hotring_get, hhd, _hotring_get_fst, hm, _hotring_get_snd_rm tl d m hm]

theorem hotring_lookups_count (hd : itemx) (tl : List itemx) (ds : List Nat)
    (hds : ∀ q ∈ ds, hd.md ≠ q ∧ (chain_find tl q).isSome) (n : Nat)
    (hn : n + ds.length ≤ HR_QUERY_THRESHOLD - 1) :
    hotring_lookups { stqh_first := hd :: tl, nhr_queries := n } ds
      = { stqh_first := hd :: tl, nhr_queries := n + ds.length } := by
  induction ds generalizing n with
  | nil => simp [hotring_lookups]
  | cons q rest ih =>
    obtain ⟨hq, hsome⟩ := hds q (List.mem_cons_self _ _)
    obtain ⟨m, hm⟩ := Option.isSome_iff_exists.mp hsome
    simp only [List.length_cons, HR_QUERY_THRESHOLD] at hn
    have hne : n ≠ HR_QUERY_THRESHOLD - 1 := by simp only [HR_QUERY_THRESHOLD]; omega
    have hstep := hotring_get_count n hd tl q m hne hq hm
    have hmod : (n + 1) % 256 = n + 1 := by omega
    have hrest := ih (fun x hx => hds x (List.mem_cons_of_mem _ hx)) (n + 1)
      (by simp only [HR_QUERY_THRESHOLD]; omega)
    simp only [hotring_lookups, List.foldl_cons, hstep, hmod] at hrest ⊢
    rw [hrest]
    simp only [List.length_cons]
    congr 1
    omega

/-- C4. HotRing threshold: from a bucket whose query counter is 0, any
`HR_QUERY_THRESHOLD - 1 = 4` lookups that each match a non-head entry leave the
chain as it was, the counter being `k` after the first `k` of them; the next
such lookup returns its match `m`, makes `m` the head with the previous head
directly after it and the other entries in their old order, and resets the
counter to 0. -/
theorem hotring_threshold (hd : itemx) (tl : List itemx) (ds : List Nat) (d : Nat) (m : itemx)
    (hlen : ds.length = HR_QUERY_THRESHOLD - 1)
    (hds : ∀ q ∈ ds, hd.md ≠ q ∧ (chain_find tl q).isSome)
    (hhd : hd.md ≠ d) (hm : chain_find tl d = some m) :
    (∀ k, k ≤ HR_QUERY_THRESHOLD - 1 →
      hotring_lookups { stqh_first := hd :: tl, nhr_queries := 0 } (ds.take k)
        = { stqh_first := hd :: tl, nhr_queries := k }) ∧
    hotring_get (hotring_lookups { stqh_first := hd :: tl, nhr_queries := 0 } ds) d
      = (some m, { stqh_first := m :: hd :: tl.erase m, nhr_queries := 0 }) := by
  constructor
  · intro k hk
    have hl : (ds.take k).length = k := by
      rw [List.length_take]; omega
    have := hotring_lookups_count hd tl (ds.take k)
      (fun q hq => hds q (List.mem_of_mem_take hq)) 0 (by omega)
    rw [this, hl]; simp
  · have := hotring_lookups_count hd tl ds hds 0 (by omega)
    rw [this, hlen]
    simpa using hotring_get_promote hd tl d m hhd hm

/-- C4, scenario S4: on the chain `[D1, D3, D2]` (digests 1, 3, 2) four lookups
of `D2` keep the chain and the fifth gives `[D2, D1, D3]` with counter 0. -/
theorem hotring_threshold_witness :
    hotring_lookups { stqh_first := [⟨1, 0, 0, 0, 0⟩, ⟨3, 0, 0, 0, 0⟩, ⟨2, 0, 0, 0, 0⟩],
                      nhr_queries := 0 } [2, 2, 2, 2]
      = { stqh_first := [⟨1, 0, 0, 0, 0⟩, ⟨3, 0, 0, 0, 0⟩, ⟨2, 0, 0, 0, 0⟩], nhr_queries := 4 } ∧
    hotring_get (hotring_lookups
        { stqh_first := [⟨1, 0, 0, 0, 0⟩, ⟨3, 0, 0, 0, 0⟩, ⟨2, 0, 0, 0, 0⟩],
          nhr_queries := 0 } [2, 2, 2, 2]) 2
      = (some ⟨2, 0, 0, 0, 0⟩,
         { stqh_first := [⟨2, 0, 0, 0, 0⟩, ⟨1, 0, 0, 0, 0⟩, ⟨3, 0, 0, 0, 0⟩],
           nhr_queries := 0 }) := by
  have h := hotring_threshold ⟨1, 0, 0, 0, 0⟩ [⟨3, 0, 0, 0, 0⟩, ⟨2, 0, 0, 0, 0⟩] [2, 2, 2, 2] 2
    ⟨2, 0, 0, 0, 0⟩ (by decide) (by decide) (by decide) (by decide)
  exact ⟨h.1 4 (by decide), h.2⟩

/-- C5. Insert position: `hotring_insert` keeps the bucket counter; into an
empty bucket the new entry becomes the head; into a chain `h :: rs` it yields
`h :: new :: rs`. -/
theorem hotring_insert_position (b : itemx_tqh) (new : itemx) :
    (hotring_insert b new).nhr_queries = b.nhr_queries ∧
    (b.stqh_first = [] → (hotring_insert b new).stqh_first = [new]) ∧
    (∀ h rs, b.stqh_first = h :: rs → (hotring_insert b new).stqh_first = h :: new :: rs) := by
  obtain ⟨chain, n⟩ := b
  cases chain with
  | nil => simp [hotring_insert]
  | cons h rs => simp [hotring_insert]

/-- C5, scenario S4: inserting `D1`, `D2`, `D3` in that order into an empty
bucket gives the chain `[D1, D3, D2]`. -/
theorem hotring_insert_position_witness :
    (hotring_insert (hotring_insert (hotring_insert { stqh_first := [], nhr_queries := 0 }
        ⟨1, 0, 0, 0, 0⟩) ⟨2, 0, 0, 0, 0⟩) ⟨3, 0, 0, 0, 0⟩).stqh_first
      = [⟨1, 0, 0, 0, 0⟩, ⟨3, 0, 0, 0, 0⟩, ⟨2, 0, 0, 0, 0⟩] :=
  (hotring_insert_position _ ⟨3, 0, 0, 0, 0⟩).2.2 ⟨1, 0, 0, 0, 0⟩ [⟨2, 0, 0, 0, 0⟩] (by decide)

/-! ## Lookup and insert -/

theorem chain_find_erase (chain : List itemx) (m : itemx) (d : Nat) (h : m.md ≠ d) :
    chain_find (chain.erase m) d = chain_find chain d := by
  induction chain with
  | nil => rfl
  | cons e rest ih =>
    by_cases hem : e = m
    · subst hem
      simp [chain_find, h]
    · rw [List.erase_cons_tail (by simpa using hem)]
      by_cases hed : e.md = d
      · simp [chain_find, hed]
      · simpa [chain_find, hed] using ih

/-- The four ways a lookup can go. -/
theorem hotring_get_cases (b : itemx_tqh) (d : Nat) :
    (chain_find b.stqh_first d = none ∧ hotring_get b d = (none, b)) ∨
    (∃ hd tl, b.stqh_first = hd :: tl ∧ hd.md = d ∧ hotring_get b d = (some hd, b)) ∨
    (∃ hd tl m, b.stqh_first = hd :: tl ∧ hd.md ≠ d ∧ chain_find tl d = some m ∧
      b.nhr_queries ≠ HR_QUERY_THRESHOLD - 1 ∧
      hotring_get b d
        = (some m, { stqh_first := hd :: tl, nhr_queries := (b.nhr_queries + 1) % 256 })) ∨
    (∃ hd tl m, b.stqh_first = hd :: tl ∧ hd.md ≠ d ∧ chain_find tl d = some m ∧
      b.nhr_queries = HR_QUERY_THRESHOLD - 1 ∧
      hotring_get b d = (some m, { stqh_first := m :: hd :: tl.erase m, nhr_queries := 0 })) := by
  cases hfind : chain_find b.stqh_first d with
  | none => exact Or.inl ⟨rfl, hotring_get_miss b d hfind⟩
  | some m =>
    right
    obtain ⟨chain, n⟩ := b
    cases chain with
    | nil => simp [chain_find] at hfind
    | cons hd tl =>
      by_cases hhd : hd.md = d
      · exact Or.inl ⟨hd, tl, rfl, hhd, hotring_get_head n hd tl d hhd⟩
      · right
        have hm : chain_find tl d = some m := by simpa [chain_find, hhd] using hfind
        by_cases hn : n = HR_QUERY_THRESHOLD - 1
        · subst hn
          exact Or.inr ⟨hd, tl, m, rfl, hhd, hm, rfl, hotring_get_promote hd tl d m hhd hm⟩
        · exact Or.inl ⟨hd, tl, m, rfl, hhd, hm, hn, hotring_get_count n hd tl d m hn hhd hm⟩

/-- A lookup returns the first entry of the chain that carries the digest. -/
theorem hotring_get_fst (b : itemx_tqh) (d : Nat) :
    (hotring_get b d).1 = chain_find b.stqh_first d := by
  rcases hotring_get_cases b d with ⟨h, e⟩ | ⟨hd, tl, hb, hhd, e⟩ | ⟨hd, tl, m, hb, hhd, hm, _, e⟩ |
    ⟨hd, tl, m, hb, hhd, hm, _, e⟩
  · rw [e, h]
  · rw [e, hb]; simp [chain_find, hhd]
  · rw [e, hb]; simp [chain_find, hhd]; exact hm.symm
  · rw [e, hb]; simp [chain_find, hhd]; exact hm.symm

/-- A lookup keeps the entries of the chain. -/
theorem hotring_get_perm (b : itemx_tqh) (d : Nat) :
    List.Perm (hotring_get b d).2.stqh_first b.stqh_first := by
  rcases hotring_get_cases b d with ⟨h, e⟩ | ⟨hd, tl, hb, hhd, e⟩ | ⟨hd, tl, m, hb, hhd, hm, _, e⟩ |
    ⟨hd, tl, m, hb, hhd, hm, _, e⟩
  · rw [e]
  · rw [e]
  · rw [e, hb]
  · rw [e, hb]
    have h1 : List.Perm tl (m :: tl.erase m) := List.perm_cons_erase (chain_find_mem hm)
    exact ((List.Perm.cons hd h1).trans (List.Perm.swap m hd _)).symm

/-- After a lookup every digest is still found at the same entry. -/
theorem chain_find_hotring_get (b : itemx_tqh) (d q : Nat) :
    chain_find (hotring_get b d).2.stqh_first q = chain_find b.stqh_first q := by
  rcases hotring_get_cases b d with ⟨h, e⟩ | ⟨hd, tl, hb, hhd, e⟩ | ⟨hd, tl, m, hb, hhd, hm, _, e⟩ |
    ⟨hd, tl, m, hb, hhd, hm, _, e⟩
  · rw [e]
  · rw [e]
  · rw [e, hb]
  · rw [e, hb]
    have hmd := chain_find_md hm
    by_cases hq : q = d
    · subst hq
      simp [chain_find, hmd, hhd]
      exact hm.symm
    · have hmq : m.md ≠ q := fun h => hq (h.symm.trans hmd)
      have := chain_find_erase tl m q hmq
      by_cases hhq : hd.md = q
      · simp [chain_find, hmq, hhq]
      · simpa [chain_find, hmq, hhq] using this

theorem upd_same {α : Type} (f : Nat → α) (i : Nat) (v : α) : upd f i v i = v := by
  simp [upd]

theorem upd_ne {α : Type} (f : Nat → α) (i j : Nat) (v : α) (h : j ≠ i) : upd f i v j = f j := by
  simp [upd, h]

theorem tget_ok {α : Type} {tbl : List α} {i : Nat} {x : α} (h : tbl[i]? = some x) :
    tget tbl i = .ok x := by
  simp [tget, h]

theorem tget_ok_iff {α : Type} {tbl : List α} {i : Nat} {x : α} :
    tget tbl i = .ok x ↔ tbl[i]? = some x := by
  unfold tget
  cases h : tbl[i]? <;> simp

/-- The lookup result of `itemx_getx` is the first entry of the bucket chain
that carries the digest. -/
theorem itemx_getx_fst (s : State) (hash md : Nat) :
    (itemx_getx s hash md).1 = chain_find (s.itx_table (itemx_bucket s hash)).stqh_first md := by
  simp [itemx_getx, hotring_get_fst]

/-- The state after a successful `itemx_putx`. -/
theorem itemx_putx_eq (s : State) (hash md sid offset expiry cas : Nat)
    (e : itemx) (rest : List itemx) (sinfo : slabinfo) (c : slabclass)
    (hpool : s.free_itemxq = e :: rest)
    (hsid : s.stable[sid]? = some sinfo) (hcid : s.ctable[sinfo.cid]? = some c) :
    itemx_putx s hash md sid offset expiry cas = .ok
      { s with nfree_itemxq := wrap_dec 64 s.nfree_itemxq,
               free_itemxq := rest,
               nitx := (s.nitx + 1) % 2 ^ 64,
               itx_table := upd s.itx_table (itemx_bucket s hash)
                 (hotring_insert (s.itx_table (itemx_bucket s hash))
                   ⟨md, sid, offset, expiry, cas⟩),
               ctable := s.ctable.set sinfo.cid
                 { c with nused_item := (((c.nused_item : Int) + 1) % 2 ^ 64).toNat } } := by
  simp [itemx_putx, itemx_get, deref, hpool, slab_incr_chunks_by_sid, tget, hsid, hcid,
    bind, Except.bind, pure, Except.pure, itemx_bucket]

theorem chain_find_hotring_insert_ne (b : itemx_tqh) (new : itemx) (q : Nat) (h : new.md ≠ q) :
    chain_find (hotring_insert b new).stqh_first q = chain_find b.stqh_first q := by
  obtain ⟨chain, n⟩ := b
  cases chain with
  | nil => simp [hotring_insert, chain_find, h]
  | cons hd tl =>
    by_cases hhd : hd.md = q
    · simp [hotring_insert, chain_find, hhd]
    · simp [hotring_insert, chain_find, hhd, h]

theorem chain_find_hotring_insert_eq (b : itemx_tqh) (new : itemx)
    (h : chain_find b.stqh_first new.md = none) :
    chain_find (hotring_insert b new).stqh_first new.md = some new := by
  obtain ⟨chain, n⟩ := b
  cases chain with
  | nil => simp [hotring_insert, chain_find]
  | cons hd tl =>
    have hhd : hd.md ≠ new.md := by
      intro e; simp [chain_find, e] at h
    simp [hotring_insert, chain_find, hhd]

/-- C2. Insert/lookup round trip: in a state whose free pool is not empty, in
which a lookup of `(hash, md)` finds nothing, and for a `sid` that names a slab
of a valid class, `itemx_putx` succeeds; afterwards `itemx_getx hash md`
returns the entry with exactly the digest, sid, offset, expiry and cas passed
to the insert, and the lookup of any other digest in any bucket returns the
same entry as it did before the insert. -/
theorem itemx_putx_getx (s : State) (hash md sid offset expiry cas : Nat)
    (hpool : itemx_empty s = false)
    (habs : (itemx_getx s hash md).1 = none)
    (hsid : ∃ sinfo c, s.stable[sid]? = some sinfo ∧ s.ctable[sinfo.cid]? = some c) :
    ∃ s1, itemx_putx s hash md sid offset expiry cas = .ok s1 ∧
      (itemx_getx s1 hash md).1 = some ⟨md, sid, offset, expiry, cas⟩ ∧
      ∀ hash1 md1, md1 ≠ md → (itemx_getx s1 hash1 md1).1 = (itemx_getx s hash1 md1).1 := by
  obtain ⟨sinfo, c, hs, hc⟩ := hsid
  have hne : s.free_itemxq ≠ [] := by
    intro h; simp [itemx_empty, h] at hpool
  obtain ⟨e, rest, hpool1⟩ := List.exists_cons_of_ne_nil hne
  rw [itemx_getx_fst] at habs
  refine ⟨_, itemx_putx_eq s hash md sid offset expiry cas e rest sinfo c hpool1 hs hc, ?_, ?_⟩
  · rw [itemx_getx_fst]
    simp only [itemx_bucket, upd_same]
    exact chain_find_hotring_insert_eq _ ⟨md, sid, offset, expiry, cas⟩ habs
  · intro hash1 md1 hmd
    rw [itemx_getx_fst, itemx_getx_fst]
    simp only [itemx_bucket]
    by_cases hb : hash1 % 2 ^ s.hash_power = hash % 2 ^ s.hash_power
    · rw [hb, upd_same]
      exact chain_find_hotring_insert_ne _ ⟨md, sid, offset, expiry, cas⟩ md1 (Ne.symm hmd)
    · rw [upd_ne _ _ _ _ hb]

/-- C2 at a concrete state: after one allocation in the small configuration,
inserting digest 101 under hash 1 for slab 0. -/
theorem itemx_putx_getx_witness :
    ∃ s1, itemx_putx s_small_alloc 1 101 0 12 7 9 = .ok s1 ∧
      (itemx_getx s1 1 101).1 = some ⟨101, 0, 12, 7, 9⟩ ∧
      ∀ hash1 md1, md1 ≠ 101 →
        (itemx_getx s1 hash1 md1).1 = (itemx_getx s_small_alloc hash1 md1).1 :=
  itemx_putx_getx s_small_alloc 1 101 0 12 7 9 (by decide) (by decide) ⟨_, _, rfl, rfl⟩

/-! ## Remove -/

theorem upd_upd {α : Type} (f : Nat → α) (i : Nat) (v w : α) :
    upd (upd f i v) i w = upd f i w := by
  funext j
  simp only [upd]
  split <;> rfl

/-- The state after a successful `itemx_removex` of the entry `m`. -/
theorem itemx_removex_eq (s : State) (hash md : Nat) (m : itemx) (sinfo : slabinfo)
    (c : slabclass)
    (hfind : chain_find (s.itx_table (itemx_bucket s hash)).stqh_first md = some m)
    (hsid : s.stable[m.sid]? = some sinfo) (hcid : s.ctable[sinfo.cid]? = some c)
    (hsize : sinfo.mem = true → c.size ≠ 0) :
    itemx_removex s hash md = .ok (true, state_after_remove s hash md m sinfo c) := by
  unfold state_after_remove
  have hlt : m.sid < s.stable.length := by
    rcases Nat.lt_or_ge m.sid s.stable.length with h | h
    · exact h
    · rw [List.getElem?_eq_none h] at hsid; cases hsid
  have hfst : (hotring_get (s.itx_table (itemx_bucket s hash)) md).1 = some m := by
    rw [hotring_get_fst, hfind]
  simp only [itemx_bucket] at hfst
  cases hmem : sinfo.mem with
  | false =>
    simp only [itemx_removex, itemx_getx, itemx_bucket, hfst, sid_to_sinfo, tget, hsid, hmem, hcid,
      slab_incr_chunks_by_sid, itemx_put, STAILQ_REMOVE, bind, Except.bind, pure, Except.pure,
      upd_same, upd_upd, stable_after_remove, Bool.false_eq_true, if_false]
  | true =>
    have hs := hsize hmem
    simp only [itemx_removex, itemx_getx, itemx_bucket, hfst, sid_to_sinfo, tget, hsid, hmem, hcid,
      slab_incr_chunks_by_sid, itemx_put, STAILQ_REMOVE, bind, Except.bind, pure, Except.pure,
      upd_same, upd_upd, stable_after_remove, if_true, itemx_removex_hole, cid_to_size, hs,
      if_false, List.getElem?_set_self hlt]

theorem chain_find_erase_self (chain : List itemx) (m : itemx) (d : Nat)
    (hnodup : (chain.map itemx.md).Nodup) (hm : m ∈ chain) (hd : m.md = d) :
    chain_find (chain.erase m) d = none := by
  rw [chain_find_none]
  intro e he hed
  have hnd : chain.Nodup := List.Nodup.of_map _ hnodup
  have hmem := (List.Nodup.mem_erase_iff hnd).mp he
  have : e = m := List.inj_on_of_nodup_map hnodup hmem.2 hm (hed.trans hd.symm)
  exact hmem.1 this

theorem item_size_get (s : State) (i : Nat) (h : i < s.ctable.length) :
    ∃ c, tget s.ctable i = .ok c ∧ c.size = item_size s i := by
  refine ⟨s.ctable[i], ?_, ?_⟩
  · exact tget_ok (List.getElem?_eq_getElem h)
  · simp [item_size, List.getElem?_eq_getElem h]

/-- The binary search finds the least class `t` that can hold `size`. -/
theorem slab_cid_loop_found (s : State) (size t : Nat)
    (hlen : s.ctable.length ≤ 255)
    (ht : t < s.ctable.length) (htge : size ≤ item_size s t)
    (htmin : ∀ j, j < t → item_size s j < size)
    (hmono : ∀ i j, i ≤ j → j < s.ctable.length → item_size s i ≤ item_size s j) :
    ∀ fuel cid imin imax, imin ≤ t → t ≤ imax → imax ≤ s.ctable.length → imax - imin < fuel →
      ∃ imin1 imax1, slab_cid_loop s.ctable size fuel cid imin imax = .ok (t, imin1, imax1) ∧
        imin1 ≤ imax1 := by
  intro fuel
  induction fuel with
  | zero => intro cid imin imax _ _ _ h; omega
  | succ fuel ih =>
    intro cid imin imax h1 h2 h3 h4
    have hmid : (imin + imax) / 2 < s.ctable.length := by omega
    obtain ⟨c, hc, hcs⟩ := item_size_get s _ hmid
    rw [slab_cid_loop]
    simp only [ge_iff_le, show imin ≤ imax from by omega, if_true, hc]
    by_cases hgt : size > c.size
    · have htm : (imin + imax) / 2 < t := by
        by_contra hcon
        have := hmono t ((imin + imax) / 2) (by omega) hmid
        omega
      have hwrap : ((imin + imax) / 2 + 1) % 2 ^ 8 = (imin + imax) / 2 + 1 := by
        apply Nat.mod_eq_of_lt
        norm_num
        omega
      simp only [hgt, if_true, hwrap]
      exact ih _ _ _ (by omega) h2 h3 (by omega)
    · have htm : t ≤ (imin + imax) / 2 := by
        by_contra hcon
        have := htmin ((imin + imax) / 2) (by omega)
        omega
      simp only [hgt, if_false, SLABCLASS_MIN_ID]
      by_cases hpos : (imin + imax) / 2 > 0
      · obtain ⟨p, hp, hps⟩ := item_size_get s ((imin + imax) / 2 - 1) (by omega)
        simp only [hpos, if_true, hp]
        by_cases hle : size ≤ p.size
        · have : t ≤ (imin + imax) / 2 - 1 := by
            by_contra hcon
            have := htmin ((imin + imax) / 2 - 1) (by omega)
            omega
          simp only [hle, if_true]
          exact ih _ _ _ h1 this (by omega) (by omega)
        · have : t = (imin + imax) / 2 := by
            by_contra hcon
            have := hmono t ((imin + imax) / 2 - 1) (by omega) (by omega)
            omega
          simp only [hle, if_false]
          exact ⟨imin, imax, by rw [this], by omega⟩
      · have : t = (imin + imax) / 2 := by omega
        simp only [hpos, if_false]
        exact ⟨imin, imax, by rw [this], by omega⟩

theorem item_size_mono (s : State)
    (hinc : ∀ i j, i < j → j < s.ctable.length → item_size s i < item_size s j) :
    ∀ i j, i ≤ j → j < s.ctable.length → item_size s i ≤ item_size s j := by
  intro i j hij hj
  rcases Nat.eq_or_lt_of_le hij with h | h
  · rw [h]
  · exact Nat.le_of_lt (hinc i j h hj)

/-- In-range lookups return the least class that can hold the size. -/
theorem slab_cid_least (s : State) (size : Nat)
    (hn : s.nctable = s.ctable.length) (h1 : 1 ≤ s.nctable) (h255 : s.nctable ≤ 255)
    (hinc : ∀ i j, i < j → j < s.nctable → item_size s i < item_size s j)
    (hle : size ≤ item_size s (s.nctable - 1)) :
    ∃ cid, slab_cid s size = .ok cid ∧ cid < s.nctable ∧ size ≤ item_size s cid ∧
      ∀ j, j < cid → item_size s j < size := by
  have hex : ∃ i, size ≤ item_size s i := ⟨_, hle⟩
  have htge := Nat.find_spec hex
  have htle : Nat.find hex ≤ s.nctable - 1 := Nat.find_min' hex hle
  have htmin : ∀ j, j < Nat.find hex → item_size s j < size := by
    intro j hj
    exact Nat.lt_of_not_le (Nat.find_min hex hj)
  obtain ⟨imin1, imax1, hloop, hle1⟩ := slab_cid_loop_found s size (Nat.find hex)
    (by omega) (by omega) htge htmin (item_size_mono s (by rw [← hn]; exact hinc))
    257 0 SLABCLASS_MIN_ID s.nctable (by simp [SLABCLASS_MIN_ID]) (by omega) (by omega)
    (by simp only [SLABCLASS_MIN_ID]; omega)
  refine ⟨Nat.find hex, ?_, by omega, htge, htmin⟩
  simp only [slab_cid, hloop, bind, Except.bind, pure, Except.pure, gt_iff_lt,
    show ¬ imax1 < imin1 from by omega, if_false]

/-- C6. For a class table of `n` classes, `1 ≤ n ≤ 255`, with strictly
increasing item sizes, and a size that is at most the item size of the last
class, `slab_cid` returns the smallest class id whose item size is at least
`size`. -/
theorem slab_cid_smallest (s : State) (size : Nat)
    (hn : s.nctable = s.ctable.length) (h1 : 1 ≤ s.nctable) (h255 : s.nctable ≤ 255)
    (hinc : ∀ i j, i < j → j < s.nctable → item_size s i < item_size s j)
    (hle : size ≤ item_size s (s.nctable - 1)) :
    ∃ cid, slab_cid s size = .ok cid ∧ cid < s.nctable ∧ size ≤ item_size s cid ∧
      ∀ j, j < cid → item_size s j < size :=
  slab_cid_least s size hn h1 h255 hinc hle

/-- C6 on the table with the item sizes 64, 128 and 256, for size 100. -/
theorem slab_cid_smallest_witness :
    ∃ cid, slab_cid s_three 100 = .ok cid ∧ cid < 3 ∧ 100 ≤ item_size s_three cid ∧
      ∀ j, j < cid → item_size s_three j < 100 :=
  slab_cid_smallest s_three 100 (by decide) (by decide) (by decide)
    (by
      intro i j hij hj
      have hj3 : j < 3 := hj
      interval_cases j <;> interval_cases i <;> decide)
    (by decide)

/-- Monotonicity of `slab_cid` on sizes that some class can hold. -/
theorem slab_cid_mono_in_range (s : State) (size1 size2 : Nat)
    (hn : s.nctable = s.ctable.length) (h1 : 1 ≤ s.nctable) (h255 : s.nctable ≤ 255)
    (hinc : ∀ i j, i < j → j < s.nctable → item_size s i < item_size s j)
    (h12 : size1 ≤ size2) (hle : size2 ≤ item_size s (s.nctable - 1)) :
    ∃ cid1 cid2, slab_cid s size1 = .ok cid1 ∧ slab_cid s size2 = .ok cid2 ∧ cid1 ≤ cid2 := by
  obtain ⟨c1, e1, _, _, hmin1⟩ := slab_cid_least s size1 hn h1 h255 hinc (by omega)
  obtain ⟨c2, e2, _, hge2, _⟩ := slab_cid_least s size2 hn h1 h255 hinc hle
  refine ⟨c1, c2, e1, e2, ?_⟩
  by_contra hcon
  have := hmin1 c2 (by omega)
  omega

/-- For a size that no class can hold the search reaches `cid = nctable` and
reads `ctable[nctable]`. -/
theorem slab_cid_loop_oversize (s : State) (size : Nat)
    (hlen : s.ctable.length ≤ 255)
    (hall : ∀ j, j < s.ctable.length → item_size s j < size) :
    ∀ fuel cid imin, imin ≤ s.ctable.length → s.ctable.length - imin < fuel →
      slab_cid_loop s.ctable size fuel cid imin s.ctable.length = .error .out_of_bounds := by
  intro fuel
  induction fuel with
  | zero => intro cid imin _ h; omega
  | succ fuel ih =>
    intro cid imin h1 h2
    rw [slab_cid_loop]
    simp only [ge_iff_le, h1, if_true]
    by_cases hmid : (imin + s.ctable.length) / 2 < s.ctable.length
    · obtain ⟨c, hc, hcs⟩ := item_size_get s _ hmid
      have hgt : size > c.size := by
        have := hall _ hmid
        omega
      have hwrap : ((imin + s.ctable.length) / 2 + 1) % 2 ^ 8
          = (imin + s.ctable.length) / 2 + 1 := by
        apply Nat.mod_eq_of_lt
        norm_num
        omega
      simp only [hc, hgt, if_true, hwrap]
      exact ih _ _ (by omega) (by omega)
    · have hnone : s.ctable[(imin + s.ctable.length) / 2]? = none :=
        List.getElem?_eq_none (by omega)
      simp only [tget, hnone]

/-- C7. For every class table of `n` classes, `1 ≤ n ≤ 255`, with strictly
increasing item sizes and every size greater than the last class's item size,
`slab_cid` does not return `SLABCLASS_INVALID_ID` from reads inside the table:
its search starts with `imax = nctable` and ends by reading `ctable[nctable]`,
one entry past the end of the table. -/
theorem slab_cid_oversize (s : State) (size : Nat)
    (hn : s.nctable = s.ctable.length) (h1 : 1 ≤ s.nctable) (h255 : s.nctable ≤ 255)
    (hinc : ∀ i j, i < j → j < s.nctable → item_size s i < item_size s j)
    (hgt : item_size s (s.nctable - 1) < size) :
    slab_cid s size = .error .out_of_bounds := by
  have hall : ∀ j, j < s.ctable.length → item_size s j < size := by
    intro j hj
    have := item_size_mono s (by rw [← hn]; exact hinc) j (s.nctable - 1) (by omega) (by omega)
    omega
  have := slab_cid_loop_oversize s size (by omega) hall 257 0 SLABCLASS_MIN_ID
    (by simp [SLABCLASS_MIN_ID]) (by simp only [SLABCLASS_MIN_ID]; omega)
  simp only [slab_cid, hn, this, bind, Except.bind]

/-- C7 on the table with the item sizes 64, 128 and 256, for size 300. -/
theorem slab_cid_oversize_witness : slab_cid s_three 300 = .error .out_of_bounds :=
  slab_cid_oversize s_three 300 (by decide) (by decide) (by decide)
    (by
      intro i j hij hj
      have hj3 : j < 3 := hj
      interval_cases j <;> interval_cases i <;> decide)
    (by decide)

/-- Lookups of the sizes 64 and 300 on the table with the item sizes 64, 128
and 256: the first returns class 0, the second reads the entry behind the last
class of the table. -/
theorem slab_cid_mono_fails :
    slab_cid s_three 64 = .ok 0 ∧ slab_cid s_three 300 = .error .out_of_bounds :=
  ⟨rfl, rfl⟩

/-! ## Slot allocation -/

/-- Function `lru_set` returns when no pointer it follows is wild. -/
theorem lru_set_total (stable : List slabinfo) (lru : lru_head) (sid : Nat) (it : slabinfo)
    (hit : stable[sid]? = some it)
    (hl : (match lru.tail with
           | none => lru.head.isNone
           | some t => decide (t < stable.length) &&
               it.pre.all (fun x => decide (x < stable.length)) &&
               it.next.all (fun x => decide (x < stable.length))) = true) :
    ∃ r, lru_set stable lru sid = .ok r := by
  unfold lru_set
  simp only [tget, hit, bind, Except.bind, pure, Except.pure]
  cases ht : lru.tail with
  | none =>
    rw [ht] at hl
    have hh : lru.head = none := by
      cases hhd : lru.head with
      | none => rfl
      | some x => rw [hhd] at hl; simp at hl
    simp only [hh, and_self, if_true]
    exact ⟨_, rfl⟩
  | some t =>
    rw [ht] at hl
    simp only [Bool.and_eq_true, decide_eq_true_eq] at hl
    obtain ⟨⟨hlt, hp⟩, hn⟩ := hl
    simp only [reduceCtorEq, and_false, if_false, deref]
    cases hpre : it.pre with
    | none =>
      cases hnext : it.next with
      | none =>
        simp only [Option.isSome_none, Bool.false_eq_true, false_and, if_false,
          List.getElem?_eq_getElem (show t < (stable.set sid
            { it with pre := some t, next := none }).length by simpa using hlt)]
        exact ⟨_, rfl⟩
      | some n =>
        rw [hnext] at hn
        have hn2 : n < stable.length := by simpa using hn
        simp only [Option.isSome_none, Bool.false_eq_true, false_and, if_false,
          List.getElem?_eq_getElem (show t < (stable.set sid
            { it with pre := some t, next := none }).length by simpa using hlt)]
        rw [List.getElem?_eq_getElem (by simpa using hn2)]
        exact ⟨_, rfl⟩
    | some p =>
      rw [hpre] at hp
      have hp2 : p < stable.length := by simpa using hp
      cases hnext : it.next with
      | none =>
        simp only [Option.isSome_some, Option.isNone_none, and_self, if_true]
        exact ⟨_, rfl⟩
      | some n =>
        rw [hnext] at hn
        have hn2 : n < stable.length := by simpa using hn
        simp only [Option.isSome_some, Option.isNone_some, Bool.false_eq_true, and_false,
          if_false,
          List.getElem?_eq_getElem (show t < (stable.set sid
            { it with pre := some t, next := none }).length by simpa using hlt)]
        rw [List.getElem?_eq_getElem (by simpa using hp2)]
        simp only []
        rw [List.getElem?_eq_getElem (by simpa using hn2)]
        exact ⟨_, rfl⟩

theorem _slab_get_item_lru_ok (s : State) (sid : Nat) (it : slabinfo)
    (hit : s.stable[sid]? = some it) (hready : lru_ready s it = true) :
    ∃ s1, _slab_get_item_lru s sid = .ok s1 ∧ s1.mstart = s.mstart := by
  unfold lru_ready at hready
  unfold _slab_get_item_lru
  simp only [tget, hit, bind, Except.bind]
  cases hmem : it.mem with
  | true =>
    simp only [hmem, if_true] at hready ⊢
    obtain ⟨r, hr⟩ := lru_set_total s.stable s.lruh sid it hit hready
    simp only [hr, pure, Except.pure]
    exact ⟨_, rfl, rfl⟩
  | false =>
    simp only [hmem, Bool.false_eq_true, if_false] at hready ⊢
    obtain ⟨r, hr⟩ := lru_set_total s.stable s.lruh_disk sid it hit hready
    simp only [hr, pure, Except.pure]
    exact ⟨_, rfl, rfl⟩

theorem _slab_get_item_full_eq (s : State) (cid sid : Nat) (update : Bool) (c : slabclass)
    (hc : s.ctable[cid]? = some c) :
    _slab_get_item_full s cid sid update = .ok
      { s with ctable := s.ctable.set cid
                 (if update = true then { c with hot_slabinfo := none }
                  else { c with partial_msinfoq := c.partial_msinfoq.erase sid }),
               nfull_msinfoq := (s.nfull_msinfoq + 1) % 2 ^ 32,
               full_msinfoq := s.full_msinfoq ++ [sid] } := by
  simp only [_slab_get_item_full, tget, hc, bind, Except.bind, pure, Except.pure]

/-- The end of `_slab_get_item` succeeds and leaves the slab memory alone; when
the slab has not filled it changes nothing. -/
theorem _slab_get_item_filled_ok (s : State) (cid sid : Nat) (update : Bool) (c : slabclass)
    (sinfo : slabinfo)
    (hc : s.ctable[cid]? = some c) (hs : s.stable[sid]? = some sinfo) (hcid : sinfo.cid = cid)
    (hlru : c.nitem = sinfo.nalloc → lru_ready s sinfo = true) :
    ∃ s1, _slab_get_item_filled s cid sid update = .ok s1 ∧ s1.mstart = s.mstart ∧
      (c.nitem ≠ sinfo.nalloc → s1 = s) := by
  have hclt : cid < s.ctable.length := by
    rcases Nat.lt_or_ge cid s.ctable.length with h | h
    · exact h
    · rw [List.getElem?_eq_none h] at hc; cases hc
  by_cases hfull : c.nitem = sinfo.nalloc
  · have hd : decide (c.nitem = sinfo.nalloc) = true := decide_eq_true hfull
    obtain ⟨s3, h3, hm3⟩ := _slab_get_item_lru_ok
      { s with ctable := s.ctable.set cid
                 (if update = true then { c with hot_slabinfo := none }
                  else { c with partial_msinfoq := c.partial_msinfoq.erase sid }),
               nfull_msinfoq := (s.nfull_msinfoq + 1) % 2 ^ 32,
               full_msinfoq := s.full_msinfoq ++ [sid] } sid sinfo hs (hlru hfull)
    refine ⟨s3, ?_, hm3, fun h => absurd hfull h⟩
    cases update
    · simp only [Bool.false_eq_true, if_false] at h3
      simp only [_slab_get_item_filled, tget, hs, bind, Except.bind, slab_full, hcid, hc, pure,
        Except.pure, hd, if_true, _slab_get_item_full_eq s cid sid false c hc,
        List.getElem?_set_self hclt, Bool.false_eq_true, if_false, h3]
    · simp only [if_true] at h3
      simp only [_slab_get_item_filled, tget, hs, bind, Except.bind, slab_full, hcid, hc, pure,
        Except.pure, hd, if_true, _slab_get_item_full_eq s cid sid true c hc,
        List.getElem?_set_self hclt, h3]
  · refine ⟨s, ?_, rfl, fun _ => rfl⟩
    simp only [_slab_get_item_filled, tget, hs, bind, Except.bind, slab_full, hcid, hc, pure,
      Except.pure, hfull, decide_False, Bool.false_eq_true, if_false]

/-- The slot `_slab_get_item` hands out and what it stores there. -/
theorem _slab_get_item_slot (s : State) (cid : Nat) (update : Bool) (c : slabclass) (sid : Nat)
    (sinfo : slabinfo)
    (hc : s.ctable[cid]? = some c)
    (hsid : (if update = true then c.hot_slabinfo else c.partial_msinfoq.head?) = some sid)
    (hs : s.stable[sid]? = some sinfo) (hcid : sinfo.cid = cid)
    (hlru : c.nitem = (sinfo.nalloc + 1) % 2 ^ 32 → lru_ready s sinfo = true) :
    ∃ s1, _slab_get_item s cid update
        = .ok (⟨sinfo.addr, next_slot sinfo * c.size⟩, s1) ∧
      s1.mstart = slot_written s sinfo.addr (next_slot sinfo * c.size) ∧
      (c.nitem ≠ (sinfo.nalloc + 1) % 2 ^ 32 →
        s1 = (_slab_get_item_take s c sid sinfo).2) := by
  have hlt : sid < s.stable.length := by
    rcases Nat.lt_or_ge sid s.stable.length with h | h
    · exact h
    · rw [List.getElem?_eq_none h] at hs; cases hs
  have hderef : _slab_get_item_sinfo c update = .ok sid := by
    unfold _slab_get_item_sinfo
    cases update
    · simp only [Bool.false_eq_true, if_false] at hsid ⊢; rw [hsid]; rfl
    · simp only [if_true] at hsid ⊢; rw [hsid]; rfl
  have hoff : (_slab_get_item_take s c sid sinfo).1 = ⟨sinfo.addr, next_slot sinfo * c.size⟩ := by
    unfold _slab_get_item_take next_slot slab_to_item
    cases sinfo.hole_head <;> rfl
  have hmst : (_slab_get_item_take s c sid sinfo).2.mstart
      = slot_written s sinfo.addr (next_slot sinfo * c.size) := by
    unfold _slab_get_item_take next_slot slab_to_item slot_written
    cases sinfo.hole_head <;> rfl
  have hct : (_slab_get_item_take s c sid sinfo).2.ctable = s.ctable := rfl
  have hst : ∃ sinfo2, (_slab_get_item_take s c sid sinfo).2.stable[sid]? = some sinfo2 ∧
      sinfo2.cid = sinfo.cid ∧ sinfo2.nalloc = (sinfo.nalloc + 1) % 2 ^ 32 ∧
      lru_ready (_slab_get_item_take s c sid sinfo).2 sinfo2 = lru_ready s sinfo := by
    refine ⟨_, List.getElem?_set_self hlt, ?_, ?_, ?_⟩
    · cases h : sinfo.hole_head <;> simp only [h]
    · cases h : sinfo.hole_head <;> simp only [h]
    · cases h : sinfo.hole_head <;>
        simp only [lru_ready, h, _slab_get_item_take, List.length_set]
  obtain ⟨sinfo2, hs2, hcid2, hn2, hr2⟩ := hst
  obtain ⟨s1, h1, hm1, hsame⟩ := _slab_get_item_filled_ok (_slab_get_item_take s c sid sinfo).2 cid
    sid update c sinfo2 (by rw [hct]; exact hc) hs2 (hcid2.trans hcid)
    (by rw [hn2, hr2]; exact hlru)
  refine ⟨s1, ?_, by rw [hm1, hmst], fun h => hsame (by rw [hn2]; exact h)⟩
  unfold _slab_get_item
  simp only [tget, hc, bind, Except.bind, hderef, hs, h1, pure, Except.pure, hoff]

/-- C10, as amended. The byte offset that `_slab_get_item` records in the item
it places at slab index `h` is `SLAB_HDR_SIZE + h * item_size`, the offset from
the base of the slab (12-byte header included), where `h` is the head of the
hole list when there is one and the slab's `nalloc` otherwise; the item pointer
returned is the slot at `h * item_size` in `data[]` of that slab. -/
theorem slab_item_offset (s : State) (cid : Nat) (update : Bool) (c : slabclass) (sid : Nat)
    (sinfo : slabinfo)
    (hc : s.ctable[cid]? = some c)
    (hsid : (if update = true then c.hot_slabinfo else c.partial_msinfoq.head?) = some sid)
    (hs : s.stable[sid]? = some sinfo) (hcid : sinfo.cid = cid)
    (hlru : c.nitem = (sinfo.nalloc + 1) % 2 ^ 32 → lru_ready s sinfo = true)
    (h32 : SLAB_HDR_SIZE + next_slot sinfo * c.size < 2 ^ 32) :
    (∃ p s1, _slab_get_item s cid update = .ok (p, s1) ∧
      p.addr = sinfo.addr ∧ p.off = slab_to_item (next_slot sinfo) c.size ∧
      (item_at s1 p).offset = SLAB_HDR_SIZE + next_slot sinfo * c.size) ∧
    (sinfo.hole_head = [] → next_slot sinfo = sinfo.nalloc) ∧
    (∀ k rest, sinfo.hole_head = k :: rest → next_slot sinfo = k) := by
  obtain ⟨s1, h1, hm, _⟩ := _slab_get_item_slot s cid update c sid sinfo hc hsid hs hcid hlru
  refine ⟨⟨_, s1, h1, rfl, rfl, ?_⟩, ?_, ?_⟩
  · simp only [item_at, hm, slot_written, upd_same, Nat.mod_eq_of_lt h32]
  · intro h; simp only [next_slot, h]
  · intro k rest h; simp only [next_slot, h]

set_option maxRecDepth 100000 in
/-- C10 in scenario S5 (ten 64-byte items in slab 0, the item at index 4
removed): the next slot is index 4, at byte 256 of `data[]`, and the offset
recorded in the item is `12 + 4 * 64 = 268`. -/
theorem slab_item_offset_witness :
    (∃ p s1, _slab_get_item s_s5_hole 0 false = .ok (p, s1) ∧
      p.addr = 0 ∧ p.off = slab_to_item 4 64 ∧ (item_at s1 p).offset = SLAB_HDR_SIZE + 4 * 64) ∧
    (([4] : List Nat) = [] → 4 = 9) ∧
    (∀ k rest, ([4] : List Nat) = k :: rest → 4 = k) :=
  slab_item_offset s_s5_hole 0 false ⟨63, 64, 52, [0], 1, 0, 0, 9, none⟩ 0
    ⟨0, 0, 9, 0, true, [4], none, none⟩ (by decide) (by decide) (by decide) (by decide)
    (by decide) (by decide)

/-- C10 as stated fails in scenario S5: the allocation after the removal of
index 4 returns the slot of index 4 and leaves `nalloc` at 10, but the offset
recorded in the new item is 268, not `4 * 64 = 256`. -/
theorem slab_item_offset_not_multiple :
    ∃ s1, slab_get_item 3 s_s5_hole 0 false = .ok (some ⟨0, slab_to_item 4 64⟩, s1) ∧
      (item_at s1 ⟨0, slab_to_item 4 64⟩).offset = 268 ∧
      (item_at s1 ⟨0, slab_to_item 4 64⟩).offset ≠ 4 * 64 ∧
      (s1.stable[0]?).map (fun x => x.nalloc) = some 10 :=
  ⟨state_of (slab_get_item 3 s_s5_hole 0 false) s_s5_hole, rfl, by decide, by decide,
    by decide⟩

/-! ## Hole reuse -/

/-- With a free index entry and a usable slab of the class, `slab_get_item` is
`_slab_get_item`. -/
theorem slab_get_item_usable (fuel : Nat) (s : State) (cid : Nat) (update : Bool)
    (c : slabclass) (sid : Nat) (p : item_ptr) (s2 : State)
    (hpool : itemx_empty s = false) (hc : s.ctable[cid]? = some c)
    (hsid : (if update = true then c.hot_slabinfo else c.partial_msinfoq.head?) = some sid)
    (hget : _slab_get_item s cid update = .ok (p, s2)) :
    slab_get_item (fuel + 1) s cid update = .ok (some p, s2) := by
  cases update
  · simp only [Bool.false_eq_true, if_false] at hsid
    have hne : c.partial_msinfoq.isEmpty = false := by
      cases h : c.partial_msinfoq with
      | nil => rw [h] at hsid; cases hsid
      | cons a l => rfl
    simp only [slab_get_item, hpool, Bool.false_eq_true, if_false, pure, Except.pure, bind,
      Except.bind, ne_eq, not_true_eq_false, tget, hc, hne, hget, if_true]
  · simp only [if_true] at hsid
    simp only [slab_get_item, hpool, Bool.false_eq_true, if_false, pure, Except.pure, bind,
      Except.bind, ne_eq, not_true_eq_false, tget, hc, if_true, hsid, hget]

theorem hole_index_of_offset (k size : Nat) (hk : k < 2 ^ 16) (hsize : SLAB_HDR_SIZE < size) :
    ((SLAB_HDR_SIZE + k * size) / size) % 2 ^ 16 = k := by
  have hpos : 0 < size := by omega
  have h1 : (SLAB_HDR_SIZE + k * size) / size = k := by
    rw [Nat.add_mul_div_right _ _ hpos, Nat.div_eq_of_lt hsize]
    omega
  rw [h1, Nat.mod_eq_of_lt hk]

/-- Hole round trip below the 16-bit limit of `hole_index`.  Let `sid` be the
current partial slab of class `cid` (its hot slab when `update`), a memory slab with at least
one item that is not full, and let `m` be the index entry of the item at slab
index `k < 2 ^ 16` of that slab, with the offset the allocator recorded for
index `k`.  Removing `m` and then allocating one item of the class returns the
slot at index `k` of the same slab, and the slab's `nalloc` and its older holes
are as before the removal (the newest hole is used first). -/
theorem hole_round_trip (fuel : Nat) (s : State) (hash md : Nat) (m : itemx) (cid : Nat)
    (update : Bool) (c : slabclass) (sid : Nat) (sinfo : slabinfo) (k : Nat)
    (hfind : (itemx_getx s hash md).1 = some m)
    (hc : s.ctable[cid]? = some c)
    (hsid : (if update = true then c.hot_slabinfo else c.partial_msinfoq.head?) = some sid)
    (hs : s.stable[sid]? = some sinfo) (hmem : sinfo.mem = true) (hcid : sinfo.cid = cid)
    (hmsid : m.sid = sid) (hoff : m.offset = SLAB_HDR_SIZE + k * c.size)
    (hk : k < 2 ^ 16) (hsize : SLAB_HDR_SIZE < c.size)
    (hn0 : 0 < sinfo.nalloc) (hn : sinfo.nalloc < c.nitem) (hn32 : sinfo.nalloc < 2 ^ 32) :
    ∃ s1 s2, itemx_removex s hash md = .ok (true, s1) ∧
      slab_get_item (fuel + 1) s1 cid update
        = .ok (some ⟨sinfo.addr, slab_to_item k c.size⟩, s2) ∧
      s2.stable[sid]? = some sinfo := by
  subst hmsid
  subst hcid
  rw [itemx_getx_fst] at hfind
  have hlt : m.sid < s.stable.length := by
    rcases Nat.lt_or_ge m.sid s.stable.length with h | h
    · exact h
    · rw [List.getElem?_eq_none h] at hs; cases hs
  have hclt : sinfo.cid < s.ctable.length := by
    rcases Nat.lt_or_ge sinfo.cid s.ctable.length with h | h
    · exact h
    · rw [List.getElem?_eq_none h] at hc; cases hc
  have hrm := itemx_removex_eq s hash md m sinfo c hfind hs hc (fun _ => by omega)
  have hidx := hole_index_of_offset k c.size hk hsize
  have hdec : wrap_dec 32 sinfo.nalloc = sinfo.nalloc - 1 := by
    unfold wrap_dec
    rw [if_neg (by omega)]
  have hinc : (sinfo.nalloc - 1 + 1) % 2 ^ 32 = sinfo.nalloc := by
    rw [Nat.sub_add_cancel hn0, Nat.mod_eq_of_lt hn32]
  have hs1 : (state_after_remove s hash md m sinfo c).stable[m.sid]?
      = some { sinfo with hole_head := k :: sinfo.hole_head, nalloc := sinfo.nalloc - 1 } := by
    simp only [state_after_remove, stable_after_remove, hmem, if_true, hoff, hidx, hdec,
      List.getElem?_set_self hlt]
  have hc1 : (state_after_remove s hash md m sinfo c).ctable[sinfo.cid]?
      = some { c with nused_item := (((c.nused_item : Int) + -1) % 2 ^ 64).toNat } := by
    simp only [state_after_remove, List.getElem?_set_self hclt]
  obtain ⟨s2, h2, _, hsame⟩ := _slab_get_item_slot (state_after_remove s hash md m sinfo c)
    sinfo.cid update _ m.sid _ hc1 hsid hs1 rfl (by intro h; simp only [hinc] at h; omega)
  have hsame2 := hsame (by simp only [hinc]; omega)
  refine ⟨_, s2, hrm, ?_, ?_⟩
  · exact slab_get_item_usable fuel _ sinfo.cid update _ m.sid _ s2 rfl hc1 hsid h2
  · have hlen : m.sid < (state_after_remove s hash md m sinfo c).stable.length := by
      simp only [state_after_remove, stable_after_remove, hmem, if_true, List.length_set]
      exact hlt
    rw [hsame2]
    simp only [_slab_get_item_take, List.getElem?_set_self hlen, hinc]

set_option maxRecDepth 100000 in
/-- Hole round trip in scenario S5: ten items in slab 0, the entry of the item
at slab index 4 (digest 104, offset 268) is removed; the next allocation returns the slot at
index 4 and the slab is as before, with `nalloc = 10`. -/
theorem hole_round_trip_witness :
    ∃ s1 s2, itemx_removex s_s5_filled 4 104 = .ok (true, s1) ∧
      slab_get_item (2 + 1) s1 0 false = .ok (some ⟨0, slab_to_item 4 64⟩, s2) ∧
      s2.stable[0]? = some ⟨0, 0, 10, 0, true, [], none, none⟩ :=
  hole_round_trip 2 s_s5_filled 4 104 ⟨104, 0, 268, 0, 0⟩ 0 false
    ⟨63, 64, 52, [0], 1, 0, 0, 10, none⟩ 0 ⟨0, 0, 10, 0, true, [], none, none⟩ 4
    (by decide) (by decide) (by decide) (by decide) (by decide) (by decide) (by decide)
    (by decide) (by decide) (by decide) (by decide) (by decide) (by decide)

set_option maxRecDepth 100000 in
/-- C9 at a concrete run, with slab index `k = 65536`.  `itemx_removex`
computes what its comment calls the position of the removed item in the slab
and stores it in a `uint16_t`.  In a slab of 131071 slots that holds 65537
items, removing the entry of the item at index 65536 (offset
`12 + 65536 * 64`) stores the hole index `(uint16_t) 65536 = 0`; the next
allocation returns the slot at index 0, not index 65536, and that slot is still
the one the live entry of digest 100 points to. -/
theorem hole_round_trip_truncates :
    ∃ s1 s2, itemx_removex s_big 1 200 = .ok (true, s1) ∧
      slab_get_item 3 s1 0 false = .ok (some ⟨0, slab_to_item 0 64⟩, s2) ∧
      slab_to_item 0 64 ≠ slab_to_item 65536 64 ∧
      (itemx_getx s2 0 100).1 = some ⟨100, 0, SLAB_HDR_SIZE + slab_to_item 0 64, 0, 0⟩ :=
  ⟨state_of (itemx_removex s_big 1 200) s_big,
   state_of (slab_get_item 3 (state_of (itemx_removex s_big 1 200) s_big) 0 false) s_big,
   rfl, rfl, by decide, by decide⟩

/-! ## Eviction -/

set_option maxRecDepth 100000 in
/-- C1 at a concrete run.  Digest 101 is stored in slab 0, slab 0 is drained to
disk, the digest is removed and stored again, now in slab 1: `itemx_putx` is the
last index operation on the digest and the entry names slab 1.  The eviction
that follows has slab 0 as its victim and succeeds, and afterwards the lookup
of the digest returns `NULL`: the old item in the image of slab 0 carries the
same digest, so `slab_evict` removes the entry that belongs to slab 1 (and
leaves a hole in slab 1, which sits on the full queue). -/
theorem slab_evict_removes_foreign_entry :
    caller_set 3 s_stale_pre 0 false 1 101 0 0 = .ok (some ⟨0, 200⟩, s_stale) ∧
    (itemx_getx s_stale 1 101).1 = some ⟨101, 1, 212, 0, 0⟩ ∧
    s_stale.full_dsinfoq = [0] ∧ s_stale.lruh_disk.head = none ∧
    s_stale.full_msinfoq = [1] ∧
    ∃ s1, slab_evict s_stale = .ok (rstatus_t.FC_OK, s1) ∧
      s1.free_dsinfoq = [0] ∧ s1.nevict = 1 ∧
      (itemx_getx s1 1 101).1 = none ∧
      s1.stable[1]? = some ⟨1, 0, 1, 0, true, [1], none, none⟩ ∧ s1.full_msinfoq = [1] :=
  ⟨rfl, by decide, by decide, by decide, by decide,
   state_of (slab_evict s_stale) s_stale, rfl, by decide, by decide, by decide, by decide,
   by decide⟩

/-! ## Lookup keeps the chain -/

/-- C20. Lookup preserves the chain: for a bucket chain with pairwise distinct
digests, any counter value and any query digest, the chain after `hotring_get`
is a permutation of the chain before (no entry lost, none duplicated; a list has
no cycle) and its digests are still pairwise distinct.  When the lookup promotes
(the head does not match, a later entry `m` does, and the counter is
`HR_QUERY_THRESHOLD - 1`) it returns `m` and the new chain is `m` followed by
the old chain with `m` deleted, the other entries in their old order; when it
does not promote the chain is unchanged. -/
theorem hotring_get_preserves_chain (b : itemx_tqh) (d : Nat)
    (hnd : (b.stqh_first.map itemx.md).Nodup) :
    List.Perm (hotring_get b d).2.stqh_first b.stqh_first ∧
    ((hotring_get b d).2.stqh_first.map itemx.md).Nodup ∧
    (∀ hd tl m, b.stqh_first = hd :: tl → hd.md ≠ d → chain_find tl d = some m →
      b.nhr_queries = HR_QUERY_THRESHOLD - 1 →
      (hotring_get b d).1 = some m ∧
      (hotring_get b d).2.stqh_first = m :: b.stqh_first.erase m ∧
      List.Sublist (b.stqh_first.erase m) b.stqh_first) ∧
    (¬ (∃ hd tl m, b.stqh_first = hd :: tl ∧ hd.md ≠ d ∧ chain_find tl d = some m ∧
        b.nhr_queries = HR_QUERY_THRESHOLD - 1) →
      (hotring_get b d).2.stqh_first = b.stqh_first) := by
  have hperm := hotring_get_perm b d
  refine ⟨hperm, (List.Perm.nodup_iff (List.Perm.map _ hperm)).mpr hnd, ?_, ?_⟩
  · intro hd tl m hb hhd hm hn
    obtain ⟨chain, n⟩ := b
    simp only at hb hn
    subst hb; subst hn
    have hne : hd ≠ m := fun h => hhd (h ▸ chain_find_md hm)
    rw [hotring_get_promote hd tl d m hhd hm]
    refine ⟨rfl, ?_, List.erase_sublist _ _⟩
    show m :: hd :: tl.erase m = m :: (hd :: tl).erase m
    rw [List.erase_cons_tail (by simpa using hne)]
  · intro hno
    rcases hotring_get_cases b d with ⟨h, e⟩ | ⟨hd, tl, hb, hhd, e⟩ |
      ⟨hd, tl, m, hb, hhd, hm, _, e⟩ | ⟨hd, tl, m, hb, hhd, hm, hn, e⟩
    · rw [e]
    · rw [e]
    · rw [e, hb]
    · exact absurd ⟨hd, tl, m, hb, hhd, hm, hn⟩ hno

/-- C20 on the chain `[D1, D3, D2]` with counter 4 and query `D2`: the lookup
returns `D2` and the chain becomes `D2` followed by `[D1, D3]`. -/
theorem hotring_get_preserves_chain_witness :
    (hotring_get { stqh_first := [⟨1, 0, 0, 0, 0⟩, ⟨3, 0, 0, 0, 0⟩, ⟨2, 0, 0, 0, 0⟩],
                   nhr_queries := 4 } 2).1 = some ⟨2, 0, 0, 0, 0⟩ ∧
    (hotring_get { stqh_first := [⟨1, 0, 0, 0, 0⟩, ⟨3, 0, 0, 0, 0⟩, ⟨2, 0, 0, 0, 0⟩],
                   nhr_queries := 4 } 2).2.stqh_first
      = ⟨2, 0, 0, 0, 0⟩ ::
          ([⟨1, 0, 0, 0, 0⟩, ⟨3, 0, 0, 0, 0⟩, ⟨2, 0, 0, 0, 0⟩] : List itemx).erase ⟨2, 0, 0, 0, 0⟩ ∧
    List.Sublist
      (([⟨1, 0, 0, 0, 0⟩, ⟨3, 0, 0, 0, 0⟩, ⟨2, 0, 0, 0, 0⟩] : List itemx).erase ⟨2, 0, 0, 0, 0⟩)
      [⟨1, 0, 0, 0, 0⟩, ⟨3, 0, 0, 0, 0⟩, ⟨2, 0, 0, 0, 0⟩] :=
  (hotring_get_preserves_chain
    { stqh_first := [⟨1, 0, 0, 0, 0⟩, ⟨3, 0, 0, 0, 0⟩, ⟨2, 0, 0, 0, 0⟩], nhr_queries := 4 } 2
    (by decide)).2.2.1 ⟨1, 0, 0, 0, 0⟩ [⟨3, 0, 0, 0, 0⟩, ⟨2, 0, 0, 0, 0⟩] ⟨2, 0, 0, 0, 0⟩
    rfl (by decide) (by decide) (by decide)

/-! ## Expiry -/

/-- C18. Lazy expiry: for an entry `itx` that the index holds under
`hash = sha1_hash(itx.md)` (the lookup returns it), in a bucket with pairwise
distinct digests, on a slab of a valid class, and for a clock value `now`,
`itemx_expired` returns `true` if and only if `itx.expiry ≠ 0` and
`itx.expiry < now`.  When it returns `true` a lookup of the digest afterwards
finds nothing and the free pool (its counter and its queue) is 1 larger; when it
returns `false` the state is unchanged. -/
theorem itemx_expired_lazy (sha1_hash : Nat → Nat) (now : Nat) (s : State) (itx : itemx)
    (sinfo : slabinfo) (c : slabclass)
    (hfind : (itemx_getx s (sha1_hash itx.md) itx.md).1 = some itx)
    (hnodup : ((s.itx_table (itemx_bucket s (sha1_hash itx.md))).stqh_first.map itemx.md).Nodup)
    (hsid : s.stable[itx.sid]? = some sinfo) (hcid : s.ctable[sinfo.cid]? = some c)
    (hsize : sinfo.mem = true → c.size ≠ 0)
    (hpool : s.nfree_itemxq + 1 < 2 ^ 64) :
    ∃ b s1, itemx_expired sha1_hash now s itx = .ok (b, s1) ∧
      (b = true ↔ itx.expiry ≠ 0 ∧ itx.expiry < now) ∧
      (b = true → (itemx_getx s1 (sha1_hash itx.md) itx.md).1 = none ∧
        s1.nfree_itemxq = s.nfree_itemxq + 1 ∧
        s1.free_itemxq.length = s.free_itemxq.length + 1) ∧
      (b = false → s1 = s) := by
  by_cases hexp : itx.expiry ≠ 0 ∧ itx.expiry < now
  · have hfind1 := hfind
    rw [itemx_getx_fst] at hfind1
    have hrm := itemx_removex_eq s (sha1_hash itx.md) itx.md itx sinfo c hfind1 hsid hcid hsize
    refine ⟨true, state_after_remove s (sha1_hash itx.md) itx.md itx sinfo c, ?_, ?_, ?_, ?_⟩
    · simp only [itemx_expired, hexp, and_self, if_true, hrm, bind, Except.bind, pure,
        Except.pure, ne_eq, not_false_eq_true]
    · simp only [true_iff]; exact hexp
    · intro _
      refine ⟨?_, ?_, ?_⟩
      · rw [itemx_getx_fst]
        simp only [state_after_remove, itemx_bucket, upd_same]
        have hperm := hotring_get_perm (s.itx_table (itemx_bucket s (sha1_hash itx.md))) itx.md
        have hnd : ((hotring_get (s.itx_table (itemx_bucket s (sha1_hash itx.md)))
            itx.md).2.stqh_first.map itemx.md).Nodup :=
          (List.Perm.nodup_iff (List.Perm.map _ hperm)).mpr hnodup
        exact chain_find_erase_self _ itx itx.md hnd
          (hperm.symm.subset (chain_find_mem hfind1)) rfl
      · simp only [state_after_remove]
        exact Nat.mod_eq_of_lt hpool
      · simp only [state_after_remove, List.length_cons]
    · intro h; cases h
  · refine ⟨false, s, ?_, ?_, ?_, fun _ => rfl⟩
    · simp only [itemx_expired, hexp, if_false, pure, Except.pure]
    · simp only [Bool.false_eq_true, false_iff]; exact hexp
    · intro h; cases h

set_option maxRecDepth 100000 in
/-- C18 in scenario S6: the entry of digest 101 was stored with expiry
`t + 1 = 11`; at clock value `t + 2 = 12` it has expired, the lookup finds
nothing and the free pool has grown from 15 to 16 entries. -/
theorem itemx_expired_lazy_witness :
    ∃ b s1, itemx_expired (fun d => d) 12 s_s6 ⟨101, 0, 12, 11, 0⟩ = .ok (b, s1) ∧
      (b = true ↔ (11 : Nat) ≠ 0 ∧ 11 < 12) ∧
      (b = true → (itemx_getx s1 101 101).1 = none ∧
        s1.nfree_itemxq = 15 + 1 ∧ s1.free_itemxq.length = 15 + 1) ∧
      (b = false → s1 = s_s6) :=
  itemx_expired_lazy (fun d => d) 12 s_s6 ⟨101, 0, 12, 11, 0⟩
    ⟨0, 0, 1, 0, true, [], none, none⟩ ⟨2, 200, 100, [0], 1, 0, 0, 1, none⟩
    (by decide) (by decide) (by decide) (by decide) (by decide) (by decide)

/-! ## I/O errors -/

set_option maxRecDepth 100000 in
/-- C13 at two concrete runs.  With the only memory slab full and the device
write failing, `slab_get_item` returns `NULL`, but slab 0 has left the
memory-full queue and the LRU list, disk slab 1 has left the free-disk queue,
and both counters have dropped to 0: `_slab_drain` dequeues the victim and the
target before `pwrite` and returns on its failure without putting them back.
With no free disk slab and the device read failing, `slab_get_item` returns
`NULL`, but slab 0 has left the disk-full queue and `nfull_dsinfoq` has dropped
to 0: `slab_evict` dequeues the victim before `pread`. -/
theorem slab_get_item_io_error_state :
    (s_wfail.full_msinfoq = [0] ∧ s_wfail.nfull_msinfoq = 1 ∧ s_wfail.free_dsinfoq = [1] ∧
      s_wfail.nfree_dsinfoq = 1 ∧ s_wfail.lruh = ⟨some 0, some 0⟩ ∧
      ∃ s1, slab_get_item 3 s_wfail 0 false = .ok (none, s1) ∧
        s1.full_msinfoq = [] ∧ s1.nfull_msinfoq = 0 ∧ s1.free_dsinfoq = [] ∧
        s1.nfree_dsinfoq = 0 ∧ s1.lruh = ⟨none, none⟩ ∧
        s1.free_msinfoq = [] ∧ s1.full_dsinfoq = []) ∧
    (s_rfail.full_dsinfoq = [0] ∧ s_rfail.nfull_dsinfoq = 1 ∧ s_rfail.free_dsinfoq = [] ∧
      ∃ s1, slab_get_item 3 s_rfail 0 false = .ok (none, s1) ∧
        s1.full_dsinfoq = [] ∧ s1.nfull_dsinfoq = 0 ∧ s1.free_dsinfoq = []) :=
  ⟨⟨by decide, by decide, by decide, by decide, by decide,
    state_of (slab_get_item 3 s_wfail 0 false) s_wfail, rfl, by decide, by decide, by decide,
    by decide, by decide, by decide, by decide⟩,
   ⟨by decide, by decide, by decide,
    state_of (slab_get_item 3 s_rfail 0 false) s_rfail, rfl, by decide, by decide, by decide⟩⟩

/-! ## Slabs on the full queue -/

set_option maxRecDepth 100000 in
/-- C19 at a concrete run.  Two stores fill slab 0 of the small configuration;
it is on the memory-full queue and on the LRU list with `nalloc = nitem = 2`.
Removing the entry of digest 101 pushes hole 0 and decrements `nalloc` to 1
while the slab stays on both lists, so `slab_full` is false for a slab of the
full queue.  The next allocation picks this slab as the victim of the drain
(where the code asserts `slab_full(msinfo)`) and writes it to disk with
`nalloc = 1` and its hole. -/
theorem full_queue_slab_not_full :
    s_fq.full_msinfoq = [0] ∧ s_fq.stable[0]? = some ⟨0, 0, 2, 0, true, [], none, none⟩ ∧
    itemx_removex s_fq 1 101 = .ok (true, s_fq_hole) ∧
    s_fq_hole.full_msinfoq = [0] ∧ s_fq_hole.lruh = ⟨some 0, some 0⟩ ∧
    s_fq_hole.stable[0]? = some ⟨0, 0, 1, 0, true, [0], none, none⟩ ∧
    (s_fq_hole.ctable[0]?).map (fun c => c.nitem) = some 2 ∧
    slab_full s_fq_hole ⟨0, 0, 1, 0, true, [0], none, none⟩ = .ok false ∧
    ∃ s2, slab_get_item 3 s_fq_hole 0 false = .ok (some ⟨0, 0⟩, s2) ∧
      s2.nflush = 1 ∧ s2.full_dsinfoq = [0] ∧
      s2.stable[0]? = some ⟨0, 0, 1, 0, false, [0], none, none⟩ :=
  ⟨by decide, by decide, rfl, by decide, by decide, by decide, by decide, rfl,
   state_of (slab_get_item 3 s_fq_hole 0 false) s_fq_hole, rfl, by decide, by decide,
   by decide⟩

/-! ## Index space -/

set_option maxRecDepth 100000 in
/-- C17 at a concrete run.  In the state `s_idx` the free pool of index entries
is empty and the head of the disk-full queue, slab 0, holds no live item (its
two entries were removed).  `slab_get_item` evicts slab 0, which frees no index
entry, and returns a slot of the partial slab; the free pool is still empty,
and the `itemx_putx` that follows takes the first entry of the empty free queue
and dereferences `NULL`. -/
theorem slab_get_item_pool_stays_empty :
    itemx_empty s_idx = true ∧ s_idx.full_dsinfoq = [0, 1] ∧
    (itemx_getx s_idx 1 101).1 = none ∧ (itemx_getx s_idx 2 102).1 = none ∧
    ∃ s1, slab_get_item 3 s_idx 0 false = .ok (some ⟨0, 200⟩, s1) ∧
      s1.nevict = 1 ∧ s1.free_dsinfoq = [0] ∧ itemx_empty s1 = true ∧
      itemx_putx s1 6 106 2 212 0 0 = .error .null_deref :=
  ⟨by decide, by decide, by decide, by decide,
   state_of (slab_get_item 3 s_idx 0 false) s_idx, rfl, by decide, by decide, by decide, rfl⟩

/-! ## Lists and tables -/

theorem sum_map_set {α : Type} (f : α → Nat) (l : List α) (i : Nat) (x v : α)
    (h : l[i]? = some x) : ((l.set i v).map f).sum + f x = (l.map f).sum + f v := by
  induction l generalizing i with
  | nil => simp at h
  | cons a t ih =>
    cases i with
    | zero =>
      simp only [List.getElem?_cons_zero, Option.some.injEq] at h
      subst h
      simp only [List.set_cons_zero, List.map_cons, List.sum_cons]
      omega
    | succ k =>
      simp only [List.getElem?_cons_succ] at h
      have := ih k h
      simp only [List.set_cons_succ, List.map_cons, List.sum_cons]
      omega

theorem map_set_same {α β : Type} (f : α → β) (l : List α) (i : Nat) (x v : α)
    (h : l[i]? = some x) (hv : f v = f x) : (l.set i v).map f = l.map f := by
  induction l generalizing i with
  | nil => simp at h
  | cons a t ih =>
    cases i with
    | zero =>
      simp only [List.getElem?_cons_zero, Option.some.injEq] at h
      subst h
      simp only [List.set_cons_zero, List.map_cons, hv]
    | succ k =>
      simp only [List.getElem?_cons_succ] at h
      simp only [List.set_cons_succ, List.map_cons, ih k h]

theorem lt_of_getElem? {α : Type} {l : List α} {i : Nat} {x : α} (h : l[i]? = some x) :
    i < l.length := by
  rcases Nat.lt_or_ge i l.length with h1 | h1
  · exact h1
  · rw [List.getElem?_eq_none h1] at h; cases h

theorem perm_cons_set {α : Type} (l : List α) (k : Nat) (x a : α) (h : l[k]? = some x) :
    List.Perm (x :: l.set k a) (a :: l) := by
  induction l generalizing k with
  | nil => simp at h
  | cons b t ih =>
    cases k with
    | zero =>
      simp only [List.getElem?_cons_zero, Option.some.injEq] at h
      subst h
      simp only [List.set_cons_zero]
      exact List.Perm.swap _ _ _
    | succ k =>
      simp only [List.getElem?_cons_succ] at h
      simp only [List.set_cons_succ]
      exact (List.Perm.swap _ _ _).trans (((ih k h).cons b).trans (List.Perm.swap _ _ _))

/-- Exchanging two entries of a list gives a permutation of it. -/
theorem perm_set_set {α : Type} (l : List α) (i j : Nat) (x y : α)
    (hi : l[i]? = some x) (hj : l[j]? = some y) (hij : i ≠ j) :
    List.Perm ((l.set i y).set j x) l := by
  induction l generalizing i j with
  | nil => simp at hi
  | cons a t ih =>
    cases i with
    | zero =>
      cases j with
      | zero => exact absurd rfl hij
      | succ j =>
        simp only [List.getElem?_cons_zero, Option.some.injEq] at hi
        simp only [List.getElem?_cons_succ] at hj
        subst hi
        simp only [List.set_cons_zero, List.set_cons_succ]
        exact perm_cons_set t j y a hj
    | succ i =>
      cases j with
      | zero =>
        simp only [List.getElem?_cons_zero, Option.some.injEq] at hj
        simp only [List.getElem?_cons_succ] at hi
        subst hj
        simp only [List.set_cons_zero, List.set_cons_succ]
        exact perm_cons_set t i x a hi
      | succ j =>
        simp only [List.getElem?_cons_succ] at hi hj
        simp only [List.set_cons_succ]
        exact (ih i j hi hj (by omega)).cons a

theorem bind_ok {α β : Type} {x : Except Fault α} {f : α → Except Fault β} {b : β}
    (h : (x >>= f) = .ok b) : ∃ a, x = .ok a ∧ f a = .ok b := by
  cases x with
  | error e => cases h
  | ok a => exact ⟨a, rfl, h⟩

theorem deref_ok {α : Type} {p : Option α} {x : α} (h : deref p = .ok x) : p = some x := by
  cases p with
  | none => cases h
  | some y => simp only [deref, Except.ok.injEq] at h; rw [h]

theorem tget_get {α : Type} {tbl : List α} {i : Nat} {x : α} (h : tget tbl i = .ok x) :
    tbl[i]? = some x := tget_ok_iff.mp h

/-! ## LRU lists -/

theorem lru_links_set (stable : List slabinfo) (i : Nat) (v : slabinfo) :
    lru_links (stable.set i v) = (lru_links stable).set i (v.pre, v.next) := by
  simp only [lru_links, List.map_set]

theorem lru_links_get {stable : List slabinfo} {i : Nat} {v : slabinfo}
    (h : stable[i]? = some v) : (lru_links stable)[i]? = some (v.pre, v.next) := by
  simp only [lru_links, List.getElem?_map, h, Option.map_some']

theorem lru_links_get_inv {stable : List slabinfo} {i : Nat} {l : Option Nat × Option Nat}
    (h : (lru_links stable)[i]? = some l) : ∃ v, stable[i]? = some v ∧ (v.pre, v.next) = l := by
  simp only [lru_links, List.getElem?_map, Option.map_eq_some'] at h
  exact h

/-- A chain does not depend on the links of entries outside it. -/
theorem lru_chain_set_ne (links : List (Option Nat × Option Nat)) (i : Nat)
    (v : Option Nat × Option Nat) (prev : Option Nat) (l : List Nat) (hi : i ∉ l)
    (h : lru_chain links prev l) : lru_chain (links.set i v) prev l := by
  induction l generalizing prev with
  | nil => trivial
  | cons x rest ih =>
    simp only [List.mem_cons, not_or] at hi
    obtain ⟨h1, h2⟩ := h
    refine ⟨?_, ih _ hi.2 h2⟩
    rw [List.getElem?_set_ne (fun e => hi.1 e)]
    exact h1

/-- The predecessor of the first entry of a chain can be replaced. -/
theorem lru_chain_head_pre (links : List (Option Nat × Option Nat)) (prev : Option Nat)
    (x : Nat) (rest : List Nat) (hx : x ∉ rest) (h : lru_chain links prev (x :: rest))
    (p : Option Nat) : lru_chain (links.set x (p, rest.head?)) p (x :: rest) := by
  obtain ⟨h1, h2⟩ := h
  refine ⟨?_, lru_chain_set_ne _ _ _ _ _ hx h2⟩
  rw [List.getElem?_set_self (lt_of_getElem? h1)]

/-- Linking a new entry behind the last entry of a chain. -/
theorem lru_chain_append (links : List (Option Nat × Option Nat)) (prev : Option Nat)
    (l : List Nat) (t item : Nat) (p : Option Nat)
    (hl : l.getLast? = some t) (hnd : l.Nodup) (hitem : item ∉ l)
    (hit : item < links.length)
    (ht : links[t]? = some (p, none))
    (h : lru_chain links prev l) :
    lru_chain ((links.set item (some t, none)).set t (p, some item)) prev (l ++ [item]) := by
  induction l generalizing prev with
  | nil => simp at hl
  | cons x rest ih =>
    obtain ⟨h1, h2⟩ := h
    simp only [List.mem_cons, not_or] at hitem
    have hxr : x ∉ rest := (List.nodup_cons.mp hnd).1
    cases rest with
    | nil =>
      simp only [List.getLast?_singleton, Option.some.injEq] at hl
      subst hl
      have hne : item ≠ x := hitem.1
      have hlt : x < (links.set item (some x, none)).length := by
        simp only [List.length_set]; exact lt_of_getElem? h1
      simp only [List.head?_nil] at h1
      rw [h1] at ht
      simp only [Option.some.injEq, Prod.mk.injEq] at ht
      refine ⟨?_, ?_, trivial⟩
      · show ((links.set item (some x, none)).set x (p, some item))[x]? = some (prev, some item)
        rw [List.getElem?_set_self hlt, ht.1]
      · show ((links.set item (some x, none)).set x (p, some item))[item]?
          = some (some x, none)
        rw [List.getElem?_set_ne (fun e => hne e.symm), List.getElem?_set_self hit]
    | cons y rest2 =>
      have hl2 : (y :: rest2).getLast? = some t := by
        simpa [List.getLast?_cons_cons] using hl
      have htmem : t ∈ y :: rest2 := List.mem_of_getLast?_eq_some hl2
      have hxt : x ≠ t := fun e => hxr (e ▸ htmem)
      refine ⟨?_, ih (some x) hl2 (List.nodup_cons.mp hnd).2 hitem.2 h2⟩
      rw [List.getElem?_set_ne (fun e => hxt e.symm), List.getElem?_set_ne (fun e => hitem.1 e)]
      exact h1

/-- Function `lru_set` on an empty list. -/
theorem lru_set_empty (stable : List slabinfo) (item : Nat) (it : slabinfo)
    (hit : stable[item]? = some it) :
    lru_set stable ⟨none, none⟩ item
      = .ok (stable.set item { it with pre := none, next := none }, ⟨some item, some item⟩) := by
  simp only [lru_set, tget, hit, bind, Except.bind, and_self, if_true, pure, Except.pure]

/-- Function `lru_set` of an unlinked entry on a list whose last entry is `t`. -/
theorem lru_set_tail (stable : List slabinfo) (lru : lru_head) (item t : Nat)
    (it ot : slabinfo) (hit : stable[item]? = some it) (hp : it.pre = none)
    (hn : it.next = none) (htail : lru.tail = some t) (hne : t ≠ item)
    (hot : stable[t]? = some ot) :
    lru_set stable lru item
      = .ok ((stable.set item { it with pre := some t, next := none }).set t
               { ot with next := some item }, { lru with tail := some item }) := by
  have hot1 : (stable.set item { it with pre := some t, next := none })[t]? = some ot := by
    rw [List.getElem?_set_ne (fun e => hne e.symm)]; exact hot
  simp only [lru_set, tget, hit, bind, Except.bind, htail, reduceCtorEq, and_false, if_false,
    hp, hn, Option.isSome_none, Bool.false_eq_true, false_and, deref, hot1, pure, Except.pure]

/-- What a successful `lru_remove_head` does. -/
theorem lru_remove_head_ok (stable : List slabinfo) (lruh : lru_head)
    (r : List slabinfo × lru_head) (h : lru_remove_head stable lruh = .ok r) :
    ∃ hd hv, lruh.head = some hd ∧ stable[hd]? = some hv ∧
      ((hv.next = none ∧ r = (stable, ⟨none, none⟩)) ∨
       (∃ n nv, hv.next = some n ∧ (stable.set hd { hv with next := none })[n]? = some nv ∧
         r = ((stable.set hd { hv with next := none }).set n { nv with pre := none },
              { lruh with head := some n }))) := by
  unfold lru_remove_head at h
  obtain ⟨hd, h1, h⟩ := bind_ok h
  obtain ⟨hv, h2, h⟩ := bind_ok h
  obtain ⟨r1, h3, h⟩ := bind_ok h
  obtain ⟨u, _, h⟩ := bind_ok h
  simp only [pure, Except.pure, Except.ok.injEq] at h
  subst h
  refine ⟨hd, hv, deref_ok h1, tget_get h2, ?_⟩
  cases hnx : hv.next with
  | none =>
    left
    rw [hnx] at h3
    simp only [pure, Except.pure, Except.ok.injEq] at h3
    exact ⟨rfl, h3.symm⟩
  | some n =>
    right
    rw [hnx] at h3
    obtain ⟨nv, h4, h3⟩ := bind_ok h3
    simp only [pure, Except.pure, Except.ok.injEq] at h3
    exact ⟨n, nv, rfl, tget_get h4, h3.symm⟩

/-! ## What the index functions return -/

/-- A successful `itemx_putx`: the pool was not empty and `sid` names a slab of
a valid class. -/
theorem itemx_putx_ok (s s1 : State) (hash md sid offset expiry cas : Nat)
    (h : itemx_putx s hash md sid offset expiry cas = .ok s1) :
    ∃ e rest sinfo c, s.free_itemxq = e :: rest ∧ s.stable[sid]? = some sinfo ∧
      s.ctable[sinfo.cid]? = some c ∧
      s1 = { s with nfree_itemxq := wrap_dec 64 s.nfree_itemxq,
                    free_itemxq := rest,
                    nitx := (s.nitx + 1) % 2 ^ 64,
                    itx_table := upd s.itx_table (itemx_bucket s hash)
                      (hotring_insert (s.itx_table (itemx_bucket s hash))
                        ⟨md, sid, offset, expiry, cas⟩),
                    ctable := s.ctable.set sinfo.cid
                      { c with nused_item := (((c.nused_item : Int) + 1) % 2 ^ 64).toNat } } := by
  cases hq : s.free_itemxq with
  | nil =>
    simp only [itemx_putx, itemx_get, deref, hq, List.head?_nil, bind, Except.bind,
      reduceCtorEq] at h
  | cons e rest =>
    cases hs : s.stable[sid]? with
    | none =>
      simp only [itemx_putx, itemx_get, deref, hq, List.head?_cons, bind, Except.bind, pure,
        Except.pure, slab_incr_chunks_by_sid, tget, hs, reduceCtorEq] at h
    | some sinfo =>
      cases hc : s.ctable[sinfo.cid]? with
      | none =>
        simp only [itemx_putx, itemx_get, deref, hq, List.head?_cons, bind, Except.bind, pure,
          Except.pure, slab_incr_chunks_by_sid, tget, hs, hc, reduceCtorEq] at h
      | some c =>
        rw [itemx_putx_eq s hash md sid offset expiry cas e rest sinfo c hq hs hc] at h
        simp only [Except.ok.injEq] at h
        refine ⟨e, rest, sinfo, c, ?_, ?_, ?_, h.symm⟩ <;> first | rfl | assumption

/-- A successful `itemx_removex`: either nothing was found, or the entry found
names a slab of a valid class and the state is `state_after_remove`. -/
theorem itemx_removex_ok (s s1 : State) (hash md : Nat) (b : Bool)
    (h : itemx_removex s hash md = .ok (b, s1)) :
    (chain_find (s.itx_table (itemx_bucket s hash)).stqh_first md = none ∧ b = false ∧
      s1 = (itemx_getx s hash md).2) ∨
    (∃ m sinfo c, chain_find (s.itx_table (itemx_bucket s hash)).stqh_first md = some m ∧
      s.stable[m.sid]? = some sinfo ∧ s.ctable[sinfo.cid]? = some c ∧
      (sinfo.mem = true → c.size ≠ 0) ∧ b = true ∧
      s1 = state_after_remove s hash md m sinfo c) := by
  cases hfind : chain_find (s.itx_table (itemx_bucket s hash)).stqh_first md with
  | none =>
    left
    have hfst : (itemx_getx s hash md).1 = none := by rw [itemx_getx_fst, hfind]
    unfold itemx_removex at h
    simp only [hfst, pure, Except.pure, Except.ok.injEq, Prod.mk.injEq] at h
    exact ⟨rfl, h.1.symm, h.2.symm⟩
  | some m =>
    right
    have hfst : (hotring_get (s.itx_table (itemx_bucket s hash)) md).1 = some m := by
      rw [hotring_get_fst, hfind]
    simp only [itemx_bucket] at hfst
    cases hs : s.stable[m.sid]? with
    | none =>
      simp only [itemx_removex, itemx_getx, itemx_bucket, hfst, sid_to_sinfo, tget, hs, bind,
        Except.bind, reduceCtorEq] at h
    | some sinfo =>
      have hlt := lt_of_getElem? hs
      cases hc : s.ctable[sinfo.cid]? with
      | none =>
        cases hmem : sinfo.mem with
        | false =>
          simp only [itemx_removex, itemx_getx, itemx_bucket, hfst, sid_to_sinfo, tget, hs, hmem,
            hc, slab_incr_chunks_by_sid, bind, Except.bind, pure, Except.pure,
            Bool.false_eq_true, if_false, reduceCtorEq] at h
        | true =>
          simp only [itemx_removex, itemx_getx, itemx_bucket, hfst, sid_to_sinfo, tget, hs, hmem,
            hc, itemx_removex_hole, cid_to_size, bind, Except.bind, pure, Except.pure,
            if_true, reduceCtorEq] at h
      | some c =>
        by_cases hsize : sinfo.mem = true → c.size ≠ 0
        · rw [itemx_removex_eq s hash md m sinfo c hfind hs hc hsize] at h
          simp only [Except.ok.injEq, Prod.mk.injEq] at h
          refine ⟨m, sinfo, c, ?_, ?_, ?_, hsize, h.1.symm, h.2.symm⟩ <;> first | rfl | assumption
        · have hmem : sinfo.mem = true := by
            by_contra hm; exact hsize (fun h1 => absurd h1 hm)
          have hz : c.size = 0 := by
            by_contra hz; exact hsize (fun _ => hz)
          simp only [itemx_removex, itemx_getx, itemx_bucket, hfst, sid_to_sinfo, tget, hs, hmem,
            hc, itemx_removex_hole, cid_to_size, bind, Except.bind, pure, Except.pure,
            if_true, hz, reduceCtorEq] at h

/-! ## Frames -/

theorem class_occ_queues (ctable : List slabclass) (i : Nat) :
    ctable.map (class_occ i)
      = (class_queues ctable).map (fun q => q.1.count i + q.2.toList.count i) := by
  simp only [class_queues, List.map_map]
  rfl

theorem class_len_queues (ctable : List slabclass) :
    ctable.map class_len = (class_queues ctable).map (fun q => q.1.length + q.2.toList.length) := by
  simp only [class_queues, List.map_map]
  rfl

theorem slab_frame_refl (s : State) : slab_frame s s :=
  ⟨rfl, rfl, rfl, rfl, rfl, rfl, rfl, rfl, rfl, rfl, rfl, rfl, rfl, rfl, fun _ => Nat.le_refl _⟩

theorem slab_frame_trans {s s1 s2 : State} (h1 : slab_frame s s1) (h2 : slab_frame s1 s2) :
    slab_frame s s2 :=
  ⟨h2.free_m.trans h1.free_m, h2.nfree_m.trans h1.nfree_m, h2.full_m.trans h1.full_m,
   h2.nfull_m.trans h1.nfull_m, h2.lruh.trans h1.lruh, h2.lruh_disk.trans h1.lruh_disk,
   h2.classes.trans h1.classes, h2.links.trans h1.links, h2.tiers.trans h1.tiers,
   h2.sids.trans h1.sids, h2.nmslab.trans h1.nmslab, h2.ndslab.trans h1.ndslab,
   h2.pread.trans h1.pread, h2.pwrite.trans h1.pwrite,
   fun i => Nat.le_trans (h2.disk i) (h1.disk i)⟩

theorem slab_frame_mem_occ {s s1 : State} (h : slab_frame s s1) (i : Nat) :
    mem_occ s1 i = mem_occ s i := by
  simp only [mem_occ, h.free_m, h.full_m, class_occ_queues, h.classes]

theorem slab_frame_length {s s1 : State} (h : slab_frame s s1) :
    s1.stable.length = s.stable.length := by
  have := congrArg List.length h.links
  simpa [lru_links] using this

theorem slab_same_length {s s1 : State} (h : slab_same s s1) :
    s1.stable.length = s.stable.length := by
  have := congrArg List.length h.links
  simpa [lru_links] using this

/-- The structural invariant passes to a state with the same places. -/
theorem slab_inv_same {s s1 : State} (hi : slab_inv s) (h : slab_same s s1) : slab_inv s1 := by
  have hlen := slab_same_length h
  refine ⟨?_, ?_, ?_, ?_, ?_, ?_, ?_, ?_, ?_, ?_⟩
  · intro i
    have := hi.once i
    have := h.disk i
    rw [h.mem]; omega
  · intro i hpos
    rw [h.tiers]
    exact hi.mem_tier i (by rw [← h.mem]; exact hpos)
  · intro i hpos
    rw [h.tiers]
    exact hi.disk_tier i (Nat.lt_of_lt_of_le hpos (h.disk i))
  · rw [h.links, h.full_m]; exact hi.chain
  · rw [h.lruh, h.full_m]; exact hi.head
  · rw [h.lruh, h.full_m]; exact hi.tail
  · intro i hlt hni
    rw [h.links]
    exact hi.unlinked i (by rw [← hlen]; exact hlt) (by rw [← h.full_m]; exact hni)
  · rw [h.lruh_disk]; exact hi.lru_disk
  · rw [h.sids, hlen]; exact hi.sids
  · rw [h.tiers, h.nmslab, h.ndslab]; exact hi.tiers

theorem slab_frame_same {s s1 : State} (h : slab_frame s s1) : slab_same s s1 :=
  ⟨slab_frame_mem_occ h, h.disk, h.full_m, h.lruh, h.lruh_disk, h.links, h.tiers, h.sids,
   h.nmslab, h.ndslab⟩

/-- The structural invariant passes along a frame. -/
theorem slab_inv_frame {s s1 : State} (hi : slab_inv s) (h : slab_frame s s1) : slab_inv s1 :=
  slab_inv_same hi (slab_frame_same h)

/-- The counting invariant passes along a frame. -/
theorem count_inv_frame {s s1 : State} (hi : count_inv s) (h : slab_frame s s1) :
    count_inv s1 := by
  refine ⟨?_, ?_, ?_, ?_, ?_, ?_⟩
  · rw [h.pread]; exact hi.pread
  · rw [h.pwrite]; exact hi.pwrite
  · rw [h.nfree_m, h.free_m]; exact hi.nfree
  · rw [h.nfull_m, h.full_m]; exact hi.nfull
  · have := hi.total
    simp only [mem_len, class_len_queues] at this ⊢
    rw [h.free_m, h.full_m, h.classes, h.nmslab]; exact this
  · rw [h.nmslab]; exact hi.bound

theorem class_queues_set (ctable : List slabclass) (i : Nat) (c v : slabclass)
    (h : ctable[i]? = some c) (hp : v.partial_msinfoq = c.partial_msinfoq)
    (hh : v.hot_slabinfo = c.hot_slabinfo) :
    class_queues (ctable.set i v) = class_queues ctable :=
  map_set_same _ ctable i c v h (by simp only [hp, hh])

theorem itemx_getx_frame (s : State) (hash md : Nat) : slab_frame s (itemx_getx s hash md).2 :=
  ⟨rfl, rfl, rfl, rfl, rfl, rfl, rfl, rfl, rfl, rfl, rfl, rfl, rfl, rfl, fun _ => Nat.le_refl _⟩

theorem itemx_putx_frame (s s1 : State) (hash md sid offset expiry cas : Nat)
    (h : itemx_putx s hash md sid offset expiry cas = .ok s1) : slab_frame s s1 := by
  obtain ⟨e, rest, sinfo, c, _, _, hc, h1⟩ := itemx_putx_ok s s1 hash md sid offset expiry cas h
  subst h1
  exact ⟨rfl, rfl, rfl, rfl, rfl, rfl, class_queues_set _ _ c _ hc rfl rfl, rfl, rfl, rfl, rfl,
    rfl, rfl, rfl, fun _ => Nat.le_refl _⟩

theorem stable_after_remove_map {β : Type} (f : slabinfo → β) (stable : List slabinfo)
    (m : itemx) (sinfo : slabinfo) (size : Nat) (hs : stable[m.sid]? = some sinfo)
    (hf : ∀ (x : slabinfo) (h : List Nat) (n : Nat),
      f { x with hole_head := h, nalloc := n } = f x) :
    (stable_after_remove stable m sinfo size).map f = stable.map f := by
  unfold stable_after_remove
  split
  · exact map_set_same f _ _ sinfo _ hs (hf _ _ _)
  · rfl

theorem itemx_removex_frame (s s1 : State) (hash md : Nat) (b : Bool)
    (h : itemx_removex s hash md = .ok (b, s1)) : slab_frame s s1 := by
  rcases itemx_removex_ok s s1 hash md b h with ⟨_, _, h1⟩ | ⟨m, sinfo, c, _, hs, hc, _, _, h1⟩
  · subst h1; exact itemx_getx_frame s hash md
  · subst h1
    exact ⟨rfl, rfl, rfl, rfl, rfl, rfl, class_queues_set _ _ c _ hc rfl rfl,
      stable_after_remove_map _ _ m sinfo c.size hs (fun _ _ _ => rfl),
      stable_after_remove_map _ _ m sinfo c.size hs (fun _ _ _ => rfl),
      stable_after_remove_map _ _ m sinfo c.size hs (fun _ _ _ => rfl), rfl,
      rfl, rfl, rfl, fun _ => Nat.le_refl _⟩

theorem slab_evict_items_succ (slab : slab) (size : Nat) (n idx : Nat) (s : State) :
    slab_evict_items slab size (n + 1) idx s
      = (match (itemx_getx s (slab.data (slab_to_item idx size)).hash
                  (slab.data (slab_to_item idx size)).md).1 with
         | some _ =>
           itemx_removex (itemx_getx s (slab.data (slab_to_item idx size)).hash
               (slab.data (slab_to_item idx size)).md).2
             (slab.data (slab_to_item idx size)).hash (slab.data (slab_to_item idx size)).md
             >>= fun r => pure r.2
         | none => pure (itemx_getx s (slab.data (slab_to_item idx size)).hash
               (slab.data (slab_to_item idx size)).md).2)
        >>= fun s2 => slab_evict_items slab size n (idx + 1) s2 := rfl

theorem slab_evict_items_frame (slab : slab) (size : Nat) (n idx : Nat) (s s1 : State)
    (h : slab_evict_items slab size n idx s = .ok s1) : slab_frame s s1 := by
  induction n generalizing idx s with
  | zero =>
    simp only [slab_evict_items, Except.ok.injEq] at h
    subst h; exact slab_frame_refl s
  | succ n ih =>
    rw [slab_evict_items_succ] at h
    obtain ⟨s2, h2, h⟩ := bind_ok h
    have hf2 : slab_frame s s2 := by
      cases hr : (itemx_getx s (slab.data (slab_to_item idx size)).hash
          (slab.data (slab_to_item idx size)).md).1 with
      | none =>
        rw [hr] at h2
        simp only [pure, Except.pure, Except.ok.injEq] at h2
        subst h2; exact itemx_getx_frame _ _ _
      | some m =>
        rw [hr] at h2
        obtain ⟨⟨b, t⟩, h3, h2⟩ := bind_ok h2
        simp only [pure, Except.pure, Except.ok.injEq] at h2
        subst h2
        exact slab_frame_trans (itemx_getx_frame _ _ _) (itemx_removex_frame _ _ _ _ _ h3)
    exact slab_frame_trans hf2 (ih _ _ h)

/-! ## Eviction -/

theorem head?_cons_of {α : Type} {l : List α} {x : α} (h : l.head? = some x) :
    ∃ rest, l = x :: rest := by
  cases l with
  | nil => simp at h
  | cons a t =>
    simp only [List.head?_cons, Option.some.injEq] at h
    exact ⟨t, by rw [h]⟩

/-- What a returning `slab_evict` does when the LRU list of the disk tier is
empty: the victim is the head of the disk-full queue; a short read leaves it
dequeued; otherwise the entries of the digests in the eviction buffer are
removed and it is appended to the free-disk queue. -/
theorem slab_evict_ok (s s1 : State) (status : rstatus_t) (h0 : s.lruh_disk.head = none)
    (h : slab_evict s = .ok (status, s1)) :
    ∃ sid rest sinfo, s.full_dsinfoq = sid :: rest ∧ s.stable[sid]? = some sinfo ∧
      ((io_short (io_ret s.slab_size s.pread_r) s.slab_size = true ∧
        status = rstatus_t.FC_ERROR ∧
        s1 = { s with nfull_dsinfoq := wrap_dec 32 s.nfull_dsinfoq, full_dsinfoq := rest,
                      evictbuf := evict_read s sinfo }) ∨
       (io_short (io_ret s.slab_size s.pread_r) s.slab_size = false ∧
        status = rstatus_t.FC_OK ∧
        ∃ c s3 c1, s.ctable[(evict_read s sinfo).cid]? = some c ∧
          slab_evict_items (evict_read s sinfo) c.size c.nitem 0
            { s with nfull_dsinfoq := wrap_dec 32 s.nfull_dsinfoq, full_dsinfoq := rest,
                     evictbuf := evict_read s sinfo }
            = .ok s3 ∧
          s3.ctable[(evict_read s sinfo).cid]? = some c1 ∧
          s1 = { s3 with nfree_dsinfoq := (s3.nfree_dsinfoq + 1) % 2 ^ 32,
                         free_dsinfoq := s3.free_dsinfoq ++ [sid],
                         nevict := (s3.nevict + 1) % 2 ^ 64,
                         ctable := s3.ctable.set (evict_read s sinfo).cid
                           { c1 with nevict := (c1.nevict + 1) % 2 ^ 64,
                                     ndslab := wrap_dec 32 c1.ndslab } })) := by
  unfold slab_evict at h
  simp only [h0] at h
  obtain ⟨⟨sid, sa⟩, h1, h⟩ := bind_ok h
  obtain ⟨sid1, h1a, h1⟩ := bind_ok h1
  simp only [pure, Except.pure, Except.ok.injEq, Prod.mk.injEq] at h1
  obtain ⟨e1, e2⟩ := h1
  subst e1; subst e2
  obtain ⟨rest, hrest⟩ := head?_cons_of (deref_ok h1a)
  simp only at h
  obtain ⟨sinfo, h2, h⟩ := bind_ok h
  have h2 := tget_get h2
  refine ⟨sid1, rest, sinfo, hrest, h2, ?_⟩
  have herase : s.full_dsinfoq.erase sid1 = rest := by
    rw [hrest]; exact List.erase_cons_head _ _
  rw [herase] at h
  cases hp : io_short (io_ret s.slab_size s.pread_r) s.slab_size with
  | true =>
    left
    simp only [hp, if_true, pure, Except.pure, Except.ok.injEq, Prod.mk.injEq] at h
    exact ⟨rfl, h.1.symm, h.2.symm⟩
  | false =>
    right
    simp only [hp, Bool.false_eq_true, if_false] at h
    obtain ⟨c, h3, h⟩ := bind_ok h
    obtain ⟨s3, h4, h⟩ := bind_ok h
    obtain ⟨c1, h5, h⟩ := bind_ok h
    simp only [pure, Except.pure, Except.ok.injEq, Prod.mk.injEq] at h
    exact ⟨rfl, h.1.symm, c, s3, c1, tget_get h3, h4, tget_get h5, h.2.symm⟩

theorem slab_evict_frame (s s1 : State) (status : rstatus_t) (h0 : s.lruh_disk.head = none)
    (h : slab_evict s = .ok (status, s1)) : slab_frame s s1 := by
  obtain ⟨sid, rest, sinfo, hq, _, hcase⟩ := slab_evict_ok s s1 status h0 h
  rcases hcase with ⟨_, _, e⟩ | ⟨_, _, c, s3, c1, _, h3, hc1, e⟩
  · subst e
    refine ⟨rfl, rfl, rfl, rfl, rfl, rfl, rfl, rfl, rfl, rfl, rfl, rfl, rfl, rfl, ?_⟩
    intro i
    simp only [disk_occ, hq, List.count_cons]
    omega
  · have hf := slab_evict_items_frame _ _ _ _ _ _ h3
    subst e
    refine ⟨hf.free_m, hf.nfree_m, hf.full_m, hf.nfull_m, hf.lruh, hf.lruh_disk, ?_, hf.links,
      hf.tiers, hf.sids, hf.nmslab, hf.ndslab, hf.pread, hf.pwrite, ?_⟩
    · rw [← hf.classes]
      exact class_queues_set _ _ c1 _ hc1 rfl rfl
    · intro i
      have := hf.disk i
      simp only [disk_occ, hq, List.count_cons, List.count_append, List.count_nil] at this ⊢
      omega

/-! ## LRU operations on a well-formed list -/

theorem lru_chain_last (links : List (Option Nat × Option Nat)) (prev : Option Nat)
    (l : List Nat) (t : Nat) (hl : l.getLast? = some t) (h : lru_chain links prev l) :
    ∃ p, links[t]? = some (p, none) := by
  induction l generalizing prev with
  | nil => simp at hl
  | cons x rest ih =>
    obtain ⟨h1, h2⟩ := h
    cases rest with
    | nil =>
      simp only [List.getLast?_singleton, Option.some.injEq] at hl
      subst hl
      exact ⟨prev, h1⟩
    | cons y rest2 =>
      have hl2 : (y :: rest2).getLast? = some t := by
        simpa [List.getLast?_cons_cons] using hl
      exact ih (some x) hl2 h2

theorem getLast?_append_singleton {α : Type} (l : List α) (x : α) :
    (l ++ [x]).getLast? = some x := by
  simp

theorem head?_append_singleton {α : Type} (l : List α) (x : α) (h : l ≠ []) :
    (l ++ [x]).head? = l.head? := by
  cases l with
  | nil => exact absurd rfl h
  | cons a t => rfl

theorem slab_tiers_set (stable : List slabinfo) (i : Nat) (x v : slabinfo)
    (h : stable[i]? = some x) (hm : v.mem = x.mem) (ha : v.addr = x.addr) :
    slab_tiers (stable.set i v) = slab_tiers stable :=
  map_set_same _ stable i x v h (by simp only [hm, ha])

theorem slab_sids_set (stable : List slabinfo) (i : Nat) (x v : slabinfo)
    (h : stable[i]? = some x) (hs : v.sid = x.sid) :
    (stable.set i v).map slabinfo.sid = stable.map slabinfo.sid :=
  map_set_same _ stable i x v h hs

theorem lru_links_set_same (stable : List slabinfo) (i : Nat) (x v : slabinfo)
    (h : stable[i]? = some x) (hp : v.pre = x.pre) (hn : v.next = x.next) :
    lru_links (stable.set i v) = lru_links stable :=
  map_set_same _ stable i x v h (by simp only [hp, hn])

/-- Function `lru_set` on a well-formed list `l` and an unlinked entry outside
it: the entry is appended. -/
theorem lru_set_append (stable : List slabinfo) (lruh : lru_head) (l : List Nat) (sid : Nat)
    (hchain : lru_chain (lru_links stable) none l)
    (hhead : lruh.head = l.head?) (htail : lruh.tail = l.getLast?)
    (hnd : l.Nodup) (hsid : sid ∉ l)
    (hunl : (lru_links stable)[sid]? = some (none, none))
    (r : List slabinfo × lru_head) (h : lru_set stable lruh sid = .ok r) :
    lru_chain (lru_links r.1) none (l ++ [sid]) ∧ r.2.head = (l ++ [sid]).head? ∧
    r.2.tail = (l ++ [sid]).getLast? ∧
    (∀ i, i ∉ l → i ≠ sid → (lru_links r.1)[i]? = (lru_links stable)[i]?) ∧
    slab_tiers r.1 = slab_tiers stable ∧ r.1.map slabinfo.sid = stable.map slabinfo.sid := by
  obtain ⟨it, hit, hlk⟩ := lru_links_get_inv hunl
  simp only [Prod.mk.injEq] at hlk
  have hlt := lt_of_getElem? hit
  cases hl : l.getLast? with
  | none =>
    have hnil : l = [] := List.getLast?_eq_none_iff.mp hl
    subst hnil
    have hlru : lruh = ⟨none, none⟩ := by
      cases lruh
      simp only [List.head?_nil, List.getLast?_nil] at hhead htail
      simp only [hhead, htail]
    rw [hlru, lru_set_empty stable sid it hit] at h
    simp only [Except.ok.injEq] at h
    subst h
    refine ⟨⟨?_, trivial⟩, rfl, rfl, ?_, ?_, ?_⟩
    · rw [lru_links_set, List.getElem?_set_self (by simpa [lru_links] using hlt)]
      rfl
    · intro i _ hne
      rw [lru_links_set, List.getElem?_set_ne (fun e => hne e.symm)]
    · exact slab_tiers_set _ _ it _ hit rfl rfl
    · exact slab_sids_set _ _ it _ hit rfl
  | some t =>
    have htmem : t ∈ l := List.mem_of_getLast?_eq_some hl
    have hne : t ≠ sid := fun e => hsid (e ▸ htmem)
    obtain ⟨p, hp⟩ := lru_chain_last _ _ _ _ hl hchain
    obtain ⟨ot, hot, hotl⟩ := lru_links_get_inv hp
    simp only [Prod.mk.injEq] at hotl
    have hlnil : l ≠ [] := by
      intro e; rw [e] at hl; simp at hl
    rw [lru_set_tail stable lruh sid t it ot hit hlk.1 hlk.2 (htail.trans hl) hne hot] at h
    simp only [Except.ok.injEq] at h
    subst h
    have hot1 : (stable.set sid { it with pre := some t, next := none })[t]? = some ot := by
      rw [List.getElem?_set_ne (fun e => hne e.symm)]; exact hot
    refine ⟨?_, ?_, ?_, ?_, ?_, ?_⟩
    · simp only [lru_links_set]
      rw [hotl.1]
      exact lru_chain_append _ none l t sid p hl hnd hsid (by simpa [lru_links] using hlt) hp
        hchain
    · simp only [head?_append_singleton l sid hlnil]; exact hhead
    · simp only [getLast?_append_singleton]
    · intro i hi hne2
      have hit2 : i ≠ t := fun e => hi (e ▸ htmem)
      simp only [lru_links_set]
      rw [List.getElem?_set_ne (fun e => hit2 e.symm), List.getElem?_set_ne (fun e => hne2 e.symm)]
    · refine (slab_tiers_set _ _ ot _ hot1 ?_ ?_).trans (slab_tiers_set _ _ it _ hit ?_ ?_) <;> rfl
    · refine (slab_sids_set _ _ ot _ hot1 ?_).trans (slab_sids_set _ _ it _ hit ?_) <;> rfl

/-- Function `lru_remove_head` on a well-formed list `h :: rest`: the head is
unlinked and the list is `rest`. -/
theorem lru_remove_head_chain (stable : List slabinfo) (lruh : lru_head) (hd : Nat)
    (rest : List Nat)
    (hchain : lru_chain (lru_links stable) none (hd :: rest))
    (hhead : lruh.head = some hd) (htail : lruh.tail = (hd :: rest).getLast?)
    (hnd : (hd :: rest).Nodup)
    (r : List slabinfo × lru_head) (h : lru_remove_head stable lruh = .ok r) :
    lru_chain (lru_links r.1) none rest ∧ r.2.head = rest.head? ∧ r.2.tail = rest.getLast? ∧
    (lru_links r.1)[hd]? = some (none, none) ∧
    (∀ i, i ∉ hd :: rest → (lru_links r.1)[i]? = (lru_links stable)[i]?) ∧
    slab_tiers r.1 = slab_tiers stable ∧ r.1.map slabinfo.sid = stable.map slabinfo.sid := by
  obtain ⟨hd1, hv, hh, hhv, hcase⟩ := lru_remove_head_ok stable lruh r h
  rw [hhead] at hh
  simp only [Option.some.injEq] at hh
  subst hh
  obtain ⟨hc1, hc2⟩ := hchain
  rw [lru_links_get hhv] at hc1
  simp only [Option.some.injEq, Prod.mk.injEq] at hc1
  have hhd : hd ∉ rest := (List.nodup_cons.mp hnd).1
  rcases hcase with ⟨hnx, e⟩ | ⟨n, nv, hnx, hnv, e⟩
  · subst e
    have hrest : rest = [] := by
      rw [hnx] at hc1
      cases rest with
      | nil => rfl
      | cons a t => simp at hc1
    subst hrest
    refine ⟨trivial, rfl, rfl, ?_, fun _ _ => rfl, rfl, rfl⟩
    rw [lru_links_get hhv, hc1.1, hnx]
  · subst e
    rw [hnx] at hc1
    cases rest with
    | nil => simp at hc1
    | cons a t =>
      simp only [List.head?_cons, Option.some.injEq] at hc1
      obtain ⟨hpre, han⟩ := hc1
      subst han
      have hne : hd ≠ n := fun e => hhd (e ▸ List.mem_cons_self _ _)
      have hnt : n ∉ t := (List.nodup_cons.mp (List.nodup_cons.mp hnd).2).1
      have hnv0 : stable[n]? = some nv := by
        rw [List.getElem?_set_ne hne] at hnv; exact hnv
      have hlt : hd < (lru_links stable).length := by
        simpa [lru_links] using lt_of_getElem? hhv
      refine ⟨?_, rfl, ?_, ?_, ?_, ?_, ?_⟩
      · simp only [lru_links_set]
        have h3 := lru_chain_set_ne (lru_links stable) hd (hv.pre, none) (some hd) (n :: t) hhd hc2
        have h4 := lru_chain_head_pre _ _ n t hnt h3 none
        obtain ⟨h5, _⟩ := hc2
        rw [lru_links_get hnv0] at h5
        simp only [Option.some.injEq, Prod.mk.injEq] at h5
        rw [← h5.2] at h4
        exact h4
      · simp only [List.getLast?_cons_cons] at htail
        exact htail
      · simp only [lru_links_set]
        rw [List.getElem?_set_ne (fun e => hne e.symm), List.getElem?_set_self hlt, hpre]
      · intro i hi
        simp only [List.mem_cons, not_or] at hi
        simp only [lru_links_set]
        rw [List.getElem?_set_ne (fun e => hi.2.1 e.symm),
          List.getElem?_set_ne (fun e => hi.1 e.symm)]
      · refine (slab_tiers_set _ _ nv _ hnv ?_ ?_).trans (slab_tiers_set _ _ hv _ hhv ?_ ?_) <;>
          rfl
      · refine (slab_sids_set _ _ nv _ hnv ?_).trans (slab_sids_set _ _ hv _ hhv ?_) <;> rfl

/-! ## Allocation -/

/-- What a returning `slab_get_item_free` does. -/
theorem slab_get_item_free_ok (s s2 : State) (cid : Nat) (update : Bool)
    (h : slab_get_item_free s cid update = .ok s2) :
    ∃ sid rest c sinfo, s.free_msinfoq = sid :: rest ∧ s.ctable[cid]? = some c ∧
      s.stable[sid]? = some sinfo ∧
      s2 = { s with nfree_msinfoq := wrap_dec 32 s.nfree_msinfoq,
                    free_msinfoq := rest,
                    ctable := s.ctable.set cid
                      (if update = true then
                         { c with nmslab := (c.nmslab + 1) % 2 ^ 32, hot_slabinfo := some sid }
                       else
                         { c with nmslab := (c.nmslab + 1) % 2 ^ 32,
                                  partial_msinfoq := sid :: c.partial_msinfoq }),
                    stable := s.stable.set sid { sinfo with nalloc := 0, cid := cid },
                    mstart := upd s.mstart sinfo.addr
                      { s.mstart sinfo.addr with
                        magic := SLAB_MAGIC, cid := cid, sid := sinfo.sid } } := by
  unfold slab_get_item_free at h
  obtain ⟨sid, h1, h⟩ := bind_ok h
  obtain ⟨c, h2, h⟩ := bind_ok h
  obtain ⟨sinfo, h3, h⟩ := bind_ok h
  obtain ⟨rest, hrest⟩ := head?_cons_of (deref_ok h1)
  have herase : s.free_msinfoq.erase sid = rest := by
    rw [hrest]; exact List.erase_cons_head _ _
  simp only [pure, Except.pure, Except.ok.injEq, herase] at h
  refine ⟨sid, rest, c, sinfo, hrest, tget_get h2, tget_get h3, ?_⟩
  rw [← h]

theorem slab_get_item_free_same (s s2 : State) (cid : Nat) (update : Bool)
    (hhot : ∀ c, s.ctable[cid]? = some c → update = true → c.hot_slabinfo = none)
    (h : slab_get_item_free s cid update = .ok s2) : slab_same s s2 := by
  obtain ⟨sid, rest, c, sinfo, hq, hc, hs, e⟩ := slab_get_item_free_ok s s2 cid update h
  subst e
  refine ⟨?_, fun _ => Nat.le_refl _, rfl, rfl, rfl, ?_, ?_, ?_, rfl, rfl⟩
  · intro i
    simp only [mem_occ, hq, List.count_cons]
    cases update with
    | false =>
      have := sum_map_set (class_occ i) s.ctable cid c
        { c with nmslab := (c.nmslab + 1) % 2 ^ 32,
                 partial_msinfoq := sid :: c.partial_msinfoq } hc
      simp only [class_occ, List.count_cons] at this
      simp only [Bool.false_eq_true, if_false]
      omega
    | true =>
      have hh := hhot c hc rfl
      have := sum_map_set (class_occ i) s.ctable cid c
        { c with nmslab := (c.nmslab + 1) % 2 ^ 32, hot_slabinfo := some sid } hc
      simp only [class_occ, hh, Option.toList_some, Option.toList_none, List.count_cons,
        List.count_nil] at this
      simp only [if_true]
      omega
  · exact lru_links_set_same _ _ sinfo _ hs rfl rfl
  · exact slab_tiers_set _ _ sinfo _ hs rfl rfl
  · exact slab_sids_set _ _ sinfo _ hs rfl

/-- What a returning `_slab_get_item` does: it takes a slot in the working slab
of the class and then runs the `slab_full` blocks. -/
theorem _slab_get_item_ok (s s1 : State) (cid : Nat) (update : Bool) (p : item_ptr)
    (h : _slab_get_item s cid update = .ok (p, s1)) :
    ∃ c sid sinfo, s.ctable[cid]? = some c ∧
      (if update = true then c.hot_slabinfo else c.partial_msinfoq.head?) = some sid ∧
      s.stable[sid]? = some sinfo ∧ p = (_slab_get_item_take s c sid sinfo).1 ∧
      _slab_get_item_filled (_slab_get_item_take s c sid sinfo).2 cid sid update = .ok s1 := by
  unfold _slab_get_item at h
  obtain ⟨c, h1, h⟩ := bind_ok h
  obtain ⟨sid, h2, h⟩ := bind_ok h
  obtain ⟨sinfo, h3, h⟩ := bind_ok h
  obtain ⟨s3, h4, h⟩ := bind_ok h
  simp only [pure, Except.pure, Except.ok.injEq, Prod.mk.injEq] at h
  obtain ⟨e1, e2⟩ := h
  subst e2
  refine ⟨c, sid, sinfo, tget_get h1, ?_, tget_get h3, e1.symm, h4⟩
  unfold _slab_get_item_sinfo at h2
  cases update
  · simp only [Bool.false_eq_true, if_false] at h2 ⊢; exact deref_ok h2
  · simp only [if_true] at h2 ⊢; exact deref_ok h2

theorem _slab_get_item_take_stable (s : State) (c : slabclass) (sid : Nat) (sinfo : slabinfo) :
    ∃ v, (_slab_get_item_take s c sid sinfo).2.stable = s.stable.set sid v ∧
      v.sid = sinfo.sid ∧ v.mem = sinfo.mem ∧ v.addr = sinfo.addr ∧ v.pre = sinfo.pre ∧
      v.next = sinfo.next ∧ v.cid = sinfo.cid := by
  unfold _slab_get_item_take
  cases sinfo.hole_head <;> exact ⟨_, rfl, rfl, rfl, rfl, rfl, rfl, rfl⟩

theorem _slab_get_item_take_frame (s : State) (c : slabclass) (sid : Nat) (sinfo : slabinfo)
    (hs : s.stable[sid]? = some sinfo) : slab_frame s (_slab_get_item_take s c sid sinfo).2 := by
  obtain ⟨v, hv, h1, h2, h3, h4, h5, _⟩ := _slab_get_item_take_stable s c sid sinfo
  refine ⟨rfl, rfl, rfl, rfl, rfl, rfl, rfl, ?_, ?_, ?_, rfl, rfl, rfl, rfl,
    fun _ => Nat.le_refl _⟩
  · rw [hv]; exact lru_links_set_same _ _ sinfo _ hs h4 h5
  · rw [hv]; exact slab_tiers_set _ _ sinfo _ hs h2 h3
  · rw [hv]; exact slab_sids_set _ _ sinfo _ hs h1

theorem slab_full_ok (s : State) (sinfo : slabinfo) (b : Bool) (h : slab_full s sinfo = .ok b) :
    ∃ c, s.ctable[sinfo.cid]? = some c ∧ b = decide (c.nitem = sinfo.nalloc) := by
  unfold slab_full at h
  obtain ⟨c, h1, h⟩ := bind_ok h
  simp only [pure, Except.pure, Except.ok.injEq] at h
  exact ⟨c, tget_get h1, h.symm⟩

/-- What a returning `_slab_get_item_filled` does: nothing when the slab has
not filled; otherwise the slab moves to the tail of the full queue and `lru_set`
is applied to it. -/
theorem _slab_get_item_filled_cases (s s1 : State) (cid sid : Nat) (update : Bool)
    (cc : slabclass) (hcc : s.ctable[cid]? = some cc)
    (h : _slab_get_item_filled s cid sid update = .ok s1) :
    ∃ sinfo c0, s.stable[sid]? = some sinfo ∧ s.ctable[sinfo.cid]? = some c0 ∧
      ((c0.nitem ≠ sinfo.nalloc ∧ s1 = s) ∨
       (c0.nitem = sinfo.nalloc ∧
        _slab_get_item_lru
          { s with ctable := s.ctable.set cid
                     (if update = true then { cc with hot_slabinfo := none }
                      else { cc with partial_msinfoq := cc.partial_msinfoq.erase sid }),
                   nfull_msinfoq := (s.nfull_msinfoq + 1) % 2 ^ 32,
                   full_msinfoq := s.full_msinfoq ++ [sid] } sid = .ok s1)) := by
  unfold _slab_get_item_filled at h
  obtain ⟨sinfo, h1, h⟩ := bind_ok h
  obtain ⟨full, h2, h⟩ := bind_ok h
  have h1 := tget_get h1
  obtain ⟨c0, hc0, hfull⟩ := slab_full_ok s sinfo full h2
  refine ⟨sinfo, c0, h1, hc0, ?_⟩
  by_cases hf : c0.nitem = sinfo.nalloc
  · right
    have hft : full = true := by rw [hfull]; exact decide_eq_true hf
    simp only [hft, if_true] at h
    obtain ⟨s2, h3, h⟩ := bind_ok h
    rw [_slab_get_item_full_eq s cid sid update cc hcc] at h3
    simp only [Except.ok.injEq] at h3
    subst h3
    obtain ⟨sinfo2, h4, h⟩ := bind_ok h
    obtain ⟨full2, h5, h⟩ := bind_ok h
    have h4 := tget_get h4
    simp only at h4
    rw [h1] at h4
    simp only [Option.some.injEq] at h4
    subst h4
    obtain ⟨c2, hc2, hfull2⟩ := slab_full_ok _ sinfo full2 h5
    simp only at hc2
    have hn : c2.nitem = c0.nitem := by
      have hm : (s.ctable.set cid
          (if update = true then { cc with hot_slabinfo := none }
           else { cc with partial_msinfoq := cc.partial_msinfoq.erase sid })).map
            slabclass.nitem = s.ctable.map slabclass.nitem :=
        map_set_same _ _ _ cc _ hcc (by cases update <;> rfl)
      have h6 := congrArg (fun l => l[sinfo.cid]?) hm
      simp only [List.getElem?_map, hc2, hc0, Option.map_some', Option.some.injEq] at h6
      exact h6
    have hft2 : full2 = true := by rw [hfull2, hn]; exact decide_eq_true hf
    subst hft2
    simp only [if_true] at h
    exact ⟨hf, h⟩
  · left
    have hft : full = false := by rw [hfull]; exact decide_eq_false hf
    simp only [hft, Bool.false_eq_true, if_false] at h
    obtain ⟨s2, h3, h⟩ := bind_ok h
    simp only [pure, Except.pure, Except.ok.injEq] at h3
    subst h3
    obtain ⟨sinfo2, h4, h⟩ := bind_ok h
    obtain ⟨full2, h5, h⟩ := bind_ok h
    have h4 := tget_get h4
    rw [h1] at h4
    simp only [Option.some.injEq] at h4
    subst h4
    rw [h2] at h5
    simp only [Except.ok.injEq] at h5
    subst h5
    subst hft
    simp only [Bool.false_eq_true, if_false, pure, Except.pure, Except.ok.injEq] at h
    exact ⟨hf, h.symm⟩

/-- What a returning `_slab_get_item_lru` does for a memory slab. -/
theorem _slab_get_item_lru_mem (s s1 : State) (sid : Nat)
    (h : _slab_get_item_lru s sid = .ok s1) (sinfo : slabinfo)
    (hs : s.stable[sid]? = some sinfo) (hmem : sinfo.mem = true) :
    ∃ r, lru_set s.stable s.lruh sid = .ok r ∧ s1 = { s with stable := r.1, lruh := r.2 } := by
  unfold _slab_get_item_lru at h
  obtain ⟨sinfo1, h1, h⟩ := bind_ok h
  have h1 := tget_get h1
  rw [hs] at h1
  simp only [Option.some.injEq] at h1
  subst h1
  rw [if_pos hmem] at h
  obtain ⟨r, h2, h⟩ := bind_ok h
  simp only [pure, Except.pure, Except.ok.injEq] at h
  exact ⟨r, h2, h.symm⟩

theorem class_move (c : slabclass) (update : Bool) (sid : Nat)
    (hsid : (if update = true then c.hot_slabinfo else c.partial_msinfoq.head?) = some sid) :
    (∀ i, class_occ i c
      = class_occ i (if update = true then { c with hot_slabinfo := none }
                     else { c with partial_msinfoq := c.partial_msinfoq.erase sid })
        + (if sid = i then 1 else 0)) ∧
    class_len c
      = class_len (if update = true then { c with hot_slabinfo := none }
                   else { c with partial_msinfoq := c.partial_msinfoq.erase sid }) + 1 := by
  cases update with
  | false =>
    simp only [Bool.false_eq_true, if_false] at hsid ⊢
    obtain ⟨rest, hrest⟩ := head?_cons_of hsid
    simp only [class_occ, class_len, hrest, List.erase_cons_head, List.count_cons,
      List.length_cons, beq_iff_eq]
    constructor
    · intro i; omega
    · omega
  | true =>
    simp only [if_true] at hsid ⊢
    constructor
    · intro i
      simp only [class_occ, hsid, Option.toList, List.count_cons, List.count_nil, beq_iff_eq]
      omega
    · simp only [class_len, hsid, Option.toList, List.length_cons, List.length_nil]

theorem le_sum_map {α : Type} (f : α → Nat) (l : List α) (i : Nat) (x : α)
    (h : l[i]? = some x) : f x ≤ (l.map f).sum := by
  induction l generalizing i with
  | nil => simp at h
  | cons a t ih =>
    cases i with
    | zero =>
      simp only [List.getElem?_cons_zero, Option.some.injEq] at h
      subst h
      simp only [List.map_cons, List.sum_cons]
      omega
    | succ k =>
      simp only [List.getElem?_cons_succ] at h
      have := ih k h
      simp only [List.map_cons, List.sum_cons]
      omega

theorem nodup_of_occ (s : State) (h : ∀ i, mem_occ s i + disk_occ s i ≤ 1) :
    s.full_msinfoq.Nodup := by
  rw [List.nodup_iff_count_le_one]
  intro i
  have := h i
  simp only [mem_occ] at this
  omega

theorem wrap_dec_succ (w n : Nat) : wrap_dec w (n + 1) = n := by
  simp only [wrap_dec, Nat.add_one_ne_zero, if_false, Nat.add_sub_cancel]

/-- The invariants pass through `_slab_get_item`. -/
theorem _slab_get_item_inv (s s1 : State) (cid : Nat) (update : Bool) (p : item_ptr)
    (hi : slab_inv s) (h : _slab_get_item s cid update = .ok (p, s1)) :
    slab_inv s1 ∧ (count_inv s → count_inv s1) := by
  obtain ⟨c, sid, sinfo, hc, hsid, hs, _, hfilled⟩ := _slab_get_item_ok s s1 cid update p h
  have hfr := _slab_get_item_take_frame s c sid sinfo hs
  have hi1 := slab_inv_frame hi hfr
  have hc1 : (_slab_get_item_take s c sid sinfo).2.ctable[cid]? = some c := hc
  obtain ⟨sinfo2, c0, hs2, _, hcase⟩ :=
    _slab_get_item_filled_cases _ s1 cid sid update c hc1 hfilled
  rcases hcase with ⟨_, e⟩ | ⟨_, hlru⟩
  · subst e
    exact ⟨hi1, fun hcnt => count_inv_frame hcnt hfr⟩
  · obtain ⟨hmove, hlen⟩ := class_move c update sid hsid
    generalize hst : (_slab_get_item_take s c sid sinfo).2 = t at hfr hi1 hc1 hs2 hlru
    have hocc : 0 < class_occ sid c := by
      have := hmove sid
      simp only [if_true] at this
      omega
    have hsum := le_sum_map (class_occ sid) t.ctable cid c hc1
    have hmpos : 0 < mem_occ t sid := by
      simp only [mem_occ]; omega
    have hnotfull : sid ∉ t.full_msinfoq := by
      intro hmem
      have h1 := List.count_pos_iff.mpr hmem
      have h2 := hi1.once sid
      simp only [mem_occ] at h2
      omega
    obtain ⟨a, ha⟩ := hi1.mem_tier sid hmpos
    have hmemflag : sinfo2.mem = true := by
      simp only [slab_tiers, List.getElem?_map, hs2, Option.map_some', Option.some.injEq,
        Prod.mk.injEq] at ha
      exact ha.1
    obtain ⟨r, hr, e⟩ := _slab_get_item_lru_mem _ s1 sid hlru sinfo2 hs2 hmemflag
    change lru_set t.stable t.lruh sid = .ok r at hr
    obtain ⟨k1, k2, k3, k4, k5, k6⟩ := lru_set_append t.stable t.lruh t.full_msinfoq sid
      hi1.chain hi1.head hi1.tail (nodup_of_occ t hi1.once) hnotfull
      (hi1.unlinked sid (lt_of_getElem? hs2) hnotfull) r hr
    have hlen2 : r.1.length = t.stable.length := by
      have := congrArg List.length k6
      simpa using this
    have hmocc : ∀ i, mem_occ s1 i = mem_occ t i := by
      intro i
      have h1 := sum_map_set (class_occ i) t.ctable cid c
        (if update = true then { c with hot_slabinfo := none }
         else { c with partial_msinfoq := c.partial_msinfoq.erase sid }) hc1
      have h2 := hmove i
      rw [e]
      simp only [mem_occ, List.count_append, List.count_cons, List.count_nil, beq_iff_eq]
      omega
    have hdocc : ∀ i, disk_occ s1 i = disk_occ t i := by
      intro i; rw [e]; rfl
    constructor
    · refine ⟨?_, ?_, ?_, ?_, ?_, ?_, ?_, ?_, ?_, ?_⟩
      · intro i; rw [hmocc, hdocc]; exact hi1.once i
      · intro i hpos
        rw [hmocc] at hpos
        rw [e]; simp only; rw [k5]
        exact hi1.mem_tier i hpos
      · intro i hpos
        rw [hdocc] at hpos
        rw [e]; simp only; rw [k5]
        exact hi1.disk_tier i hpos
      · rw [e]; exact k1
      · rw [e]; exact k2
      · rw [e]; exact k3
      · intro i hlt hni
        rw [e] at hlt hni ⊢
        simp only [List.mem_append, List.mem_singleton, not_or] at hni
        simp only at hlt ⊢
        rw [k4 i hni.1 hni.2]
        exact hi1.unlinked i (by rw [← hlen2]; exact hlt) hni.1
      · rw [e]; exact hi1.lru_disk
      · rw [e]; simp only; rw [k6, hlen2]; exact hi1.sids
      · rw [e]; simp only; rw [k5]; exact hi1.tiers
    · intro hcnt
      have hcnt1 := count_inv_frame hcnt hfr
      have h1 := sum_map_set class_len t.ctable cid c
        (if update = true then { c with hot_slabinfo := none }
         else { c with partial_msinfoq := c.partial_msinfoq.erase sid }) hc1
      have htot := hcnt1.total
      have hb := hcnt1.bound
      have hnf := hcnt1.nfull
      simp only [mem_len] at htot
      refine ⟨?_, ?_, ?_, ?_, ?_, ?_⟩
      · rw [e]; exact hcnt1.pread
      · rw [e]; exact hcnt1.pwrite
      · rw [e]; exact hcnt1.nfree
      · rw [e]
        simp only [List.length_append, List.length_cons, List.length_nil, hnf]
        apply Nat.mod_eq_of_lt
        omega
      · rw [e]
        simp only [mem_len, List.length_append, List.length_cons, List.length_nil]
        omega
      · rw [e]; exact hb

/-! ## Drain -/

/-- What a returning `slab_swap_addr` does. -/
theorem slab_swap_addr_ok (stable stable1 : List slabinfo) (msid dsid : Nat)
    (h : slab_swap_addr stable msid dsid = .ok stable1) :
    ∃ msinfo dsinfo dsinfo1, stable[msid]? = some msinfo ∧ stable[dsid]? = some dsinfo ∧
      (stable.set msid { msinfo with addr := dsinfo.addr, mem := false })[dsid]? = some dsinfo1 ∧
      stable1 = (stable.set msid { msinfo with addr := dsinfo.addr, mem := false }).set dsid
        { dsinfo1 with addr := msinfo.addr, mem := true } := by
  unfold slab_swap_addr at h
  obtain ⟨msinfo, h1, h⟩ := bind_ok h
  obtain ⟨dsinfo, h2, h⟩ := bind_ok h
  obtain ⟨dsinfo1, h3, h⟩ := bind_ok h
  simp only [pure, Except.pure, Except.ok.injEq] at h
  exact ⟨msinfo, dsinfo, dsinfo1, tget_get h1, tget_get h2, tget_get h3, h.symm⟩

/-- What a returning `_slab_drain` does: the victim and the first free disk
slab are dequeued; a short write leaves them so; otherwise the addresses are
exchanged and the two slabs are enqueued on the other tier.  The device block
at the disk slab's offset is what the write has made of it. -/
theorem _slab_drain_ok (s s1 : State) (status : rstatus_t)
    (h : _slab_drain s = .ok (status, s1)) :
    ∃ msid r msinfo dsid dsinfo, drain_victim s = some msid ∧
      ((s.lruh.head = some msid ∧ lru_remove_head s.stable s.lruh = .ok r) ∨
       (s.lruh.head = none ∧ r = (s.stable, s.lruh))) ∧
      r.1[msid]? = some msinfo ∧ s.free_dsinfoq.head? = some dsid ∧ r.1[dsid]? = some dsinfo ∧
      ((io_short (io_ret s.slab_size s.pwrite_r) s.slab_size = true ∧
        status = rstatus_t.FC_ERROR ∧
        s1 = { s with stable := r.1, lruh := r.2,
                      nfull_msinfoq := wrap_dec 32 s.nfull_msinfoq,
                      full_msinfoq := s.full_msinfoq.erase msid,
                      nfree_dsinfoq := wrap_dec 32 s.nfree_dsinfoq,
                      free_dsinfoq := s.free_dsinfoq.erase dsid,
                      disk := upd s.disk (slab_to_daddr s dsinfo)
                        (drain_write s msinfo dsinfo) }) ∨
       (io_short (io_ret s.slab_size s.pwrite_r) s.slab_size = false ∧
        status = rstatus_t.FC_OK ∧
        ∃ c stable1, s.ctable[msinfo.cid]? = some c ∧
          slab_swap_addr r.1 msid dsid = .ok stable1 ∧
          s1 = { s with stable := stable1, lruh := r.2,
                        nfull_msinfoq := wrap_dec 32 s.nfull_msinfoq,
                        full_msinfoq := s.full_msinfoq.erase msid,
                        nfree_dsinfoq := wrap_dec 32 s.nfree_dsinfoq,
                        free_dsinfoq := s.free_dsinfoq.erase dsid,
                        disk := upd s.disk (slab_to_daddr s dsinfo)
                          (drain_write s msinfo dsinfo),
                        ctable := s.ctable.set msinfo.cid
                          { c with nmslab := wrap_dec 32 c.nmslab,
                                   ndslab := (c.ndslab + 1) % 2 ^ 32 },
                        nfree_msinfoq := (s.nfree_msinfoq + 1) % 2 ^ 32,
                        free_msinfoq := s.free_msinfoq ++ [dsid],
                        nfull_dsinfoq := (s.nfull_dsinfoq + 1) % 2 ^ 32,
                        full_dsinfoq := s.full_dsinfoq ++ [msid],
                        nflush := (s.nflush + 1) % 2 ^ 64 })) := by
  unfold _slab_drain at h
  obtain ⟨⟨msid, sa⟩, h1, h⟩ := bind_ok h
  have hv : drain_victim s = some msid ∧ ∃ r,
      ((s.lruh.head = some msid ∧ lru_remove_head s.stable s.lruh = .ok r) ∨
       (s.lruh.head = none ∧ r = (s.stable, s.lruh))) ∧
      sa = { s with stable := r.1, lruh := r.2 } := by
    unfold drain_victim
    cases hh : s.lruh.head with
    | some x =>
      rw [hh] at h1
      obtain ⟨r, h5, h1⟩ := bind_ok h1
      simp only [pure, Except.pure, Except.ok.injEq, Prod.mk.injEq] at h1
      obtain ⟨e1, e2⟩ := h1
      subst e1
      exact ⟨rfl, r, Or.inl ⟨rfl, h5⟩, e2.symm⟩
    | none =>
      rw [hh] at h1
      obtain ⟨x, h5, h1⟩ := bind_ok h1
      simp only [pure, Except.pure, Except.ok.injEq, Prod.mk.injEq] at h1
      obtain ⟨e1, e2⟩ := h1
      subst e1
      exact ⟨deref_ok h5, (s.stable, s.lruh), Or.inr ⟨rfl, rfl⟩, e2.symm⟩
  obtain ⟨hvic, r, hr, esa⟩ := hv
  subst esa
  simp only at h
  obtain ⟨msinfo, h2, h⟩ := bind_ok h
  obtain ⟨dsid, h3, h⟩ := bind_ok h
  obtain ⟨dsinfo, h4, h⟩ := bind_ok h
  refine ⟨msid, r, msinfo, dsid, dsinfo, hvic, hr, tget_get h2, deref_ok h3, tget_get h4, ?_⟩
  cases hp : io_short (io_ret s.slab_size s.pwrite_r) s.slab_size with
  | true =>
    left
    simp only [hp, if_true, pure, Except.pure, Except.ok.injEq, Prod.mk.injEq] at h
    exact ⟨rfl, h.1.symm, h.2.symm⟩
  | false =>
    right
    simp only [hp, Bool.false_eq_true, if_false] at h
    obtain ⟨c, h5, h⟩ := bind_ok h
    obtain ⟨stable1, h6, h⟩ := bind_ok h
    simp only [pure, Except.pure, Except.ok.injEq, Prod.mk.injEq] at h
    exact ⟨rfl, h.1.symm, c, stable1, tget_get h5, h6, h.2.symm⟩

theorem class_occ_set (ctable : List slabclass) (i k : Nat) (c v : slabclass)
    (h : ctable[i]? = some c) (hp : v.partial_msinfoq = c.partial_msinfoq)
    (hh : v.hot_slabinfo = c.hot_slabinfo) :
    (ctable.set i v).map (class_occ k) = ctable.map (class_occ k) :=
  map_set_same _ ctable i c v h (by simp only [class_occ, hp, hh])

theorem class_len_set (ctable : List slabclass) (i : Nat) (c v : slabclass)
    (h : ctable[i]? = some c) (hp : v.partial_msinfoq = c.partial_msinfoq)
    (hh : v.hot_slabinfo = c.hot_slabinfo) :
    (ctable.set i v).map class_len = ctable.map class_len :=
  map_set_same _ ctable i c v h (by simp only [class_len, hp, hh])

theorem slab_tiers_get {stable : List slabinfo} {i : Nat} {v : slabinfo}
    (h : stable[i]? = some v) : (slab_tiers stable)[i]? = some (v.mem, v.addr) := by
  simp only [slab_tiers, List.getElem?_map, h, Option.map_some']

theorem slab_tiers_set_eq (stable : List slabinfo) (i : Nat) (v : slabinfo) :
    slab_tiers (stable.set i v) = (slab_tiers stable).set i (v.mem, v.addr) := by
  simp only [slab_tiers, List.map_set]

/-- The invariants pass through `_slab_drain`, whether the write succeeds or
fails. -/
theorem _slab_drain_inv (s s1 : State) (status : rstatus_t) (hi : slab_inv s)
    (h : _slab_drain s = .ok (status, s1)) : slab_inv s1 ∧ (count_inv s → count_inv s1) := by
  obtain ⟨msid, r, msinfo, dsid, dsinfo, hvic, hr, hms, hdq, hds, hcase⟩ :=
    _slab_drain_ok s s1 status h
  have hhead : s.lruh.head = some msid := by
    rcases hr with ⟨h1, _⟩ | ⟨h1, _⟩
    · exact h1
    · unfold drain_victim at hvic
      rw [h1] at hvic
      simp only at hvic
      rw [hi.head, hvic] at h1
      cases h1
  have hrm : lru_remove_head s.stable s.lruh = .ok r := by
    rcases hr with ⟨_, h2⟩ | ⟨h1, _⟩
    · exact h2
    · rw [hhead] at h1; cases h1
  obtain ⟨mrest, hmq⟩ := head?_cons_of (hi.head.symm.trans hhead)
  obtain ⟨drest, hdq⟩ := head?_cons_of hdq
  have hnd : (msid :: mrest).Nodup := by rw [← hmq]; exact nodup_of_occ s hi.once
  obtain ⟨k1, k2, k3, k4, k5, k6, k7⟩ := lru_remove_head_chain s.stable s.lruh msid mrest
    (by rw [← hmq]; exact hi.chain) hhead (by rw [← hmq]; exact hi.tail) hnd r hrm
  have hlen : r.1.length = s.stable.length := by
    have := congrArg List.length k7
    simpa using this
  have hmerase : s.full_msinfoq.erase msid = mrest := by
    rw [hmq]; exact List.erase_cons_head _ _
  have hderase : s.free_dsinfoq.erase dsid = drest := by
    rw [hdq]; exact List.erase_cons_head _ _
  have hmnot : msid ∉ mrest := (List.nodup_cons.mp hnd).1
  have hmocc : 0 < mem_occ s msid := by
    simp only [mem_occ, hmq, List.count_cons_self]; omega
  have hdocc : 0 < disk_occ s dsid := by
    simp only [disk_occ, hdq, List.count_cons_self]; omega
  have hne : msid ≠ dsid := by
    intro e
    have := hi.once msid
    rw [e] at this hmocc
    omega
  obtain ⟨ma, hma⟩ := hi.mem_tier msid hmocc
  obtain ⟨da, hda⟩ := hi.disk_tier dsid hdocc
  rw [← k6, slab_tiers_get hms] at hma
  rw [← k6, slab_tiers_get hds] at hda
  simp only [Option.some.injEq, Prod.mk.injEq] at hma hda
  have hunl : ∀ i, i < r.1.length → i ∉ mrest → (lru_links r.1)[i]? = some (none, none) := by
    intro i hlt hni
    by_cases him : i = msid
    · rw [him]; exact k4
    · rw [k5 i (by simp only [List.mem_cons, not_or]; exact ⟨him, hni⟩)]
      exact hi.unlinked i (by rw [← hlen]; exact hlt)
        (by rw [hmq]; simp only [List.mem_cons, not_or]; exact ⟨him, hni⟩)
  rcases hcase with ⟨hpw, _, e⟩ | ⟨hpw, _, c, stable1, hc, hswap, e⟩
  · rw [hmerase, hderase] at e
    constructor
    · have hmle : ∀ i, mem_occ s1 i ≤ mem_occ s i := by
        intro i; rw [e]
        simp only [mem_occ, hmq, List.count_cons]; omega
      have hdle : ∀ i, disk_occ s1 i ≤ disk_occ s i := by
        intro i; rw [e]
        simp only [disk_occ, hdq, List.count_cons]; omega
      refine ⟨?_, ?_, ?_, ?_, ?_, ?_, ?_, ?_, ?_, ?_⟩
      · intro i
        have := hi.once i; have := hmle i; have := hdle i
        omega
      · intro i hpos
        rw [e]; simp only; rw [k6]
        exact hi.mem_tier i (Nat.lt_of_lt_of_le hpos (hmle i))
      · intro i hpos
        rw [e]; simp only; rw [k6]
        exact hi.disk_tier i (Nat.lt_of_lt_of_le hpos (hdle i))
      · rw [e]; exact k1
      · rw [e]; exact k2
      · rw [e]; exact k3
      · rw [e]; exact hunl
      · rw [e]; exact hi.lru_disk
      · rw [e]; simp only; rw [k7, hlen]; exact hi.sids
      · rw [e]; simp only; rw [k6]; exact hi.tiers
    · intro hcnt
      rw [hcnt.pwrite, io_short_full] at hpw
      cases hpw
  · rw [hmerase, hderase] at e
    obtain ⟨m0, d0, d1, hm0, hd0, hd1, est⟩ := slab_swap_addr_ok r.1 stable1 msid dsid hswap
    rw [hms] at hm0
    rw [hds] at hd0
    simp only [Option.some.injEq] at hm0 hd0
    subst hm0; subst hd0
    rw [List.getElem?_set_ne hne, hds] at hd1
    simp only [Option.some.injEq] at hd1
    subst hd1
    have hlinks : lru_links stable1 = lru_links r.1 := by
      rw [est]
      refine (lru_links_set_same _ _ dsinfo _ ?_ ?_ ?_).trans
        (lru_links_set_same _ _ msinfo _ hms ?_ ?_)
      · rw [List.getElem?_set_ne hne]; exact hds
      all_goals rfl
    have hsids : stable1.map slabinfo.sid = r.1.map slabinfo.sid := by
      rw [est]
      refine (slab_sids_set _ _ dsinfo _ ?_ ?_).trans (slab_sids_set _ _ msinfo _ hms ?_)
      · rw [List.getElem?_set_ne hne]; exact hds
      all_goals rfl
    have htiers : slab_tiers stable1
        = ((slab_tiers r.1).set msid (false, dsinfo.addr)).set dsid (true, msinfo.addr) := by
      rw [est]
      simp only [slab_tiers_set_eq]
    have hlen1 : stable1.length = r.1.length := by
      have := congrArg List.length hsids
      simpa using this
    have hmo : ∀ i, mem_occ s1 i + (if msid = i then 1 else 0)
        = mem_occ s i + (if dsid = i then 1 else 0) := by
      intro i; rw [e]
      have hcs := congrArg List.sum (class_occ_set s.ctable msinfo.cid i c
        { c with nmslab := wrap_dec 32 c.nmslab, ndslab := (c.ndslab + 1) % 2 ^ 32 } hc rfl rfl)
      simp only [mem_occ, hmq, List.count_cons, List.count_append, List.count_nil, beq_iff_eq]
      omega
    have hdo : ∀ i, disk_occ s1 i + (if dsid = i then 1 else 0)
        = disk_occ s i + (if msid = i then 1 else 0) := by
      intro i; rw [e]
      simp only [disk_occ, hdq, List.count_cons, List.count_append, List.count_nil, beq_iff_eq]
      omega
    constructor
    · refine ⟨?_, ?_, ?_, ?_, ?_, ?_, ?_, ?_, ?_, ?_⟩
      · intro i
        have := hi.once i; have := hmo i; have := hdo i
        omega
      · intro i hpos
        rw [e]; simp only; rw [htiers]
        have h3 := hmo i
        have h4 := hi.once i
        by_cases hid : dsid = i
        · subst hid
          exact ⟨msinfo.addr, by
            rw [List.getElem?_set_self (by
              simp only [List.length_set, slab_tiers, List.length_map]
              exact lt_of_getElem? hds)]⟩
        · by_cases him : msid = i
          · rw [if_pos him, if_neg hid] at h3
            omega
          · rw [if_neg him, if_neg hid] at h3
            rw [List.getElem?_set_ne hid, List.getElem?_set_ne him, k6]
            exact hi.mem_tier i (by omega)
      · intro i hpos
        rw [e]; simp only; rw [htiers]
        have h3 := hdo i
        have h4 := hi.once i
        by_cases him : msid = i
        · subst him
          exact ⟨dsinfo.addr, by
            rw [List.getElem?_set_ne (fun e2 => hne e2.symm), List.getElem?_set_self (by
              simp only [slab_tiers, List.length_map]
              exact lt_of_getElem? hms)]⟩
        · by_cases hid : dsid = i
          · rw [if_pos hid, if_neg him] at h3
            omega
          · rw [if_neg him, if_neg hid] at h3
            rw [List.getElem?_set_ne hid, List.getElem?_set_ne him, k6]
            exact hi.disk_tier i (by omega)
      · rw [e]; simp only; rw [hlinks]; exact k1
      · rw [e]; exact k2
      · rw [e]; exact k3
      · rw [e]; simp only; rw [hlinks, hlen1]; exact hunl
      · rw [e]; exact hi.lru_disk
      · rw [e]; simp only; rw [hsids, k7, hlen1, hlen]; exact hi.sids
      · rw [e]; simp only; rw [htiers]
        refine (perm_set_set (slab_tiers r.1) msid dsid (true, msinfo.addr) (false, dsinfo.addr)
          ?_ ?_ hne).trans (by rw [k6]; exact hi.tiers)
        · rw [slab_tiers_get hms, hma.1]
        · rw [slab_tiers_get hds, hda.1]
    · intro hcnt
      have htot := hcnt.total
      have hb := hcnt.bound
      have hnf := hcnt.nfull
      have hnfr := hcnt.nfree
      simp only [mem_len, hmq, List.length_cons] at htot hnf
      refine ⟨?_, ?_, ?_, ?_, ?_, ?_⟩
      · rw [e]; exact hcnt.pread
      · rw [e]; exact hcnt.pwrite
      · rw [e]
        simp only [List.length_append, List.length_cons, List.length_nil, hnfr]
        apply Nat.mod_eq_of_lt
        omega
      · rw [e]
        simp only [hnf, wrap_dec_succ]
      · rw [e]
        have hcs := congrArg List.sum (class_len_set s.ctable msinfo.cid c
          { c with nmslab := wrap_dec 32 c.nmslab, ndslab := (c.ndslab + 1) % 2 ^ 32 } hc rfl rfl)
        simp only [mem_len, List.length_append, List.length_cons, List.length_nil]
        omega
      · rw [e]; exact hb

theorem inv_step {s s1 s2 : State} (h1 : slab_inv s1 ∧ (count_inv s → count_inv s1))
    (h2 : slab_inv s1 → slab_inv s2 ∧ (count_inv s1 → count_inv s2)) :
    slab_inv s2 ∧ (count_inv s → count_inv s2) :=
  ⟨(h2 h1.1).1, fun hc => (h2 h1.1).2 (h1.2 hc)⟩

theorem inv_of_frame {s s1 : State} (hi : slab_inv s) (h : slab_frame s s1) :
    slab_inv s1 ∧ (count_inv s → count_inv s1) :=
  ⟨slab_inv_frame hi h, fun hc => count_inv_frame hc h⟩

/-- The invariants pass through `slab_evict`. -/
theorem slab_evict_inv (s s1 : State) (status : rstatus_t) (hi : slab_inv s)
    (h : slab_evict s = .ok (status, s1)) : slab_inv s1 ∧ (count_inv s → count_inv s1) :=
  inv_of_frame hi (slab_evict_frame s s1 status (by rw [hi.lru_disk]) h)

/-- The invariants pass through `slab_drain`. -/
theorem slab_drain_inv (s s1 : State) (status : rstatus_t) (hi : slab_inv s)
    (h : slab_drain s = .ok (status, s1)) : slab_inv s1 ∧ (count_inv s → count_inv s1) := by
  unfold slab_drain at h
  by_cases hq : s.free_dsinfoq.isEmpty = false
  · rw [if_pos hq] at h
    exact _slab_drain_inv s s1 status hi h
  · rw [if_neg hq] at h
    obtain ⟨⟨st, s2⟩, h1, h⟩ := bind_ok h
    have h2 := slab_evict_inv s s2 st hi h1
    by_cases hst : st ≠ rstatus_t.FC_OK
    · simp only [hst, if_true, pure, Except.pure, Except.ok.injEq, Prod.mk.injEq,
        ne_eq, not_false_eq_true] at h
      rw [← h.2]; exact h2
    · simp only [hst, if_false] at h
      exact inv_step h2 (fun hi2 => _slab_drain_inv s2 s1 status hi2 h)

/-- The invariants pass through `slab_get_item_free`, called for a class
without a hot slab. -/
theorem slab_get_item_free_inv (s s2 : State) (cid : Nat) (update : Bool)
    (hhot : ∀ c, s.ctable[cid]? = some c → update = true → c.hot_slabinfo = none)
    (hi : slab_inv s) (h : slab_get_item_free s cid update = .ok s2) :
    slab_inv s2 ∧ (count_inv s → count_inv s2) := by
  refine ⟨slab_inv_same hi (slab_get_item_free_same s s2 cid update hhot h), ?_⟩
  intro hcnt
  obtain ⟨sid, rest, c, sinfo, hq, hc, hs, e⟩ := slab_get_item_free_ok s s2 cid update h
  have htot := hcnt.total
  have hnfr := hcnt.nfree
  simp only [mem_len, hq, List.length_cons] at htot hnfr
  have hlen : class_len (if update = true then
        { c with nmslab := (c.nmslab + 1) % 2 ^ 32, hot_slabinfo := some sid }
      else { c with nmslab := (c.nmslab + 1) % 2 ^ 32,
                    partial_msinfoq := sid :: c.partial_msinfoq }) = class_len c + 1 := by
    cases update with
    | false =>
      simp only [Bool.false_eq_true, if_false, class_len, List.length_cons]
      omega
    | true =>
      have := hhot c hc rfl
      simp only [if_true, class_len, this, Option.toList, List.length_cons, List.length_nil]
  have hsum := sum_map_set class_len s.ctable cid c
    (if update = true then
        { c with nmslab := (c.nmslab + 1) % 2 ^ 32, hot_slabinfo := some sid }
      else { c with nmslab := (c.nmslab + 1) % 2 ^ 32,
                    partial_msinfoq := sid :: c.partial_msinfoq }) hc
  refine ⟨?_, ?_, ?_, ?_, ?_, ?_⟩
  · rw [e]; exact hcnt.pread
  · rw [e]; exact hcnt.pwrite
  · rw [e]; simp only [hnfr, wrap_dec_succ]
  · rw [e]; exact hcnt.nfull
  · rw [e]; simp only [mem_len]; omega
  · rw [e]; exact hcnt.bound

theorem slab_get_item_free_then (s s3 : State) (cid : Nat) (update : Bool) (r : Option item_ptr)
    (hhot : ∀ c, s.ctable[cid]? = some c → update = true → c.hot_slabinfo = none)
    (hi : slab_inv s)
    (h : (do
      let s2 ← slab_get_item_free s cid update
      let (it, s3) ← _slab_get_item s2 cid update
      pure (some it, s3)) = .ok (r, s3)) :
    slab_inv s3 ∧ (count_inv s → count_inv s3) := by
  obtain ⟨s2, h1, h⟩ := bind_ok h
  obtain ⟨⟨it, s4⟩, h2, h⟩ := bind_ok h
  simp only [pure, Except.pure, Except.ok.injEq, Prod.mk.injEq] at h
  rw [← h.2]
  exact inv_step (slab_get_item_free_inv s s2 cid update hhot hi h1)
    (fun hi2 => _slab_get_item_inv s2 s4 cid update it hi2 h2)

theorem _slab_get_item_then (s s3 : State) (cid : Nat) (update : Bool) (r : Option item_ptr)
    (hi : slab_inv s)
    (h : (do
      let (it, s2) ← _slab_get_item s cid update
      pure (some it, s2)) = .ok (r, s3)) :
    slab_inv s3 ∧ (count_inv s → count_inv s3) := by
  obtain ⟨⟨it, s4⟩, h2, h⟩ := bind_ok h
  simp only [pure, Except.pure, Except.ok.injEq, Prod.mk.injEq] at h
  rw [← h.2]
  exact _slab_get_item_inv s s4 cid update it hi h2

/-- The part of `slab_get_item` after the eviction for index space. -/
theorem slab_get_item_rest (fuel : Nat) (cid : Nat) (update : Bool)
    (ih : ∀ (s s1 : State) (r : Option item_ptr), slab_inv s →
      slab_get_item fuel s cid update = .ok (r, s1) →
      slab_inv s1 ∧ (count_inv s → count_inv s1))
    (status : rstatus_t) (sa s1 : State) (r : Option item_ptr) (hia : slab_inv sa)
    (h : (if status ≠ rstatus_t.FC_OK then pure (none, sa) else do
      let c ← tget sa.ctable cid
      if update = true then
        match c.hot_slabinfo with
        | none =>
          if sa.free_msinfoq.isEmpty = false then
            let s2 ← slab_get_item_free sa cid update
            let (it, s3) ← _slab_get_item s2 cid update
            pure (some it, s3)
          else
            let (status, s2) ← slab_drain sa
            if status ≠ rstatus_t.FC_OK then pure (none, s2) else
            slab_get_item fuel s2 cid update
        | some _ =>
          let (it, s2) ← _slab_get_item sa cid update
          pure (some it, s2)
      else if c.partial_msinfoq.isEmpty = false then
        let (it, s2) ← _slab_get_item sa cid update
        pure (some it, s2)
      else if sa.free_msinfoq.isEmpty = false then
        let s2 ← slab_get_item_free sa cid update
        let (it, s3) ← _slab_get_item s2 cid update
        pure (some it, s3)
      else
        let (status, s2) ← slab_drain sa
        if status ≠ rstatus_t.FC_OK then pure (none, s2) else
        slab_get_item fuel s2 cid update) = Except.ok (r, s1)) :
    slab_inv s1 ∧ (count_inv sa → count_inv s1) := by
  by_cases hst : status ≠ rstatus_t.FC_OK
  · simp only [hst, if_true, pure, Except.pure, Except.ok.injEq, Prod.mk.injEq,
      ne_eq, not_false_eq_true] at h
    rw [← h.2]; exact ⟨hia, fun hc => hc⟩
  · simp only [hst, if_false] at h
    obtain ⟨c, hc, h⟩ := bind_ok h
    have hc := tget_get hc
    have hdrain : ∀ (h : (do
          let (status, s2) ← slab_drain sa
          if status ≠ rstatus_t.FC_OK then pure (none, s2) else
          slab_get_item fuel s2 cid update) = .ok (r, s1)),
        slab_inv s1 ∧ (count_inv sa → count_inv s1) := by
      intro h
      obtain ⟨⟨st2, s2⟩, h3, h⟩ := bind_ok h
      have hd := slab_drain_inv sa s2 st2 hia h3
      simp only at h
      by_cases hst2 : st2 ≠ rstatus_t.FC_OK
      · simp only [hst2, if_true, pure, Except.pure, Except.ok.injEq, Prod.mk.injEq,
          ne_eq, not_false_eq_true] at h
        rw [← h.2]; exact hd
      · simp only [hst2, if_false] at h
        exact inv_step hd (fun hi2 => ih s2 s1 r hi2 h)
    cases update with
    | true =>
      simp only [if_true] at h
      cases hh : c.hot_slabinfo with
      | none =>
        rw [hh] at h
        simp only at h
        by_cases hf : sa.free_msinfoq.isEmpty = false
        · rw [if_pos hf] at h
          exact slab_get_item_free_then sa s1 cid true r
            (fun c2 hc2 _ => by rw [hc] at hc2; cases hc2; exact hh) hia h
        · rw [if_neg hf] at h
          exact hdrain h
      | some x =>
        rw [hh] at h
        exact _slab_get_item_then sa s1 cid true r hia h
    | false =>
      simp only [Bool.false_eq_true, if_false] at h
      by_cases hp : c.partial_msinfoq.isEmpty = false
      · rw [if_pos hp] at h
        exact _slab_get_item_then sa s1 cid false r hia h
      · rw [if_neg hp] at h
        by_cases hf : sa.free_msinfoq.isEmpty = false
        · rw [if_pos hf] at h
          exact slab_get_item_free_then sa s1 cid false r
            (fun _ _ hu => by cases hu) hia h
        · rw [if_neg hf] at h
          exact hdrain h

/-- The invariants pass through `slab_get_item`. -/
theorem slab_get_item_inv (fuel : Nat) (s s1 : State) (cid : Nat) (update : Bool)
    (r : Option item_ptr) (hi : slab_inv s)
    (h : slab_get_item fuel s cid update = .ok (r, s1)) :
    slab_inv s1 ∧ (count_inv s → count_inv s1) := by
  induction fuel generalizing s s1 r with
  | zero => simp only [slab_get_item, reduceCtorEq] at h
  | succ fuel ih =>
    unfold slab_get_item at h
    by_cases he : itemx_empty s = true
    · simp only [he, if_true] at h
      obtain ⟨⟨status, sa⟩, h1, h⟩ := bind_ok h
      exact inv_step (slab_evict_inv s sa status hi h1)
        (fun hia => slab_get_item_rest fuel cid update ih status sa s1 r hia h)
    · simp only [he, if_false] at h
      exact slab_get_item_rest fuel cid update ih rstatus_t.FC_OK s s1 r hi h

/-! ## The start state and the reachable states -/

theorem slab_init_ctable_occ (st : settings) (i : Nat) :
    ((slab_init_ctable st).map (class_occ i)).sum = 0 := by
  apply List.sum_eq_zero
  intro x hx
  simp only [slab_init_ctable, List.map_map, List.mem_map] at hx
  obtain ⟨a, _, e⟩ := hx
  rw [← e]
  rfl

theorem slab_init_ctable_len (st : settings) :
    ((slab_init_ctable st).map class_len).sum = 0 := by
  apply List.sum_eq_zero
  intro x hx
  simp only [slab_init_ctable, List.map_map, List.mem_map] at hx
  obtain ⟨a, _, e⟩ := hx
  rw [← e]
  rfl

theorem slab_init_stable_tiers (nm nd : Nat) (links : Nat → Option Nat × Option Nat) :
    slab_tiers (slab_init_stable nm nd links) = tiers_init nm nd := by
  simp only [slab_tiers, slab_init_stable, tiers_init, List.map_append, List.map_map]
  rfl

theorem slab_init_stable_sids (nm nd : Nat) (links : Nat → Option Nat × Option Nat) :
    (slab_init_stable nm nd links).map slabinfo.sid = List.range (nm + nd) := by
  simp only [slab_init_stable, List.map_append, List.map_map, List.range_add]
  congr 1
  exact List.map_id _

theorem slab_init_stable_length (nm nd : Nat) (links : Nat → Option Nat × Option Nat) :
    (slab_init_stable nm nd links).length = nm + nd := by
  simp only [slab_init_stable, List.length_append, List.length_map, List.length_range]

theorem init_link_none (nm nd i : Nat) : init_link nm nd i none = none := by
  unfold init_link
  split <;> rfl

theorem slab_init_stable_links (nm nd : Nat) (i : Nat) (h : i < nm + nd) :
    (lru_links (slab_init_stable nm nd links_null))[i]? = some (none, none) := by
  have hrep : lru_links (slab_init_stable nm nd links_null)
      = List.replicate (nm + nd) (none, none) := by
    rw [List.eq_replicate_iff]
    constructor
    · simp only [lru_links, List.length_map, slab_init_stable_length]
    · intro b hb
      simp only [lru_links, slab_init_stable, List.map_append, List.map_map, List.mem_append,
        List.mem_map] at hb
      rcases hb with ⟨a, _, e⟩ | ⟨a, _, e⟩ <;> rw [← e] <;>
        simp only [Function.comp, links_null, init_link_none]
  rw [hrep, List.getElem?_replicate, if_pos h]

theorem tiers_init_mem (nm nd : Nat) (i : Nat) (h : i < nm) :
    (tiers_init nm nd)[i]? = some (true, i) := by
  unfold tiers_init
  rw [List.getElem?_append_left (by simpa using h)]
  simp only [List.getElem?_map, List.getElem?_range h, Option.map_some']

theorem tiers_init_disk (nm nd : Nat) (j : Nat) (h : j < nd) :
    (tiers_init nm nd)[nm + j]? = some (false, j) := by
  unfold tiers_init
  rw [List.getElem?_append_right (by simp)]
  simp only [List.length_map, List.length_range, Nat.add_sub_cancel_left, List.getElem?_map,
    List.getElem?_range h, Option.map_some']

theorem tiers_init_nodup (nm nd : Nat) : (tiers_init nm nd).Nodup := by
  unfold tiers_init
  rw [List.nodup_append]
  refine ⟨?_, ?_, ?_⟩
  · exact List.Nodup.map (fun a b e => by simpa using e) (List.nodup_range nm)
  · exact List.Nodup.map (fun a b e => by simpa using e) (List.nodup_range nd)
  · intro x h1 h2
    simp only [List.mem_map] at h1 h2
    obtain ⟨a, _, e1⟩ := h1
    obtain ⟨b, _, e2⟩ := h2
    rw [← e1] at e2
    simp at e2

theorem tiers_init_bound (nm nd : Nat) (p : Bool × Nat) (h : p ∈ tiers_init nm nd) :
    (p.1 = true → p.2 < nm) ∧ (p.1 = false → p.2 < nd) := by
  simp only [tiers_init, List.mem_append, List.mem_map, List.mem_range] at h
  rcases h with ⟨a, ha, e⟩ | ⟨a, ha, e⟩
  · rw [← e]; exact ⟨fun _ => ha, fun h => Bool.noConfusion h⟩
  · rw [← e]; exact ⟨fun h => Bool.noConfusion h, fun _ => ha⟩

theorem tiers_init_count (nm nd : Nat) : (tiers_init nm nd).countP (fun p => p.1) = nm := by
  simp only [tiers_init, List.countP_append, List.countP_map]
  have h1 : List.countP ((fun (p : Bool × Nat) => p.1) ∘ fun i => (true, i)) (List.range nm)
      = nm := by
    exact (List.countP_eq_length.mpr (fun a _ => rfl)).trans (List.length_range nm)
  have h2 : List.countP ((fun (p : Bool × Nat) => p.1) ∘ fun j => (false, j)) (List.range nd)
      = 0 := by
    rw [List.countP_eq_zero]
    intro a _
    simp
  rw [h1, h2, Nat.add_zero]

/-- The start state satisfies the structural invariant. -/
theorem slab_inv_init (st : settings) (disk : Nat → slab) : slab_inv (init st disk links_null) := by
  have hocc : ∀ i, mem_occ (init st disk links_null) i + disk_occ (init st disk links_null) i
      = (List.range ((init st disk links_null).nmslab + (init st disk links_null).ndslab)).count i := by
    intro i
    simp only [mem_occ, disk_occ, init, slab_init_ctable_occ, List.count_nil, List.range_add,
      List.count_append]
    omega
  refine ⟨?_, ?_, ?_, trivial, rfl, rfl, ?_, rfl, ?_, ?_⟩
  · intro i
    rw [hocc]
    exact List.nodup_iff_count_le_one.mp (List.nodup_range _) i
  · intro i hpos
    have hmem : i ∈ List.range (init st disk links_null).nmslab := by
      apply List.count_pos_iff.mp
      simp only [mem_occ, init, slab_init_ctable_occ, List.count_nil] at hpos ⊢
      omega
    exact ⟨i, by
      simp only [init, slab_init_stable_tiers]
      exact tiers_init_mem _ _ i (List.mem_range.mp hmem)⟩
  · intro i hpos
    have hmem : i ∈ (List.range (init st disk links_null).ndslab).map
        (fun j => (init st disk links_null).nmslab + j) := by
      apply List.count_pos_iff.mp
      simp only [disk_occ, init, List.count_nil] at hpos ⊢
      omega
    simp only [List.mem_map, List.mem_range] at hmem
    obtain ⟨j, hj, e⟩ := hmem
    exact ⟨j, by
      rw [← e]
      simp only [init, slab_init_stable_tiers]
      exact tiers_init_disk _ _ j hj⟩
  · intro i hlt _
    simp only [init, slab_init_stable_length] at hlt ⊢
    exact slab_init_stable_links _ _ i hlt
  · simp only [init, slab_init_stable_sids, slab_init_stable_length]
  · simp only [init, slab_init_stable_tiers]
    exact List.Perm.refl _

/-- The start state satisfies the counting invariant when its number of memory
slabs fits the `uint32_t` counter. -/
theorem count_inv_init (st : settings) (disk : Nat → slab)
    (hb : (init st disk links_null).nmslab < 2 ^ 32) : count_inv (init st disk links_null) := by
  refine ⟨rfl, rfl, ?_, rfl, ?_, hb⟩
  · simp only [init, List.length_range]
  · simp only [mem_len, init, List.length_range, List.length_nil, slab_init_ctable_len]
    omega

/-- The structural invariant holds in every reachable state. -/
theorem reach_slab_inv (flaky : Bool) (s0 s : State) (h0 : slab_inv s0)
    (hr : Reach flaky s0 s) : slab_inv s := by
  induction hr with
  | start => exact h0
  | get_item s s1 fuel cid update r _ h ih => exact (slab_get_item_inv fuel s s1 cid update r ih h).1
  | getx s hash md _ ih => exact slab_inv_frame ih (itemx_getx_frame s hash md)
  | putx s s1 hash md sid offset expiry cas _ h ih =>
    exact slab_inv_frame ih (itemx_putx_frame s s1 hash md sid offset expiry cas h)
  | removex s s1 hash md b _ h ih => exact slab_inv_frame ih (itemx_removex_frame s s1 hash md b h)
  | drain s s1 status _ h ih => exact (slab_drain_inv s s1 status ih h).1
  | evict s s1 status _ h ih => exact (slab_evict_inv s s1 status ih h).1
  | memory s m _ ih =>
    exact slab_inv_same ih ⟨fun _ => rfl, fun _ => Nat.le_refl _, rfl, rfl, rfl, rfl, rfl, rfl,
      rfl, rfl⟩
  | device s r w _ _ ih =>
    exact slab_inv_same ih ⟨fun _ => rfl, fun _ => Nat.le_refl _, rfl, rfl, rfl, rfl, rfl, rfl,
      rfl, rfl⟩

/-- The counting invariant holds in every state reachable with a device that
completes every transfer. -/
theorem reach_count_inv (s0 s : State) (h0 : slab_inv s0) (hc : count_inv s0)
    (hr : Reach false s0 s) : count_inv s := by
  induction hr with
  | start => exact hc
  | get_item s s1 fuel cid update r hr h ih =>
    exact (slab_get_item_inv fuel s s1 cid update r (reach_slab_inv _ _ _ h0 hr) h).2 ih
  | getx s hash md _ ih => exact count_inv_frame ih (itemx_getx_frame s hash md)
  | putx s s1 hash md sid offset expiry cas _ h ih =>
    exact count_inv_frame ih (itemx_putx_frame s s1 hash md sid offset expiry cas h)
  | removex s s1 hash md b _ h ih =>
    exact count_inv_frame ih (itemx_removex_frame s s1 hash md b h)
  | drain s s1 status hr h ih =>
    exact (slab_drain_inv s s1 status (reach_slab_inv _ _ _ h0 hr) h).2 ih
  | evict s s1 status hr h ih =>
    exact (slab_evict_inv s s1 status (reach_slab_inv _ _ _ h0 hr) h).2 ih
  | memory s m _ ih =>
    exact count_inv_frame ih ⟨rfl, rfl, rfl, rfl, rfl, rfl, rfl, rfl, rfl, rfl, rfl, rfl, rfl,
      rfl, fun _ => Nat.le_refl _⟩
  | device s r w hf _ _ => cases hf

theorem class_len_sum (ctable : List slabclass) :
    (ctable.map class_len).sum
      = (ctable.map (fun c => c.partial_msinfoq.length)).sum
        + ctable.countP (fun c => c.hot_slabinfo.isSome) := by
  induction ctable with
  | nil => rfl
  | cons c t ih =>
    simp only [List.map_cons, List.sum_cons, List.countP_cons, ih, class_len]
    cases c.hot_slabinfo <;> simp <;> omega

/-! ## Conservation of memory slabs and uniqueness of addresses -/

/-- Memory-slab conservation from a start state whose slab table has all link
fields `NULL`: in every state reachable from that start state (with a number of
memory slabs that fits the `uint32_t` counters) by hot
and cold allocations, lookups, index inserts and removes, direct drains and
evictions and stores of the caller into slab memory, with a device that
completes every transfer, the lengths of the free and the full memory queue,
the lengths of the partial queues of all classes and the number of classes with
a hot slab add up to `nmslab`; the counters `nfree_msinfoq` and `nfull_msinfoq`
are the lengths of their queues; and `slab_msinfo_npartial` returns the number
of slabs held by the classes. -/
theorem memory_slab_conservation (st : settings) (disk : Nat → slab) (s : State)
    (hb : max (st.profile_last_id + 1) (st.max_slab_memory / st.slab_size) < 2 ^ 32)
    (hr : Reach false (init st disk links_null) s) :
    s.free_msinfoq.length + s.full_msinfoq.length
      + (s.ctable.map (fun c => c.partial_msinfoq.length)).sum
      + s.ctable.countP (fun c => c.hot_slabinfo.isSome) = s.nmslab ∧
    s.nfree_msinfoq = s.free_msinfoq.length ∧ s.nfull_msinfoq = s.full_msinfoq.length ∧
    slab_msinfo_npartial s
      = (s.ctable.map (fun c => c.partial_msinfoq.length)).sum
        + s.ctable.countP (fun c => c.hot_slabinfo.isSome) := by
  have hc := reach_count_inv (init st disk links_null) s (slab_inv_init st disk)
    (count_inv_init st disk hb) hr
  have htot := hc.total
  have hbd := hc.bound
  simp only [mem_len, class_len_sum] at htot
  refine ⟨by omega, hc.nfree, hc.nfull, ?_⟩
  simp only [ slab_msinfo_npartial, hc.nfree, hc.nfull]
  norm_num at hbd ⊢
  omega

set_option maxRecDepth 100000 in
/-- Conservation in the small configuration after three allocations (the third one
drains slab 0): the free and the full queue are empty, the class holds slab 1
on its partial queue, `nmslab = 1`. -/
theorem memory_slab_conservation_witness :
    s_small_alloc3.free_msinfoq.length + s_small_alloc3.full_msinfoq.length
      + (s_small_alloc3.ctable.map (fun c => c.partial_msinfoq.length)).sum
      + s_small_alloc3.ctable.countP (fun c => c.hot_slabinfo.isSome) = s_small_alloc3.nmslab ∧
    s_small_alloc3.nfree_msinfoq = s_small_alloc3.free_msinfoq.length ∧
    s_small_alloc3.nfull_msinfoq = s_small_alloc3.full_msinfoq.length ∧
    slab_msinfo_npartial s_small_alloc3
      = (s_small_alloc3.ctable.map (fun c => c.partial_msinfoq.length)).sum
        + s_small_alloc3.ctable.countP (fun c => c.hot_slabinfo.isSome) :=
  memory_slab_conservation cfg_small (fun _ => slab_zero) s_small_alloc3 (by decide)
    (Reach.get_item s_small_alloc2 s_small_alloc3 3 0 false (some ⟨0, 0⟩)
      (Reach.get_item s_small_alloc s_small_alloc2 3 0 false (some ⟨0, 200⟩)
        (Reach.get_item s_small s_small_alloc 3 0 false (some ⟨0, 0⟩) Reach.start rfl) rfl) rfl)

/-- Address uniqueness from a start state whose slab table has all link fields
`NULL`: in every state reachable from that start state by allocations,
lookups, index inserts and removes, drains, evictions and stores of the caller
into slab memory, also when device transfers fail, `stable[i].sid` is `i`, no
two slabinfos of the same tier have the same `addr`, the `addr` of a
memory-resident slabinfo is below `nmslab` and that of a disk-resident one below
`ndslab`, and exactly `nmslab` slabinfos are memory-resident. -/
theorem slab_addr_unique (flaky : Bool) (st : settings) (disk : Nat → slab) (s : State)
    (hr : Reach flaky (init st disk links_null) s) :
    (∀ (i : Nat) (si : slabinfo), s.stable[i]? = some si → si.sid = i) ∧
    (∀ (i j : Nat) (si sj : slabinfo), s.stable[i]? = some si → s.stable[j]? = some sj →
      si.mem = sj.mem → si.addr = sj.addr → i = j) ∧
    (∀ (i : Nat) (si : slabinfo), s.stable[i]? = some si →
      (si.mem = true → si.addr < s.nmslab) ∧ (si.mem = false → si.addr < s.ndslab)) ∧
    s.stable.countP (fun x => x.mem) = s.nmslab := by
  have hi := reach_slab_inv flaky (init st disk links_null) s (slab_inv_init st disk) hr
  have hnd : (slab_tiers s.stable).Nodup :=
    (List.Perm.nodup_iff hi.tiers).mpr (tiers_init_nodup _ _)
  refine ⟨?_, ?_, ?_, ?_⟩
  · intro i si hsi
    have h1 := congrArg (fun l => l[i]?) hi.sids
    simp only [List.getElem?_map, hsi, Option.map_some',
      List.getElem?_range (lt_of_getElem? hsi), Option.some.injEq] at h1
    exact h1
  · intro i j si sj hsi hsj hm ha
    have h1 := slab_tiers_get hsi
    have h2 := slab_tiers_get hsj
    rw [hm, ha] at h1
    have hne := List.nodup_iff_getElem?_ne_getElem?.mp hnd
    have hli : i < (slab_tiers s.stable).length := lt_of_getElem? h1
    have hlj : j < (slab_tiers s.stable).length := lt_of_getElem? h2
    rcases Nat.lt_trichotomy i j with hlt | heq | hgt
    · exact absurd (h1.trans h2.symm) (hne i j hlt hlj)
    · exact heq
    · exact absurd (h2.trans h1.symm) (hne j i hgt hli)
  · intro i si hsi
    have hmem : (si.mem, si.addr) ∈ slab_tiers s.stable :=
      List.mem_iff_getElem?.mpr ⟨i, slab_tiers_get hsi⟩
    exact tiers_init_bound _ _ _ ((List.Perm.mem_iff hi.tiers).mp hmem)
  · have h1 := List.Perm.countP_eq (fun (p : Bool × Nat) => p.1) hi.tiers
    rw [tiers_init_count] at h1
    simp only [slab_tiers, List.countP_map] at h1
    exact h1

set_option maxRecDepth 100000 in
/-- Address uniqueness in the small configuration after three allocations: slab 0 is on disk
at address 0 and slab 1 is in memory at address 0. -/
theorem slab_addr_unique_witness :
    (∀ (i : Nat) (si : slabinfo), s_small_alloc3.stable[i]? = some si → si.sid = i) ∧
    (∀ (i j : Nat) (si sj : slabinfo), s_small_alloc3.stable[i]? = some si →
      s_small_alloc3.stable[j]? = some sj → si.mem = sj.mem → si.addr = sj.addr → i = j) ∧
    (∀ (i : Nat) (si : slabinfo), s_small_alloc3.stable[i]? = some si →
      (si.mem = true → si.addr < s_small_alloc3.nmslab) ∧
      (si.mem = false → si.addr < s_small_alloc3.ndslab)) ∧
    s_small_alloc3.stable.countP (fun x => x.mem) = s_small_alloc3.nmslab :=
  slab_addr_unique false cfg_small (fun _ => slab_zero) s_small_alloc3
    (Reach.get_item s_small_alloc2 s_small_alloc3 3 0 false (some ⟨0, 0⟩)
      (Reach.get_item s_small_alloc s_small_alloc2 3 0 false (some ⟨0, 200⟩)
        (Reach.get_item s_small s_small_alloc 3 0 false (some ⟨0, 0⟩) Reach.start rfl) rfl) rfl)

/-! ## Sequential fill -/

/-- One allocation in the slab that is being filled. -/
theorem slab_filling_step (cid : Nat) (c : slabclass) (rest : List Nat)
    (l0 l1 : Option Nat × Option Nat) (k : Nat) (s : State)
    (hk : k < c.nitem) (h32 : c.nitem < 2 ^ 32) (hf : slab_filling cid c rest l0 l1 k s) :
    ∃ s1, _slab_get_item s cid false = .ok (⟨0, k * c.size⟩, s1) ∧
      (k + 1 < c.nitem → slab_filling cid c rest l0 l1 (k + 1) s1) ∧
      (k + 1 = c.nitem → slab_filled cid c rest l1 s1) := by
  obtain ⟨ck, hck, hpart, hnitem, hsize⟩ := hf.cls
  have hmod : (k + 1) % 2 ^ 32 = k + 1 := Nat.mod_eq_of_lt (by omega)
  have hsid : (if false = true then ck.hot_slabinfo else ck.partial_msinfoq.head?) = some 0 := by
    simp only [Bool.false_eq_true, if_false, hpart, List.head?_cons]
  obtain ⟨s1, h1, _, hsame⟩ := _slab_get_item_slot s cid false ck 0
    ⟨0, 0, k, cid, true, [], l0.1, l0.2⟩ hck hsid hf.slab0 rfl
    (fun _ => by simp only [lru_ready, hf.lruh]; rfl)
  have hptr : (⟨0, next_slot ⟨0, 0, k, cid, true, [], l0.1, l0.2⟩ * ck.size⟩ : item_ptr)
      = ⟨0, k * c.size⟩ := by
    simp only [next_slot, hsize]
  rw [hptr] at h1
  refine ⟨s1, h1, ?_, ?_⟩
  · intro hlt
    have e := hsame (by simp only [hmod]; omega)
    subst e
    have hlt0 : 0 < s.stable.length := lt_of_getElem? hf.slab0
    refine ⟨hf.pool, ⟨ck, hck, hpart, hnitem, hsize⟩, ?_, ?_, hf.free, hf.full, hf.lruh,
      hf.nflush, ?_⟩
    · simp only [_slab_get_item_take, List.getElem?_set_self hlt0, hmod]
    · simp only [_slab_get_item_take]
      rw [List.getElem?_set_ne (by decide)]
      exact hf.slab1
    · intro h1 x hx
      simp only [_slab_get_item_take, List.length_set]
      exact hf.inrange h1 x hx
  · intro heq
    obtain ⟨c2, sid, sinfo, hc2, hsid2, hs2, _, hfilled⟩ :=
      _slab_get_item_ok s s1 cid false ⟨0, k * c.size⟩ h1
    rw [hck] at hc2
    simp only [Option.some.injEq] at hc2
    subst hc2
    rw [hsid] at hsid2
    simp only [Option.some.injEq] at hsid2
    subst hsid2
    rw [hf.slab0] at hs2
    simp only [Option.some.injEq] at hs2
    subst hs2
    have hlt0 : 0 < s.stable.length := lt_of_getElem? hf.slab0
    obtain ⟨t, ht⟩ : ∃ t, t = (_slab_get_item_take s ck 0
        ⟨0, 0, k, cid, true, [], l0.1, l0.2⟩).2 := ⟨_, rfl⟩
    rw [← ht] at hfilled
    have ht0 : t.stable[0]? = some ⟨0, 0, k + 1, cid, true, [], l0.1, l0.2⟩ := by
      rw [ht]
      simp only [_slab_get_item_take, List.getElem?_set_self hlt0, hmod]
    have ht1 : t.stable[1]? = some ⟨1, 1, 0, SLABCLASS_INVALID_ID, true, [], l1.1, l1.2⟩ := by
      rw [ht]
      simp only [_slab_get_item_take]
      rw [List.getElem?_set_ne (by decide)]
      exact hf.slab1
    have htc : t.ctable = s.ctable := by rw [ht]; rfl
    have htl : t.lruh = ⟨none, none⟩ := by rw [ht]; exact hf.lruh
    have htf : t.full_msinfoq = [] := by rw [ht]; exact hf.full
    have htfr : t.free_msinfoq = 1 :: rest := by rw [ht]; exact hf.free
    have htn : t.nflush = 0 := by rw [ht]; exact hf.nflush
    have htp : itemx_empty t = false := by rw [ht]; exact hf.pool
    have hckt : t.ctable[cid]? = some ck := by rw [htc]; exact hck
    obtain ⟨sinfo2, c0, hs3, hc0, hcase⟩ := _slab_get_item_filled_cases t s1 cid 0 false ck
      hckt hfilled
    rw [ht0] at hs3
    simp only [Option.some.injEq] at hs3
    subst hs3
    rw [hckt] at hc0
    simp only [Option.some.injEq] at hc0
    subst hc0
    rcases hcase with ⟨hne, _⟩ | ⟨_, hlru⟩
    · exact absurd (by simp only; omega) hne
    · obtain ⟨r, hr, e⟩ := _slab_get_item_lru_mem _ s1 0 hlru
        ⟨0, 0, k + 1, cid, true, [], l0.1, l0.2⟩ ht0 rfl
      have hr2 : lru_set t.stable ⟨none, none⟩ 0 = .ok r := by
        rw [← htl]; exact hr
      rw [lru_set_empty _ 0 _ ht0] at hr2
      simp only [Except.ok.injEq] at hr2
      subst hr2
      subst e
      have hlen : 0 < t.stable.length := lt_of_getElem? ht0
      have hclt : cid < t.ctable.length := lt_of_getElem? hckt
      have htlen : t.stable.length = s.stable.length := by
        rw [ht]
        simp only [_slab_get_item_take, List.length_set]
      refine ⟨htp, ⟨_, List.getElem?_set_self hclt, ?_, hnitem, hsize⟩, ?_, ?_, htfr, ?_,
        rfl, htn, ?_⟩
      · simp only [Bool.false_eq_true, if_false, hpart, List.erase_cons_head]
      · simp only [List.getElem?_set_self hlen, heq]
      · simp only
        rw [List.getElem?_set_ne (by decide)]
        exact ht1
      · simp only [htf, List.nil_append]
      · intro h1 x hx
        simp only [List.length_set, htlen]
        exact hf.inrange h1 x hx

/-- What `slab_get_item_free` returns. -/
theorem slab_get_item_free_eq (s : State) (cid : Nat) (update : Bool) (sid : Nat)
    (rest : List Nat) (c : slabclass) (sinfo : slabinfo)
    (hq : s.free_msinfoq = sid :: rest) (hc : s.ctable[cid]? = some c)
    (hs : s.stable[sid]? = some sinfo) :
    slab_get_item_free s cid update = .ok
      { s with nfree_msinfoq := wrap_dec 32 s.nfree_msinfoq,
               free_msinfoq := rest,
               ctable := s.ctable.set cid
                 (if update = true then
                    { c with nmslab := (c.nmslab + 1) % 2 ^ 32, hot_slabinfo := some sid }
                  else
                    { c with nmslab := (c.nmslab + 1) % 2 ^ 32,
                             partial_msinfoq := sid :: c.partial_msinfoq }),
               stable := s.stable.set sid { sinfo with nalloc := 0, cid := cid },
               mstart := upd s.mstart sinfo.addr
                 { s.mstart sinfo.addr with
                   magic := SLAB_MAGIC, cid := cid, sid := sinfo.sid } } := by
  simp only [slab_get_item_free, hq, List.head?_cons, deref, tget, hc, hs, bind, Except.bind,
    pure, Except.pure, List.erase_cons_head]

/-- A cold allocation for a class without a partial slab takes the first free
memory slab when there is one. -/
theorem slab_get_item_cold_free (fuel : Nat) (s : State) (cid : Nat) (c : slabclass)
    (hpool : itemx_empty s = false) (hc : s.ctable[cid]? = some c)
    (hp : c.partial_msinfoq = []) (hfree : s.free_msinfoq ≠ []) :
    slab_get_item (fuel + 1) s cid false
      = (slab_get_item_free s cid false >>= fun s2 =>
          _slab_get_item s2 cid false >>= fun r => pure (some r.1, r.2)) := by
  have hf : s.free_msinfoq.isEmpty = false := by
    cases h : s.free_msinfoq with
    | nil => exact absurd h hfree
    | cons a l => rfl
  simp only [slab_get_item, hpool, Bool.false_eq_true, if_false, pure, Except.pure, bind,
    Except.bind, ne_eq, not_true_eq_false, tget, hc, hp, List.isEmpty_nil, hf, if_true]
  rfl

/-- Function `_slab_get_item_lru` touches only the slab table and the LRU
heads. -/
theorem _slab_get_item_lru_nflush (s s1 : State) (sid : Nat)
    (h : _slab_get_item_lru s sid = .ok s1) : s1.nflush = s.nflush := by
  unfold _slab_get_item_lru at h
  obtain ⟨sinfo, _, h⟩ := bind_ok h
  by_cases hm : sinfo.mem = true
  · rw [if_pos hm] at h
    obtain ⟨r, _, h⟩ := bind_ok h
    simp only [pure, Except.pure, Except.ok.injEq] at h
    rw [← h]
  · rw [if_neg hm] at h
    obtain ⟨r, _, h⟩ := bind_ok h
    simp only [pure, Except.pure, Except.ok.injEq] at h
    rw [← h]

/-- Function `_slab_get_item` does not drain. -/
theorem _slab_get_item_nflush (s s1 : State) (cid : Nat) (update : Bool) (p : item_ptr)
    (h : _slab_get_item s cid update = .ok (p, s1)) : s1.nflush = s.nflush := by
  obtain ⟨c, sid, sinfo, hc, _, _, _, hfilled⟩ := _slab_get_item_ok s s1 cid update p h
  obtain ⟨t, ht⟩ : ∃ t, t = (_slab_get_item_take s c sid sinfo).2 := ⟨_, rfl⟩
  rw [← ht] at hfilled
  have htn : t.nflush = s.nflush := by rw [ht]; rfl
  have htc : t.ctable[cid]? = some c := by rw [ht]; exact hc
  obtain ⟨_, _, _, _, hcase⟩ := _slab_get_item_filled_cases t s1 cid sid update c htc hfilled
  rcases hcase with ⟨_, e⟩ | ⟨_, hlru⟩
  · rw [e]; exact htn
  · rw [_slab_get_item_lru_nflush _ s1 sid hlru]; exact htn

theorem slab_get_items_succ (fuel cid : Nat) (update : Bool) (n : Nat) (s : State) :
    slab_get_items fuel cid update (n + 1) s
      = (slab_get_item fuel s cid update >>= fun r =>
          slab_get_items fuel cid update n r.2 >>= fun q => pure (r.1 :: q.1, q.2)) := rfl

/-- Allocations while slab 0 is being filled, up to the one that fills it. -/
theorem slab_filling_run (fuel cid : Nat) (c : slabclass) (rest : List Nat)
    (l0 l1 : Option Nat × Option Nat) (h32 : c.nitem < 2 ^ 32) (n : Nat) :
    ∀ (k : Nat) (s : State), k + n ≤ c.nitem → slab_filling cid c rest l0 l1 k s →
      ∃ s1, slab_get_items (fuel + 1) cid false n s
          = .ok ((List.range n).map (fun i => some ⟨0, (k + i) * c.size⟩), s1) ∧
        (k + n < c.nitem → slab_filling cid c rest l0 l1 (k + n) s1) ∧
        (0 < n → k + n = c.nitem → slab_filled cid c rest l1 s1) := by
  induction n with
  | zero =>
    intro k s _ hf
    exact ⟨s, rfl, fun _ => hf, fun h => absurd h (Nat.lt_irrefl 0)⟩
  | succ n ih =>
    intro k s hle hf
    obtain ⟨ck, hck, hpart, _, _⟩ := hf.cls
    obtain ⟨s1, h1, hfill, hfull⟩ := slab_filling_step cid c rest l0 l1 k s (by omega) h32 hf
    have hget : slab_get_item (fuel + 1) s cid false = .ok (some ⟨0, k * c.size⟩, s1) :=
      slab_get_item_usable fuel s cid false ck 0 _ s1 hf.pool hck
        (by simp only [Bool.false_eq_true, if_false, hpart, List.head?_cons]) h1
    have hmap : (List.range (n + 1)).map (fun i => some (⟨0, (k + i) * c.size⟩ : item_ptr))
        = some ⟨0, k * c.size⟩
          :: (List.range n).map (fun i => some ⟨0, (k + 1 + i) * c.size⟩) := by
      rw [List.range_succ_eq_map, List.map_cons, List.map_map]
      congr 1
      apply List.map_congr_left
      intro i _
      simp only [Function.comp, Nat.add_zero]
      congr 3
      omega
    rw [slab_get_items_succ, hget, hmap]
    by_cases hlt : k + 1 < c.nitem
    · obtain ⟨s2, h2, hfill2, hfull2⟩ := ih (k + 1) s1 (by omega) (hfill hlt)
      refine ⟨s2, ?_, ?_, ?_⟩
      · simp only [bind, Except.bind, h2, pure, Except.pure]
      · intro h; have := hfill2 (by omega)
        rw [show k + (n + 1) = k + 1 + n from by omega]; exact this
      · intro _ h
        have hn : 0 < n := by omega
        exact hfull2 hn (by omega)
    · have hn : n = 0 := by omega
      subst hn
      refine ⟨s1, ?_, fun h => absurd h (by omega), fun _ _ => hfull (by omega)⟩
      simp only [bind, Except.bind, slab_get_items, List.range_zero, List.map_nil, pure,
        Except.pure]

theorem slab_init_ctable_get (st : settings) (cid : Nat) (c : slabclass)
    (h : (slab_init_ctable st)[cid]? = some c) :
    c.partial_msinfoq = [] ∧ c.nitem = slab_data_size st / c.size := by
  simp only [slab_init_ctable, List.getElem?_map, Option.map_eq_some'] at h
  obtain ⟨a, _, e⟩ := h
  rw [← e]
  exact ⟨rfl, rfl⟩

theorem slab_init_stable_get (nm nd i : Nat) (links : Nat → Option Nat × Option Nat)
    (h : i < nm) :
    (slab_init_stable nm nd links)[i]?
      = some ⟨i, i, 0, SLABCLASS_INVALID_ID, true, [], init_link nm nd i (links i).1,
          init_link nm nd i (links i).2⟩ := by
  unfold slab_init_stable
  rw [List.getElem?_append_left (by simpa using h)]
  simp only [List.getElem?_map, List.getElem?_range h, Option.map_some']

theorem range_two (n : Nat) (h : 2 ≤ n) : ∃ rest, List.range n = 0 :: 1 :: rest := by
  obtain ⟨m, rfl⟩ : ∃ m, n = m + 2 := ⟨n - 2, by omega⟩
  refine ⟨((List.range m).map Nat.succ).map Nat.succ, ?_⟩
  rw [List.range_succ_eq_map, List.range_succ_eq_map]
  rfl

/-- The first cold allocation of a class in the start state takes memory slab
0 and is then an allocation in a slab that is being filled. -/
theorem slab_filling_init (fuel : Nat) (st : settings) (disk : Nat → slab)
    (links : Nat → Option Nat × Option Nat) (cid : Nat)
    (c : slabclass) (hc : (init st disk links).ctable[cid]? = some c)
    (hm : 2 ≤ (init st disk links).nmslab) (hpool : itemx_empty (init st disk links) = false)
    (l1 : Option Nat × Option Nat)
    (hl1 : ((init st disk links).stable[1]?).map (fun x => (x.pre, x.next)) = some l1)
    (hin : c.nitem = 1 →
      ∀ x, l1.1 = some x ∨ l1.2 = some x → x < (init st disk links).stable.length) :
    ∃ rest l0 sF, slab_filling cid c rest l0 l1 0 sF ∧
      slab_get_item (fuel + 1) (init st disk links) cid false
        = slab_get_item (fuel + 1) sF cid false := by
  obtain ⟨hpart, _⟩ := slab_init_ctable_get st cid c hc
  obtain ⟨rest, hrange⟩ := range_two _ hm
  have hfree : (init st disk links).free_msinfoq = 0 :: 1 :: rest := hrange
  obtain ⟨l0, hl0⟩ : ∃ l0 : Option Nat × Option Nat, l0
      = (init_link (init st disk links).nmslab (init st disk links).ndslab 0 (links 0).1,
         init_link (init st disk links).nmslab (init st disk links).ndslab 0 (links 0).2) :=
    ⟨_, rfl⟩
  have hs0 : (init st disk links).stable[0]?
      = some ⟨0, 0, 0, SLABCLASS_INVALID_ID, true, [], l0.1, l0.2⟩ := by
    rw [hl0]
    exact slab_init_stable_get (init st disk links).nmslab
      (init st disk links).ndslab 0 links (by omega)
  have hs1 : (init st disk links).stable[1]?
      = some ⟨1, 1, 0, SLABCLASS_INVALID_ID, true, [], l1.1, l1.2⟩ := by
    have h1 := slab_init_stable_get (init st disk links).nmslab
      (init st disk links).ndslab 1 links (by omega)
    have h1b : (init st disk links).stable[1]? = _ := h1
    rw [h1b] at hl1
    simp only [Option.map_some', Option.some.injEq] at hl1
    rw [h1b, ← hl1]
  have hfeq := slab_get_item_free_eq (init st disk links) cid false 0 (1 :: rest) c _ hfree hc hs0
  have hclt : cid < (init st disk links).ctable.length := lt_of_getElem? hc
  have hlt0 : 0 < (init st disk links).stable.length := lt_of_getElem? hs0
  have key : ∀ sF, slab_get_item_free (init st disk links) cid false = .ok sF →
      slab_filling cid c rest l0 l1 0 sF := by
    intro sF h
    rw [hfeq] at h
    simp only [Except.ok.injEq] at h
    subst h
    refine ⟨hpool, ⟨_, List.getElem?_set_self hclt, ?_, rfl, rfl⟩, ?_, ?_, rfl, rfl, rfl, rfl,
      ?_⟩
    · simp only [Bool.false_eq_true, if_false, hpart]
    · simp only [List.getElem?_set_self hlt0]
    · simp only
      rw [List.getElem?_set_ne (by decide)]
      exact hs1
    · intro h1 x hx
      simp only [List.length_set]
      exact hin h1 x hx
  obtain ⟨sF, hsF⟩ : ∃ sF, slab_get_item_free (init st disk links) cid false = .ok sF :=
    ⟨_, hfeq⟩
  have hfill := key sF hsF
  refine ⟨rest, l0, sF, hfill, ?_⟩
  obtain ⟨ck, hck, hpk, _, _⟩ := hfill.cls
  obtain ⟨s1, h1, _, _⟩ := _slab_get_item_slot sF cid false ck 0
    ⟨0, 0, 0, cid, true, [], l0.1, l0.2⟩ hck
    (by simp only [Bool.false_eq_true, if_false, hpk, List.head?_cons]) hfill.slab0 rfl
    (fun _ => by simp only [lru_ready, hfill.lruh]; rfl)
  rw [slab_get_item_cold_free fuel (init st disk links) cid c hpool hc hpart
      (by rw [hfree]; exact List.cons_ne_nil _ _), hsF,
    slab_get_item_usable fuel sF cid false ck 0 _ s1 hfill.pool hck
      (by simp only [Bool.false_eq_true, if_false, hpk, List.head?_cons]) h1]
  simp only [bind, Except.bind, h1, pure, Except.pure]

/-- The allocation after slab 0 has filled takes slot 0 of memory slab 1 and
drains nothing. -/
theorem slab_filled_next (fuel cid : Nat) (c : slabclass) (rest : List Nat)
    (l1 : Option Nat × Option Nat) (s : State) (hf : slab_filled cid c rest l1 s) :
    ∃ s2, slab_get_item (fuel + 1) s cid false = .ok (some ⟨1, 0⟩, s2) ∧ s2.nflush = 0 := by
  obtain ⟨ck, hck, hpart, hnitem, _⟩ := hf.cls
  have hfeq := slab_get_item_free_eq s cid false 1 rest ck _ hf.free hck hf.slab1
  have hclt : cid < s.ctable.length := lt_of_getElem? hck
  have hlt1 : 1 < s.stable.length := lt_of_getElem? hf.slab1
  have key : ∀ sG, slab_get_item_free s cid false = .ok sG →
      sG.ctable[cid]? = some
        { ck with nmslab := (ck.nmslab + 1) % 2 ^ 32,
                  partial_msinfoq := 1 :: ck.partial_msinfoq } ∧
      sG.stable[1]? = some ⟨1, 1, 0, cid, true, [], l1.1, l1.2⟩ ∧ sG.nflush = 0 ∧
      (c.nitem = 1 → lru_ready sG ⟨1, 1, 0, cid, true, [], l1.1, l1.2⟩ = true) := by
    intro sG h
    rw [hfeq] at h
    simp only [Except.ok.injEq] at h
    subst h
    refine ⟨?_, ?_, hf.nflush, ?_⟩
    · simp only [Bool.false_eq_true, if_false, List.getElem?_set_self hclt]
    · simp only [List.getElem?_set_self hlt1]
    · intro h1
      have hin := hf.inrange h1
      simp only [lru_ready, hf.lruh, List.length_set, if_true, Bool.and_eq_true,
        decide_eq_true_eq]
      refine ⟨⟨by omega, ?_⟩, ?_⟩
      · cases hp : l1.1 with
        | none => rfl
        | some x => simpa using hin x (Or.inl hp)
      · cases hn : l1.2 with
        | none => rfl
        | some x => simpa using hin x (Or.inr hn)
  obtain ⟨sG, hsG⟩ : ∃ sG, slab_get_item_free s cid false = .ok sG := ⟨_, hfeq⟩
  obtain ⟨hcG, hsG1, hnG, hlG⟩ := key sG hsG
  obtain ⟨s2, h2, _, _⟩ := _slab_get_item_slot sG cid false _ 1
    ⟨1, 1, 0, cid, true, [], l1.1, l1.2⟩ hcG
    (by simp only [Bool.false_eq_true, if_false, List.head?_cons]) hsG1 rfl
    (fun h => hlG (by
      have h2 : ck.nitem = 1 := h
      omega))
  refine ⟨s2, ?_, ?_⟩
  · rw [slab_get_item_cold_free fuel s cid ck hf.pool hck hpart
      (by rw [hf.free]; exact List.cons_ne_nil _ _), hsG]
    simp only [bind, Except.bind, h2, pure, Except.pure, next_slot, Nat.zero_mul]
  · rw [_slab_get_item_nflush sG s2 cid false _ h2]; exact hnG

/-- C11. Sequential fill.  From the start state with at least two memory slabs
and a non-empty index pool, whatever the link fields left uninitialised at the
start hold, for a class `cid` with `1 ≤ nitem < 2 ^ 32`: the first `j ≤ nitem`
cold allocations return the slots at the byte offsets
`0, size, ..., (j - 1) * size` of memory slab 0 (the item size is positive, so
they are pairwise distinct) and drain nothing; while `j < nitem` the memory-full
queue is empty and (for `j > 0`) slab 0 is the class's partial slab; after the
`nitem`-th allocation the partial queue is empty and slab 0 is the only entry of
the memory-full queue; the next allocation returns slot 0 of memory slab 1 and
`nflush` is still 0.  Only when a slab holds a single item does that allocation
fill slab 1 and let `lru_set` follow the links of slabinfo 1: these are then
`NULL` or point into the slab table (`hl`). -/
theorem sequential_fill (fuel : Nat) (st : settings) (disk : Nat → slab)
    (links : Nat → Option Nat × Option Nat) (cid : Nat)
    (c : slabclass) (hc : (init st disk links).ctable[cid]? = some c)
    (hm : 2 ≤ (init st disk links).nmslab) (hpool : itemx_empty (init st disk links) = false)
    (h1 : 1 ≤ c.nitem) (h32 : c.nitem < 2 ^ 32)
    (hl : c.nitem = 1 → ∀ (sinfo : slabinfo) (x : Nat),
      (init st disk links).stable[1]? = some sinfo → sinfo.pre = some x ∨ sinfo.next = some x →
      x < (init st disk links).stable.length) :
    0 < c.size ∧
    ∀ j, j ≤ c.nitem →
      ∃ sj, slab_get_items (fuel + 1) cid false j (init st disk links)
          = .ok ((List.range j).map (fun i => some ⟨0, i * c.size⟩), sj) ∧
        sj.nflush = 0 ∧
        (j < c.nitem → sj.full_msinfoq = [] ∧
          (0 < j → (sj.ctable[cid]?).map (fun x => x.partial_msinfoq) = some [0])) ∧
        (j = c.nitem → sj.full_msinfoq = [0] ∧
          (sj.ctable[cid]?).map (fun x => x.partial_msinfoq) = some [] ∧
          ∃ s2, slab_get_item (fuel + 1) sj cid false = .ok (some ⟨1, 0⟩, s2) ∧
            s2.nflush = 0) := by
  constructor
  · obtain ⟨_, hn⟩ := slab_init_ctable_get st cid c hc
    rcases Nat.eq_zero_or_pos c.size with h0 | hpos
    · rw [h0, Nat.div_zero] at hn; omega
    · exact hpos
  · intro j hj
    cases j with
    | zero =>
      refine ⟨init st disk links, rfl, rfl,
        fun _ => ⟨rfl, fun h => absurd h (Nat.lt_irrefl 0)⟩, ?_⟩
      intro h; omega
    | succ n =>
      have hs1 := slab_init_stable_get (init st disk links).nmslab
        (init st disk links).ndslab 1 links (by omega)
      have hs1b : (init st disk links).stable[1]? = _ := hs1
      obtain ⟨rest, l0, sF, hfill, hfirst⟩ := slab_filling_init fuel st disk links cid c hc hm
        hpool (_, _) (by rw [hs1b]; rfl)
        (fun hn1 x hx => hl hn1 _ x hs1b hx)
      obtain ⟨s1, hrun, hA, hB⟩ := slab_filling_run fuel cid c rest l0 _ h32 (n + 1) 0 sF
        (by omega) hfill
      have hrun2 : slab_get_items (fuel + 1) cid false (n + 1) (init st disk links)
          = .ok ((List.range (n + 1)).map (fun i => some ⟨0, i * c.size⟩), s1) := by
        rw [slab_get_items_succ, hfirst, ← slab_get_items_succ, hrun]
        simp only [Nat.zero_add]
      refine ⟨s1, hrun2, ?_, ?_, ?_⟩
      · rcases Nat.lt_or_ge (n + 1) c.nitem with hlt | hge
        · exact (hA (by omega)).nflush
        · exact (hB (by omega) (by omega)).nflush
      · intro hlt
        have hf := hA (by omega)
        obtain ⟨ck, hck, hpk, _, _⟩ := hf.cls
        refine ⟨hf.full, fun _ => ?_⟩
        rw [hck]; simp only [Option.map_some', hpk]
      · intro heq
        have hf := hB (by omega) (by omega)
        obtain ⟨ck, hck, hpk, _, _⟩ := hf.cls
        refine ⟨hf.full, ?_, slab_filled_next fuel cid c rest _ s1 hf⟩
        rw [hck]; simp only [Option.map_some', hpk]

set_option maxRecDepth 100000 in
/-- C11 in scenario S1 (4096-byte slabs, 64-byte items, 63 per slab): the
first 63 allocations fill memory slab 0 in slab-index order and the 64th is
slot 0 of memory slab 1, without a drain. -/
theorem sequential_fill_witness :
    0 < 64 ∧
    ∀ j, j ≤ 63 →
      ∃ sj, slab_get_items (2 + 1) 0 false j s_s1
          = .ok ((List.range j).map (fun i => some ⟨0, i * 64⟩), sj) ∧
        sj.nflush = 0 ∧
        (j < 63 → sj.full_msinfoq = [] ∧
          (0 < j → (sj.ctable[0]?).map (fun x => x.partial_msinfoq) = some [0])) ∧
        (j = 63 → sj.full_msinfoq = [0] ∧
          (sj.ctable[0]?).map (fun x => x.partial_msinfoq) = some [] ∧
          ∃ s2, slab_get_item (2 + 1) sj 0 false = .ok (some ⟨1, 0⟩, s2) ∧ s2.nflush = 0) :=
  sequential_fill 2 cfg_s1 (fun _ => slab_zero) links_null 0 ⟨63, 64, 52, [], 0, 0, 0, 0, none⟩
    (by decide) (by decide) (by decide) (by decide) (by decide)
    (fun h => absurd h (by decide))

/-! ## Evict postcondition -/

theorem evict_frame_refl (s : State) : evict_frame s s :=
  ⟨rfl, rfl, rfl, rfl, rfl, rfl, fun _ => List.Subperm.refl _⟩

theorem evict_frame_trans {s s1 s2 : State} (h1 : evict_frame s s1) (h2 : evict_frame s1 s2) :
    evict_frame s s2 :=
  ⟨h2.hash_power.trans h1.hash_power, h2.free_d.trans h1.free_d, h2.nfree_d.trans h1.nfree_d,
   h2.full_d.trans h1.full_d, h2.nevict.trans h1.nevict, h2.classes.trans h1.classes,
   fun b => List.Subperm.trans (h2.chains b) (h1.chains b)⟩

theorem itemx_getx_evict_frame (s : State) (hash md : Nat) :
    evict_frame s (itemx_getx s hash md).2 := by
  refine ⟨rfl, rfl, rfl, rfl, rfl, rfl, ?_⟩
  intro b
  simp only [itemx_getx, upd]
  split
  · rename_i hb
    rw [hb]
    exact (hotring_get_perm _ md).subperm
  · exact List.Subperm.refl _

theorem itemx_removex_evict_frame (s s1 : State) (hash md : Nat) (b : Bool)
    (h : itemx_removex s hash md = .ok (b, s1)) : evict_frame s s1 := by
  rcases itemx_removex_ok s s1 hash md b h with ⟨_, _, h1⟩ | ⟨m, sinfo, c, _, hs, hc, _, _, h1⟩
  · subst h1; exact itemx_getx_evict_frame s hash md
  · subst h1
    refine ⟨rfl, rfl, rfl, rfl, rfl, ?_, ?_⟩
    · exact map_set_same _ _ _ c _ hc rfl
    · intro b
      simp only [state_after_remove, upd]
      split
      · rename_i hb
        rw [hb]
        exact List.Subperm.trans (List.erase_sublist _ _).subperm
          (hotring_get_perm _ md).subperm
      · exact List.Subperm.refl _

theorem subperm_map_nodup {l1 l2 : List itemx} (h : List.Subperm l1 l2)
    (hnd : (l2.map itemx.md).Nodup) : (l1.map itemx.md).Nodup := by
  obtain ⟨l, hp, hs⟩ := h
  exact (List.Perm.nodup_iff (List.Perm.map _ hp)).mp
    (List.Nodup.sublist (List.Sublist.map _ hs) hnd)

theorem subperm_chain_find_none {l1 l2 : List itemx} (h : List.Subperm l1 l2) (d : Nat)
    (hn : chain_find l2 d = none) : chain_find l1 d = none := by
  rw [chain_find_none] at hn ⊢
  intro e he
  exact hn e (h.subset he)

/-- After the loop body of `slab_evict` for a digest, the digest is not in the
index. -/
theorem itemx_removex_absent (s s1 : State) (hash md : Nat) (b : Bool)
    (hnd : ((s.itx_table (itemx_bucket s hash)).stqh_first.map itemx.md).Nodup)
    (h : itemx_removex s hash md = .ok (b, s1)) :
    chain_find (s1.itx_table (itemx_bucket s1 hash)).stqh_first md = none := by
  rcases itemx_removex_ok s s1 hash md b h with
    ⟨hn, _, h1⟩ | ⟨m, sinfo, c, hfind, hs, hc, _, _, h1⟩
  · subst h1
    have := chain_find_hotring_get (s.itx_table (itemx_bucket s hash)) md md
    simp only [itemx_getx, itemx_bucket, upd_same] at this ⊢
    rw [this]; exact hn
  · subst h1
    simp only [state_after_remove, itemx_bucket, upd_same]
    have hperm := hotring_get_perm (s.itx_table (itemx_bucket s hash)) md
    have hnd2 : ((hotring_get (s.itx_table (itemx_bucket s hash)) md).2.stqh_first.map
        itemx.md).Nodup := (List.Perm.nodup_iff (List.Perm.map _ hperm)).mpr hnd
    exact chain_find_erase_self _ m md hnd2 (hperm.symm.subset (chain_find_mem hfind))
      (chain_find_md hfind)

/-- The item loop of `slab_evict` leaves no digest of the slots it has visited
in the index. -/
theorem slab_evict_items_absent (slab : slab) (size : Nat) (n : Nat) :
    ∀ (idx : Nat) (s s1 : State),
      slab_evict_items slab size n idx s = .ok s1 →
      (∀ b, b < 2 ^ s.hash_power → ((s.itx_table b).stqh_first.map itemx.md).Nodup) →
      evict_frame s s1 ∧
      ∀ i, idx ≤ i → i < idx + n →
        chain_find
          (s1.itx_table (itemx_bucket s1 (slab.data (slab_to_item i size)).hash)).stqh_first
          (slab.data (slab_to_item i size)).md = none := by
  induction n with
  | zero =>
    intro idx s s1 h _
    simp only [slab_evict_items, Except.ok.injEq] at h
    subst h
    exact ⟨evict_frame_refl s, fun i h1 h2 => by omega⟩
  | succ n ih =>
    intro idx s s1 h hnd
    rw [slab_evict_items_succ] at h
    obtain ⟨s2, h2, h⟩ := bind_ok h
    have hbl : ∀ (t : State) (hash : Nat), itemx_bucket t hash < 2 ^ t.hash_power := by
      intro t hash
      exact Nat.mod_lt _ (Nat.pos_of_ne_zero (by simp))
    have hstep : evict_frame s s2 ∧
        chain_find (s2.itx_table (itemx_bucket s2
          (slab.data (slab_to_item idx size)).hash)).stqh_first
          (slab.data (slab_to_item idx size)).md = none := by
      cases hr : (itemx_getx s (slab.data (slab_to_item idx size)).hash
          (slab.data (slab_to_item idx size)).md).1 with
      | none =>
        rw [hr] at h2
        simp only [pure, Except.pure, Except.ok.injEq] at h2
        subst h2
        refine ⟨itemx_getx_evict_frame _ _ _, ?_⟩
        rw [itemx_getx_fst] at hr
        have := chain_find_hotring_get (s.itx_table (itemx_bucket s
          (slab.data (slab_to_item idx size)).hash)) (slab.data (slab_to_item idx size)).md
          (slab.data (slab_to_item idx size)).md
        simp only [itemx_getx, itemx_bucket, upd_same] at this hr ⊢
        rw [this]; exact hr
      | some m =>
        rw [hr] at h2
        obtain ⟨⟨b, t⟩, h3, h2⟩ := bind_ok h2
        simp only [pure, Except.pure, Except.ok.injEq] at h2
        subst h2
        have hf1 := itemx_getx_evict_frame s (slab.data (slab_to_item idx size)).hash
          (slab.data (slab_to_item idx size)).md
        refine ⟨evict_frame_trans hf1 (itemx_removex_evict_frame _ _ _ _ _ h3), ?_⟩
        refine itemx_removex_absent _ _ _ _ _ ?_ h3
        exact subperm_map_nodup (hf1.chains _) (hnd _ (hbl s _))
    obtain ⟨hf2, habs⟩ := hstep
    have hnd2 : ∀ b, b < 2 ^ s2.hash_power →
        ((s2.itx_table b).stqh_first.map itemx.md).Nodup := by
      intro b hb
      rw [hf2.hash_power] at hb
      exact subperm_map_nodup (hf2.chains b) (hnd b hb)
    obtain ⟨hf3, hrest⟩ := ih (idx + 1) s2 s1 h hnd2
    refine ⟨evict_frame_trans hf2 hf3, ?_⟩
    intro i h1 h2
    by_cases hi : i = idx
    · subst hi
      have hb : itemx_bucket s1 (slab.data (slab_to_item i size)).hash
          = itemx_bucket s2 (slab.data (slab_to_item i size)).hash := by
        simp only [itemx_bucket, hf3.hash_power]
      rw [hb]
      exact subperm_chain_find_none (hf3.chains _) _ habs
    · exact hrest i (by omega) (by omega)

/-- The evict postcondition for a read that transfers the whole slab.  Let the
LRU list of the disk tier be empty, so that the victim of `slab_evict` is the
head `S` of the disk-full queue, let the queue have no repeated entry and every
bucket chain pairwise distinct digests, let `c` be the class named in the image
of `S` on the device, with `c.ndslab > 0`, and let the counters `nevict` not be
at their maximum.  After a successful `slab_evict` the lookup of the digest
stored in each of the `c.nitem` slots of the image returns `NULL`; `S` has left
the disk-full queue
(which is the old queue without its head) and is the last entry of the
free-disk queue; the global `nevict` and `c.nevict` are 1 larger and `c.ndslab`
is 1 smaller. -/
theorem slab_evict_post (s s1 : State) (sid : Nat) (sinfo : slabinfo) (c : slabclass)
    (hld : s.lruh_disk.head = none) (hread : s.pread_r = transfer.full)
    (hev : slab_evict s = .ok (rstatus_t.FC_OK, s1))
    (hvictim : s.full_dsinfoq.head? = some sid) (hs : s.stable[sid]? = some sinfo)
    (hc : s.ctable[(s.disk (slab_to_daddr s sinfo)).cid]? = some c)
    (hfd : s.full_dsinfoq.Nodup)
    (hnd : ∀ b, b < 2 ^ s.hash_power → ((s.itx_table b).stqh_first.map itemx.md).Nodup)
    (hnev : s.nevict + 1 < 2 ^ 64) (hcev : c.nevict + 1 < 2 ^ 64) (hcd : 0 < c.ndslab) :
    (∀ idx, idx < c.nitem →
      (itemx_getx s1 ((s.disk (slab_to_daddr s sinfo)).data (slab_to_item idx c.size)).hash
        ((s.disk (slab_to_daddr s sinfo)).data (slab_to_item idx c.size)).md).1 = none) ∧
    sid ∉ s1.full_dsinfoq ∧ s1.full_dsinfoq = s.full_dsinfoq.tail ∧
    s1.free_dsinfoq = s.free_dsinfoq ++ [sid] ∧
    s1.nevict = s.nevict + 1 ∧
    ∃ c1, s1.ctable[(s.disk (slab_to_daddr s sinfo)).cid]? = some c1 ∧
      c1.nevict = c.nevict + 1 ∧ c1.ndslab + 1 = c.ndslab := by
  obtain ⟨sid1, rest, sinfo1, hq, hs1, hcase⟩ := slab_evict_ok s s1 rstatus_t.FC_OK hld hev
  rw [hq] at hvictim
  simp only [List.head?_cons, Option.some.injEq] at hvictim
  subst hvictim
  rw [hs] at hs1
  simp only [Option.some.injEq] at hs1
  subst hs1
  have hbuf : evict_read s sinfo = s.disk (slab_to_daddr s sinfo) := by
    simp only [evict_read, hread, io_dst]
  rw [hbuf] at hcase
  rcases hcase with ⟨_, hst, _⟩ | ⟨_, _, c0, s3, c1, hc0, hloop, hc1, e⟩
  · cases hst
  · rw [hc] at hc0
    simp only [Option.some.injEq] at hc0
    subst hc0
    obtain ⟨hf, habs⟩ := slab_evict_items_absent (s.disk (slab_to_daddr s sinfo)) c.size c.nitem
      0 _ s3 hloop hnd
    have hcl := congrArg (fun l => l[(s.disk (slab_to_daddr s sinfo)).cid]?) hf.classes
    simp only [List.getElem?_map, hc1, hc, Option.map_some', Option.some.injEq,
      Prod.mk.injEq] at hcl
    have hclt : (s.disk (slab_to_daddr s sinfo)).cid < s3.ctable.length := lt_of_getElem? hc1
    have hnot : sid1 ∉ rest := by
      rw [hq] at hfd
      exact (List.nodup_cons.mp hfd).1
    subst e
    refine ⟨?_, ?_, ?_, ?_, ?_, ?_⟩
    · intro idx hidx
      rw [itemx_getx_fst]
      exact habs idx (Nat.zero_le _) (by omega)
    · rw [hf.full_d]; exact hnot
    · rw [hf.full_d, hq]; rfl
    · rw [hf.free_d]
    · rw [hf.nevict]
      exact Nat.mod_eq_of_lt hnev
    · refine ⟨_, List.getElem?_set_self hclt, ?_, ?_⟩
      · simp only [hcl.1]
        exact Nat.mod_eq_of_lt hcev
      · simp only [hcl.2, wrap_dec]
        rw [if_neg (by omega)]
        omega

set_option maxRecDepth 100000 in
/-- Eviction in scenario S3 with two items per slab and a complete read: after
four fills the eviction takes slab 0, the first slab filled; its digests 101
and 102 are gone from the index, slab 0 is the only free disk slab, slab 1 is
left on the disk-full queue and the eviction counters are 1. -/
theorem slab_evict_post_witness :
    (∀ idx, idx < 2 →
      (itemx_getx (state_of (slab_evict s_s3) s_s3)
        ((s_s3.disk 0).data (slab_to_item idx 200)).hash
        ((s_s3.disk 0).data (slab_to_item idx 200)).md).1 = none) ∧
    0 ∉ (state_of (slab_evict s_s3) s_s3).full_dsinfoq ∧
    (state_of (slab_evict s_s3) s_s3).full_dsinfoq = ([0, 1] : List Nat).tail ∧
    (state_of (slab_evict s_s3) s_s3).free_dsinfoq = [] ++ [0] ∧
    (state_of (slab_evict s_s3) s_s3).nevict = 0 + 1 ∧
    ∃ c1, (state_of (slab_evict s_s3) s_s3).ctable[0]? = some c1 ∧
      c1.nevict = 0 + 1 ∧ c1.ndslab + 1 = 2 :=
  slab_evict_post s_s3 (state_of (slab_evict s_s3) s_s3) 0 ⟨0, 0, 2, 0, false, [], none, none⟩
    ⟨2, 200, 100, [], 2, 2, 0, 8, none⟩ (by decide) rfl rfl (by decide) (by decide) (by decide)
    (by decide) (by decide) (by decide) (by decide) (by decide)

/-! ## Reading an item after a drain -/

/-- A function of the slab descriptor that does not look at the LRU links
has the same values over the slab table after `lru_remove_head`. -/
theorem lru_remove_head_map {β : Type} (f : slabinfo → β) (stable : List slabinfo)
    (lruh : lru_head) (r : List slabinfo × lru_head)
    (hf : ∀ (x : slabinfo) (p n : Option Nat), f { x with pre := p, next := n } = f x)
    (h : lru_remove_head stable lruh = .ok r) : r.1.map f = stable.map f := by
  obtain ⟨hd, hv, _, h2, h3 | ⟨n, nv, _, h4, h5⟩⟩ := lru_remove_head_ok stable lruh r h
  · rw [h3.2]
  · rw [h5]
    show ((stable.set hd { hv with next := none }).set n { nv with pre := none }).map f = _
    rw [map_set_same f _ n nv _ h4 (hf nv none nv.next),
      map_set_same f _ hd hv _ h2 (hf hv hv.pre none)]

theorem getElem?_of_map_eq {α β : Type} (f : α → β) (l1 l2 : List α) (i : Nat) (x : α)
    (h : l1.map f = l2.map f) (hx : l1[i]? = some x) : ∃ y, l2[i]? = some y ∧ f y = f x := by
  have h1 := congrArg (fun l => l[i]?) h
  simp only [List.getElem?_map, hx, Option.map_some'] at h1
  cases hy : l2[i]? with
  | none => rw [hy] at h1; cases h1
  | some y =>
    rw [hy] at h1
    exact ⟨y, rfl, (Option.some.inj h1).symm⟩

theorem slab_offset_mod (a S x : Nat) (h : x < S) : (a * S + x) % S = x := by
  rw [Nat.add_comm, Nat.add_mul_mod_self_right]
  exact Nat.mod_eq_of_lt h

theorem slab_offset_div (a S x : Nat) (h : x < S) : (a * S + x) / S = a := by
  have hS : 0 < S := by omega
  rw [Nat.add_comm, Nat.add_mul_div_right _ _ hS, Nat.div_eq_of_lt h, Nat.zero_add]

theorem list_map_range_congr {β : Type} (n : Nat) (f g : Nat → β)
    (h : ∀ j, j < n → f j = g j) : (List.range n).map f = (List.range n).map g :=
  List.map_congr_left (fun j hj => h j (List.mem_range.mp hj))

/-- The descriptor and the class of the drained slab after a successful
`_slab_drain` whose write is complete, and where its image then is: either the slab is on the device
at the address of the first free disk slab, where the image of its memory slab
was written, or the victim is that disk slab itself and is back in memory at
its own address. -/
theorem _slab_drain_victim_after (s s1 : State) (msid : Nat) (msinfo : slabinfo) (c : slabclass)
    (hdrain : _slab_drain s = .ok (rstatus_t.FC_OK, s1)) (hpw : s.pwrite_r = transfer.full)
    (hvictim : drain_victim s = some msid) (hM : s.stable[msid]? = some msinfo)
    (hc : s.ctable[msinfo.cid]? = some c) :
    s1.slab_size = s.slab_size ∧ s1.dstart = s.dstart ∧ s1.pread_r = s.pread_r ∧
    s1.mstart = s.mstart ∧
    ∃ m1 c1, s1.stable[msid]? = some m1 ∧ s1.ctable[m1.cid]? = some c1 ∧ c1.size = c.size ∧
      ((m1.mem = true ∧ m1.addr = msinfo.addr) ∨
       (m1.mem = false ∧ s1.disk (slab_to_daddr s m1) = s.mstart msinfo.addr)) := by
  obtain ⟨msid1, r, m0, dsid, d0, hv, hr, hm0, _, hd0, hcase⟩ := _slab_drain_ok s s1 _ hdrain
  rw [hvictim] at hv
  obtain rfl : msid = msid1 := Option.some.inj hv
  have hproj : r.1.map (fun x => (x.addr, x.cid)) = s.stable.map (fun x => (x.addr, x.cid)) := by
    rcases hr with ⟨_, hr⟩ | ⟨_, hr⟩
    · exact lru_remove_head_map _ _ _ _ (fun _ _ _ => rfl) hr
    · rw [hr]
  obtain ⟨y, hy, hye⟩ := getElem?_of_map_eq _ _ _ msid m0 hproj hm0
  rw [hM] at hy
  obtain rfl : msinfo = y := Option.some.inj hy
  have haddr : m0.addr = msinfo.addr := (congrArg Prod.fst hye).symm
  have hcid : m0.cid = msinfo.cid := (congrArg Prod.snd hye).symm
  rcases hcase with ⟨_, hst, _⟩ | ⟨_, _, c0, stable1, hc0, hswap, e⟩
  · cases hst
  rw [hcid, hc] at hc0
  obtain rfl : c = c0 := Option.some.inj hc0
  obtain ⟨m0b, d0b, d1, hmb, hdb, hd1, hst1⟩ := slab_swap_addr_ok _ _ _ _ hswap
  rw [hm0] at hmb
  obtain rfl : m0 = m0b := Option.some.inj hmb
  rw [hd0] at hdb
  obtain rfl : d0 = d0b := Option.some.inj hdb
  have hlm : msid < r.1.length := lt_of_getElem? hm0
  have hlc : msinfo.cid < s.ctable.length := lt_of_getElem? hc
  have hdw : drain_write s m0 d0 = s.mstart m0.addr := by
    simp only [drain_write, hpw, io_dst]
  rw [hdw] at e
  subst e
  refine ⟨rfl, rfl, rfl, rfl, ?_⟩
  show ∃ m1 c1, stable1[msid]? = some m1 ∧
    (s.ctable.set m0.cid { c with nmslab := wrap_dec 32 c.nmslab,
                                  ndslab := (c.ndslab + 1) % 2 ^ 32 })[m1.cid]? = some c1 ∧
    c1.size = c.size ∧
    ((m1.mem = true ∧ m1.addr = msinfo.addr) ∨
     (m1.mem = false ∧
      upd s.disk (slab_to_daddr s d0) (s.mstart m0.addr) (slab_to_daddr s m1) =
        s.mstart msinfo.addr))
  by_cases hmd : msid = dsid
  · subst hmd
    rw [List.getElem?_set_self hlm] at hd1
    obtain rfl := Option.some.inj hd1
    refine ⟨{ m0 with addr := m0.addr, mem := true },
      { c with nmslab := wrap_dec 32 c.nmslab, ndslab := (c.ndslab + 1) % 2 ^ 32 },
      ?_, ?_, rfl, Or.inl ⟨rfl, haddr⟩⟩
    · rw [hst1, List.getElem?_set_self (by rw [List.length_set]; exact hlm)]
    · show (s.ctable.set m0.cid _)[m0.cid]? = _
      rw [hcid, List.getElem?_set_self hlc]
  · refine ⟨{ m0 with addr := d0.addr, mem := false },
      { c with nmslab := wrap_dec 32 c.nmslab, ndslab := (c.ndslab + 1) % 2 ^ 32 },
      ?_, ?_, rfl, Or.inr ⟨rfl, ?_⟩⟩
    · rw [hst1, List.getElem?_set_ne (Ne.symm hmd), List.getElem?_set_self hlm]
    · show (s.ctable.set m0.cid _)[m0.cid]? = _
      rw [hcid, List.getElem?_set_self hlc]
    · show upd s.disk (slab_to_daddr s d0) (s.mstart m0.addr) (s.dstart + d0.addr * s.slab_size) = _
      rw [haddr]
      unfold upd slab_to_daddr
      rw [if_pos rfl]

/-- Read after drain on a device that completes the write and the read.  After
a successful `_slab_drain` of the slab `msid`, whose memory slab is at address
`msinfo.addr` and whose class has item size `c.size`, `slab_read_item` at
`msid` and an offset `o` with `o + c.size ≤ slab_size` returns an item, and the
`c.size` bytes of that item are the bytes that the memory held at offset `o` of
the slab before the drain.  The device is a map of bytes written by `pwrite`
and read by `pread`, and the rounding macros only have to satisfy
`ROUND_DOWN x 512 ≤ x` and `n ≤ ROUND_UP n 512`. -/
theorem read_after_drain (ROUND_DOWN ROUND_UP : Nat → Nat → Nat) (readbuf : Nat → Nat)
    (s s1 : State) (msid : Nat) (msinfo : slabinfo) (c : slabclass) (o : Nat)
    (hrd : ∀ x, ROUND_DOWN x 512 ≤ x) (hru : ∀ n, n ≤ ROUND_UP n 512)
    (hdrain : _slab_drain s = .ok (rstatus_t.FC_OK, s1))
    (hvictim : drain_victim s = some msid) (hM : s.stable[msid]? = some msinfo)
    (hc : s.ctable[msinfo.cid]? = some c)
    (ho : o + c.size ≤ s.slab_size) (hpwrite : s.pwrite_r = transfer.full)
    (hpread : s.pread_r = transfer.full) :
    ∃ r, slab_read_item ROUND_DOWN ROUND_UP readbuf s1 msid o = .ok (some r) ∧
      item_bytes r c.size =
        (List.range c.size).map (fun j => mem_byte s (msinfo.addr * s.slab_size + o + j)) := by
  obtain ⟨hS, hD, hP, hMs, m1, c1, hm1, hc1, hsz, hwhere⟩ :=
    _slab_drain_victim_after s s1 msid msinfo c hdrain hpwrite hvictim hM hc
  have hmem : ∀ j, j < c.size →
      mem_byte s (msinfo.addr * s.slab_size + o + j) = (s.mstart msinfo.addr).bytes (o + j) := by
    intro j hj
    unfold mem_byte
    rw [Nat.add_assoc, slab_offset_div _ _ _ (by omega), slab_offset_mod _ _ _ (by omega)]
  have ht1 : tget s1.stable msid = .ok m1 := tget_ok_iff.mpr hm1
  have ht2 : tget s1.ctable m1.cid = .ok c1 := tget_ok_iff.mpr hc1
  rcases hwhere with ⟨hmm, ha⟩ | ⟨hmm, hdk⟩
  · refine ⟨(fun i => if i < c1.size then mem_byte s1 (m1.addr * s1.slab_size + o + i)
      else readbuf i, 0), ?_, ?_⟩
    · unfold slab_read_item
      rw [ht1]
      show (do
        let c ← tget s1.ctable m1.cid
        if m1.mem = true then _ else _) = _
      rw [ht2]
      show (if m1.mem = true then _ else _) = _
      rw [if_pos hmm]
      rfl
    · unfold item_bytes
      apply list_map_range_congr
      intro j hj
      show (if 0 + j < c1.size then mem_byte s1 (m1.addr * s1.slab_size + o + (0 + j))
        else readbuf (0 + j)) = _
      rw [Nat.zero_add, hsz, if_pos hj, hmem j hj]
      unfold mem_byte
      rw [hS, hMs, ha, Nat.add_assoc, slab_offset_div _ _ _ (by omega),
        slab_offset_mod _ _ _ (by omega)]
  · refine ⟨(fun i => if i < ROUND_UP (c1.size +
          (slab_to_daddr s1 m1 + o - ROUND_DOWN (slab_to_daddr s1 m1 + o) 512)) 512
        then dev_byte s1 (ROUND_DOWN (slab_to_daddr s1 m1 + o) 512 + i) else readbuf i,
      slab_to_daddr s1 m1 + o - ROUND_DOWN (slab_to_daddr s1 m1 + o) 512), ?_, ?_⟩
    · unfold slab_read_item
      rw [ht1]
      show (do
        let c ← tget s1.ctable m1.cid
        if m1.mem = true then _ else _) = _
      rw [ht2]
      show (if m1.mem = true then _ else _) = _
      rw [if_neg (by rw [hmm]; exact Bool.noConfusion)]
      have hpr : s1.pread_r = transfer.full := by rw [hP, hpread]
      simp only [hpr, io_short_full, Bool.false_eq_true, if_false]
      rfl
    · unfold item_bytes
      apply list_map_range_congr
      intro j hj
      have h1 := hrd (slab_to_daddr s1 m1 + o)
      have h2 := hru (c1.size + (slab_to_daddr s1 m1 + o - ROUND_DOWN (slab_to_daddr s1 m1 + o) 512))
      show (if slab_to_daddr s1 m1 + o - ROUND_DOWN (slab_to_daddr s1 m1 + o) 512 + j <
            ROUND_UP (c1.size +
              (slab_to_daddr s1 m1 + o - ROUND_DOWN (slab_to_daddr s1 m1 + o) 512)) 512
          then dev_byte s1 (ROUND_DOWN (slab_to_daddr s1 m1 + o) 512 +
            (slab_to_daddr s1 m1 + o - ROUND_DOWN (slab_to_daddr s1 m1 + o) 512 + j))
          else readbuf (slab_to_daddr s1 m1 + o -
            ROUND_DOWN (slab_to_daddr s1 m1 + o) 512 + j)) = _
      rw [if_pos (by omega), hmem j hj]
      have e1 : ROUND_DOWN (slab_to_daddr s1 m1 + o) 512 +
          (slab_to_daddr s1 m1 + o - ROUND_DOWN (slab_to_daddr s1 m1 + o) 512 + j) =
          s.dstart + (m1.addr * s.slab_size + (o + j)) := by
        have : slab_to_daddr s1 m1 = s.dstart + m1.addr * s.slab_size := by
          unfold slab_to_daddr; rw [hS, hD]
        omega
      rw [e1]
      unfold dev_byte
      rw [hS, hD, Nat.add_sub_cancel_left, slab_offset_mod _ _ _ (by omega)]
      have e2 : s.dstart + (m1.addr * s.slab_size + (o + j)) - (o + j) = slab_to_daddr s m1 := by
        unfold slab_to_daddr; omega
      rw [e2, hdk]

/-- Read after drain in the small configuration with complete transfers: slab 0
is full in memory and
holds the byte `i % 251` at offset `i`; after its drain the 200 bytes of the
item at offset 212 are read back from the device. -/
theorem read_after_drain_witness :
    ∃ r, slab_read_item (fun x a => x / a * a) (fun x a => (x + a - 1) / a * a) (fun _ => 7)
        (state_of (_slab_drain s_bytes) s_bytes) 0 212 = .ok (some r) ∧
      item_bytes r 200 =
        (List.range 200).map (fun j => mem_byte s_bytes (0 * s_bytes.slab_size + 212 + j)) :=
  read_after_drain (fun x a => x / a * a) (fun x a => (x + a - 1) / a * a) (fun _ => 7)
    s_bytes (state_of (_slab_drain s_bytes) s_bytes) 0
    ⟨0, 0, 2, 0, true, [], none, none⟩ ⟨2, 200, 100, [], 1, 0, 0, 2, none⟩ 212
    (fun x => Nat.div_mul_le_self x 512)
    (fun n => by show n ≤ (n + 512 - 1) / 512 * 512; omega)
    (by rfl) (by decide) (by decide) (by decide) (by decide) rfl rfl

/-! ## Lookups that do not count -/

/-- Claim C21.  A lookup whose digest is that of the head entry returns the head
and leaves the bucket (chain and query counter) as it is, and a lookup whose
digest is carried by no entry of the chain (as in an empty bucket) returns
`NULL` and leaves the bucket as it is; both for every value of the counter,
`HR_QUERY_THRESHOLD - 1` included. -/
theorem hotring_get_head_or_miss (b : itemx_tqh) (d : Nat) :
    (∀ hd tl, b.stqh_first = hd :: tl → hd.md = d → hotring_get b d = (some hd, b)) ∧
    ((∀ e ∈ b.stqh_first, e.md ≠ d) → hotring_get b d = (none, b)) := by
  constructor
  · intro hd tl hb hmd
    obtain ⟨chain, n⟩ := b
    simp only at hb
    subst hb
    exact hotring_get_head n hd tl d hmd
  · intro hmiss
    exact hotring_get_miss b d (chain_find_none.mpr hmiss)

/-- C21 at buckets whose counter is `HR_QUERY_THRESHOLD - 1 = 4`: a hit on the
head (digest 1), a miss (digest 9) and a miss on the empty bucket. -/
theorem hotring_get_head_or_miss_witness :
    hotring_get ⟨[⟨1, 0, 12, 0, 0⟩, ⟨2, 0, 76, 0, 0⟩], HR_QUERY_THRESHOLD - 1⟩ 1
      = (some ⟨1, 0, 12, 0, 0⟩,
         ⟨[⟨1, 0, 12, 0, 0⟩, ⟨2, 0, 76, 0, 0⟩], HR_QUERY_THRESHOLD - 1⟩) ∧
    hotring_get ⟨[⟨1, 0, 12, 0, 0⟩, ⟨2, 0, 76, 0, 0⟩], HR_QUERY_THRESHOLD - 1⟩ 9
      = (none, ⟨[⟨1, 0, 12, 0, 0⟩, ⟨2, 0, 76, 0, 0⟩], HR_QUERY_THRESHOLD - 1⟩) ∧
    hotring_get ⟨[], HR_QUERY_THRESHOLD - 1⟩ 9 = (none, ⟨[], HR_QUERY_THRESHOLD - 1⟩) :=
  ⟨(hotring_get_head_or_miss
      ⟨[⟨1, 0, 12, 0, 0⟩, ⟨2, 0, 76, 0, 0⟩], HR_QUERY_THRESHOLD - 1⟩ 1).1 _ _ rfl rfl,
   (hotring_get_head_or_miss
      ⟨[⟨1, 0, 12, 0, 0⟩, ⟨2, 0, 76, 0, 0⟩], HR_QUERY_THRESHOLD - 1⟩ 9).2 (by decide),
   (hotring_get_head_or_miss ⟨[], HR_QUERY_THRESHOLD - 1⟩ 9).2 (by decide)⟩

/-! ## Hole bookkeeping of a remove -/

set_option maxRecDepth 100000 in
/-- C22 at a concrete run, with a quotient of 65536.  `itemx_removex` computes
what its comment calls the position of the removed item in the slab and stores
it in a `uint16_t`.  In the big configuration the entry of digest 200 has offset
`12 + 65536 * 64` in slab 0, a memory slab of 64-byte items; the quotient
`offset / 64` is 65536, but the remove pushes the hole index
`(uint16_t) 65536 = 0`. -/
theorem itemx_removex_hole_truncates :
    ∃ s1, itemx_removex s_big 1 200 = .ok (true, s1) ∧
      (itemx_getx s_big 1 200).1 = some ⟨200, 0, SLAB_HDR_SIZE + 65536 * 64, 0, 0⟩ ∧
      (s_big.stable[0]?).map (fun x => (x.mem, x.cid, x.hole_head)) = some (true, 0, []) ∧
      (s_big.ctable[0]?).map (fun c => c.size) = some 64 ∧
      (SLAB_HDR_SIZE + 65536 * 64) / 64 = 65536 ∧
      (s1.stable[0]?).map (fun x => x.hole_head) = some [0] :=
  ⟨state_of (itemx_removex s_big 1 200) s_big, rfl, by decide, by decide, by decide, by decide,
    by decide⟩

/-- Effect of a remove on the slab table.  A successful `itemx_removex` removes
the entry `m` that the lookup finds; let `sinfo` be the slabinfo of `m.sid` and `c` its class.  When
the slab is memory-resident, the table entry of `m.sid` gets the hole index
`(m.offset / c.size) % 2 ^ 16` at the head of its hole list and `nalloc`
decremented as a `uint32_t`: the hole index is the quotient `m.offset / c.size`
when that is below `2 ^ 16`, and `nalloc` is one less when it was not 0.  When
the slab is disk-resident the slab table is unchanged.  In both cases every
other entry of the slab table is unchanged. -/
theorem itemx_removex_hole_effect (s s1 : State) (hash md : Nat) (m : itemx)
    (sinfo : slabinfo) (c : slabclass)
    (hrm : itemx_removex s hash md = .ok (true, s1))
    (hfind : (itemx_getx s hash md).1 = some m)
    (hs : s.stable[m.sid]? = some sinfo) (hc : s.ctable[sinfo.cid]? = some c) :
    (sinfo.mem = true →
      s1.stable = s.stable.set m.sid
        { sinfo with hole_head := ((m.offset / c.size) % 2 ^ 16) :: sinfo.hole_head,
                     nalloc := wrap_dec 32 sinfo.nalloc } ∧
      (m.offset / c.size < 2 ^ 16 → 0 < sinfo.nalloc →
        ∃ sinfo1, s1.stable[m.sid]? = some sinfo1 ∧
          sinfo1.hole_head = (m.offset / c.size) :: sinfo.hole_head ∧
          sinfo1.nalloc + 1 = sinfo.nalloc)) ∧
    (sinfo.mem = false → s1.stable = s.stable) ∧
    (∀ i, i ≠ m.sid → s1.stable[i]? = s.stable[i]?) := by
  rw [itemx_getx_fst] at hfind
  rcases itemx_removex_ok s s1 hash md true hrm with ⟨_, hb, _⟩ | ⟨m1, sinfo1, c1, hf1, hs1, hc1, _, _, e⟩
  · cases hb
  rw [hfind] at hf1
  obtain rfl : m = m1 := Option.some.inj hf1
  rw [hs] at hs1
  obtain rfl : sinfo = sinfo1 := Option.some.inj hs1
  rw [hc] at hc1
  obtain rfl : c = c1 := Option.some.inj hc1
  subst e
  have hlt : m.sid < s.stable.length := lt_of_getElem? hs
  refine ⟨?_, ?_, ?_⟩
  · intro hmem
    have hst : (state_after_remove s hash md m sinfo c).stable = s.stable.set m.sid
        { sinfo with hole_head := ((m.offset / c.size) % 2 ^ 16) :: sinfo.hole_head,
                     nalloc := wrap_dec 32 sinfo.nalloc } := by
      show stable_after_remove s.stable m sinfo c.size = _
      unfold stable_after_remove
      rw [if_pos hmem]
    refine ⟨hst, ?_⟩
    intro hq hn
    refine ⟨_, by rw [hst, List.getElem?_set_self hlt], ?_, ?_⟩
    · show (m.offset / c.size) % 2 ^ 16 :: sinfo.hole_head = _
      rw [Nat.mod_eq_of_lt hq]
    · show wrap_dec 32 sinfo.nalloc + 1 = sinfo.nalloc
      unfold wrap_dec
      rw [if_neg (by omega)]
      omega
  · intro hmem
    show stable_after_remove s.stable m sinfo c.size = _
    unfold stable_after_remove
    rw [if_neg (by rw [hmem]; exact Bool.noConfusion)]
  · intro i hi
    show (stable_after_remove s.stable m sinfo c.size)[i]? = _
    unfold stable_after_remove
    by_cases hmem : sinfo.mem = true
    · rw [if_pos hmem, List.getElem?_set_ne (Ne.symm hi)]
    · rw [if_neg hmem]

set_option maxRecDepth 100000 in
/-- The small configuration with slab 0 full in memory: the remove of
digest 101 (offset 12, item size 200) pushes hole 0 and leaves `nalloc = 1`. -/
theorem itemx_removex_hole_effect_witness :
    (true = true →
      s_fq_hole.stable = s_fq.stable.set 0
        { (⟨0, 0, 2, 0, true, [], none, none⟩ : slabinfo) with
          hole_head := ((12 / 200) % 2 ^ 16) :: [],
          nalloc := wrap_dec 32 2 } ∧
      (12 / 200 < 2 ^ 16 → 0 < 2 →
        ∃ sinfo1, s_fq_hole.stable[0]? = some sinfo1 ∧
          sinfo1.hole_head = (12 / 200) :: [] ∧ sinfo1.nalloc + 1 = 2)) ∧
    (true = false → s_fq_hole.stable = s_fq.stable) ∧
    (∀ i, i ≠ 0 → s_fq_hole.stable[i]? = s_fq.stable[i]?) :=
  itemx_removex_hole_effect s_fq s_fq_hole 1 101 ⟨101, 0, 12, 0, 0⟩
    ⟨0, 0, 2, 0, true, [], none, none⟩ ⟨2, 200, 100, [], 1, 0, 0, 2, none⟩
    (by rfl) (by decide) (by decide) (by decide)

/-! ## Effect of a drain -/

/-- The table after `lru_remove_head`: the old head has lost its `next` link
and the old head's successor its `pre` link. -/
theorem lru_remove_head_get (stable : List slabinfo) (lruh : lru_head)
    (r : List slabinfo × lru_head) (hd : Nat) (hv : slabinfo)
    (h : lru_remove_head stable lruh = .ok r) (hhd : lruh.head = some hd)
    (hhv : stable[hd]? = some hv) (i : Nat) (si : slabinfo) (hi : stable[i]? = some si) :
    r.1[i]? = some { si with next := if i = hd then none else si.next,
                             pre := if hv.next = some i then none else si.pre } := by
  obtain ⟨hd1, hv1, h1, h2, h3 | ⟨n, nv, hn, h4, h5⟩⟩ := lru_remove_head_ok stable lruh r h
  · rw [hhd] at h1
    obtain rfl : hd = hd1 := Option.some.inj h1
    rw [hhv] at h2
    obtain rfl : hv = hv1 := Option.some.inj h2
    rw [h3.2, h3.1, hi]
    by_cases e : i = hd
    · subst e
      rw [hhv] at hi
      obtain rfl : hv = si := Option.some.inj hi
      simp only [if_true, reduceCtorEq, if_false]
      rw [← h3.1]
    · simp only [e, if_false, reduceCtorEq]
  · rw [hhd] at h1
    obtain rfl : hd = hd1 := Option.some.inj h1
    rw [hhv] at h2
    obtain rfl : hv = hv1 := Option.some.inj h2
    have hlt : hd < stable.length := lt_of_getElem? hhv
    rw [h5, hn]
    show ((stable.set hd { hv with next := none }).set n { nv with pre := none })[i]? = _
    by_cases e : i = n
    · subst e
      have hli : i < (stable.set hd { hv with next := none }).length := lt_of_getElem? h4
      rw [List.getElem?_set_self hli]
      simp only [if_true]
      by_cases e2 : i = hd
      · subst e2
        rw [List.getElem?_set_self hlt] at h4
        obtain rfl := Option.some.inj h4
        rw [hhv] at hi
        obtain rfl : hv = si := Option.some.inj hi
        simp only [if_true]
      · rw [List.getElem?_set_ne (Ne.symm e2), hi] at h4
        obtain rfl : si = nv := Option.some.inj h4
        simp only [e2, if_false]
    · rw [List.getElem?_set_ne (Ne.symm e)]
      have e3 : ¬ (some n = some i) := fun h => e (Option.some.inj h).symm
      simp only [e3, if_false]
      by_cases e2 : i = hd
      · subst e2
        rw [List.getElem?_set_self hlt]
        rw [hhv] at hi
        obtain rfl : hv = si := Option.some.inj hi
        simp only [if_true]
      · rw [List.getElem?_set_ne (Ne.symm e2), hi]
        simp only [e2, if_false]

set_option maxRecDepth 100000 in
/-- C23 as stated fails in its last part when the victim is not the only slab
on the LRU list: in scenario S3 with two items per slab, after four stores the
memory slabs 0 and 1 are full; the drain of slab 0 into the free disk slab 2
also changes the slabinfo of slab 1, whose `pre` link is cleared. -/
theorem _slab_drain_changes_lru_successor :
    ∃ s1, _slab_drain (caller_sets (init cfg_s3 (fun _ => slab_zero) links_null)
        [(1, 101), (2, 102), (3, 103), (4, 104)]) = .ok (rstatus_t.FC_OK, s1) ∧
      drain_victim (caller_sets (init cfg_s3 (fun _ => slab_zero) links_null)
        [(1, 101), (2, 102), (3, 103), (4, 104)]) = some 0 ∧
      (caller_sets (init cfg_s3 (fun _ => slab_zero) links_null)
        [(1, 101), (2, 102), (3, 103), (4, 104)]).free_dsinfoq.head? = some 2 ∧
      (caller_sets (init cfg_s3 (fun _ => slab_zero) links_null)
        [(1, 101), (2, 102), (3, 103), (4, 104)]).stable[1]?
          = some ⟨1, 1, 2, 0, true, [], some 0, none⟩ ∧
      s1.stable[1]? = some ⟨1, 1, 2, 0, true, [], none, none⟩ :=
  ⟨state_of (_slab_drain (caller_sets (init cfg_s3 (fun _ => slab_zero) links_null)
      [(1, 101), (2, 102), (3, 103), (4, 104)])) (init cfg_s3 (fun _ => slab_zero) links_null),
    rfl, by decide, by decide, by decide, by decide⟩

/-- C23, as amended.  A successful `_slab_drain` with victim `msid`, a memory
slab, and the first free disk slab `dsid` leaves `msid` disk-resident at the
former address of `dsid` and `dsid` memory-resident at the former address of
`msid`; both keep `sid`, `cid`, `nalloc` and the hole list; `dsid` is appended
to the free-memory queue and `msid` to the disk-full queue, and they leave the
memory-full and the free-disk queue; the class of `msid` has one memory slab
less and one disk slab more, and `nflush` grows by one (none of these counters
being at its limit).  Every other slabinfo is unchanged, except that the removal
of the victim from the head of the LRU list clears the `pre` link of the
victim's successor on that list. -/
theorem _slab_drain_effect (s s1 : State) (msid dsid : Nat) (msinfo dsinfo : slabinfo)
    (c : slabclass)
    (h : _slab_drain s = .ok (rstatus_t.FC_OK, s1))
    (hv : drain_victim s = some msid) (hd : s.free_dsinfoq.head? = some dsid)
    (hM : s.stable[msid]? = some msinfo) (hD : s.stable[dsid]? = some dsinfo)
    (hmem : msinfo.mem = true) (hdisk : dsinfo.mem = false)
    (hc : s.ctable[msinfo.cid]? = some c)
    (hnm : 0 < c.nmslab) (hnd : c.ndslab + 1 < 2 ^ 32) (hnf : s.nflush + 1 < 2 ^ 64) :
    (∃ m1, s1.stable[msid]? = some m1 ∧ m1.mem = false ∧ m1.addr = dsinfo.addr ∧
      m1.sid = msinfo.sid ∧ m1.cid = msinfo.cid ∧ m1.nalloc = msinfo.nalloc ∧
      m1.hole_head = msinfo.hole_head) ∧
    (∃ d1, s1.stable[dsid]? = some d1 ∧ d1.mem = true ∧ d1.addr = msinfo.addr ∧
      d1.sid = dsinfo.sid ∧ d1.cid = dsinfo.cid ∧ d1.nalloc = dsinfo.nalloc ∧
      d1.hole_head = dsinfo.hole_head) ∧
    s1.free_msinfoq = s.free_msinfoq ++ [dsid] ∧ s1.full_dsinfoq = s.full_dsinfoq ++ [msid] ∧
    s1.full_msinfoq = s.full_msinfoq.erase msid ∧ s1.free_dsinfoq = s.free_dsinfoq.tail ∧
    (∃ c1, s1.ctable[msinfo.cid]? = some c1 ∧ c1.nmslab + 1 = c.nmslab ∧
      c1.ndslab = c.ndslab + 1) ∧
    s1.nflush = s.nflush + 1 ∧
    (∀ (i : Nat) (si : slabinfo), i ≠ msid → i ≠ dsid → s.stable[i]? = some si →
      s1.stable[i]? = some (if s.lruh.head = some msid ∧ msinfo.next = some i
        then { si with pre := none } else si)) := by
  obtain ⟨msid1, r, m0, dsid1, d0, hv1, hr, hm0, hd1, hd0, hcase⟩ := _slab_drain_ok s s1 _ h
  rw [hv] at hv1
  obtain rfl : msid = msid1 := Option.some.inj hv1
  rw [hd] at hd1
  obtain rfl : dsid = dsid1 := Option.some.inj hd1
  have hne : msid ≠ dsid := by
    intro e
    subst e
    rw [hM] at hD
    obtain rfl : msinfo = dsinfo := Option.some.inj hD
    rw [hmem] at hdisk
    cases hdisk
  -- the table after the removal from the LRU list
  have hget : ∀ (i : Nat) (si : slabinfo), s.stable[i]? = some si →
      r.1[i]? = some (if s.lruh.head = some msid
        then { si with next := if i = msid then none else si.next,
                       pre := if msinfo.next = some i then none else si.pre }
        else si) := by
    intro i si hsi
    rcases hr with ⟨hh, hrm⟩ | ⟨hh, hrm⟩
    · rw [if_pos hh]
      exact lru_remove_head_get _ _ _ msid msinfo hrm hh hM i si hsi
    · rw [if_neg (by rw [hh]; exact fun e => Option.noConfusion e), hrm]
      exact hsi
  rcases hcase with ⟨_, hst, _⟩ | ⟨_, _, c0, stable1, hc0, hswap, e⟩
  · cases hst
  have hm0' := hget msid msinfo hM
  rw [hm0] at hm0'
  have hd0' := hget dsid dsinfo hD
  rw [hd0] at hd0'
  have hm0e := Option.some.inj hm0'
  have hd0e := Option.some.inj hd0'
  have hcid : m0.cid = msinfo.cid := by rw [hm0e]; split <;> rfl
  rw [hcid, hc] at hc0
  obtain rfl : c = c0 := Option.some.inj hc0
  obtain ⟨m0b, d0b, d1, hmb, hdb, hd1, hst1⟩ := slab_swap_addr_ok _ _ _ _ hswap
  rw [hm0] at hmb
  obtain rfl : m0 = m0b := Option.some.inj hmb
  rw [hd0] at hdb
  obtain rfl : d0 = d0b := Option.some.inj hdb
  rw [List.getElem?_set_ne hne, hd0] at hd1
  obtain rfl : d0 = d1 := Option.some.inj hd1
  have hlm : msid < r.1.length := lt_of_getElem? hm0
  have hld : dsid < r.1.length := lt_of_getElem? hd0
  have hlc : msinfo.cid < s.ctable.length := lt_of_getElem? hc
  obtain ⟨drest, hdq⟩ := head?_cons_of hd
  subst e
  refine ⟨⟨{ m0 with addr := d0.addr, mem := false }, ?_, rfl, ?_, ?_, ?_, ?_, ?_⟩,
    ⟨{ d0 with addr := m0.addr, mem := true }, ?_, rfl, ?_, ?_, ?_, ?_, ?_⟩,
    rfl, rfl, rfl, ?_,
    ⟨{ c with nmslab := wrap_dec 32 c.nmslab, ndslab := (c.ndslab + 1) % 2 ^ 32 }, ?_, ?_, ?_⟩,
    ?_, ?_⟩
  · show stable1[msid]? = _
    rw [hst1, List.getElem?_set_ne (Ne.symm hne), List.getElem?_set_self hlm]
  · show d0.addr = dsinfo.addr
    rw [hd0e]; split <;> rfl
  · show m0.sid = msinfo.sid
    rw [hm0e]; split <;> rfl
  · exact hcid
  · show m0.nalloc = msinfo.nalloc
    rw [hm0e]; split <;> rfl
  · show m0.hole_head = msinfo.hole_head
    rw [hm0e]; split <;> rfl
  · show stable1[dsid]? = _
    rw [hst1, List.getElem?_set_self (by rw [List.length_set]; exact hld)]
  · show m0.addr = msinfo.addr
    rw [hm0e]; split <;> rfl
  · show d0.sid = dsinfo.sid
    rw [hd0e]; split <;> rfl
  · show d0.cid = dsinfo.cid
    rw [hd0e]; split <;> rfl
  · show d0.nalloc = dsinfo.nalloc
    rw [hd0e]; split <;> rfl
  · show d0.hole_head = dsinfo.hole_head
    rw [hd0e]; split <;> rfl
  · show s.free_dsinfoq.erase dsid = s.free_dsinfoq.tail
    rw [hdq, List.erase_cons_head]
    rfl
  · show (s.ctable.set m0.cid _)[msinfo.cid]? = _
    rw [hcid, List.getElem?_set_self hlc]
  · show wrap_dec 32 c.nmslab + 1 = c.nmslab
    unfold wrap_dec
    rw [if_neg (by omega)]
    omega
  · show (c.ndslab + 1) % 2 ^ 32 = c.ndslab + 1
    exact Nat.mod_eq_of_lt hnd
  · show (s.nflush + 1) % 2 ^ 64 = s.nflush + 1
    exact Nat.mod_eq_of_lt hnf
  · intro i si hi1 hi2 hsi
    show stable1[i]? = _
    rw [hst1, List.getElem?_set_ne (Ne.symm hi2), List.getElem?_set_ne (Ne.symm hi1),
      hget i si hsi]
    by_cases hh : s.lruh.head = some msid
    · simp only [hh, if_true, true_and, hi1, if_false]
      by_cases hn : msinfo.next = some i
      · simp only [hn, if_true]
      · simp only [hn, if_false]
    · simp only [hh, if_false, false_and]

set_option maxRecDepth 1000000 in
/-- C23 in scenario S2 (two memory slabs, two disk slabs, 63 items per slab):
after 63 + 63 stores the drain that the next allocation needs moves slab 0, the
first slab filled, to the disk address of slab 2 and slab 2 to the memory
address of slab 0; after that allocation slab 0 is on the disk-full queue and
the free-disk queue holds one slab less. -/
theorem _slab_drain_effect_witness :
    ((∃ m1, (state_of (_slab_drain s_s2_full) s_s2_full).stable[0]? = some m1 ∧
        m1.mem = false ∧ m1.addr = 0 ∧ m1.sid = 0 ∧ m1.cid = 0 ∧ m1.nalloc = 63 ∧
        m1.hole_head = []) ∧
      (∃ d1, (state_of (_slab_drain s_s2_full) s_s2_full).stable[2]? = some d1 ∧
        d1.mem = true ∧ d1.addr = 0 ∧ d1.sid = 2 ∧ d1.cid = SLABCLASS_INVALID_ID ∧
        d1.nalloc = 0 ∧ d1.hole_head = []) ∧
      (state_of (_slab_drain s_s2_full) s_s2_full).free_msinfoq = s_s2_full.free_msinfoq ++ [2] ∧
      (state_of (_slab_drain s_s2_full) s_s2_full).full_dsinfoq = s_s2_full.full_dsinfoq ++ [0] ∧
      (state_of (_slab_drain s_s2_full) s_s2_full).full_msinfoq = s_s2_full.full_msinfoq.erase 0 ∧
      (state_of (_slab_drain s_s2_full) s_s2_full).free_dsinfoq = s_s2_full.free_dsinfoq.tail ∧
      (∃ c1, (state_of (_slab_drain s_s2_full) s_s2_full).ctable[0]? = some c1 ∧
        c1.nmslab + 1 = 2 ∧ c1.ndslab = 0 + 1) ∧
      (state_of (_slab_drain s_s2_full) s_s2_full).nflush = s_s2_full.nflush + 1 ∧
      (∀ (i : Nat) (si : slabinfo), i ≠ 0 → i ≠ 2 → s_s2_full.stable[i]? = some si →
        (state_of (_slab_drain s_s2_full) s_s2_full).stable[i]?
          = some (if s_s2_full.lruh.head = some 0 ∧ some 1 = some i
              then { si with pre := none } else si))) ∧
    s_s2.full_dsinfoq = [0] ∧ s_s2_full.free_dsinfoq = [2, 3] ∧ s_s2.free_dsinfoq = [3] :=
  ⟨_slab_drain_effect s_s2_full (state_of (_slab_drain s_s2_full) s_s2_full) 0 2
      ⟨0, 0, 63, 0, true, [], none, some 1⟩ ⟨2, 0, 0, SLABCLASS_INVALID_ID, false, [], none, none⟩
      ⟨63, 64, 52, [], 2, 0, 0, 126, none⟩
      (by rfl) (by decide) (by decide) (by decide) (by decide) (by decide) (by decide)
      (by decide) (by decide) (by decide) (by decide),
    by decide, by decide, by decide⟩

/-! ## The paths of `slab_get_item` -/

/-- A property that passes through `slab_evict` and `_slab_drain` passes
through `slab_drain`. -/
theorem slab_drain_induct (P : State → Prop)
    (hev : ∀ (s s1 : State) (st : rstatus_t), P s → slab_evict s = .ok (st, s1) → P s1)
    (hdr : ∀ (s s1 : State) (st : rstatus_t), P s → _slab_drain s = .ok (st, s1) → P s1)
    (s s1 : State) (status : rstatus_t) (hP : P s)
    (h : slab_drain s = .ok (status, s1)) : P s1 := by
  unfold slab_drain at h
  by_cases hq : s.free_dsinfoq.isEmpty = false
  · rw [if_pos hq] at h
    exact hdr s s1 status hP h
  · rw [if_neg hq] at h
    obtain ⟨⟨st, s2⟩, h1, h⟩ := bind_ok h
    have h2 := hev s s2 st hP h1
    by_cases hst : st ≠ rstatus_t.FC_OK
    · simp only [hst, if_true, pure, Except.pure, Except.ok.injEq, Prod.mk.injEq,
        ne_eq, not_false_eq_true] at h
      rw [← h.2]; exact h2
    · simp only [hst, if_false] at h
      exact hdr s2 s1 status h2 h

/-- The part of `slab_get_item` after the eviction for index space, for a
property `P` that passes through evictions and drains and a property `R` that
holds after the allocation in the slab chosen. -/
theorem slab_get_item_rest_induct (P R : State → Prop) (fuel : Nat) (cid : Nat) (update : Bool)
    (hPR : ∀ s, P s → R s)
    (hev : ∀ (s s1 : State) (st : rstatus_t), P s → slab_evict s = .ok (st, s1) → P s1)
    (hdr : ∀ (s s1 : State) (st : rstatus_t), P s → _slab_drain s = .ok (st, s1) → P s1)
    (hfree : ∀ (s s2 s3 : State) (c : slabclass) (it : item_ptr), P s →
      s.ctable[cid]? = some c →
      (if update = true then c.hot_slabinfo = none else c.partial_msinfoq = []) →
      slab_get_item_free s cid update = .ok s2 → _slab_get_item s2 cid update = .ok (it, s3) →
      R s3)
    (hget : ∀ (s s2 : State) (c : slabclass) (it : item_ptr), P s → s.ctable[cid]? = some c →
      (if update = true then c.hot_slabinfo ≠ none else c.partial_msinfoq ≠ []) →
      _slab_get_item s cid update = .ok (it, s2) → R s2)
    (ih : ∀ (s s1 : State) (r : Option item_ptr), P s →
      slab_get_item fuel s cid update = .ok (r, s1) → R s1)
    (status : rstatus_t) (sa s1 : State) (r : Option item_ptr) (hia : P sa)
    (h : (if status ≠ rstatus_t.FC_OK then pure (none, sa) else do
      let c ← tget sa.ctable cid
      if update = true then
        match c.hot_slabinfo with
        | none =>
          if sa.free_msinfoq.isEmpty = false then
            let s2 ← slab_get_item_free sa cid update
            let (it, s3) ← _slab_get_item s2 cid update
            pure (some it, s3)
          else
            let (status, s2) ← slab_drain sa
            if status ≠ rstatus_t.FC_OK then pure (none, s2) else
            slab_get_item fuel s2 cid update
        | some _ =>
          let (it, s2) ← _slab_get_item sa cid update
          pure (some it, s2)
      else if c.partial_msinfoq.isEmpty = false then
        let (it, s2) ← _slab_get_item sa cid update
        pure (some it, s2)
      else if sa.free_msinfoq.isEmpty = false then
        let s2 ← slab_get_item_free sa cid update
        let (it, s3) ← _slab_get_item s2 cid update
        pure (some it, s3)
      else
        let (status, s2) ← slab_drain sa
        if status ≠ rstatus_t.FC_OK then pure (none, s2) else
        slab_get_item fuel s2 cid update) = Except.ok (r, s1)) :
    R s1 := by
  by_cases hst : status ≠ rstatus_t.FC_OK
  · simp only [hst, if_true, pure, Except.pure, Except.ok.injEq, Prod.mk.injEq,
      ne_eq, not_false_eq_true] at h
    rw [← h.2]; exact hPR sa hia
  · simp only [hst, if_false] at h
    obtain ⟨c, hc, h⟩ := bind_ok h
    have hc := tget_get hc
    have hdrain : ∀ (h : (do
          let (status, s2) ← slab_drain sa
          if status ≠ rstatus_t.FC_OK then pure (none, s2) else
          slab_get_item fuel s2 cid update) = .ok (r, s1)), R s1 := by
      intro h
      obtain ⟨⟨st2, s2⟩, h3, h⟩ := bind_ok h
      have hd := slab_drain_induct P hev hdr sa s2 st2 hia h3
      simp only at h
      by_cases hst2 : st2 ≠ rstatus_t.FC_OK
      · simp only [hst2, if_true, pure, Except.pure, Except.ok.injEq, Prod.mk.injEq,
          ne_eq, not_false_eq_true] at h
        rw [← h.2]; exact hPR s2 hd
      · simp only [hst2, if_false] at h
        exact ih s2 s1 r hd h
    have hfreethen : ∀ (h : (do
          let s2 ← slab_get_item_free sa cid update
          let (it, s3) ← _slab_get_item s2 cid update
          pure (some it, s3)) = .ok (r, s1)),
        (if update = true then c.hot_slabinfo = none else c.partial_msinfoq = []) → R s1 := by
      intro h hcond
      obtain ⟨s2, h1, h⟩ := bind_ok h
      obtain ⟨⟨it, s4⟩, h2, h⟩ := bind_ok h
      simp only [pure, Except.pure, Except.ok.injEq, Prod.mk.injEq] at h
      rw [← h.2]
      exact hfree sa s2 s4 c it hia hc hcond h1 h2
    have hgetthen : ∀ (h : (do
          let (it, s2) ← _slab_get_item sa cid update
          pure (some it, s2)) = .ok (r, s1)),
        (if update = true then c.hot_slabinfo ≠ none else c.partial_msinfoq ≠ []) → R s1 := by
      intro h hcond
      obtain ⟨⟨it, s4⟩, h2, h⟩ := bind_ok h
      simp only [pure, Except.pure, Except.ok.injEq, Prod.mk.injEq] at h
      rw [← h.2]
      exact hget sa s4 c it hia hc hcond h2
    cases update with
    | true =>
      simp only [if_true] at h hfreethen hgetthen
      cases hh : c.hot_slabinfo with
      | none =>
        rw [hh] at h
        simp only at h
        by_cases hf : sa.free_msinfoq.isEmpty = false
        · rw [if_pos hf] at h
          exact hfreethen h hh
        · rw [if_neg hf] at h
          exact hdrain h
      | some x =>
        rw [hh] at h
        exact hgetthen h (by rw [hh]; exact fun e => Option.noConfusion e)
    | false =>
      simp only [Bool.false_eq_true, if_false] at h hfreethen hgetthen
      by_cases hp : c.partial_msinfoq.isEmpty = false
      · rw [if_pos hp] at h
        exact hgetthen h (by intro e; rw [e] at hp; cases hp)
      · rw [if_neg hp] at h
        have hp2 : c.partial_msinfoq = [] := by
          cases hq : c.partial_msinfoq with
          | nil => rfl
          | cons a l => rw [hq] at hp; exact absurd rfl hp
        by_cases hf : sa.free_msinfoq.isEmpty = false
        · rw [if_pos hf] at h
          exact hfreethen h hp2
        · rw [if_neg hf] at h
          exact hdrain h

/-- Induction over the paths of `slab_get_item`: a property `P` that passes
through evictions and drains, and a property `R` that follows from `P` and holds
after the allocation in the slab chosen (a slab taken from the free queue, or
the hot or partial slab of the class), give `R` after every call that returns. -/
theorem slab_get_item_induct (P R : State → Prop) (cid : Nat) (update : Bool)
    (hPR : ∀ s, P s → R s)
    (hev : ∀ (s s1 : State) (st : rstatus_t), P s → slab_evict s = .ok (st, s1) → P s1)
    (hdr : ∀ (s s1 : State) (st : rstatus_t), P s → _slab_drain s = .ok (st, s1) → P s1)
    (hfree : ∀ (s s2 s3 : State) (c : slabclass) (it : item_ptr), P s →
      s.ctable[cid]? = some c →
      (if update = true then c.hot_slabinfo = none else c.partial_msinfoq = []) →
      slab_get_item_free s cid update = .ok s2 → _slab_get_item s2 cid update = .ok (it, s3) →
      R s3)
    (hget : ∀ (s s2 : State) (c : slabclass) (it : item_ptr), P s → s.ctable[cid]? = some c →
      (if update = true then c.hot_slabinfo ≠ none else c.partial_msinfoq ≠ []) →
      _slab_get_item s cid update = .ok (it, s2) → R s2)
    (fuel : Nat) (s s1 : State) (r : Option item_ptr) (hP : P s)
    (h : slab_get_item fuel s cid update = .ok (r, s1)) : R s1 := by
  induction fuel generalizing s s1 r with
  | zero => simp only [slab_get_item, reduceCtorEq] at h
  | succ fuel ih =>
    unfold slab_get_item at h
    by_cases he : itemx_empty s = true
    · simp only [he, if_true] at h
      obtain ⟨⟨status, sa⟩, h1, h⟩ := bind_ok h
      exact slab_get_item_rest_induct P R fuel cid update hPR hev hdr hfree hget
        (fun s s1 r hP h => ih s s1 r hP h) status sa s1 r (hev s sa status hP h1) h
    · simp only [he, if_false] at h
      exact slab_get_item_rest_induct P R fuel cid update hPR hev hdr hfree hget
        (fun s s1 r hP h => ih s s1 r hP h) rstatus_t.FC_OK s s1 r hP h

/-! ## Settings and class constants -/

theorem const_frame_refl (s : State) : const_frame s s := ⟨rfl, rfl, rfl, rfl⟩

theorem const_frame_trans {s s1 s2 : State} (h1 : const_frame s s1) (h2 : const_frame s1 s2) :
    const_frame s s2 :=
  ⟨h2.slab_size.trans h1.slab_size, h2.dstart.trans h1.dstart,
    h2.hash_power.trans h1.hash_power, h2.classes.trans h1.classes⟩

theorem const_frame_set (ctable : List slabclass) (i : Nat) (c v : slabclass)
    (h : ctable[i]? = some c) (hn : v.nitem = c.nitem) (hs : v.size = c.size) :
    (ctable.set i v).map (fun c => (c.nitem, c.size)) = ctable.map (fun c => (c.nitem, c.size)) :=
  map_set_same _ ctable i c v h (by simp only [hn, hs])

theorem itemx_putx_const (s s1 : State) (hash md sid offset expiry cas : Nat)
    (h : itemx_putx s hash md sid offset expiry cas = .ok s1) : const_frame s s1 := by
  obtain ⟨e, rest, sinfo, c, _, _, hc, h1⟩ := itemx_putx_ok s s1 hash md sid offset expiry cas h
  subst h1
  exact ⟨rfl, rfl, rfl, const_frame_set _ _ c _ hc rfl rfl⟩

theorem itemx_removex_const (s s1 : State) (hash md : Nat) (b : Bool)
    (h : itemx_removex s hash md = .ok (b, s1)) : const_frame s s1 := by
  rcases itemx_removex_ok s s1 hash md b h with ⟨_, _, e⟩ | ⟨m, sinfo, c, _, _, hc, _, _, e⟩
  · subst e; exact ⟨rfl, rfl, rfl, rfl⟩
  · subst e
    exact ⟨rfl, rfl, rfl, by apply const_frame_set _ _ c _ hc <;> rfl⟩

theorem slab_evict_items_const (slab : slab) (size : Nat) (n idx : Nat) (s s1 : State)
    (h : slab_evict_items slab size n idx s = .ok s1) : const_frame s s1 := by
  induction n generalizing idx s with
  | zero =>
    simp only [slab_evict_items, Except.ok.injEq] at h
    subst h; exact const_frame_refl s
  | succ n ih =>
    rw [slab_evict_items_succ] at h
    obtain ⟨s2, h2, h⟩ := bind_ok h
    have hf2 : const_frame s s2 := by
      cases hr : (itemx_getx s (slab.data (slab_to_item idx size)).hash
          (slab.data (slab_to_item idx size)).md).1 with
      | none =>
        rw [hr] at h2
        simp only [pure, Except.pure, Except.ok.injEq] at h2
        subst h2; exact ⟨rfl, rfl, rfl, rfl⟩
      | some m =>
        rw [hr] at h2
        obtain ⟨⟨b, t⟩, h3, h2⟩ := bind_ok h2
        simp only [pure, Except.pure, Except.ok.injEq] at h2
        subst h2
        have h4 := itemx_removex_const _ _ _ _ _ h3
        exact ⟨h4.slab_size, h4.dstart, h4.hash_power, h4.classes⟩
    exact const_frame_trans hf2 (ih _ _ h)

theorem slab_evict_const_queue (s s1 : State) (status : rstatus_t)
    (h0 : s.lruh_disk.head = none)
    (h : slab_evict s = .ok (status, s1)) : const_frame s s1 := by
  obtain ⟨sid, rest, sinfo, _, _, hcase⟩ := slab_evict_ok s s1 status h0 h
  rcases hcase with ⟨_, _, e⟩ | ⟨_, _, c, s3, c1, _, hev, hc1, e⟩
  · subst e; exact ⟨rfl, rfl, rfl, rfl⟩
  · have h3 := slab_evict_items_const _ _ _ _ _ _ hev
    subst e
    have h3a : const_frame s s3 := ⟨h3.slab_size, h3.dstart, h3.hash_power, h3.classes⟩
    exact const_frame_trans h3a ⟨rfl, rfl, rfl, by apply const_frame_set _ _ c1 _ hc1 <;> rfl⟩

theorem slab_evict_const (s s1 : State) (status : rstatus_t)
    (h : slab_evict s = .ok (status, s1)) : const_frame s s1 := by
  cases h0 : s.lruh_disk.head with
  | none => exact slab_evict_const_queue s s1 status h0 h
  | some hd =>
    unfold slab_evict at h
    simp only [h0] at h
    obtain ⟨⟨sid, sa⟩, h1, h⟩ := bind_ok h
    obtain ⟨⟨st, l⟩, _, h1⟩ := bind_ok h1
    simp only [pure, Except.pure, Except.ok.injEq, Prod.mk.injEq] at h1
    obtain ⟨e1, e2⟩ := h1
    subst e1; subst e2
    simp only at h
    obtain ⟨sinfo, _, h⟩ := bind_ok h
    cases hp : io_short (io_ret s.slab_size s.pread_r) s.slab_size with
    | true =>
      simp only [hp, if_true, pure, Except.pure, Except.ok.injEq, Prod.mk.injEq] at h
      rw [← h.2]
      exact ⟨rfl, rfl, rfl, rfl⟩
    | false =>
      simp only [hp, Bool.false_eq_true, if_false] at h
      obtain ⟨c, _, h⟩ := bind_ok h
      obtain ⟨s3, h4, h⟩ := bind_ok h
      obtain ⟨c1, h5, h⟩ := bind_ok h
      simp only [pure, Except.pure, Except.ok.injEq, Prod.mk.injEq] at h
      have h3 := slab_evict_items_const _ _ _ _ _ _ h4
      rw [← h.2]
      have h3a : const_frame s s3 := ⟨h3.slab_size, h3.dstart, h3.hash_power, h3.classes⟩
      exact const_frame_trans h3a
        ⟨rfl, rfl, rfl, by apply const_frame_set _ _ c1 _ (tget_get h5) <;> rfl⟩

theorem _slab_drain_const (s s1 : State) (status : rstatus_t)
    (h : _slab_drain s = .ok (status, s1)) : const_frame s s1 := by
  obtain ⟨msid, r, msinfo, dsid, dsinfo, _, _, _, _, _, hcase⟩ := _slab_drain_ok s s1 status h
  rcases hcase with ⟨_, _, e⟩ | ⟨_, _, c, stable1, hc, _, e⟩
  · subst e; exact ⟨rfl, rfl, rfl, rfl⟩
  · subst e
    exact ⟨rfl, rfl, rfl, by apply const_frame_set _ _ c _ hc <;> rfl⟩

theorem slab_get_item_free_const (s s2 : State) (cid : Nat) (update : Bool)
    (h : slab_get_item_free s cid update = .ok s2) : const_frame s s2 := by
  obtain ⟨sid, rest, c, sinfo, _, hc, _, e⟩ := slab_get_item_free_ok s s2 cid update h
  subst e
  refine ⟨rfl, rfl, rfl, const_frame_set _ _ c _ hc ?_ ?_⟩ <;> cases update <;> rfl

theorem _slab_get_item_lru_const (s s1 : State) (sid : Nat)
    (h : _slab_get_item_lru s sid = .ok s1) : const_frame s s1 := by
  unfold _slab_get_item_lru at h
  obtain ⟨sinfo, _, h⟩ := bind_ok h
  by_cases hm : sinfo.mem = true
  · rw [if_pos hm] at h
    obtain ⟨r, _, h⟩ := bind_ok h
    simp only [pure, Except.pure, Except.ok.injEq] at h
    rw [← h]
    exact ⟨rfl, rfl, rfl, rfl⟩
  · rw [if_neg hm] at h
    obtain ⟨r, _, h⟩ := bind_ok h
    simp only [pure, Except.pure, Except.ok.injEq] at h
    rw [← h]
    exact ⟨rfl, rfl, rfl, rfl⟩

theorem _slab_get_item_const (s s1 : State) (cid : Nat) (update : Bool) (p : item_ptr)
    (h : _slab_get_item s cid update = .ok (p, s1)) : const_frame s s1 := by
  obtain ⟨c, sid, sinfo, hc, _, hs, _, hfilled⟩ := _slab_get_item_ok s s1 cid update p h
  have hc1 : (_slab_get_item_take s c sid sinfo).2.ctable[cid]? = some c := hc
  obtain ⟨sinfo2, c0, _, _, hcase⟩ :=
    _slab_get_item_filled_cases _ s1 cid sid update c hc1 hfilled
  have ht : const_frame s (_slab_get_item_take s c sid sinfo).2 := ⟨rfl, rfl, rfl, rfl⟩
  rcases hcase with ⟨_, e⟩ | ⟨_, hlru⟩
  · subst e; exact ht
  · refine const_frame_trans ht (const_frame_trans ?_ (_slab_get_item_lru_const _ _ _ hlru))
    refine ⟨rfl, rfl, rfl, const_frame_set _ _ c _ hc1 ?_ ?_⟩ <;> cases update <;> rfl

theorem slab_get_item_const (fuel : Nat) (s s1 : State) (cid : Nat) (update : Bool)
    (r : Option item_ptr)
    (h : slab_get_item fuel s cid update = .ok (r, s1)) : const_frame s s1 :=
  slab_get_item_induct (fun t => const_frame s t) (fun t => const_frame s t) cid update
    (fun _ hp => hp)
    (fun t t1 st hp he => const_frame_trans hp (slab_evict_const t t1 st he))
    (fun t t1 st hp he => const_frame_trans hp (_slab_drain_const t t1 st he))
    (fun t t2 t3 _ it hp _ _ h1 h2 => const_frame_trans hp
      (const_frame_trans (slab_get_item_free_const t t2 cid update h1)
        (_slab_get_item_const t2 t3 cid update it h2)))
    (fun t t2 _ it hp _ _ h2 => const_frame_trans hp (_slab_get_item_const t t2 cid update it h2))
    fuel s s1 r (const_frame_refl s) h

/-- The settings and the class constants are those of the start state in every
reachable state. -/
theorem reach_const (flaky : Bool) (s0 s : State) (hr : Reach flaky s0 s) :
    const_frame s0 s := by
  induction hr with
  | start => exact const_frame_refl s0
  | get_item s s1 fuel cid update r hr h ih =>
    exact const_frame_trans ih (slab_get_item_const fuel s s1 cid update r h)
  | getx s hash md _ ih => exact const_frame_trans ih ⟨rfl, rfl, rfl, rfl⟩
  | putx s s1 hash md sid offset expiry cas _ h ih =>
    exact const_frame_trans ih (itemx_putx_const s s1 hash md sid offset expiry cas h)
  | removex s s1 hash md b _ h ih =>
    exact const_frame_trans ih (itemx_removex_const s s1 hash md b h)
  | drain s s1 status hr h ih =>
    exact const_frame_trans ih
      (slab_drain_induct (fun t => const_frame s t)
        (fun t t1 st hp he => const_frame_trans hp (slab_evict_const t t1 st he))
        (fun t t1 st hp he => const_frame_trans hp (_slab_drain_const t t1 st he))
        s s1 status (const_frame_refl s) h)
  | evict s s1 status hr h ih =>
    exact const_frame_trans ih (slab_evict_const s s1 status h)
  | memory s m _ ih => exact const_frame_trans ih ⟨rfl, rfl, rfl, rfl⟩
  | device s r w _ _ ih => exact const_frame_trans ih ⟨rfl, rfl, rfl, rfl⟩

/-! ## The window of a disk read -/

theorem init_dstart (st : settings) (disk : Nat → slab)
    (links : Nat → Option Nat × Option Nat) :
    st.slab_size ∣ (init st disk links).dstart :=
  Dvd.intro_left _ rfl

/-- Claim C25.  In every state reachable from a start state whose slab size is a
multiple of 512, whatever the link fields left uninitialised at the start hold,
`slab_read_item` on a disk-resident slab, at an in-slab offset
`a` with `a + c.size ≤ slab_size` (`c` the class of the slab) and with the
device completing the read, reads the window `[aligned_off, aligned_off +
aligned_size)` of the device into the buffer and returns the pointer at
`delta = base + a - aligned_off`, where `base = slab_to_daddr` is the start of
the slab on the device: `aligned_off` is the largest multiple of 512 that is at
most `base + a`, `aligned_size` is a multiple of 512, the window contains the
item `[base + a, base + a + c.size)`, `delta < 512`, and the window lies inside
the slab `[base, base + slab_size)`, so that `aligned_size ≤ slab_size`. -/
theorem slab_read_item_window (flaky : Bool) (st : settings) (disk : Nat → slab)
    (links : Nat → Option Nat × Option Nat)
    (readbuf : Nat → Nat) (s : State) (sid a : Nat) (sinfo : slabinfo) (c : slabclass)
    (hr : Reach flaky (init st disk links) s) (h512 : 512 ∣ st.slab_size)
    (hs : s.stable[sid]? = some sinfo) (hc : s.ctable[sinfo.cid]? = some c)
    (hdisk : sinfo.mem = false) (hpread : s.pread_r = transfer.full)
    (ha : a + c.size ≤ s.slab_size) :
    ∃ aligned_off aligned_size,
      slab_read_item ROUND_DOWN ROUND_UP readbuf s sid a
        = .ok (some (fun i => if i < aligned_size then dev_byte s (aligned_off + i)
                              else readbuf i,
                     slab_to_daddr s sinfo + a - aligned_off)) ∧
      512 ∣ aligned_off ∧ aligned_off ≤ slab_to_daddr s sinfo + a ∧
      (∀ k, 512 ∣ k → k ≤ slab_to_daddr s sinfo + a → k ≤ aligned_off) ∧
      512 ∣ aligned_size ∧
      slab_to_daddr s sinfo + a + c.size ≤ aligned_off + aligned_size ∧
      slab_to_daddr s sinfo + a - aligned_off < 512 ∧
      slab_to_daddr s sinfo ≤ aligned_off ∧
      aligned_off + aligned_size ≤ slab_to_daddr s sinfo + s.slab_size ∧
      aligned_size ≤ s.slab_size := by
  have hcf := reach_const flaky _ s hr
  have hS : 512 ∣ s.slab_size := by rw [hcf.slab_size]; exact h512
  have hD : 512 ∣ s.dstart := by
    rw [hcf.dstart]
    exact Dvd.dvd.trans h512 (init_dstart st disk links)
  have hB : 512 ∣ slab_to_daddr s sinfo :=
    Nat.dvd_add hD (Dvd.dvd.mul_left hS _)
  obtain ⟨k, hk⟩ := hB
  obtain ⟨m, hm⟩ := hS
  refine ⟨ROUND_DOWN (slab_to_daddr s sinfo + a) 512,
    ROUND_UP (c.size + (slab_to_daddr s sinfo + a
      - ROUND_DOWN (slab_to_daddr s sinfo + a) 512)) 512, ?_, ?_, ?_, ?_, ?_, ?_, ?_, ?_, ?_, ?_⟩
  · unfold slab_read_item
    rw [tget_ok_iff.mpr hs]
    show (do
      let c ← tget s.ctable sinfo.cid
      if sinfo.mem = true then _ else _) = _
    rw [tget_ok_iff.mpr hc]
    show (if sinfo.mem = true then _ else _) = _
    rw [if_neg (by rw [hdisk]; exact Bool.noConfusion)]
    simp only [hpread, io_short_full, Bool.false_eq_true, if_false]
    rfl
  · exact Dvd.intro_left _ rfl
  · exact Nat.div_mul_le_self _ _
  · intro j hj hle
    obtain ⟨q, hq⟩ := hj
    unfold ROUND_DOWN
    omega
  · exact Dvd.intro_left _ rfl
  · unfold ROUND_UP ROUND_DOWN
    omega
  · unfold ROUND_DOWN
    omega
  · unfold ROUND_DOWN
    omega
  · unfold ROUND_UP ROUND_DOWN
    omega
  · unfold ROUND_UP ROUND_DOWN
    omega

/-- The caller's store is a run of engine calls. -/
theorem reach_caller_set (flaky : Bool) (s0 s s1 : State) (fuel cid : Nat) (update : Bool)
    (hash md expiry cas : Nat) (r : Option item_ptr) (hr : Reach flaky s0 s)
    (h : caller_set fuel s cid update hash md expiry cas = .ok (r, s1)) : Reach flaky s0 s1 := by
  unfold caller_set at h
  obtain ⟨⟨p, t⟩, h1, h⟩ := bind_ok h
  have ht := Reach.get_item s t fuel cid update p hr h1
  cases p with
  | none =>
    simp only [pure, Except.pure, Except.ok.injEq, Prod.mk.injEq] at h
    rw [← h.2]; exact ht
  | some p =>
    simp only at h
    obtain ⟨s3, h2, h⟩ := bind_ok h
    simp only [pure, Except.pure, Except.ok.injEq, Prod.mk.injEq] at h
    rw [← h.2]
    exact Reach.putx _ s3 _ _ _ _ _ _ (Reach.memory t _ ht) h2

theorem reach_caller_sets (flaky : Bool) (s0 : State) (l : List (Nat × Nat)) (s : State)
    (hr : Reach flaky s0 s) : Reach flaky s0 (caller_sets s l) := by
  induction l generalizing s with
  | nil => exact hr
  | cons x l ih =>
    obtain ⟨h, d⟩ := x
    show Reach flaky s0 (caller_sets (state_of (caller_set 3 s 0 false h d 0 0) s) l)
    apply ih
    cases hc : caller_set 3 s 0 false h d 0 0 with
    | error e => exact hr
    | ok v =>
      obtain ⟨r, s1⟩ := v
      exact reach_caller_set flaky s0 s s1 3 0 false h d 0 0 r hr hc

set_option maxRecDepth 1000000 in
/-- C25 in scenario S2: slab 0 is on the device at `base = 0`; the item at
in-slab offset `12 + 10 * 64 = 652` is read through the window `[512, 1024)`
and starts at `delta = 140` in the buffer. -/
theorem slab_read_item_window_witness :
    ∃ aligned_off aligned_size,
      slab_read_item ROUND_DOWN ROUND_UP (fun _ => 0) s_s2 0 652
        = .ok (some (fun i => if i < aligned_size then dev_byte s_s2 (aligned_off + i)
                              else (fun _ => 0) i,
                     slab_to_daddr s_s2 ⟨0, 0, 63, 0, false, [], none, none⟩ + 652
                       - aligned_off)) ∧
      512 ∣ aligned_off ∧
      aligned_off ≤ slab_to_daddr s_s2 ⟨0, 0, 63, 0, false, [], none, none⟩ + 652 ∧
      (∀ k, 512 ∣ k → k ≤ slab_to_daddr s_s2 ⟨0, 0, 63, 0, false, [], none, none⟩ + 652 →
        k ≤ aligned_off) ∧
      512 ∣ aligned_size ∧
      slab_to_daddr s_s2 ⟨0, 0, 63, 0, false, [], none, none⟩ + 652 + 64
        ≤ aligned_off + aligned_size ∧
      slab_to_daddr s_s2 ⟨0, 0, 63, 0, false, [], none, none⟩ + 652 - aligned_off < 512 ∧
      slab_to_daddr s_s2 ⟨0, 0, 63, 0, false, [], none, none⟩ ≤ aligned_off ∧
      aligned_off + aligned_size
        ≤ slab_to_daddr s_s2 ⟨0, 0, 63, 0, false, [], none, none⟩ + s_s2.slab_size ∧
      aligned_size ≤ s_s2.slab_size :=
  slab_read_item_window false cfg_s2 (fun _ => slab_zero) links_null (fun _ => 0) s_s2 0 652
    ⟨0, 0, 63, 0, false, [], none, none⟩ ⟨63, 64, 52, [2], 2, 1, 0, 126, none⟩
    (Reach.get_item s_s2_full s_s2 3 0 false (some ⟨0, 0⟩)
      (reach_caller_sets false _ _ _ Reach.start) rfl)
    (by decide) (by decide) (by decide) (by decide) rfl (by decide)

/-! ## LRU touch of the only element -/

set_option maxRecDepth 100000 in
/-- C27 at a concrete run of the caller protocol.  In `s_recycle` slab 0 is on
disk with the hole list `[1]`.  The store of digest 105 evicts slab 0, drains
slab 1 into it and takes slab 0 from the free-memory queue, which resets
`nalloc` but keeps the hole list: the slot handed out is the hole, slab index 1
(offset 212).  The store of digest 106 then takes the slot at `nalloc = 1`, the
same slot: the index holds two live entries with `(sid, offset) = (0, 212)`. -/
theorem slot_handed_out_twice :
    s_recycle.stable = [⟨0, 0, 1, 0, false, [1], none, none⟩,
      ⟨1, 0, 2, 0, true, [], none, none⟩] ∧
    ∃ s5 s6, caller_set 3 s_recycle 0 false 5 105 0 0 = .ok (some ⟨0, 200⟩, s5) ∧
      s5.stable = [⟨0, 0, 1, 0, true, [], none, none⟩, ⟨1, 0, 2, 0, false, [], none, none⟩] ∧
      caller_set 3 s5 0 false 6 106 0 0 = .ok (some ⟨0, 200⟩, s6) ∧
      (itemx_getx s6 5 105).1 = some ⟨105, 0, 212, 0, 0⟩ ∧
      (itemx_getx s6 6 106).1 = some ⟨106, 0, 212, 0, 0⟩ :=
  ⟨by decide,
   state_of (caller_set 3 s_recycle 0 false 5 105 0 0) s_recycle,
   state_of (caller_set 3 (state_of (caller_set 3 s_recycle 0 false 5 105 0 0) s_recycle)
     0 false 6 106 0 0) s_recycle,
   rfl, by decide, rfl, by decide, by decide⟩

/-! ## Drain with an empty memory-full queue -/

set_option maxRecDepth 100000 in
/-- C28 at the small configuration, where `nmslab = nctable = 1`.  After one
cold allocation slab 0 is the partial slab of class 0; a hot allocation of the
class finds no hot slab and no free memory slab and drains, with the
memory-full queue empty: `_slab_drain` takes `TAILQ_FIRST` of the empty queue
and dereferences `NULL`.  Likewise for a cold allocation after a hot one. -/
theorem slab_get_item_drains_empty_full_queue :
    s_small.nmslab = 1 ∧ s_small.nctable = 1 ∧
    s_small_alloc.free_msinfoq = [] ∧ s_small_alloc.full_msinfoq = [] ∧
    s_small_alloc.lruh = ⟨none, none⟩ ∧
    s_small_alloc.ctable.map (fun c => (c.partial_msinfoq, c.hot_slabinfo)) = [([0], none)] ∧
    slab_get_item 3 s_small_alloc 0 true = .error Fault.null_deref ∧
    s_small_hot.free_msinfoq = [] ∧ s_small_hot.full_msinfoq = [] ∧
    s_small_hot.ctable.map (fun c => (c.partial_msinfoq, c.hot_slabinfo)) = [([], some 0)] ∧
    slab_get_item 3 s_small_hot 0 false = .error Fault.null_deref :=
  ⟨by decide, by decide, by decide, by decide, by decide, by decide, rfl, by decide, by decide,
    by decide, rfl⟩

/-! ## The LRU lists in the reachable states -/

/-- The walk along the `next` links of a linked list yields the list. -/
theorem lru_list_chain (stable : List slabinfo) (l : List Nat) :
    ∀ (prev : Option Nat) (fuel : Nat), l.length ≤ fuel →
      lru_chain (lru_links stable) prev l → lru_list stable fuel l.head? = some l := by
  induction l with
  | nil =>
    intro prev fuel _ _
    cases fuel <;> rfl
  | cons x rest ih =>
    intro prev fuel hf hch
    obtain ⟨hx, hrest⟩ := hch
    obtain ⟨v, hv, hl⟩ := lru_links_get_inv hx
    cases fuel with
    | zero => simp only [List.length_cons] at hf; omega
    | succ f =>
      have hn : v.next = rest.head? := congrArg Prod.snd hl
      show (match stable[x]? with
        | none => none
        | some v => (lru_list stable f v.next).map (fun l => x :: l)) = some (x :: rest)
      rw [hv]
      show (lru_list stable f v.next).map (fun l => x :: l) = some (x :: rest)
      rw [hn, ih (some x) f (by simp only [List.length_cons] at hf; omega) hrest]
      rfl

/-- The memory-full queue is not longer than the slab table. -/
theorem full_msinfoq_length (s : State) (hi : slab_inv s) :
    s.full_msinfoq.length ≤ s.stable.length := by
  have hnd := nodup_of_occ s hi.once
  have hsub : s.full_msinfoq ⊆ List.range s.stable.length := by
    intro i hmem
    have hpos : 0 < mem_occ s i := by
      have := List.count_pos_iff.mpr hmem
      unfold mem_occ
      omega
    obtain ⟨a, ha⟩ := hi.mem_tier i hpos
    have hlt := lt_of_getElem? ha
    unfold slab_tiers at hlt
    rw [List.length_map] at hlt
    exact List.mem_range.mpr hlt
  have := (List.subperm_of_subset hnd hsub).length_le
  rw [List.length_range] at this
  exact this

/-- Claim C29.  In every state reachable from the start state (whose LRU links
are `NULL`), also when device transfers fail, the LRU list of the memory tier is
the memory-full queue: the walk from `lruh.head` along the `next` links visits
exactly the slabs of the queue in the order of the queue, and `lruh.tail` is the
last of them.  So the victim that `_slab_drain` takes through the LRU list is
the head of the memory-full queue, the victim of a drain without LRU, and a
`_slab_drain` that returns has taken that slab. -/
theorem lru_mem_is_fifo (flaky : Bool) (st : settings) (disk : Nat → slab) (s : State)
    (hr : Reach flaky (init st disk links_null) s) :
    lru_list s.stable s.stable.length s.lruh.head = some s.full_msinfoq ∧
    s.lruh.tail = s.full_msinfoq.getLast? ∧
    drain_victim s = drain_victim_fifo s ∧
    ∀ (status : rstatus_t) (s1 : State), _slab_drain s = .ok (status, s1) →
      ∃ msid rest, s.full_msinfoq = msid :: rest ∧ drain_victim s = some msid ∧
        s1.full_msinfoq = rest := by
  have hi := reach_slab_inv flaky (init st disk links_null) s (slab_inv_init st disk) hr
  have hv : drain_victim s = drain_victim_fifo s := by
    unfold drain_victim drain_victim_fifo
    rw [hi.head]
    cases s.full_msinfoq.head? <;> rfl
  refine ⟨?_, hi.tail, hv, ?_⟩
  · rw [hi.head]
    exact lru_list_chain s.stable s.full_msinfoq none _ (full_msinfoq_length s hi) hi.chain
  · intro status s1 h
    obtain ⟨msid, r, msinfo, dsid, dsinfo, hvic, _, _, _, _, hcase⟩ :=
      _slab_drain_ok s s1 status h
    have hh : s.full_msinfoq.head? = some msid := by
      rw [hv] at hvic; exact hvic
    obtain ⟨rest, hq⟩ := head?_cons_of hh
    refine ⟨msid, rest, hq, hvic, ?_⟩
    have he : s.full_msinfoq.erase msid = rest := by
      rw [hq]; exact List.erase_cons_head _ _
    rcases hcase with ⟨_, _, e⟩ | ⟨_, _, c, stable1, _, _, e⟩
    · subst e; exact he
    · subst e; exact he

theorem slab_evict_items_evict_frame (slab : slab) (size : Nat) (n idx : Nat) (s s1 : State)
    (h : slab_evict_items slab size n idx s = .ok s1) : evict_frame s s1 := by
  induction n generalizing idx s with
  | zero =>
    simp only [slab_evict_items, Except.ok.injEq] at h
    subst h; exact evict_frame_refl s
  | succ n ih =>
    rw [slab_evict_items_succ] at h
    obtain ⟨s2, h2, h⟩ := bind_ok h
    have hf2 : evict_frame s s2 := by
      cases hr : (itemx_getx s (slab.data (slab_to_item idx size)).hash
          (slab.data (slab_to_item idx size)).md).1 with
      | none =>
        rw [hr] at h2
        simp only [pure, Except.pure, Except.ok.injEq] at h2
        subst h2; exact itemx_getx_evict_frame _ _ _
      | some m =>
        rw [hr] at h2
        obtain ⟨⟨b, t⟩, h3, h2⟩ := bind_ok h2
        simp only [pure, Except.pure, Except.ok.injEq] at h2
        subst h2
        exact evict_frame_trans (itemx_getx_evict_frame _ _ _)
          (itemx_removex_evict_frame _ _ _ _ _ h3)
    exact evict_frame_trans hf2 (ih _ _ h)

/-- From a start state whose slab table has all link fields `NULL`: in every
state reachable from that start state, also when device transfers fail, the LRU
list of the disk tier is empty, so the victim of `slab_evict` is the head of the
disk-full queue: a `slab_evict` that returns
has taken the first slab of that queue, and after a successful eviction that
slab is at the tail of the free-disk queue. -/
theorem lru_disk_empty (flaky : Bool) (st : settings) (disk : Nat → slab) (s : State)
    (hr : Reach flaky (init st disk links_null) s) :
    s.lruh_disk = ⟨none, none⟩ ∧
    evict_victim s = s.full_dsinfoq.head? ∧
    ∀ (status : rstatus_t) (s1 : State), slab_evict s = .ok (status, s1) →
      ∃ sid rest, s.full_dsinfoq = sid :: rest ∧ evict_victim s = some sid ∧
        s1.full_dsinfoq = rest ∧
        (status = rstatus_t.FC_OK → s1.free_dsinfoq = s.free_dsinfoq ++ [sid]) := by
  have hi := reach_slab_inv flaky (init st disk links_null) s (slab_inv_init st disk) hr
  have hv : evict_victim s = s.full_dsinfoq.head? := by
    unfold evict_victim
    rw [hi.lru_disk]
  refine ⟨hi.lru_disk, hv, ?_⟩
  intro status s1 h
  obtain ⟨sid, rest, sinfo, hq, _, hcase⟩ :=
    slab_evict_ok s s1 status (by rw [hi.lru_disk]) h
  refine ⟨sid, rest, hq, by rw [hv, hq]; rfl, ?_, ?_⟩
  · rcases hcase with ⟨_, _, e⟩ | ⟨_, _, c, s3, c1, _, hev, _, e⟩
    · subst e; rfl
    · have hf := slab_evict_items_evict_frame _ _ _ _ _ _ hev
      subst e
      exact hf.full_d
  · intro hst
    rcases hcase with ⟨_, hst2, _⟩ | ⟨_, _, c, s3, c1, _, hev, _, e⟩
    · rw [hst] at hst2; cases hst2
    · have hf := slab_evict_items_evict_frame _ _ _ _ _ _ hev
      subst e
      show s3.free_dsinfoq ++ [sid] = s.free_dsinfoq ++ [sid]
      rw [hf.free_d]

set_option maxRecDepth 1000000 in
/-- C29 in scenario S2 after 63 + 63 stores: the LRU list and the memory-full
queue are both `[0, 1]`. -/
theorem lru_mem_is_fifo_witness :
    lru_list s_s2_full.stable s_s2_full.stable.length s_s2_full.lruh.head
      = some s_s2_full.full_msinfoq ∧
    s_s2_full.lruh.tail = s_s2_full.full_msinfoq.getLast? ∧
    drain_victim s_s2_full = drain_victim_fifo s_s2_full ∧
    ∀ (status : rstatus_t) (s1 : State), _slab_drain s_s2_full = .ok (status, s1) →
      ∃ msid rest, s_s2_full.full_msinfoq = msid :: rest ∧
        drain_victim s_s2_full = some msid ∧ s1.full_msinfoq = rest :=
  lru_mem_is_fifo false cfg_s2 (fun _ => slab_zero) s_s2_full
    (reach_caller_sets false _ _ _ Reach.start)

set_option maxRecDepth 100000 in
/-- Scenario S3 with two items per slab, after four slabs have been filled: the
disk-full queue is `[0, 1]` and the LRU list of the disk tier is empty. -/
theorem lru_disk_empty_witness :
    s_s3.lruh_disk = ⟨none, none⟩ ∧
    evict_victim s_s3 = s_s3.full_dsinfoq.head? ∧
    ∀ (status : rstatus_t) (s1 : State), slab_evict s_s3 = .ok (status, s1) →
      ∃ sid rest, s_s3.full_dsinfoq = sid :: rest ∧ evict_victim s_s3 = some sid ∧
        s1.full_dsinfoq = rest ∧
        (status = rstatus_t.FC_OK → s1.free_dsinfoq = s_s3.free_dsinfoq ++ [sid]) :=
  lru_disk_empty false cfg_s3 (fun _ => slab_zero) s_s3
    (reach_caller_sets false _ _ _ Reach.start)

/-! ## Hot slabs -/

/-- A function of the slab descriptor that does not look at the LRU links has
the same values over the slab table after `lru_set`. -/
theorem lru_set_map {β : Type} (f : slabinfo → β) (stable : List slabinfo) (lru : lru_head)
    (item : Nat) (r : List slabinfo × lru_head)
    (hf : ∀ (x : slabinfo) (p n : Option Nat), f { x with pre := p, next := n } = f x)
    (h : lru_set stable lru item = .ok r) : r.1.map f = stable.map f := by
  have hfn : ∀ (x : slabinfo) (n : Option Nat), f { x with next := n } = f x :=
    fun x n => hf x x.pre n
  have hfp : ∀ (x : slabinfo) (p : Option Nat), f { x with pre := p } = f x :=
    fun x p => hf x p x.next
  unfold lru_set at h
  obtain ⟨it, hit, h⟩ := bind_ok h
  have hit := tget_get hit
  by_cases he : lru.head = none ∧ lru.tail = none
  · rw [if_pos he] at h
    simp only [pure, Except.pure, Except.ok.injEq] at h
    rw [← h]
    exact map_set_same f _ item it _ hit (hf it none none)
  · rw [if_neg he] at h
    by_cases hl : it.pre.isSome ∧ it.next.isNone
    · simp only [hl, and_self, if_true, pure, Except.pure, Except.ok.injEq] at h
      rw [← h]
    · rw [if_neg (by simpa using hl)] at h
      obtain ⟨t, _, h⟩ := bind_ok h
      obtain ⟨ot, hot, h⟩ := bind_ok h
      have hot := tget_get hot
      have h1 : (stable.set item { it with pre := lru.tail, next := none }).map f = stable.map f :=
        map_set_same f _ item it _ hit (hf it _ _)
      have h2 : ((stable.set item { it with pre := lru.tail, next := none }).set t
          { ot with next := some item }).map f = stable.map f :=
        (map_set_same f _ t ot _ hot (hfn ot _)).trans h1
      cases hp : it.pre with
      | none =>
        cases hn : it.next with
        | none =>
          simp only [hp, hn, pure, Except.pure, Except.ok.injEq] at h
          rw [← h]; exact h2
        | some n =>
          simp only [hp, hn] at h
          obtain ⟨nx, hnx, h⟩ := bind_ok h
          simp only [pure, Except.pure, Except.ok.injEq] at h
          rw [← h]
          exact (map_set_same f _ n nx _ (tget_get hnx) (hfp nx _)).trans h2
      | some p =>
        cases hn : it.next with
        | none =>
          simp only [hp, hn, pure, Except.pure, Except.ok.injEq] at h
          rw [← h]; exact h2
        | some n =>
          simp only [hp, hn] at h
          obtain ⟨pv, hpv, h⟩ := bind_ok h
          obtain ⟨nx, hnx, h⟩ := bind_ok h
          simp only [pure, Except.pure, Except.ok.injEq] at h
          rw [← h]
          exact (map_set_same f _ n nx _ (tget_get hnx) (hfp nx _)).trans
            ((map_set_same f _ p pv _ (tget_get hpv) (hfn pv _)).trans h2)

theorem reachK_reach (flaky : Bool) (s0 s : State) (k : Nat) (hr : ReachK flaky s0 k s) :
    Reach flaky s0 s := by
  induction hr with
  | start => exact Reach.start
  | get_item k s s1 fuel cid update r _ h ih => exact Reach.get_item s s1 fuel cid update r ih h
  | getx k s hash md _ ih => exact Reach.getx s hash md ih
  | putx k s s1 hash md sid offset expiry cas _ h ih =>
    exact Reach.putx s s1 hash md sid offset expiry cas ih h
  | removex k s s1 hash md b _ h ih => exact Reach.removex s s1 hash md b ih h
  | drain k s s1 status _ h ih => exact Reach.drain s s1 status ih h
  | evict k s s1 status _ h ih => exact Reach.evict s s1 status ih h
  | memory k s m _ ih => exact Reach.memory s m ih
  | device k s r w hf _ ih => exact Reach.device s r w hf ih

theorem hot_inv_mono {k k1 : Nat} {s : State} (hk : k ≤ k1) (h : hot_inv k s) : hot_inv k1 s := by
  intro cid c hh hc hhot
  obtain ⟨sinfo, hs, hcid, hlt, hn⟩ := h cid c hh hc hhot
  exact ⟨sinfo, hs, hcid, hlt, by omega⟩

theorem hot_inv_view {k : Nat} {s s1 : State} (h : hot_inv k s)
    (hv : hot_view s1.ctable = hot_view s.ctable) (hf : fill_view s1.stable = fill_view s.stable) :
    hot_inv k s1 := by
  intro cid c1 hh hc1 hhot1
  obtain ⟨c, hc, hce⟩ := getElem?_of_map_eq _ _ _ cid c1 hv hc1
  simp only [Prod.mk.injEq] at hce
  obtain ⟨sinfo, hs, hcid, hlt, hn⟩ := h cid c hh hc (hce.1.trans hhot1)
  obtain ⟨sinfo1, hs1, hse⟩ := getElem?_of_map_eq _ _ _ hh sinfo hf.symm hs
  simp only [Prod.mk.injEq] at hse
  refine ⟨sinfo1, hs1, hse.1.trans hcid, by rw [hse.2]; exact hlt, ?_⟩
  rw [hse.2, ← hce.2]
  exact hn

theorem hot_view_set (ctable : List slabclass) (i : Nat) (c v : slabclass)
    (h : ctable[i]? = some c) (hh : v.hot_slabinfo = c.hot_slabinfo) (hn : v.nitem = c.nitem) :
    hot_view (ctable.set i v) = hot_view ctable :=
  map_set_same _ ctable i c v h (by simp only [hh, hn])

theorem nitem_ok_const {s s1 : State} (hf : const_frame s s1) (h : nitem_ok s) : nitem_ok s1 := by
  intro c1 hc1
  obtain ⟨i, hi⟩ := List.mem_iff_getElem?.mp hc1
  obtain ⟨c, hc, hce⟩ := getElem?_of_map_eq _ _ _ i c1 hf.classes hi
  simp only [Prod.mk.injEq] at hce
  rw [← hce.1]
  exact h c (List.mem_iff_getElem?.mpr ⟨i, hc⟩)

theorem two_le_sum (l : List Nat) : ∀ (i j a b : Nat), i ≠ j → l[i]? = some a → l[j]? = some b →
    a + b ≤ l.sum := by
  induction l with
  | nil => intro i j a b _ h; simp at h
  | cons x t ih =>
    intro i j a b hne hi hj
    cases i with
    | zero =>
      cases j with
      | zero => exact absurd rfl hne
      | succ j =>
        simp only [List.getElem?_cons_zero, Option.some.injEq] at hi
        simp only [List.getElem?_cons_succ] at hj
        have := le_sum_map id t j b hj
        simp only [List.map_id, id] at this
        simp only [List.sum_cons]
        omega
    | succ i =>
      cases j with
      | zero =>
        simp only [List.getElem?_cons_zero, Option.some.injEq] at hj
        simp only [List.getElem?_cons_succ] at hi
        have := le_sum_map id t i a hi
        simp only [List.map_id, id] at this
        simp only [List.sum_cons]
        omega
      | succ j =>
        simp only [List.getElem?_cons_succ] at hi hj
        have := ih i j a b (fun e => hne (by rw [e])) hi hj
        simp only [List.sum_cons]
        omega

/-- A hot slab has no other place: it is on no queue, in no partial queue, it
is the hot slab of one class only, and it is memory-resident. -/
theorem hot_alone (s : State) (hi : slab_inv s) (cid : Nat) (c : slabclass) (h : Nat)
    (hc : s.ctable[cid]? = some c) (hh : c.hot_slabinfo = some h) :
    h ∉ s.free_msinfoq ∧ h ∉ s.full_msinfoq ∧ h ∉ s.free_dsinfoq ∧ h ∉ s.full_dsinfoq ∧
    (∀ (cid2 : Nat) (c2 : slabclass), s.ctable[cid2]? = some c2 →
      h ∉ c2.partial_msinfoq ∧ (c2.hot_slabinfo = some h → cid2 = cid)) ∧
    ∃ sinfo, s.stable[h]? = some sinfo ∧ sinfo.mem = true := by
  have honce := hi.once h
  have hcl : class_occ h c = c.partial_msinfoq.count h + 1 := by
    unfold class_occ
    rw [hh]
    simp only [Option.toList_some, List.count_cons_self, List.count_nil]
  have hocc : (s.ctable.map (class_occ h))[cid]? = some (class_occ h c) := by
    rw [List.getElem?_map, hc]; rfl
  have hsum := le_sum_map id _ cid _ hocc
  simp only [List.map_id, id] at hsum
  unfold mem_occ disk_occ at honce
  refine ⟨?_, ?_, ?_, ?_, ?_, ?_⟩
  · exact List.count_eq_zero.mp (by omega)
  · exact List.count_eq_zero.mp (by omega)
  · exact List.count_eq_zero.mp (by omega)
  · exact List.count_eq_zero.mp (by omega)
  · intro cid2 c2 hc2
    by_cases e : cid2 = cid
    · subst e
      rw [hc] at hc2
      obtain rfl : c = c2 := Option.some.inj hc2
      exact ⟨List.count_eq_zero.mp (by omega), fun _ => rfl⟩
    · have hocc2 : (s.ctable.map (class_occ h))[cid2]? = some (class_occ h c2) := by
        rw [List.getElem?_map, hc2]; rfl
      have h2 := two_le_sum _ cid2 cid _ _ e hocc2 hocc
      have h0 : class_occ h c2 = 0 := by omega
      unfold class_occ at h0
      refine ⟨List.count_eq_zero.mp (by omega), ?_⟩
      intro hh2
      rw [hh2] at h0
      simp only [Option.toList_some, List.count_cons_self, List.count_nil] at h0
      omega
  · have hpos : 0 < mem_occ s h := by unfold mem_occ; omega
    obtain ⟨a, ha⟩ := hi.mem_tier h hpos
    unfold slab_tiers at ha
    rw [List.getElem?_map] at ha
    cases hs : s.stable[h]? with
    | none => rw [hs] at ha; cases ha
    | some v =>
      rw [hs] at ha
      simp only [Option.map_some', Option.some.injEq, Prod.mk.injEq] at ha
      exact ⟨v, rfl, ha.1⟩

/-- A remove keeps the hot-slab invariant, with the removal counted. -/
theorem itemx_removex_hot (s s1 : State) (hash md : Nat) (b : Bool) (k : Nat)
    (h : itemx_removex s hash md = .ok (b, s1)) (hi : hot_inv k s) :
    s.free_itemxq.length ≤ s1.free_itemxq.length ∧
    hot_inv (k + (s1.free_itemxq.length - s.free_itemxq.length)) s1 := by
  rcases itemx_removex_ok s s1 hash md b h with ⟨_, _, e⟩ | ⟨m, sinfo, c, _, hs, hc, _, _, e⟩
  · subst e
    refine ⟨Nat.le_refl _, ?_⟩
    have hv : hot_inv k (itemx_getx s hash md).2 := hot_inv_view hi rfl rfl
    exact hot_inv_mono (Nat.le_add_right _ _) hv
  · subst e
    have hlen : (state_after_remove s hash md m sinfo c).free_itemxq.length
        = s.free_itemxq.length + 1 := rfl
    refine ⟨by omega, ?_⟩
    have hk : k + ((state_after_remove s hash md m sinfo c).free_itemxq.length
        - s.free_itemxq.length) = k + 1 := by omega
    rw [hk]
    have hlt : m.sid < s.stable.length := lt_of_getElem? hs
    intro cid c1 hh hc1 hhot1
    have hview : hot_view (state_after_remove s hash md m sinfo c).ctable = hot_view s.ctable := by
      apply hot_view_set _ _ c _ hc <;> rfl
    obtain ⟨c0, hc0, hce⟩ := getElem?_of_map_eq _ _ _ cid c1 hview hc1
    simp only [Prod.mk.injEq] at hce
    obtain ⟨si, hsi, hcid, hlt32, hn⟩ := hi cid c0 hh hc0 (hce.1.trans hhot1)
    rw [hce.2] at hn
    show ∃ sinfo1, (stable_after_remove s.stable m sinfo c.size)[hh]? = some sinfo1 ∧ _
    unfold stable_after_remove
    by_cases hmem : sinfo.mem = true
    · rw [if_pos hmem]
      by_cases e : hh = m.sid
      · subst e
        rw [hs] at hsi
        obtain rfl : sinfo = si := Option.some.inj hsi
        rw [List.getElem?_set_self hlt]
        refine ⟨_, rfl, hcid, ?_, ?_⟩
        · show wrap_dec 32 sinfo.nalloc < 2 ^ 32
          unfold wrap_dec
          split <;> omega
        · show wrap_dec 32 sinfo.nalloc < c1.nitem ∨ 2 ^ 32 ≤ wrap_dec 32 sinfo.nalloc + (k + 1)
          unfold wrap_dec
          split <;> omega
      · rw [List.getElem?_set_ne (fun e2 => e e2.symm)]
        exact ⟨si, hsi, hcid, hlt32, by omega⟩
    · rw [if_neg hmem]
      exact ⟨si, hsi, hcid, hlt32, by omega⟩

/-- The item loop of `slab_evict` keeps the hot-slab invariant, with its
removals counted. -/
theorem slab_evict_items_hot (slab : slab) (size : Nat) (n : Nat) :
    ∀ (idx : Nat) (s s1 : State) (k : Nat), slab_evict_items slab size n idx s = .ok s1 →
      hot_inv k s →
      s.free_itemxq.length ≤ s1.free_itemxq.length ∧
      hot_inv (k + (s1.free_itemxq.length - s.free_itemxq.length)) s1 := by
  induction n with
  | zero =>
    intro idx s s1 k h hi
    simp only [slab_evict_items, Except.ok.injEq] at h
    subst h
    exact ⟨Nat.le_refl _, hot_inv_mono (Nat.le_add_right _ _) hi⟩
  | succ n ih =>
    intro idx s s1 k h hi
    rw [slab_evict_items_succ] at h
    obtain ⟨s2, h2, h⟩ := bind_ok h
    have hstep : s.free_itemxq.length ≤ s2.free_itemxq.length ∧
        hot_inv (k + (s2.free_itemxq.length - s.free_itemxq.length)) s2 := by
      cases hr : (itemx_getx s (slab.data (slab_to_item idx size)).hash
          (slab.data (slab_to_item idx size)).md).1 with
      | none =>
        rw [hr] at h2
        simp only [pure, Except.pure, Except.ok.injEq] at h2
        subst h2
        refine ⟨Nat.le_refl _, hot_inv_mono (Nat.le_add_right _ _) ?_⟩
        exact hot_inv_view hi rfl rfl
      | some m =>
        rw [hr] at h2
        obtain ⟨⟨b, t⟩, h3, h2⟩ := bind_ok h2
        simp only [pure, Except.pure, Except.ok.injEq] at h2
        subst h2
        have hg : hot_inv k (itemx_getx s (slab.data (slab_to_item idx size)).hash
            (slab.data (slab_to_item idx size)).md).2 := hot_inv_view hi rfl rfl
        have h4 := itemx_removex_hot _ _ _ _ _ k h3 hg
        exact h4
    obtain ⟨hl2, hi2⟩ := hstep
    obtain ⟨hl1, hi1⟩ := ih _ _ _ _ h hi2
    refine ⟨by omega, ?_⟩
    have e : k + (s2.free_itemxq.length - s.free_itemxq.length)
        + (s1.free_itemxq.length - s2.free_itemxq.length)
        = k + (s1.free_itemxq.length - s.free_itemxq.length) := by omega
    rw [← e]
    exact hi1

/-- An eviction keeps the hot-slab invariant, with its removals counted. -/
theorem slab_evict_hot (s s1 : State) (status : rstatus_t) (k : Nat)
    (h0 : s.lruh_disk.head = none) (h : slab_evict s = .ok (status, s1)) (hi : hot_inv k s) :
    s.free_itemxq.length ≤ s1.free_itemxq.length ∧
    hot_inv (k + (s1.free_itemxq.length - s.free_itemxq.length)) s1 := by
  obtain ⟨sid, rest, sinfo, _, _, hcase⟩ := slab_evict_ok s s1 status h0 h
  rcases hcase with ⟨_, _, e⟩ | ⟨_, _, c, s3, c1, _, hev, hc1, e⟩
  · subst e
    refine ⟨Nat.le_refl _, hot_inv_mono (Nat.le_add_right _ _) ?_⟩
    exact hot_inv_view hi rfl rfl
  · have h3 := slab_evict_items_hot _ _ _ _ _ _ k hev (hot_inv_view hi rfl rfl)
    obtain ⟨hl3, hi3⟩ := h3
    subst e
    refine ⟨hl3, ?_⟩
    refine hot_inv_view hi3 ?_ rfl
    apply hot_view_set _ _ c1 _ hc1 <;> rfl

/-- A drain of a memory slab keeps the hot-slab invariant. -/
theorem _slab_drain_hot (s s1 : State) (status : rstatus_t) (k : Nat)
    (h : _slab_drain s = .ok (status, s1)) (hi : hot_inv k s) :
    s1.free_itemxq = s.free_itemxq ∧ hot_inv k s1 := by
  obtain ⟨msid, r, msinfo, dsid, dsinfo, _, hr, _, _, _, hcase⟩ := _slab_drain_ok s s1 status h
  have hfv : fill_view r.1 = fill_view s.stable := by
    rcases hr with ⟨_, hr⟩ | ⟨_, hr⟩
    · exact lru_remove_head_map _ _ _ _ (fun _ _ _ => rfl) hr
    · rw [hr]
  rcases hcase with ⟨_, _, e⟩ | ⟨_, _, c, stable1, hc, hswap, e⟩
  · subst e
    exact ⟨rfl, hot_inv_view hi rfl hfv⟩
  · obtain ⟨m0, d0, d1, hm0, _, hd1, hst1⟩ := slab_swap_addr_ok _ _ _ _ hswap
    subst e
    refine ⟨rfl, hot_inv_view hi ?_ ?_⟩
    · apply hot_view_set _ _ c _ hc <;> rfl
    · show fill_view stable1 = fill_view s.stable
      rw [hst1, ← hfv]
      unfold fill_view
      rw [map_set_same (fun x : slabinfo => (x.cid, x.nalloc)) _ dsid d1
          { d1 with addr := m0.addr, mem := true } hd1 rfl,
        map_set_same (fun x : slabinfo => (x.cid, x.nalloc)) _ msid m0
          { m0 with addr := d0.addr, mem := false } hm0 rfl]

/-- The hot-slab invariant after a step that replaces the table entry `sid`
and keeps every hot slab other than `sid` with its class. -/
theorem hot_inv_step {k : Nat} {s s1 : State} (hi : hot_inv k s) (sid : Nat)
    (sinfo v : slabinfo) (hs : s.stable[sid]? = some sinfo)
    (hst : s1.stable = s.stable.set sid v)
    (hct : ∀ (cid : Nat) (c1 : slabclass) (h : Nat), s1.ctable[cid]? = some c1 →
      c1.hot_slabinfo = some h → h ≠ sid →
      ∃ c, s.ctable[cid]? = some c ∧ c.hot_slabinfo = some h ∧ c.nitem = c1.nitem)
    (hgood : ∀ (cid : Nat) (c1 : slabclass), s1.ctable[cid]? = some c1 →
      c1.hot_slabinfo = some sid →
      v.cid = cid ∧ v.nalloc < 2 ^ 32 ∧ (v.nalloc < c1.nitem ∨ 2 ^ 32 ≤ v.nalloc + k)) :
    hot_inv k s1 := by
  intro cid c1 h hc1 hh1
  by_cases e : h = sid
  · subst e
    obtain ⟨g1, g2, g3⟩ := hgood cid c1 hc1 hh1
    exact ⟨v, by rw [hst, List.getElem?_set_self (lt_of_getElem? hs)], g1, g2, g3⟩
  · obtain ⟨c, hc, hh, hn⟩ := hct cid c1 h hc1 hh1 e
    obtain ⟨si, hsi, hcid, hlt, hd⟩ := hi cid c h hc hh
    refine ⟨si, by rw [hst, List.getElem?_set_ne (fun e2 => e e2.symm)]; exact hsi, hcid, hlt, ?_⟩
    rw [← hn]; exact hd

/-- The table entry that `_slab_get_item_take` writes: the class is kept and
`nalloc` is incremented. -/
theorem _slab_get_item_take_fill (s : State) (c : slabclass) (sid : Nat) (sinfo : slabinfo) :
    ∃ v, (_slab_get_item_take s c sid sinfo).2.stable = s.stable.set sid v ∧
      v.cid = sinfo.cid ∧ v.nalloc = (sinfo.nalloc + 1) % 2 ^ 32 := by
  unfold _slab_get_item_take
  cases sinfo.hole_head with
  | nil => exact ⟨_, rfl, rfl, rfl⟩
  | cons a l => exact ⟨_, rfl, rfl, rfl⟩

/-- The `USE_LRU` part of `_slab_get_item` changes only LRU links and heads. -/
theorem _slab_get_item_lru_view (s s1 : State) (sid : Nat)
    (h : _slab_get_item_lru s sid = .ok s1) :
    s1.ctable = s.ctable ∧ fill_view s1.stable = fill_view s.stable ∧
    s1.free_itemxq = s.free_itemxq ∧ s1.free_msinfoq = s.free_msinfoq ∧
    s1.full_msinfoq = s.full_msinfoq := by
  unfold _slab_get_item_lru at h
  obtain ⟨sinfo, _, h⟩ := bind_ok h
  by_cases hm : sinfo.mem = true
  · rw [if_pos hm] at h
    obtain ⟨r, hr, h⟩ := bind_ok h
    simp only [pure, Except.pure, Except.ok.injEq] at h
    rw [← h]
    exact ⟨rfl, lru_set_map _ _ _ _ _ (fun _ _ _ => rfl) hr, rfl, rfl, rfl⟩
  · rw [if_neg hm] at h
    obtain ⟨r, hr, h⟩ := bind_ok h
    simp only [pure, Except.pure, Except.ok.injEq] at h
    rw [← h]
    exact ⟨rfl, lru_set_map _ _ _ _ _ (fun _ _ _ => rfl) hr, rfl, rfl, rfl⟩

/-- An allocation in the hot or partial slab of a class keeps the hot-slab
invariant. -/
theorem _slab_get_item_hot (s s1 : State) (cid : Nat) (update : Bool) (p : item_ptr) (k : Nat)
    (hsi : slab_inv s) (hn : nitem_ok s) (hi : hot_inv k s)
    (h : _slab_get_item s cid update = .ok (p, s1)) :
    s1.free_itemxq = s.free_itemxq ∧ hot_inv k s1 := by
  obtain ⟨c, sid, sinfo, hc, hsid, hs, _, hfilled⟩ := _slab_get_item_ok s s1 cid update p h
  obtain ⟨v, hst, hvc, hvn⟩ := _slab_get_item_take_fill s c sid sinfo
  have hc1 : (_slab_get_item_take s c sid sinfo).2.ctable[cid]? = some c := hc
  obtain ⟨sinfo2, c0, hs2, hc0, hcase⟩ :=
    _slab_get_item_filled_cases _ s1 cid sid update c hc1 hfilled
  rw [hst, List.getElem?_set_self (lt_of_getElem? hs)] at hs2
  obtain rfl : v = sinfo2 := Option.some.inj hs2
  have hc0s : s.ctable[v.cid]? = some c0 := hc0
  have hnc := hn c (List.mem_iff_getElem?.mpr ⟨cid, hc⟩)
  -- the slab `sid` is the hot slab of a class only when this is a hot allocation of `cid`
  have hsidhot : ∀ (cid2 : Nat) (c2 : slabclass), s.ctable[cid2]? = some c2 →
      c2.hot_slabinfo = some sid → update = true ∧ cid2 = cid ∧ c2 = c ∧ sinfo.cid = cid ∧
        sinfo.nalloc < 2 ^ 32 ∧ (sinfo.nalloc < c.nitem ∨ 2 ^ 32 ≤ sinfo.nalloc + k) := by
    intro cid2 c2 hc2 hh2
    obtain ⟨_, _, _, _, hal, _⟩ := hot_alone s hsi cid2 c2 sid hc2 hh2
    cases update with
    | false =>
      simp only [Bool.false_eq_true, if_false] at hsid
      exact absurd (List.mem_of_mem_head? hsid) (hal cid c hc).1
    | true =>
      simp only [if_true] at hsid
      have e := (hal cid c hc).2 hsid
      subst e
      rw [hc] at hc2
      obtain rfl : c = c2 := Option.some.inj hc2
      obtain ⟨si, hsi2, hcid, hlt, hd⟩ := hi cid c sid hc hh2
      rw [hs] at hsi2
      obtain rfl : sinfo = si := Option.some.inj hsi2
      exact ⟨rfl, rfl, rfl, hcid, hlt, hd⟩
  rcases hcase with ⟨hne, e⟩ | ⟨_, hlru⟩
  · subst e
    refine ⟨rfl, hot_inv_step hi sid sinfo v hs hst ?_ ?_⟩
    · intro cid2 c1 h2 hc2 hh2 _
      exact ⟨c1, hc2, hh2, rfl⟩
    · intro cid2 c1 hc2 hh2
      obtain ⟨_, e1, e2, hcid, hlt, hd⟩ := hsidhot cid2 c1 hc2 hh2
      subst e1; subst e2
      rw [hvc, hcid, hc] at hc0s
      obtain rfl : c1 = c0 := Option.some.inj hc0s
      refine ⟨hvc.trans hcid, by rw [hvn]; omega, ?_⟩
      rw [hvn] at hne ⊢
      omega
  · obtain ⟨e1, e2, e3, _, _⟩ := _slab_get_item_lru_view _ _ _ hlru
    refine ⟨e3, ?_⟩
    have hmid : hot_inv k
        { (_slab_get_item_take s c sid sinfo).2 with
          ctable := (_slab_get_item_take s c sid sinfo).2.ctable.set cid
            (if update = true then { c with hot_slabinfo := none }
             else { c with partial_msinfoq := c.partial_msinfoq.erase sid }),
          nfull_msinfoq := ((_slab_get_item_take s c sid sinfo).2.nfull_msinfoq + 1) % 2 ^ 32,
          full_msinfoq := (_slab_get_item_take s c sid sinfo).2.full_msinfoq ++ [sid] } := by
      have hcl : cid < s.ctable.length := lt_of_getElem? hc
      have hclass : ∀ (cid2 : Nat) (c1 : slabclass),
          (s.ctable.set cid (if update = true then { c with hot_slabinfo := none }
            else { c with partial_msinfoq := c.partial_msinfoq.erase sid }))[cid2]? = some c1 →
          ∀ h2, c1.hot_slabinfo = some h2 →
          update = false ∨ cid2 ≠ cid := by
        intro cid2 c1 hc2 h2 hh2
        by_cases e : cid2 = cid
        · subst e
          rw [List.getElem?_set_self hcl] at hc2
          cases update with
          | false => exact Or.inl rfl
          | true =>
            simp only [if_true, Option.some.injEq] at hc2
            rw [← hc2] at hh2
            cases hh2
        · exact Or.inr e
      have hold : ∀ (cid2 : Nat) (c1 : slabclass) (h2 : Nat),
          (s.ctable.set cid (if update = true then { c with hot_slabinfo := none }
            else { c with partial_msinfoq := c.partial_msinfoq.erase sid }))[cid2]? = some c1 →
          c1.hot_slabinfo = some h2 →
          ∃ c2, s.ctable[cid2]? = some c2 ∧ c2.hot_slabinfo = some h2 ∧ c2.nitem = c1.nitem := by
        intro cid2 c1 h2 hc2 hh2
        by_cases e : cid2 = cid
        · subst e
          rw [List.getElem?_set_self hcl] at hc2
          cases update with
          | false =>
            simp only [Bool.false_eq_true, if_false, Option.some.injEq] at hc2
            rw [← hc2] at hh2 ⊢
            exact ⟨c, hc, hh2, rfl⟩
          | true =>
            simp only [if_true, Option.some.injEq] at hc2
            rw [← hc2] at hh2
            cases hh2
        · rw [List.getElem?_set_ne (fun e2 => e e2.symm)] at hc2
          exact ⟨c1, hc2, hh2, rfl⟩
      refine hot_inv_step hi sid sinfo v hs hst ?_ ?_
      · intro cid2 c1 h2 hc2 hh2 _
        exact hold cid2 c1 h2 hc2 hh2
      · intro cid2 c1 hc2 hh2
        obtain ⟨c2, hc2', hh2', _⟩ := hold cid2 c1 sid hc2 hh2
        obtain ⟨hu, hcc, _⟩ := hsidhot cid2 c2 hc2' hh2'
        rcases hclass cid2 c1 hc2 sid hh2 with hf | hf
        · rw [hu] at hf; cases hf
        · exact absurd hcc hf
    exact hot_inv_view hmid (by rw [e1]) e2

/-- Taking a free memory slab into use keeps the hot-slab invariant. -/
theorem slab_get_item_free_hot (s s2 : State) (cid : Nat) (update : Bool) (k : Nat)
    (hsi : slab_inv s) (hn : nitem_ok s) (hi : hot_inv k s)
    (h : slab_get_item_free s cid update = .ok s2) :
    s2.free_itemxq = s.free_itemxq ∧ hot_inv k s2 := by
  obtain ⟨f, rest, c, sinfo, hq, hc, hs, e⟩ := slab_get_item_free_ok s s2 cid update h
  subst e
  refine ⟨rfl, ?_⟩
  have hcl : cid < s.ctable.length := lt_of_getElem? hc
  have hnc := hn c (List.mem_iff_getElem?.mpr ⟨cid, hc⟩)
  have hffree : f ∈ s.free_msinfoq := by rw [hq]; exact List.mem_cons_self _ _
  have hnothot : ∀ (cid2 : Nat) (c2 : slabclass), s.ctable[cid2]? = some c2 →
      c2.hot_slabinfo ≠ some f := by
    intro cid2 c2 hc2 hh2
    exact (hot_alone s hsi cid2 c2 f hc2 hh2).1 hffree
  refine hot_inv_step hi f sinfo { sinfo with nalloc := 0, cid := cid } hs rfl ?_ ?_
  · intro cid2 c1 h2 hc2 hh2 hne
    by_cases e : cid2 = cid
    · subst e
      have hc2' : (s.ctable.set cid2 (if update = true then
            { c with nmslab := (c.nmslab + 1) % 2 ^ 32, hot_slabinfo := some f }
          else { c with nmslab := (c.nmslab + 1) % 2 ^ 32,
                        partial_msinfoq := f :: c.partial_msinfoq }))[cid2]? = some c1 := hc2
      rw [List.getElem?_set_self hcl] at hc2'
      cases update with
      | false =>
        simp only [Bool.false_eq_true, if_false, Option.some.injEq] at hc2'
        rw [← hc2'] at hh2 ⊢
        exact ⟨c, hc, hh2, rfl⟩
      | true =>
        simp only [if_true, Option.some.injEq] at hc2'
        rw [← hc2'] at hh2
        exact absurd (Option.some.inj hh2).symm hne
    · have hc2' : (s.ctable.set cid (if update = true then
            { c with nmslab := (c.nmslab + 1) % 2 ^ 32, hot_slabinfo := some f }
          else { c with nmslab := (c.nmslab + 1) % 2 ^ 32,
                        partial_msinfoq := f :: c.partial_msinfoq }))[cid2]? = some c1 := hc2
      rw [List.getElem?_set_ne (fun e2 => e e2.symm)] at hc2'
      exact ⟨c1, hc2', hh2, rfl⟩
  · intro cid2 c1 hc2 hh2
    by_cases e : cid2 = cid
    · subst e
      have hc2' : (s.ctable.set cid2 (if update = true then
            { c with nmslab := (c.nmslab + 1) % 2 ^ 32, hot_slabinfo := some f }
          else { c with nmslab := (c.nmslab + 1) % 2 ^ 32,
                        partial_msinfoq := f :: c.partial_msinfoq }))[cid2]? = some c1 := hc2
      rw [List.getElem?_set_self hcl] at hc2'
      cases update with
      | false =>
        simp only [Bool.false_eq_true, if_false, Option.some.injEq] at hc2'
        rw [← hc2'] at hh2
        exact absurd hh2 (hnothot cid2 c hc)
      | true =>
        simp only [if_true, Option.some.injEq] at hc2'
        rw [← hc2']
        exact ⟨rfl, by show 0 < 2 ^ 32; omega, Or.inl hnc.1⟩
    · have hc2' : (s.ctable.set cid (if update = true then
            { c with nmslab := (c.nmslab + 1) % 2 ^ 32, hot_slabinfo := some f }
          else { c with nmslab := (c.nmslab + 1) % 2 ^ 32,
                        partial_msinfoq := f :: c.partial_msinfoq }))[cid2]? = some c1 := hc2
      rw [List.getElem?_set_ne (fun e2 => e e2.symm)] at hc2'
      exact absurd hh2 (hnothot cid2 c1 hc2')

/-- Function `slab_get_item` keeps the hot-slab invariant, with the removals
of its evictions counted. -/
theorem slab_get_item_hot (fuel : Nat) (s s1 : State) (cid : Nat) (update : Bool)
    (r : Option item_ptr) (k : Nat) (hsi : slab_inv s) (hn : nitem_ok s) (hi : hot_inv k s)
    (h : slab_get_item fuel s cid update = .ok (r, s1)) :
    hot_inv (k + (s1.free_itemxq.length - s.free_itemxq.length)) s1 := by
  have key := slab_get_item_induct
    (fun t => slab_inv t ∧ nitem_ok t ∧ s.free_itemxq.length ≤ t.free_itemxq.length ∧
      hot_inv (k + (t.free_itemxq.length - s.free_itemxq.length)) t)
    (fun t => hot_inv (k + (t.free_itemxq.length - s.free_itemxq.length)) t)
    cid update (fun _ hp => hp.2.2.2)
    (fun t t1 st hp he => by
      obtain ⟨h1, h2, h3, h4⟩ := hp
      obtain ⟨hl, hh⟩ := slab_evict_hot t t1 st _ (by rw [h1.lru_disk]) he h4
      refine ⟨(slab_evict_inv t t1 st h1 he).1,
        nitem_ok_const (slab_evict_const t t1 st he) h2, by omega, ?_⟩
      have e : k + (t.free_itemxq.length - s.free_itemxq.length)
          + (t1.free_itemxq.length - t.free_itemxq.length)
          = k + (t1.free_itemxq.length - s.free_itemxq.length) := by omega
      rw [← e]; exact hh)
    (fun t t1 st hp he => by
      obtain ⟨h1, h2, h3, h4⟩ := hp
      obtain ⟨hl, hh⟩ := _slab_drain_hot t t1 st _ he h4
      refine ⟨(_slab_drain_inv t t1 st h1 he).1,
        nitem_ok_const (_slab_drain_const t t1 st he) h2, by rw [hl]; exact h3, ?_⟩
      rw [hl]; exact hh)
    (fun t t2 t3 c it hp hc hcond h1 h2 => by
      obtain ⟨g1, g2, g3, g4⟩ := hp
      obtain ⟨hl2, hh2⟩ := slab_get_item_free_hot t t2 cid update _ g1 g2 g4 h1
      have hi2 := (slab_get_item_free_inv t t2 cid update
        (fun c2 hc2 hu => by
          rw [hc] at hc2
          obtain rfl : c = c2 := Option.some.inj hc2
          rw [hu] at hcond
          simpa using hcond) g1 h1).1
      have hn2 := nitem_ok_const (slab_get_item_free_const t t2 cid update h1) g2
      obtain ⟨hl3, hh3⟩ := _slab_get_item_hot t2 t3 cid update it _ hi2 hn2 hh2 h2
      rw [hl3, hl2]; exact hh3)
    (fun t t2 c it hp _ _ h2 => by
      obtain ⟨g1, g2, g3, g4⟩ := hp
      obtain ⟨hl3, hh3⟩ := _slab_get_item_hot t t2 cid update it _ g1 g2 g4 h2
      rw [hl3]; exact hh3)
    fuel s s1 r ⟨hsi, hn, Nat.le_refl _, by rw [Nat.sub_self]; exact hi⟩ h
  exact key

/-- A memory slab that is not on the memory-full queue can be appended to the
LRU list. -/
theorem lru_ready_unlinked (t : State) (hi : slab_inv t) (h : Nat) (sinfo : slabinfo)
    (hs : t.stable[h]? = some sinfo) (hmem : sinfo.mem = true) (hnf : h ∉ t.full_msinfoq) :
    lru_ready t sinfo = true := by
  have hl := hi.unlinked h (lt_of_getElem? hs) hnf
  rw [lru_links_get hs] at hl
  simp only [Option.some.injEq, Prod.mk.injEq] at hl
  unfold lru_ready
  rw [hl.1, hl.2, hmem]
  simp only [Option.isNone_none, Bool.and_self, if_true, Bool.true_and]
  rw [hi.tail]
  cases hq : t.full_msinfoq.getLast? with
  | none =>
    have hnil : t.full_msinfoq = [] := List.getLast?_eq_none_iff.mp hq
    rw [hi.head, hnil]
    rfl
  | some x =>
    have hx : x ∈ t.full_msinfoq := List.mem_of_getLast?_eq_some hq
    have hpos : 0 < mem_occ t x := by
      have := List.count_pos_iff.mpr hx
      unfold mem_occ
      omega
    obtain ⟨a, ha⟩ := hi.mem_tier x hpos
    have hlt := lt_of_getElem? ha
    unfold slab_tiers at hlt
    rw [List.length_map] at hlt
    simpa using hlt

/-- A hot allocation in a state with the structural invariant returns a slot
of the hot slab; the slab stays the hot slab of the class unless the allocation
fills it, and then the class has no hot slab and the slab is at the tail of the
memory-full queue. -/
theorem _slab_get_item_hot_total (t : State) (hi : slab_inv t) (cid : Nat) (c : slabclass)
    (h : Nat) (sinfo : slabinfo) (hc : t.ctable[cid]? = some c)
    (hh : c.hot_slabinfo = some h) (hs : t.stable[h]? = some sinfo) (hcid : sinfo.cid = cid)
    (hmem : sinfo.mem = true) (hnf : h ∉ t.full_msinfoq) :
    ∃ p t1, _slab_get_item t cid true = .ok (p, t1) ∧ p.addr = sinfo.addr ∧
      t1.free_msinfoq = t.free_msinfoq ∧
      ∃ c1 si1, t1.ctable[cid]? = some c1 ∧ t1.stable[h]? = some si1 ∧
        si1.nalloc = (sinfo.nalloc + 1) % 2 ^ 32 ∧
        ((si1.nalloc ≠ c.nitem ∧ c1.hot_slabinfo = some h ∧
            t1.full_msinfoq = t.full_msinfoq) ∨
         (si1.nalloc = c.nitem ∧ c1.hot_slabinfo = none ∧
            t1.full_msinfoq = t.full_msinfoq ++ [h])) := by
  have hlt : h < t.stable.length := lt_of_getElem? hs
  have hcl : cid < t.ctable.length := lt_of_getElem? hc
  obtain ⟨t1, hget, _, _⟩ := _slab_get_item_slot t cid true c h sinfo hc
    (by simp only [if_true]; exact hh) hs hcid
    (fun _ => lru_ready_unlinked t hi h sinfo hs hmem hnf)
  refine ⟨_, t1, hget, rfl, ?_⟩
  obtain ⟨c', sid, sinfo', hc', hsid, hs', _, hfilled⟩ := _slab_get_item_ok t t1 cid true _ hget
  rw [hc] at hc'
  obtain rfl : c = c' := Option.some.inj hc'
  simp only [if_true] at hsid
  rw [hh] at hsid
  obtain rfl : h = sid := Option.some.inj hsid
  rw [hs] at hs'
  obtain rfl : sinfo = sinfo' := Option.some.inj hs'
  obtain ⟨v, hst, hvc, hvn⟩ := _slab_get_item_take_fill t c h sinfo
  have hc1 : (_slab_get_item_take t c h sinfo).2.ctable[cid]? = some c := hc
  obtain ⟨sinfo2, c0, hs2, hc0, hcase⟩ :=
    _slab_get_item_filled_cases _ t1 cid h true c hc1 hfilled
  have hs2' := hs2
  rw [hst, List.getElem?_set_self hlt] at hs2'
  obtain rfl : v = sinfo2 := Option.some.inj hs2'
  have hc0s : t.ctable[v.cid]? = some c0 := hc0
  rw [hvc, hcid, hc] at hc0s
  obtain rfl : c = c0 := Option.some.inj hc0s
  rcases hcase with ⟨hne, e⟩ | ⟨heq, hlru⟩
  · subst e
    exact ⟨rfl, c, v, hc, hs2, hvn, Or.inl ⟨fun e => hne e.symm, hh, rfl⟩⟩
  · obtain ⟨e1, e2, _, e4, e5⟩ := _slab_get_item_lru_view _ _ _ hlru
    have hs2b : (_slab_get_item_take t c h sinfo).2.stable[h]? = some v := hs2
    obtain ⟨si1, hsi1, hse⟩ := getElem?_of_map_eq _ _ _ h v e2.symm hs2b
    simp only [Prod.mk.injEq] at hse
    refine ⟨e4, { c with hot_slabinfo := none }, si1, ?_, hsi1, hse.2.trans hvn,
      Or.inr ⟨hse.2.trans heq.symm, rfl, e5⟩⟩
    rw [e1]
    show (t.ctable.set cid _)[cid]? = _
    rw [List.getElem?_set_self hcl]
    rfl

theorem slab_get_item_hot_free (fuel : Nat) (s : State) (cid : Nat) (c : slabclass)
    (hpool : itemx_empty s = false) (hc : s.ctable[cid]? = some c)
    (hh : c.hot_slabinfo = none) (hfree : s.free_msinfoq ≠ []) :
    slab_get_item (fuel + 1) s cid true
      = (slab_get_item_free s cid true >>= fun s2 =>
          _slab_get_item s2 cid true >>= fun r => pure (some r.1, r.2)) := by
  have hf : s.free_msinfoq.isEmpty = false := by
    cases h : s.free_msinfoq with
    | nil => exact absurd h hfree
    | cons a l => rfl
  simp only [slab_get_item, hpool, Bool.false_eq_true, if_false, pure, Except.pure, bind,
    Except.bind, ne_eq, not_true_eq_false, tget, hc, hh, hf, if_true]

theorem hot_inv_init (st : settings) (disk : Nat → slab) : hot_inv 0 (init st disk links_null) := by
  intro cid c h hc hh
  have hc' : (slab_init_ctable st)[cid]? = some c := hc
  unfold slab_init_ctable at hc'
  rw [List.getElem?_map] at hc'
  cases hr : (List.range (st.profile_last_id + 1))[cid]? with
  | none => rw [hr] at hc'; cases hc'
  | some a =>
    rw [hr] at hc'
    simp only [Option.map_some', Option.some.injEq] at hc'
    rw [← hc'] at hh
    cases hh

/-- The hot-slab invariant holds in every reachable state, for the number of
removals counted on the way. -/
theorem reachK_hot (flaky : Bool) (s0 s : State) (k : Nat) (h0 : slab_inv s0)
    (hn0 : nitem_ok s0) (hh0 : hot_inv 0 s0) (hr : ReachK flaky s0 k s) : hot_inv k s := by
  induction hr with
  | start => exact hh0
  | get_item k s s1 fuel cid update r hr h ih =>
    have hre := reachK_reach _ _ _ _ hr
    exact slab_get_item_hot fuel s s1 cid update r k (reach_slab_inv _ _ _ h0 hre)
      (nitem_ok_const (reach_const _ _ _ hre) hn0) ih h
  | getx k s hash md _ ih => exact hot_inv_view ih rfl rfl
  | putx k s s1 hash md sid offset expiry cas _ h ih =>
    obtain ⟨e, rest, sinfo, c, _, _, hc, h1⟩ := itemx_putx_ok s s1 hash md sid offset expiry cas h
    subst h1
    exact hot_inv_view ih (by apply hot_view_set _ _ c _ hc <;> rfl) rfl
  | removex k s s1 hash md b _ h ih => exact (itemx_removex_hot s s1 hash md b k h ih).2
  | drain k s s1 status hr h ih =>
    have hre := reachK_reach _ _ _ _ hr
    have hi := reach_slab_inv _ _ _ h0 hre
    have key := slab_drain_induct
      (fun t => slab_inv t ∧ s.free_itemxq.length ≤ t.free_itemxq.length ∧
        hot_inv (k + (t.free_itemxq.length - s.free_itemxq.length)) t)
      (fun t t1 st hp he => by
        obtain ⟨h1, h3, h4⟩ := hp
        obtain ⟨hl, hh⟩ := slab_evict_hot t t1 st _ (by rw [h1.lru_disk]) he h4
        refine ⟨(slab_evict_inv t t1 st h1 he).1, by omega, ?_⟩
        have e : k + (t.free_itemxq.length - s.free_itemxq.length)
            + (t1.free_itemxq.length - t.free_itemxq.length)
            = k + (t1.free_itemxq.length - s.free_itemxq.length) := by omega
        rw [← e]; exact hh)
      (fun t t1 st hp he => by
        obtain ⟨h1, h3, h4⟩ := hp
        obtain ⟨hl, hh⟩ := _slab_drain_hot t t1 st _ he h4
        refine ⟨(_slab_drain_inv t t1 st h1 he).1, by rw [hl]; exact h3, ?_⟩
        rw [hl]; exact hh)
      s s1 status ⟨hi, Nat.le_refl _, by rw [Nat.sub_self]; exact ih⟩ h
    exact key.2.2
  | evict k s s1 status hr h ih =>
    have hi := reach_slab_inv _ _ _ h0 (reachK_reach _ _ _ _ hr)
    exact (slab_evict_hot s s1 status k (by rw [hi.lru_disk]) h ih).2
  | memory k s m _ ih => exact hot_inv_view ih rfl rfl
  | device k s r w _ _ ih => exact hot_inv_view ih rfl rfl

/-- Hot slab discipline from a start state whose slab table has all link fields
`NULL`.  Let `s` be a state reached from that start state by engine calls and
stores of the caller in which at most `k` index entries have been removed, for
classes of at least one and fewer than `2 ^ 32` items per slab.  A class has one `hot_slabinfo` pointer.  The slab `h` it
points to is memory-resident, of that class, not full as long as
`k + nitem < 2 ^ 32` (`nalloc` is a `uint32_t` that every removal decrements),
on none of the four queues, in no partial queue, and the hot slab of no other
class.  A hot allocation of the class returns a slot of `h`; it leaves `h` the
hot slab unless it fills `h`, and then the class has no hot slab and `h` is at
the tail of the memory-full queue.  When the class has no hot slab (and the
index pool is not empty), a hot allocation takes the first slab of the
free-memory queue: it returns a slot of that slab, which becomes the hot slab,
or joins the memory-full queue when the one allocation fills it. -/
theorem hot_slab_discipline (flaky : Bool) (st : settings) (disk : Nat → slab) (k : Nat)
    (s : State) (hr : ReachK flaky (init st disk links_null) k s)
    (hn : ∀ c ∈ (init st disk links_null).ctable, 1 ≤ c.nitem ∧ c.nitem < 2 ^ 32) :
    (∀ (cid : Nat) (c : slabclass) (h : Nat), s.ctable[cid]? = some c →
      c.hot_slabinfo = some h →
      ∃ sinfo, s.stable[h]? = some sinfo ∧ sinfo.mem = true ∧ sinfo.cid = cid ∧
        (k + c.nitem < 2 ^ 32 → sinfo.nalloc ≠ c.nitem) ∧
        h ∉ s.free_msinfoq ∧ h ∉ s.full_msinfoq ∧ h ∉ s.free_dsinfoq ∧ h ∉ s.full_dsinfoq ∧
        (∀ (cid2 : Nat) (c2 : slabclass), s.ctable[cid2]? = some c2 →
          h ∉ c2.partial_msinfoq ∧ (c2.hot_slabinfo = some h → cid2 = cid)) ∧
        ∃ p s1, _slab_get_item s cid true = .ok (p, s1) ∧ p.addr = sinfo.addr ∧
          (itemx_empty s = false →
            ∀ fuel, slab_get_item (fuel + 1) s cid true = .ok (some p, s1)) ∧
          ∃ c1 si1, s1.ctable[cid]? = some c1 ∧ s1.stable[h]? = some si1 ∧
            ((si1.nalloc ≠ c.nitem ∧ c1.hot_slabinfo = some h ∧
                s1.full_msinfoq = s.full_msinfoq) ∨
             (si1.nalloc = c.nitem ∧ c1.hot_slabinfo = none ∧
                s1.full_msinfoq = s.full_msinfoq ++ [h]))) ∧
    (∀ (cid : Nat) (c : slabclass) (f : Nat) (rest : List Nat), s.ctable[cid]? = some c →
      c.hot_slabinfo = none → s.free_msinfoq = f :: rest → itemx_empty s = false →
      ∃ fi p s2, s.stable[f]? = some fi ∧
        (∀ fuel, slab_get_item (fuel + 1) s cid true = .ok (some p, s2)) ∧
        p.addr = fi.addr ∧ s2.free_msinfoq = rest ∧
        ∃ c2, s2.ctable[cid]? = some c2 ∧
          ((c2.hot_slabinfo = some f ∧ s2.full_msinfoq = s.full_msinfoq) ∨
           (c2.hot_slabinfo = none ∧ s2.full_msinfoq = s.full_msinfoq ++ [f]))) := by
  have hre := reachK_reach _ _ _ _ hr
  have hi := reach_slab_inv flaky _ s (slab_inv_init st disk) hre
  have hhot := reachK_hot flaky _ s k (slab_inv_init st disk) hn (hot_inv_init st disk) hr
  constructor
  · intro cid c h hc hh
    obtain ⟨sinfo, hs, hcid, hlt, hd⟩ := hhot cid c h hc hh
    obtain ⟨a1, a2, a3, a4, a5, sinfo', hs', hmem⟩ := hot_alone s hi cid c h hc hh
    rw [hs] at hs'
    obtain rfl : sinfo = sinfo' := Option.some.inj hs'
    obtain ⟨p, s1, hget, hp, _, c1, si1, hc1, hsi1, _, hcase⟩ :=
      _slab_get_item_hot_total s hi cid c h sinfo hc hh hs hcid hmem a2
    refine ⟨sinfo, hs, hmem, hcid, fun hk => by omega, a1, a2, a3, a4, a5, p, s1, hget, hp,
      ?_, c1, si1, hc1, hsi1, hcase⟩
    intro hpool fuel
    exact slab_get_item_usable fuel s cid true c h p s1 hpool hc
      (by simp only [if_true]; exact hh) hget
  · intro cid c f rest hc hh hq hpool
    have hffree : f ∈ s.free_msinfoq := by rw [hq]; exact List.mem_cons_self _ _
    have hpos : 0 < mem_occ s f := by
      have := List.count_pos_iff.mpr hffree
      unfold mem_occ
      omega
    obtain ⟨a, ha⟩ := hi.mem_tier f hpos
    unfold slab_tiers at ha
    rw [List.getElem?_map] at ha
    cases hfs : s.stable[f]? with
    | none => rw [hfs] at ha; cases ha
    | some fi =>
      rw [hfs] at ha
      simp only [Option.map_some', Option.some.injEq, Prod.mk.injEq] at ha
      have hfull : f ∉ s.full_msinfoq := by
        intro hm
        have h1 := List.count_pos_iff.mpr hffree
        have h2 := List.count_pos_iff.mpr hm
        have := hi.once f
        unfold mem_occ at this
        omega
      have hfree := slab_get_item_free_eq s cid true f rest c fi hq hc hfs
      have hi2 := (slab_get_item_free_inv s _ cid true
        (fun c2 hc2 _ => by rw [hc] at hc2; cases hc2; exact hh) hi hfree).1
      have hcl : cid < s.ctable.length := lt_of_getElem? hc
      have hfl : f < s.stable.length := lt_of_getElem? hfs
      obtain ⟨p, s2, hget, hp, hfq, c2, si2, hc2, _, _, hcase⟩ :=
        _slab_get_item_hot_total _ hi2 cid
          { c with nmslab := (c.nmslab + 1) % 2 ^ 32, hot_slabinfo := some f } f
          { fi with nalloc := 0, cid := cid }
          (by show (s.ctable.set cid _)[cid]? = _
              rw [List.getElem?_set_self hcl]; rfl)
          rfl
          (by show (s.stable.set f _)[f]? = _
              rw [List.getElem?_set_self hfl])
          rfl ha.1 hfull
      refine ⟨fi, p, s2, rfl, ?_, hp, hfq, c2, hc2, ?_⟩
      · intro fuel
        rw [slab_get_item_hot_free fuel s cid c hpool hc hh (by rw [hq]; exact List.cons_ne_nil _ _),
          hfree]
        show (_slab_get_item _ cid true >>= fun r => pure (some r.1, r.2)) = _
        rw [hget]
        rfl
      · rcases hcase with ⟨_, h1, h2⟩ | ⟨_, h1, h2⟩
        · exact Or.inl ⟨h1, h2⟩
        · exact Or.inr ⟨h1, h2⟩

set_option maxRecDepth 100000 in
/-- Hot slabs in the small configuration (two items per slab).  After one hot
allocation slab 0 is the hot slab of class 0, with one item; the next hot
allocation fills it.  In the start state the class has no hot slab and a hot
allocation takes slab 0, the first free memory slab. -/
theorem hot_slab_discipline_witness :
    (∃ sinfo, s_small_hot.stable[0]? = some sinfo ∧ sinfo.mem = true ∧ sinfo.cid = 0 ∧
      (0 + 2 < 2 ^ 32 → sinfo.nalloc ≠ 2) ∧
      0 ∉ s_small_hot.free_msinfoq ∧ 0 ∉ s_small_hot.full_msinfoq ∧
      0 ∉ s_small_hot.free_dsinfoq ∧ 0 ∉ s_small_hot.full_dsinfoq ∧
      (∀ (cid2 : Nat) (c2 : slabclass), s_small_hot.ctable[cid2]? = some c2 →
        0 ∉ c2.partial_msinfoq ∧ (c2.hot_slabinfo = some 0 → cid2 = 0)) ∧
      ∃ p s1, _slab_get_item s_small_hot 0 true = .ok (p, s1) ∧ p.addr = sinfo.addr ∧
        (itemx_empty s_small_hot = false →
          ∀ fuel, slab_get_item (fuel + 1) s_small_hot 0 true = .ok (some p, s1)) ∧
        ∃ c1 si1, s1.ctable[0]? = some c1 ∧ s1.stable[0]? = some si1 ∧
          ((si1.nalloc ≠ 2 ∧ c1.hot_slabinfo = some 0 ∧
              s1.full_msinfoq = s_small_hot.full_msinfoq) ∨
           (si1.nalloc = 2 ∧ c1.hot_slabinfo = none ∧
              s1.full_msinfoq = s_small_hot.full_msinfoq ++ [0]))) ∧
    (∃ fi p s2, s_small.stable[0]? = some fi ∧
      (∀ fuel, slab_get_item (fuel + 1) s_small 0 true = .ok (some p, s2)) ∧
      p.addr = fi.addr ∧ s2.free_msinfoq = [] ∧
      ∃ c2, s2.ctable[0]? = some c2 ∧
        ((c2.hot_slabinfo = some 0 ∧ s2.full_msinfoq = s_small.full_msinfoq) ∨
         (c2.hot_slabinfo = none ∧ s2.full_msinfoq = s_small.full_msinfoq ++ [0]))) :=
  ⟨(hot_slab_discipline false cfg_small (fun _ => slab_zero) 0 s_small_hot
      (ReachK.get_item 0 s_small s_small_hot 3 0 true (some ⟨0, 0⟩) ReachK.start rfl)
      (by decide)).1 0 ⟨2, 200, 100, [], 1, 0, 0, 0, some 0⟩ 0 (by decide) rfl,
   (hot_slab_discipline false cfg_small (fun _ => slab_zero) 0 s_small ReachK.start
      (by decide)).2 0 ⟨2, 200, 100, [], 0, 0, 0, 0, none⟩ 0 [] (by decide) rfl (by decide)
      (by decide)⟩

/-! ## Removing an absent digest -/

theorem upd_self {α : Type} (f : Nat → α) (i : Nat) : upd f i (f i) = f := by
  funext j
  unfold upd
  split
  · next h => rw [h]
  · rfl

/-- Claim C31.  When no entry of the bucket of `hash` carries the digest `md`,
`itemx_removex` returns `false` and the state after the call is the state before
it: every bucket (chain and query counter), the free pool and its count, the
entry count, and the slab tables (hole lists, `nalloc`, `nused_item`) with all
the rest. -/
theorem itemx_removex_miss (s : State) (hash md : Nat)
    (h : ∀ e ∈ (s.itx_table (itemx_bucket s hash)).stqh_first, e.md ≠ md) :
    itemx_removex s hash md = .ok (false, s) := by
  have hm := hotring_get_miss (s.itx_table (itemx_bucket s hash)) md (chain_find_none.mpr h)
  unfold itemx_removex itemx_getx
  simp only [hm, upd_self]
  rfl

/-- C31 at a bucket that holds the digests 101 and 102 and whose query counter
is `HR_QUERY_THRESHOLD - 1`, for the absent digest 999, and at an empty
bucket. -/
theorem itemx_removex_miss_witness :
    (s_miss.itx_table (itemx_bucket s_miss 1)).nhr_queries = HR_QUERY_THRESHOLD - 1 ∧
    ((s_miss.itx_table (itemx_bucket s_miss 1)).stqh_first.map (fun e => e.md)) = [101, 102] ∧
    itemx_removex s_miss 1 999 = .ok (false, s_miss) ∧
    itemx_removex s_miss 2 999 = .ok (false, s_miss) :=
  ⟨by decide, by decide, itemx_removex_miss s_miss 1 999 (by decide),
   itemx_removex_miss s_miss 2 999 (by decide)⟩

/-! ## Link fields that the start leaves uninitialised -/

theorem reach_caller_stores (flaky : Bool) (s0 : State) (l : List (Bool × Nat × Nat))
    (s : State) (hr : Reach flaky s0 s) : Reach flaky s0 (caller_stores s l) := by
  induction l generalizing s with
  | nil => exact hr
  | cons x l ih =>
    obtain ⟨u, h, d⟩ := x
    show Reach flaky s0 (caller_stores (state_of (caller_set 3 s 0 u h d 0 0) s) l)
    apply ih
    cases hc : caller_set 3 s 0 u h d 0 0 with
    | error e => exact hr
    | ok v =>
      obtain ⟨r, s1⟩ := v
      exact reach_caller_set flaky s0 s s1 3 0 u h d 0 0 r hr hc

theorem s_hot1_reach : Reach false s_hot0 s_hot1 :=
  reach_caller_stores false _ _ _ Reach.start

theorem s_hot2_reach : Reach false s_hot0 s_hot2 :=
  reach_caller_stores false _ _ _ s_hot1_reach

theorem s_hot3_reach : Reach false s_hot0 s_hot3 :=
  reach_caller_stores false _ _ _ s_hot2_reach

theorem s_addr1_reach : Reach false (init cfg_addr (fun _ => slab_zero) links_addr) s_addr1 :=
  reach_caller_stores false _ _ _ Reach.start

theorem s_addr2_reach : Reach false (init cfg_addr (fun _ => slab_zero) links_addr) s_addr2 :=
  reach_caller_stores false _ _ _ s_addr1_reach

set_option maxRecDepth 100000 in
/-- C12 at a concrete run.  `slab_init_stable` leaves the `next` field of
slabinfo 1 as the allocator returned it, here pointing to slabinfo 2.  When
slab 1 fills, `lru_set` takes the stale pointer for the successor of slab 1 in
the list and makes slabinfo 2, the hot slab of the class, the head of the LRU
list.  The next cold allocation drains the head: `nfull_msinfoq` drops to 1
while the memory-full queue still holds the slabs 0 and 1, and the free queue,
the full queue, the partial queue and the hot slot hold 4 slabs, with
`nmslab = 3`.  Every device transfer is complete. -/
theorem conservation_fails_after_stale_link :
    (s_hot0.stable.map (fun x => (x.pre, x.next)))
      = [(none, none), (none, some 2), (none, none), (none, none), (none, none)] ∧
    Reach false s_hot0 s_hot1 ∧
    s_hot1.lruh = ⟨some 2, some 1⟩ ∧ s_hot1.full_msinfoq = [0, 1] ∧
    s_hot1.nfull_msinfoq = 2 ∧
    caller_set 3 s_hot1 0 false 6 106 0 0 = .ok (some ⟨2, 0⟩, s_hot2) ∧
    Reach false s_hot0 s_hot2 ∧
    s_hot2.nmslab = 3 ∧ s_hot2.free_msinfoq = [] ∧ s_hot2.full_msinfoq = [0, 1] ∧
    s_hot2.ctable.map (fun c => (c.partial_msinfoq, c.hot_slabinfo)) = [([3], some 2)] ∧
    mem_len s_hot2 = 4 ∧ s_hot2.nfull_msinfoq = 1 ∧ s_hot2.nfree_msinfoq = 0 :=
  ⟨by decide, s_hot1_reach, by decide, by decide, by decide,
   rfl, s_hot2_reach, by decide, by decide, by decide,
   by decide, by decide, by decide, by decide⟩

set_option maxRecDepth 100000 in
/-- C24 at a concrete run.  With the `next` field of slabinfo 1 left pointing to
slabinfo 2 by `slab_init_stable`, the fill of slab 1 makes the hot slab 2 of
class 0 the head of the LRU list, and the next cold allocation drains it: the
class's `hot_slabinfo` then refers to a slabinfo that is disk-resident and
stands on the disk-full queue. -/
theorem hot_slab_drained_after_stale_link :
    (s_hot0.stable[1]?).map (fun x => (x.pre, x.next)) = some (none, some 2) ∧
    Reach false s_hot0 s_hot1 ∧
    (s_hot1.ctable[0]?).map (fun c => c.hot_slabinfo) = some (some 2) ∧
    s_hot1.stable[2]? = some ⟨2, 2, 1, 0, true, [], none, none⟩ ∧
    s_hot1.lruh.head = some 2 ∧
    caller_set 3 s_hot1 0 false 6 106 0 0 = .ok (some ⟨2, 0⟩, s_hot2) ∧
    Reach false s_hot0 s_hot2 ∧
    (s_hot2.ctable[0]?).map (fun c => c.hot_slabinfo) = some (some 2) ∧
    s_hot2.stable[2]? = some ⟨2, 0, 1, 0, false, [], none, none⟩ ∧
    s_hot2.full_dsinfoq = [2] :=
  ⟨by decide, s_hot1_reach, by decide, by decide, by decide,
   rfl, s_hot2_reach, by decide, by decide, by decide⟩

set_option maxRecDepth 100000 in
/-- C30 at a concrete run.  The `next` field of slabinfo 1, which
`slab_init_stable` leaves as the allocator returned it, points to slabinfo 2,
and slab 2 has been drained while it was the hot slab of the class.  The next
hot allocation fills it while it is disk-resident, and `_slab_get_item` appends
it to the LRU list of the disk tier: `lruh_disk` is not empty, and `slab_evict`
takes its victim from there. -/
theorem lru_disk_filled_after_stale_link :
    (s_hot0.stable[1]?).map (fun x => (x.pre, x.next)) = some (none, some 2) ∧
    Reach false s_hot0 s_hot2 ∧
    s_hot2.lruh_disk = ⟨none, none⟩ ∧
    s_hot2.stable[2]? = some ⟨2, 0, 1, 0, false, [], none, none⟩ ∧
    caller_set 3 s_hot2 0 true 7 107 0 0 = .ok (some ⟨0, 200⟩, s_hot3) ∧
    Reach false s_hot0 s_hot3 ∧
    s_hot3.lruh_disk = ⟨some 2, some 2⟩ ∧ evict_victim s_hot3 = some 2 :=
  ⟨by decide, s_hot2_reach, by decide, by decide, rfl,
   s_hot3_reach, by decide, by decide⟩

set_option maxRecDepth 100000 in
/-- C15 at a concrete run.  `slab_init_stable` leaves the `next` field of
slabinfo 3 as the allocator returned it, here pointing to slabinfo 0.  Slab 3 is
the fourth slab to fill; by then slab 0 is on disk, and `lru_set` makes it the
head of the LRU list of the memory tier.  The next drain takes the
disk-resident slab 0 for its victim and exchanges its address with the free
disk slab 4: the slabinfos 2 and 4 are then both memory-resident at address 0,
and three slabinfos are memory-resident while `nmslab = 2`. -/
theorem addr_shared_after_stale_link :
    ((init cfg_addr (fun _ => slab_zero) links_addr).stable[3]?).map (fun x => (x.pre, x.next))
      = some (none, some 0) ∧
    Reach false (init cfg_addr (fun _ => slab_zero) links_addr) s_addr1 ∧
    s_addr1.lruh.head = some 0 ∧
    s_addr1.stable[0]? = some ⟨0, 0, 2, 0, false, [], none, none⟩ ∧
    caller_set 3 s_addr1 0 false 9 109 0 0 = .ok (some ⟨0, 0⟩, s_addr2) ∧
    Reach false (init cfg_addr (fun _ => slab_zero) links_addr) s_addr2 ∧
    s_addr2.stable[2]? = some ⟨2, 0, 2, 0, true, [], none, some 3⟩ ∧
    s_addr2.stable[4]? = some ⟨4, 0, 1, 0, true, [], none, none⟩ ∧
    s_addr2.stable.countP (fun x => x.mem) = 3 ∧ s_addr2.nmslab = 2 :=
  ⟨by decide, s_addr1_reach, by decide, by decide, rfl,
   s_addr2_reach, by decide, by decide, by decide, by decide⟩

/-! ## Transfers that fail with -1 -/

set_option maxRecDepth 100000 in
/-- C14 at a concrete run.  Slab 0 of the small configuration is full in memory
and holds the byte `i % 251` at offset `i`; the device holds zeros.  `pwrite`
fails with -1, which `_slab_drain` stores in the `int n` and compares with the
`size_t size`: the test `n < size` is false, the drain goes on to exchange the
addresses and returns `FC_OK`, and nothing has been written.  `slab_read_item`
for the drained slab at offset 212 then completes its read and returns the 200
bytes of the device, all zero, and not the bytes 212, 213, ... that the memory
slab held at that offset before the drain. -/
theorem read_after_drain_fails_on_write_error :
    drain_victim s_wneg = some 0 ∧
    s_wneg.stable[0]? = some ⟨0, 0, 2, 0, true, [], none, none⟩ ∧
    (List.range 200).map (fun j => mem_byte s_wneg (0 * s_wneg.slab_size + 212 + j))
      = (List.range 200).map (fun j => (212 + j) % 251) ∧
    io_ret s_wneg.slab_size s_wneg.pwrite_r = -1 ∧
    ∃ s1 r, _slab_drain s_wneg = .ok (rstatus_t.FC_OK, s1) ∧
      s1.stable[0]? = some ⟨0, 0, 2, 0, false, [], none, none⟩ ∧
      slab_read_item ROUND_DOWN ROUND_UP (fun _ => 7) s1 0 212 = .ok (some r) ∧
      item_bytes r 200 = List.replicate 200 0 :=
  ⟨by decide, by decide, by decide, by decide,
   state_of (_slab_drain s_wneg) s_wneg,
   (fun i => if i < 512 then dev_byte (state_of (_slab_drain s_wneg) s_wneg) (0 + i) else 7, 212),
   rfl, by decide, rfl, by decide⟩

set_option maxRecDepth 100000 in
/-- C16 at a concrete run.  In scenario S3 with two items per slab, after ten
stores, the disk-full queue holds the slabs 1 and 2, and the eviction buffer
holds the image of slab 0 from the first eviction (digests 101 and 102, which
that eviction removed).  `pread` fails with -1; `slab_evict` stores it in the
`int n`, the test `n < size` against the `size_t size` is false, and the item
loop runs over the buffer as it was.  `slab_evict` returns `FC_OK`, slab 1 has
moved to the free-disk queue and `nevict` has grown, but the digests 103 and 104
of the two slots of slab 1 are still in the index. -/
theorem slab_evict_keeps_digests_on_read_error :
    evict_victim s_rneg = some 1 ∧ s_rneg.full_dsinfoq = [1, 2] ∧ s_rneg.nevict = 1 ∧
    s_rneg.stable[1]? = some ⟨1, 1, 2, 0, false, [], none, none⟩ ∧
    (List.range 2).map (fun idx =>
      (((s_rneg.disk (slab_to_daddr s_rneg ⟨1, 1, 2, 0, false, [], none, none⟩)).data
          (slab_to_item idx 200)).hash,
       ((s_rneg.disk (slab_to_daddr s_rneg ⟨1, 1, 2, 0, false, [], none, none⟩)).data
          (slab_to_item idx 200)).md)) = [(3, 103), (4, 104)] ∧
    (List.range 2).map (fun idx => (s_rneg.evictbuf.data (slab_to_item idx 200)).md)
      = [101, 102] ∧
    io_ret s_rneg.slab_size s_rneg.pread_r = -1 ∧
    ∃ s1, slab_evict s_rneg = .ok (rstatus_t.FC_OK, s1) ∧
      s1.full_dsinfoq = [2] ∧ s1.free_dsinfoq = [1] ∧ s1.nevict = 2 ∧
      (itemx_getx s1 3 103).1 = some ⟨103, 1, 12, 0, 0⟩ ∧
      (itemx_getx s1 4 104).1 = some ⟨104, 1, 212, 0, 0⟩ :=
  ⟨by decide, by decide, by decide, by decide, by decide, by decide, by decide,
   state_of (slab_evict s_rneg) s_rneg, rfl, by decide, by decide, by decide, by decide,
   by decide⟩

/-! ## Class lookup with the memory behind the table -/

theorem ctable_read_lt (ctable : List slabclass) (past : slabclass) (i : Nat)
    (h : i < ctable.length) : ctable_read ctable past i = tget ctable i := by
  unfold ctable_read
  rw [if_neg (by omega)]

theorem tget_lt {α : Type} {tbl : List α} {i : Nat} {x : α} (h : tget tbl i = .ok x) :
    i < tbl.length :=
  lt_of_getElem? (tget_get h)

/-- A search that stays inside the table is the same with the memory behind
the table taken into account. -/
theorem slab_cid_loop_mem_of_ok (ctable : List slabclass) (past : slabclass) (size : Nat) :
    ∀ fuel cid imin imax r, slab_cid_loop ctable size fuel cid imin imax = .ok r →
      slab_cid_loop_mem ctable past size fuel cid imin imax = .ok r := by
  intro fuel
  induction fuel with
  | zero => intro cid imin imax r h; simp only [slab_cid_loop, reduceCtorEq] at h
  | succ fuel ih =>
    intro cid imin imax r h
    rw [slab_cid_loop] at h
    rw [slab_cid_loop_mem]
    by_cases hge : imax ≥ imin
    · simp only [hge, if_true] at h ⊢
      cases hc : tget ctable ((imin + imax) / 2) with
      | error e => rw [hc] at h; cases h
      | ok c =>
        rw [hc] at h
        rw [ctable_read_lt _ _ _ (tget_lt hc), hc]
        simp only at h ⊢
        by_cases hgt : size > c.size
        · simp only [hgt, if_true] at h ⊢
          exact ih _ _ _ _ h
        · simp only [hgt, if_false] at h ⊢
          by_cases hpos : (imin + imax) / 2 > SLABCLASS_MIN_ID
          · simp only [hpos, if_true] at h ⊢
            cases hp : tget ctable ((imin + imax) / 2 - 1) with
            | error e => rw [hp] at h; cases h
            | ok p =>
              rw [hp] at h
              rw [ctable_read_lt _ _ _ (tget_lt hp), hp]
              simp only at h ⊢
              by_cases hle : size ≤ p.size
              · simp only [hle, if_true] at h ⊢
                exact ih _ _ _ _ h
              · simp only [hle, if_false] at h ⊢
                exact h
          · simp only [hpos, if_false] at h ⊢
            exact h
    · simp only [hge, if_false] at h ⊢
      exact h

theorem slab_cid_mem_of_ok (s : State) (past : slabclass) (size cid : Nat)
    (h : slab_cid s size = .ok cid) : slab_cid_mem 257 s past size = .ok cid := by
  unfold slab_cid at h
  obtain ⟨⟨c, imin, imax⟩, h1, h2⟩ := bind_ok h
  unfold slab_cid_mem
  rw [slab_cid_loop_mem_of_ok _ past _ _ _ _ _ _ h1]
  exact h2

/-- For a size that no class can hold, in a table of at most 254 classes, the
search reads the entry behind the table and ends: with `imin > imax` when the
size exceeds the `size` field found there, with `cid = nctable` otherwise. -/
theorem slab_cid_loop_mem_oversize (s : State) (past : slabclass) (size : Nat)
    (h1 : 1 ≤ s.ctable.length) (hlen : s.ctable.length ≤ 254)
    (hall : ∀ j, j < s.ctable.length → item_size s j < size) :
    ∀ fuel cid imin, imin ≤ s.ctable.length → s.ctable.length - imin + 1 < fuel →
      slab_cid_loop_mem s.ctable past size fuel cid imin s.ctable.length
        = .ok (s.ctable.length,
            if size > past.size then s.ctable.length + 1 else s.ctable.length,
            s.ctable.length) := by
  intro fuel
  induction fuel with
  | zero => intro cid imin _ h; omega
  | succ fuel ih =>
    intro cid imin hle hf
    rw [slab_cid_loop_mem]
    simp only [ge_iff_le, hle, if_true]
    by_cases hmid : (imin + s.ctable.length) / 2 < s.ctable.length
    · obtain ⟨c, hc, hcs⟩ := item_size_get s _ hmid
      have hgt : size > c.size := by
        have := hall _ hmid
        omega
      have hwrap : ((imin + s.ctable.length) / 2 + 1) % 2 ^ 8
          = (imin + s.ctable.length) / 2 + 1 := by
        apply Nat.mod_eq_of_lt
        norm_num
        omega
      rw [ctable_read_lt _ _ _ hmid, hc]
      simp only [hgt, if_true, hwrap]
      exact ih _ _ (by omega) (by omega)
    · have heq : (imin + s.ctable.length) / 2 = s.ctable.length := by omega
      have himin : imin = s.ctable.length := by omega
      rw [heq]
      have hread : ctable_read s.ctable past s.ctable.length = .ok past := by
        unfold ctable_read
        rw [if_pos rfl]
      rw [hread]
      simp only
      by_cases hgt : size > past.size
      · have hwrap : (s.ctable.length + 1) % 2 ^ 8 = s.ctable.length + 1 := by
          apply Nat.mod_eq_of_lt
          norm_num
          omega
        simp only [hgt, if_true, hwrap]
        obtain ⟨f, rfl⟩ : ∃ f, fuel = f + 1 := ⟨fuel - 1, by omega⟩
        rw [slab_cid_loop_mem]
        rw [if_neg (by omega)]
      · obtain ⟨p, hp, hps⟩ := item_size_get s (s.ctable.length - 1) (by omega)
        have hpl := hall (s.ctable.length - 1) (by omega)
        simp only [hgt, if_false, SLABCLASS_MIN_ID, gt_iff_lt, show 0 < s.ctable.length from h1,
          if_true, ctable_read_lt _ past _ (show s.ctable.length - 1 < s.ctable.length by omega),
          hp, show ¬ size ≤ p.size from by omega, himin]

/-- With the memory behind the table taken into account, `slab_cid` is monotone
on every table of at most 254 classes with strictly increasing item sizes,
whatever that memory holds: a size that no class can hold yields 255 or the
invalid id `nctable`, and both are above every class id. -/
theorem slab_cid_mem_mono (s : State) (past : slabclass) (size1 size2 : Nat)
    (hn : s.nctable = s.ctable.length) (h1 : 1 ≤ s.nctable) (h254 : s.nctable ≤ 254)
    (hinc : ∀ i j, i < j → j < s.nctable → item_size s i < item_size s j)
    (h12 : size1 ≤ size2) :
    ∃ cid1 cid2, slab_cid_mem 257 s past size1 = .ok cid1 ∧
      slab_cid_mem 257 s past size2 = .ok cid2 ∧ cid1 ≤ cid2 := by
  have hover : ∀ size, item_size s (s.nctable - 1) < size →
      slab_cid_mem 257 s past size
        = .ok (if size > past.size then SLABCLASS_INVALID_ID else s.nctable) := by
    intro size hgt
    have hall : ∀ j, j < s.ctable.length → item_size s j < size := by
      intro j hj
      have := item_size_mono s (by rw [← hn]; exact hinc) j (s.nctable - 1) (by omega)
        (by omega)
      omega
    have := slab_cid_loop_mem_oversize s past size (by omega) (by omega) hall 257 0
      SLABCLASS_MIN_ID (by simp [SLABCLASS_MIN_ID]) (by simp only [SLABCLASS_MIN_ID]; omega)
    simp only [slab_cid_mem, hn, this, bind, Except.bind]
    by_cases hp : size > past.size
    · simp only [hp, if_true, gt_iff_lt, Nat.lt_succ_self, pure, Except.pure]
    · simp only [hp, if_false, gt_iff_lt, Nat.lt_irrefl, pure, Except.pure]
  rcases Nat.lt_or_ge (item_size s (s.nctable - 1)) size2 with hbig2 | hin2
  · rcases Nat.lt_or_ge (item_size s (s.nctable - 1)) size1 with hbig1 | hin1
    · refine ⟨_, _, hover size1 hbig1, hover size2 hbig2, ?_⟩
      by_cases hp1 : size1 > past.size
      · have hp2 : size2 > past.size := by omega
        simp only [hp1, hp2, if_true, Nat.le_refl]
      · simp only [hp1, if_false]
        split
        · simp only [SLABCLASS_INVALID_ID]; omega
        · exact Nat.le_refl _
    · obtain ⟨c1, e1, hlt1, _, _⟩ := slab_cid_least s size1 hn h1 (by omega) hinc hin1
      refine ⟨c1, _, slab_cid_mem_of_ok s past size1 c1 e1, hover size2 hbig2, ?_⟩
      split
      · simp only [SLABCLASS_INVALID_ID]; omega
      · omega
  · obtain ⟨c1, c2, e1, e2, hle⟩ :=
      slab_cid_mono_in_range s size1 size2 hn h1 (by omega) hinc h12 hin2
    exact ⟨c1, c2, slab_cid_mem_of_ok s past size1 c1 e1, slab_cid_mem_of_ok s past size2 c2 e2,
      hle⟩

/-- The monotonicity on the table with the item sizes 64, 128 and 256, for the
sizes 64 and 300 and zeroed memory behind the table. -/
theorem slab_cid_mem_mono_witness :
    ∃ cid1 cid2, slab_cid_mem 257 s_three class_zero 64 = .ok cid1 ∧
      slab_cid_mem 257 s_three class_zero 300 = .ok cid2 ∧ cid1 ≤ cid2 :=
  slab_cid_mem_mono s_three class_zero 64 300 (by decide) (by decide) (by decide)
    (by
      intro i j hij hj
      have hj3 : j < 3 := hj
      interval_cases j <;> interval_cases i <;> decide)
    (by decide)


set_option maxRecDepth 100000 in
theorem slab_cid_loop_mem_cycle (k cid : Nat) :
    slab_cid_loop_mem s_max.ctable class_zero 5000 (k + 9) cid 0 255
      = slab_cid_loop_mem s_max.ctable class_zero 5000 k 255 0 255 := by
  rfl

set_option maxRecDepth 100000 in
theorem slab_cid_loop_mem_short (k cid : Nat) (hk : k < 9) :
    slab_cid_loop_mem s_max.ctable class_zero 5000 k cid 0 255 = .error .no_fuel := by
  interval_cases k <;> rfl

theorem slab_cid_loop_mem_never (fuel : Nat) : ∀ cid,
    slab_cid_loop_mem s_max.ctable class_zero 5000 fuel cid 0 255 = .error .no_fuel := by
  induction fuel using Nat.strong_induction_on with
  | _ fuel ih =>
    intro cid
    rcases Nat.lt_or_ge fuel 9 with h | h
    · exact slab_cid_loop_mem_short fuel cid h
    · obtain ⟨k, rfl⟩ : ∃ k, fuel = k + 9 := ⟨fuel - 9, by omega⟩
      rw [slab_cid_loop_mem_cycle]
      exact ih k (by omega) 255

set_option maxRecDepth 100000 in
/-- C8 at a table of 255 classes (item sizes 16, 32, ..., 4080, strictly
increasing) whose memory is followed by zeros.  `slab_cid(16)` returns class 0.
For the size 5000, which no class holds, the search climbs to `cid = 255`, reads
`ctable[255]` behind the table, finds `size` larger and stores `cid + 1` in the
`uint8_t imin`, which wraps to 0: the search starts again with `imin = 0` and
`imax = 255`, and `slab_cid(5000)` never returns, whatever the number of rounds;
there is no value for `slab_cid(16) ≤ slab_cid(5000)` to hold of. -/
theorem slab_cid_never_returns :
    s_max.nctable = 255 ∧ s_max.ctable.length = 255 ∧
    (∀ i j, i < j → j < 255 → item_size s_max i < item_size s_max j) ∧
    item_size s_max 254 = 4080 ∧
    slab_cid_mem 257 s_max class_zero 16 = .ok 0 ∧
    ∀ fuel, slab_cid_mem fuel s_max class_zero 5000 = .error .no_fuel := by
  refine ⟨by decide, by decide, ?_, by decide, by rfl, ?_⟩
  · intro i j hij hj
    have hi : i < 255 := by omega
    have e : ∀ k, k < 255 → item_size s_max k = 16 * (k + 1) := by
      intro k hk
      simp only [item_size, s_max, init, slab_init_ctable, cfg_max, List.getElem?_map,
        List.getElem?_range hk, Option.map_some', List.getD_eq_getElem?_getD, Option.getD_some]
    rw [e i hi, e j hj]
    omega
  · intro fuel
    have h := slab_cid_loop_mem_never fuel 0
    have hn : s_max.nctable = 255 := by decide
    simp only [slab_cid_mem, hn, SLABCLASS_MIN_ID, h, bind, Except.bind]

/-! ## LRU touch -/

end Fatcache
